import Mathlib

/-!
# mrgingham: grid finder (find_grid.cc)

A shallow embedding of `find_grid_from_points` and the functions it calls.

Modelling conventions.

* `int` is `Int` (the code never relies on wrap-around).
* `double` is an arbitrary carrier `D` with the operations of the class `DoubleArith`:
  nothing is assumed about rounding, so every theorem stated for all `D` holds for
  IEEE doubles too.  `ExactDouble` is the instance with exact rational arithmetic.
* The Voronoi diagram is built by boost; here it is a value of type `VORONOI`: the
  cells in iteration order, each with its `source_index` and the cells met when
  walking its edges from `incident_edge()` along `next()`.  A cell pointer is the
  number of the cell, `NULL` is `none`.
* `FIND_GRID_SCALE` comes from a header that is not part of the sources at hand and is
  a parameter.
* A run that dereferences `NULL` or reads past the end of the candidate vector has no
  defined result: the functions concerned return `Option`, `none` standing for it.
* The array `bins` of `cluster_sequence_candidates` is not initialised by the code,
  its contents on entry are a parameter.
-/

namespace Mrgingham

/-- Operations on C doubles used by find_grid.cc. -/
class DoubleArith (D : Type) where
  /-- The double for a decimal literal or a converted `int`. -/
  ofRat : ℚ → D
  add : D → D → D
  sub : D → D → D
  mul : D → D → D
  div : D → D → D
  neg : D → D
  /-- The comparison `a < b`; `a > b` is `lt b a`. -/
  lt : D → D → Bool
  /-- The comparison `a <= b`; `a >= b` is `le b a`. -/
  le : D → D → Bool
  hypot : D → D → D
  atan2 : D → D → D
  remainder : D → D → D

instance instAddDouble {D : Type} [DoubleArith D] : Add D := ⟨DoubleArith.add⟩
instance instSubDouble {D : Type} [DoubleArith D] : Sub D := ⟨DoubleArith.sub⟩
instance instMulDouble {D : Type} [DoubleArith D] : Mul D := ⟨DoubleArith.mul⟩
instance instDivDouble {D : Type} [DoubleArith D] : Div D := ⟨DoubleArith.div⟩
instance instNegDouble {D : Type} [DoubleArith D] : Neg D := ⟨DoubleArith.neg⟩

section Model

variable {D : Type} [DoubleArith D]

/-- The conversion `(double)i` of an `int`. -/
def toDouble (i : Int) : D := DoubleArith.ofRat (i : ℚ)

/-- The value of `a < b` on doubles. -/
def dlt (a b : D) : Bool := DoubleArith.lt a b

/-- The value of `a > b` on doubles. -/
def dgt (a b : D) : Bool := DoubleArith.lt b a

/-- The value of `a >= b` on doubles. -/
def dge (a b : D) : Bool := DoubleArith.le b a

/-- The constant `M_PI` of math.h. -/
def M_PI : D := DoubleArith.ofRat 3.14159265358979323846

/-- Integer point of point.hh, in fixed-point units. -/
structure Point where
  x : Int
  y : Int
deriving DecidableEq, Repr, Inhabited

/-- Point with double coordinates, of point.hh. -/
structure PointDouble (D : Type) where
  x : D
  y : D
deriving DecidableEq, Repr

/-- One cell of the Voronoi diagram: the index of its site in the input, and the
cells `e->twin()->cell()` for the edges `e` around it, in the order of the walk
of `FOR_ALL_ADJACENT_CELLS`. -/
structure Cell where
  source_index : Nat
  adjacent : List Nat
deriving DecidableEq, Repr, Inhabited

/-- The diagram: `voronoi->cells()` holds the cells `cells 0`, ..., `cells (size - 1)`,
in this order. -/
structure VORONOI where
  size : Nat
  cells : Nat → Cell

/-- The cell a pointer refers to. -/
def cell (voronoi : VORONOI) (c : Nat) : Cell := voronoi.cells c

/-- The expression `points[c->source_index()]`. -/
def cell_point (voronoi : VORONOI) (points : List Point) (c : Nat) : Point :=
  points.getD (cell voronoi c).source_index ⟨0, 0⟩

/-- Grid size, hard-coded. -/
def Nwant : Nat := 10

structure HypothesisStatistics (D : Type) where
  delta_last : Point
  length_ratio_sum : D
  length_ratio_N : Int

def fill_initial_hypothesis_statistics (delta0 : Point) : HypothesisStatistics D :=
  { delta_last := delta0, length_ratio_sum := DoubleArith.ofRat 0.0, length_ratio_N := 0 }

variable (FIND_GRID_SCALE : Int)

def THRESHOLD_SPACING_LENGTH : Int := 80 * FIND_GRID_SCALE
def THRESHOLD_SPACING_COS : D := DoubleArith.ofRat 0.996
def THRESHOLD_SPACING_LENGTH_RATIO_MIN : D := DoubleArith.ofRat 0.7
def THRESHOLD_SPACING_LENGTH_RATIO_MAX : D := DoubleArith.ofRat 1.4
def THRESHOLD_SPACING_LENGTH_RATIO_DEVIATION : D := DoubleArith.ofRat 0.15

/-- The body of the loop of `get_adjacent_cell_along_sequence` for one neighbour with
step `delta`: `none` when one of the tests says `continue`, else the statistics as
updated before `return c_adjacent`. -/
def adjacent_cell_test (stats : HypothesisStatistics D) (delta : Point) :
    Option (HypothesisStatistics D) :=
  let delta_last := stats.delta_last
  let delta_last_length : D := DoubleArith.hypot (toDouble delta_last.x) (toDouble delta_last.y)
  let delta_length : D := DoubleArith.hypot (toDouble delta.x) (toDouble delta.y)
  let cos_err : D :=
    (toDouble delta_last.x * toDouble delta.x + toDouble delta_last.y * toDouble delta.y) /
      (delta_last_length * delta_length)
  if dlt cos_err THRESHOLD_SPACING_COS then none else
  let length_err : D := delta_last_length - delta_length
  if dlt length_err (toDouble (-(THRESHOLD_SPACING_LENGTH FIND_GRID_SCALE))) ||
     dgt length_err (toDouble (THRESHOLD_SPACING_LENGTH FIND_GRID_SCALE)) then none else
  let length_ratio : D := delta_length / delta_last_length
  if dlt length_ratio THRESHOLD_SPACING_LENGTH_RATIO_MIN ||
     dgt length_ratio THRESHOLD_SPACING_LENGTH_RATIO_MAX then none else
  if stats.length_ratio_N > 2 &&
     (let length_ratio_mean : D := stats.length_ratio_sum / toDouble stats.length_ratio_N
      let length_ratio_deviation : D := length_ratio - length_ratio_mean
      dlt length_ratio_deviation (-THRESHOLD_SPACING_LENGTH_RATIO_DEVIATION) ||
      dgt length_ratio_deviation THRESHOLD_SPACING_LENGTH_RATIO_DEVIATION) then none else
  some { delta_last := delta,
         length_ratio_sum := stats.length_ratio_sum + length_ratio,
         length_ratio_N := stats.length_ratio_N + 1 }

/-- The walk `FOR_ALL_ADJACENT_CELLS(c)` of `get_adjacent_cell_along_sequence` over the
neighbours still to visit: the first neighbour passing the tests, with the updated
statistics. -/
def get_adjacent_cell_along_sequence_scan (voronoi : VORONOI) (points : List Point)
    (stats : HypothesisStatistics D) (pt : Point) :
    List Nat → Option Nat × HypothesisStatistics D
  | [] => (none, stats)
  | c_adjacent :: rest =>
    let pt_adjacent := cell_point voronoi points c_adjacent
    let delta : Point := ⟨pt_adjacent.x - pt.x, pt_adjacent.y - pt.y⟩
    match adjacent_cell_test FIND_GRID_SCALE stats delta with
    | some stats1 => (some c_adjacent, stats1)
    | none => get_adjacent_cell_along_sequence_scan voronoi points stats pt rest

def get_adjacent_cell_along_sequence (voronoi : VORONOI) (points : List Point)
    (stats : HypothesisStatistics D) (c : Nat) : Option Nat × HypothesisStatistics D :=
  get_adjacent_cell_along_sequence_scan FIND_GRID_SCALE voronoi points stats
    (cell_point voronoi points c) (cell voronoi c).adjacent

/-- The loop `FOR_MATCHING_ADJACENT_CELLS` as used by `search_along_sequence`. -/
def search_along_sequence_loop (voronoi : VORONOI) (points : List Point) :
    Nat → HypothesisStatistics D → Nat → PointDouble D → Option (PointDouble D)
  | 0, _, _, delta_mean => some delta_mean
  | n + 1, stats, c, delta_mean =>
    match get_adjacent_cell_along_sequence FIND_GRID_SCALE voronoi points stats c with
    | (none, _) => none
    | (some c_adjacent, stats1) =>
      search_along_sequence_loop voronoi points n stats1 c_adjacent
        ⟨delta_mean.x + toDouble stats1.delta_last.x,
         delta_mean.y + toDouble stats1.delta_last.y⟩

/-- The mean step when the trace succeeds (`true`), `none` when it fails (`false`). -/
def search_along_sequence (voronoi : VORONOI) (points : List Point)
    (delta : Point) (c : Nat) (N_remaining : Nat) : Option (PointDouble D) :=
  match search_along_sequence_loop FIND_GRID_SCALE voronoi points N_remaining
      (fill_initial_hypothesis_statistics delta) c ⟨toDouble delta.x, toDouble delta.y⟩ with
  | none => none
  | some delta_mean =>
    some ⟨delta_mean.x / toDouble ((N_remaining : Int) + 1),
          delta_mean.y / toDouble ((N_remaining : Int) + 1)⟩

def write_cell_center (points_out : List (PointDouble D)) (voronoi : VORONOI)
    (points : List Point) (c : Nat) : List (PointDouble D) :=
  let pt := cell_point voronoi points c
  points_out ++ [⟨toDouble pt.x / toDouble FIND_GRID_SCALE,
                  toDouble pt.y / toDouble FIND_GRID_SCALE⟩]

/-- The loop `FOR_MATCHING_ADJACENT_CELLS` as used by `write_along_sequence`; `none`
when a step finds no neighbour, where the code dereferences `NULL`. -/
def write_along_sequence_loop (voronoi : VORONOI) (points : List Point) :
    Nat → HypothesisStatistics D → Nat → List (PointDouble D) → Option (List (PointDouble D))
  | 0, _, _, points_out => some points_out
  | n + 1, stats, c, points_out =>
    match get_adjacent_cell_along_sequence FIND_GRID_SCALE voronoi points stats c with
    | (none, _) => none
    | (some c_adjacent, stats1) =>
      write_along_sequence_loop voronoi points n stats1 c_adjacent
        (write_cell_center FIND_GRID_SCALE points_out voronoi points c_adjacent)

def write_along_sequence (points_out : List (PointDouble D)) (voronoi : VORONOI)
    (points : List Point) (delta : Point) (c : Nat) (N_remaining : Nat) :
    Option (List (PointDouble D)) :=
  write_along_sequence_loop FIND_GRID_SCALE voronoi points N_remaining
    (fill_initial_hypothesis_statistics delta) c points_out

/-- The enum `ClassificationType`; it shares its storage with `bin_index_neg`, so a
tag is an `int`: the enum values are 0..3 and a negative value `-bin_index - 1` says
the candidate sits in bin `bin_index`. -/
abbrev ClassificationType := Int

@[reducible] def UNCLASSIFIED : ClassificationType := 0
@[reducible] def HORIZONTAL : ClassificationType := 1
@[reducible] def VERTICAL : ClassificationType := 2
@[reducible] def OUTLIER : ClassificationType := 3

structure CandidateSequence (D : Type) where
  c0 : Nat
  c1 : Nat
  delta_mean : PointDouble D
  spacing_angle : D
  spacing_length : D
  /-- The union of `type` and `bin_index_neg`. -/
  type : ClassificationType
deriving DecidableEq, Repr

def get_spacing_angle (y x : D) : D :=
  let angle : D := DoubleArith.ofRat 180.0 / M_PI * DoubleArith.atan2 y x
  if dlt angle (DoubleArith.ofRat 0) then angle + DoubleArith.ofRat 180.0 else angle

abbrev v_CS (D : Type) := List (CandidateSequence D)

/-- The walk `FOR_ALL_ADJACENT_CELLS(c)` of `get_sequence_candidates` for one cell. -/
def get_sequence_candidates_cell (voronoi : VORONOI) (points : List Point) (c : Nat)
    (pt : Point) : List Nat → v_CS D → v_CS D
  | [], sequence_candidates => sequence_candidates
  | c_adjacent :: rest, sequence_candidates =>
    let pt_adjacent := cell_point voronoi points c_adjacent
    let delta : Point := ⟨pt_adjacent.x - pt.x, pt_adjacent.y - pt.y⟩
    match search_along_sequence FIND_GRID_SCALE voronoi points delta c_adjacent (Nwant - 2) with
    | some delta_mean =>
      let spacing_angle := get_spacing_angle delta_mean.y delta_mean.x
      let spacing_length : D := DoubleArith.hypot delta_mean.x delta_mean.y
      get_sequence_candidates_cell voronoi points c pt rest
        (sequence_candidates ++
          [{ c0 := c, c1 := c_adjacent, delta_mean := delta_mean,
             spacing_angle := spacing_angle, spacing_length := spacing_length,
             type := UNCLASSIFIED }])
    | none => get_sequence_candidates_cell voronoi points c pt rest sequence_candidates

def get_sequence_candidates (sequence_candidates : v_CS D) (voronoi : VORONOI)
    (points : List Point) : v_CS D :=
  (List.range voronoi.size).foldl
    (fun acc c => get_sequence_candidates_cell FIND_GRID_SCALE voronoi points c
      (cell_point voronoi points c) (cell voronoi c).adjacent acc)
    sequence_candidates

structure ClassificationBin (D : Type) where
  delta_mean_sum : PointDouble D
  N : Int
deriving DecidableEq, Repr

def THRESHOLD_BINFIT_LENGTH : D := DoubleArith.ofRat 120.0 * toDouble FIND_GRID_SCALE
def THRESHOLD_BINFIT_ANGLE : D := DoubleArith.ofRat 40.0

def fits_in_bin (cs : CandidateSequence D) (bin : ClassificationBin D)
    (threshold_binfit_length threshold_binfit_angle : D) : Bool :=
  if bin.N = 0 then true else
  let dx : D := bin.delta_mean_sum.x / toDouble bin.N
  let dy : D := bin.delta_mean_sum.y / toDouble bin.N
  let bin_length : D := DoubleArith.hypot dx dy
  let bin_angle : D := get_spacing_angle dy dx
  let length_err : D := cs.spacing_length - bin_length
  if dgt (length_err * length_err) (threshold_binfit_length * threshold_binfit_length)
  then false else
  let angle_err : D := cs.spacing_angle - bin_angle
  let angle_err : D := angle_err + DoubleArith.ofRat 10.0 * DoubleArith.ofRat 180.0
  let angle_err : D := DoubleArith.remainder angle_err (DoubleArith.ofRat 180.0)
  if dgt (angle_err * angle_err) (threshold_binfit_angle * threshold_binfit_angle)
  then false else
  true

def push_to_bin (cs : CandidateSequence D) (bin : ClassificationBin D) (bin_index : Int) :
    CandidateSequence D × ClassificationBin D :=
  let sum : PointDouble D :=
    if dge (bin.delta_mean_sum.x * cs.delta_mean.x + bin.delta_mean_sum.y * cs.delta_mean.y)
        (DoubleArith.ofRat 0.0)
    then ⟨bin.delta_mean_sum.x + cs.delta_mean.x, bin.delta_mean_sum.y + cs.delta_mean.y⟩
    else ⟨bin.delta_mean_sum.x - cs.delta_mean.x, bin.delta_mean_sum.y - cs.delta_mean.y⟩
  ({ cs with type := -bin_index - 1 }, { delta_mean_sum := sum, N := bin.N + 1 })

/-- The loop of `gather_unclassified`, from the state reached so far. -/
def gather_unclassified_loop (bin_index : Int) :
    List (CandidateSequence D) → Int → ClassificationBin D →
      Int × ClassificationBin D × v_CS D
  | [], Nremaining, bin => (Nremaining, bin, [])
  | cs :: rest, Nremaining, bin =>
    if cs.type ≠ UNCLASSIFIED then
      let r := gather_unclassified_loop bin_index rest Nremaining bin
      (r.1, r.2.1, cs :: r.2.2)
    else if fits_in_bin cs bin (THRESHOLD_BINFIT_LENGTH FIND_GRID_SCALE) THRESHOLD_BINFIT_ANGLE
    then
      let p := push_to_bin cs bin bin_index
      let r := gather_unclassified_loop bin_index rest Nremaining p.2
      (r.1, r.2.1, p.1 :: r.2.2)
    else
      let r := gather_unclassified_loop bin_index rest (Nremaining + 1) bin
      (r.1, r.2.1, cs :: r.2.2)

/-- Returns `Nremaining`, the bin as filled, and the candidates as tagged. -/
def gather_unclassified (sequence_candidates : v_CS D) (bin_index : Int) :
    Int × ClassificationBin D × v_CS D :=
  gather_unclassified_loop FIND_GRID_SCALE bin_index sequence_candidates 0
    { delta_mean_sum := ⟨DoubleArith.ofRat 0, DoubleArith.ofRat 0⟩, N := 0 }

def mark_outliers (sequence_candidates : v_CS D) (bin_index : Int) : v_CS D :=
  sequence_candidates.map fun cs =>
    if (bin_index < 0 && cs.type == UNCLASSIFIED) || cs.type == -bin_index - 1
    then { cs with type := OUTLIER } else cs

def mark_orientation (sequence_candidates : v_CS D)
    (types : ClassificationType × ClassificationType) : v_CS D :=
  sequence_candidates.map fun cs =>
    if cs.type == -1 then { cs with type := types.1 }
    else if cs.type == -2 then { cs with type := types.2 }
    else cs

/-- The array `bins` of `cluster_sequence_candidates`, by index. -/
abbrev Bins (D : Type) := Nat → ClassificationBin D

/-- The `while(true)` loop of `cluster_sequence_candidates`, run for at most the given
number of rounds, from the state `bins`, `bin_index`, `sequence_candidates`.
`some (false, _)` is `return false`; `some (true, bins, bin_index, candidates)` is the
state at `break`; `none` says the rounds did not suffice. -/
def cluster_sequence_candidates_loop :
    Nat → Bins D → Nat → v_CS D → Option (Bool × Bins D × Nat × v_CS D)
  | 0, _, _, _ => none
  | fuel + 1, bins, bin_index, sequence_candidates =>
    let g := gather_unclassified FIND_GRID_SCALE sequence_candidates (bin_index : Int)
    let Nremaining := g.1
    let bins := Function.update bins bin_index g.2.1
    let sequence_candidates := g.2.2
    if g.2.1.N < (Nwant : Int) * 2 then
      let sequence_candidates := mark_outliers sequence_candidates (bin_index : Int)
      if Nremaining = 0 then some (false, bins, bin_index, sequence_candidates)
      else cluster_sequence_candidates_loop fuel bins bin_index sequence_candidates
    else if bin_index ≥ 2 then some (false, bins, bin_index, sequence_candidates)
    else
      let bin_index := bin_index + 1
      if Nremaining < (Nwant : Int) * 2 then
        some (true, bins, bin_index, mark_outliers sequence_candidates (-1))
      else cluster_sequence_candidates_loop fuel bins bin_index sequence_candidates

/-- The orientation the code gives bin `i` after the loop. -/
def bin_orientation (bins : Bins D) (i : Nat) : ClassificationType :=
  let angle : D := get_spacing_angle (bins i).delta_mean_sum.y (bins i).delta_mean_sum.x
  if dgt angle (toDouble (90 - 45)) && dlt angle (toDouble (90 + 45)) then VERTICAL
  else HORIZONTAL

/-- The result and the candidate list as left by the call; `bins` is what the array
`bins[3]` holds on entry.  Every round of the loop either returns, raises `bin_index`
or tags a candidate that was unclassified, so `length + 3` rounds are enough. -/
def cluster_sequence_candidates (bins : Bins D)
    (sequence_candidates : v_CS D) : Option (Bool × v_CS D) :=
  match cluster_sequence_candidates_loop FIND_GRID_SCALE (sequence_candidates.length + 3)
      bins 0 sequence_candidates with
  | none => none
  | some (false, _, _, sequence_candidates) => some (false, sequence_candidates)
  | some (true, bins, _, sequence_candidates) =>
    let o0 := bin_orientation bins 0
    let o1 := bin_orientation bins 1
    if o0 = VERTICAL ∧ o1 = VERTICAL then some (false, sequence_candidates)
    else if o0 = HORIZONTAL ∧ o1 = HORIZONTAL then some (false, sequence_candidates)
    else some (true, mark_orientation sequence_candidates (o0, o1))

/-- The loop `FOR_MATCHING_ADJACENT_CELLS` as used by
`get_candidate_points_along_sequence`: the indices written so far are `cs_points`;
`none` when a step finds no neighbour, where the code dereferences `NULL`. -/
def get_candidate_points_along_sequence_loop (voronoi : VORONOI) (points : List Point) :
    Nat → HypothesisStatistics D → Nat → List Nat → Option (List Nat)
  | 0, _, _, cs_points => some cs_points
  | n + 1, stats, c, cs_points =>
    match get_adjacent_cell_along_sequence FIND_GRID_SCALE voronoi points stats c with
    | (none, _) => none
    | (some c_adjacent, stats1) =>
      get_candidate_points_along_sequence_loop voronoi points n stats1 c_adjacent
        (cs_points ++ [(cell voronoi c_adjacent).source_index])

/-- The array `cs_points` as filled by the call: the `Nwant` point indices of the
sequence, in order. -/
def get_candidate_points (voronoi : VORONOI) (points : List Point)
    (cs : CandidateSequence D) : Option (List Nat) :=
  let pt0 := cell_point voronoi points cs.c0
  let pt1 := cell_point voronoi points cs.c1
  let delta : Point := ⟨pt1.x - pt0.x, pt1.y - pt0.y⟩
  get_candidate_points_along_sequence_loop FIND_GRID_SCALE voronoi points (Nwant - 2)
    (fill_initial_hypothesis_statistics delta : HypothesisStatistics D) cs.c1
    [(cell voronoi cs.c0).source_index, (cell voronoi cs.c1).source_index]

/-- The loop of `compare_reverse_along_sequence`; the pointer `cs_points_other` is the
array with the position `k` it points at. -/
def compare_reverse_along_sequence_loop (voronoi : VORONOI) (points : List Point)
    (cs_points_other : List Nat) :
    Nat → HypothesisStatistics D → Nat → Nat → Option Bool
  | 0, _, _, _ => some true
  | n + 1, stats, c, k =>
    match get_adjacent_cell_along_sequence FIND_GRID_SCALE voronoi points stats c with
    | (none, _) => none
    | (some c_adjacent, stats1) =>
      if cs_points_other.getD k 0 ≠ (cell voronoi c_adjacent).source_index then some false
      else compare_reverse_along_sequence_loop voronoi points cs_points_other n stats1
        c_adjacent (k - 1)

def is_reverse_sequence (voronoi : VORONOI) (points : List Point)
    (cs_points_other : List Nat) (cs : CandidateSequence D) : Option Bool :=
  if (cell voronoi cs.c0).source_index ≠ cs_points_other.getD (Nwant - 1) 0 then some false
  else if (cell voronoi cs.c1).source_index ≠ cs_points_other.getD (Nwant - 2) 0 then some false
  else
    let pt0 := cell_point voronoi points cs.c0
    let pt1 := cell_point voronoi points cs.c1
    let delta : Point := ⟨pt1.x - pt0.x, pt1.y - pt0.y⟩
    compare_reverse_along_sequence_loop FIND_GRID_SCALE voronoi points cs_points_other
      (Nwant - 2) (fill_initial_hypothesis_statistics delta : HypothesisStatistics D) cs.c1
      (Nwant - 3)

def matches_direction (cs : CandidateSequence D) (orientation : ClassificationType) : Bool :=
  if orientation = HORIZONTAL then dgt cs.delta_mean.x (DoubleArith.ofRat 0.0)
  else dgt cs.delta_mean.y (DoubleArith.ofRat 0.0)

/-- The inner loop of `filter_bidirectional` over the candidates after `cs0`: `none`
inside says no reverse sequence was found; otherwise the candidate `cs1` found and the
candidates after `cs0` with `cs1` tagged `OUTLIER`. -/
def filter_bidirectional_search (voronoi : VORONOI) (points : List Point)
    (orientation : ClassificationType) (cs0_points : List Nat) :
    List (CandidateSequence D) → Option (Option (CandidateSequence D × v_CS D))
  | [] => some none
  | cs1 :: rest =>
    if cs1.type ≠ orientation then
      (filter_bidirectional_search voronoi points orientation cs0_points rest).map
        fun r => r.map fun q => (q.1, cs1 :: q.2)
    else
      match is_reverse_sequence FIND_GRID_SCALE voronoi points cs0_points cs1 with
      | none => none
      | some false =>
        (filter_bidirectional_search voronoi points orientation cs0_points rest).map
          fun r => r.map fun q => (q.1, cs1 :: q.2)
      | some true => some (some (cs1, { cs1 with type := OUTLIER } :: rest))

/-- The outer loop of `filter_bidirectional`: `done` are the candidates before position
`i`, as they stand, and the list after it those from `i` on; the first argument counts
the rounds left. -/
def filter_bidirectional_loop (voronoi : VORONOI) (points : List Point)
    (orientation : ClassificationType) :
    Nat → v_CS D → v_CS D → Option (v_CS D)
  | 0, done, todo => some (done ++ todo)
  | _ + 1, done, [] => some done
  | n + 1, done, cs0 :: rest =>
    if cs0.type ≠ orientation then
      filter_bidirectional_loop voronoi points orientation n (done ++ [cs0]) rest
    else
      match get_candidate_points FIND_GRID_SCALE voronoi points cs0 with
      | none => none
      | some cs0_points =>
        match filter_bidirectional_search FIND_GRID_SCALE voronoi points orientation
            cs0_points rest with
        | none => none
        | some (some (cs1, rest1)) =>
          let cs0 := if !matches_direction cs0 orientation then cs1 else cs0
          filter_bidirectional_loop voronoi points orientation n (done ++ [cs0]) rest1
        | some none =>
          filter_bidirectional_loop voronoi points orientation n
            (done ++ [{ cs0 with type := OUTLIER }]) rest

def filter_bidirectional (sequence_candidates : v_CS D) (voronoi : VORONOI)
    (points : List Point) (orientation : ClassificationType) : Option (v_CS D) :=
  filter_bidirectional_loop FIND_GRID_SCALE voronoi points orientation
    sequence_candidates.length [] sequence_candidates

def validate_clasification (sequence_candidates : v_CS D) : Bool :=
  let Nhorizontal : Int := (sequence_candidates.filter fun cs => cs.type == HORIZONTAL).length
  let Nvertical : Int :=
    (sequence_candidates.filter fun cs => cs.type != HORIZONTAL && cs.type == VERTICAL).length
  if Nhorizontal ≠ (Nwant : Int) then false
  else if Nvertical ≠ (Nwant : Int) then false
  else true

/-- The loop of `write_output`. -/
def write_output (voronoi : VORONOI) (points : List Point) :
    List (PointDouble D) → v_CS D → Option (List (PointDouble D))
  | points_out, [] => some points_out
  | points_out, cs :: rest =>
    if cs.type = HORIZONTAL then
      let points_out := write_cell_center FIND_GRID_SCALE points_out voronoi points cs.c0
      let points_out := write_cell_center FIND_GRID_SCALE points_out voronoi points cs.c1
      let pt0 := cell_point voronoi points cs.c0
      let pt1 := cell_point voronoi points cs.c1
      let delta : Point := ⟨pt1.x - pt0.x, pt1.y - pt0.y⟩
      match write_along_sequence FIND_GRID_SCALE points_out voronoi points delta cs.c1
          (Nwant - 2) with
      | none => none
      | some points_out => write_output voronoi points points_out rest
    else write_output voronoi points points_out rest

/-- The comparison `S::operator()` of `sort_candidates`. -/
def sequence_comparator (voronoi : VORONOI) (points : List Point)
    (a b : CandidateSequence D) : Bool :=
  if a.type ≠ b.type then
    if a.type = HORIZONTAL then true
    else if b.type = HORIZONTAL then false
    else if a.type = VERTICAL then true
    else if b.type = VERTICAL then false
    else decide (a.type < b.type)
  else if a.type = HORIZONTAL then
    decide ((cell_point voronoi points a.c0).y < (cell_point voronoi points b.c0).y)
  else decide ((cell_point voronoi points a.c0).x < (cell_point voronoi points b.c0).x)

/-- Insertion of `a` into a list sorted for `comp`, after the elements that are not
greater. -/
def std_sort_insert {α : Type} (comp : α → α → Bool) (a : α) : List α → List α
  | [] => [a]
  | b :: rest => if comp a b then a :: b :: rest else b :: std_sort_insert comp a rest

/-- A model of `std::sort`, which comes from the C++ library: the list sorted for the
comparison `comp`.  `std::sort` leaves the order of equivalent elements open; here it
is the one of insertion sort. -/
def std_sort {α : Type} (comp : α → α → Bool) : List α → List α
  | [] => []
  | a :: rest => std_sort_insert comp a (std_sort comp rest)

def sort_candidates (sequence_candidates : v_CS D) (voronoi : VORONOI)
    (points : List Point) : v_CS D :=
  std_sort (sequence_comparator voronoi points) sequence_candidates

/-- The position of the candidate `get_first` returns a pointer to, `none` for `NULL`. -/
def get_first (sequence_candidates : v_CS D) (orientation : ClassificationType) :
    Option Nat :=
  match sequence_candidates.findIdx? (fun cs => cs.type == orientation) with
  | some i => some i
  | none => none

/-- The loop of `filter_bounds`: `i` is the loop counter, `cs_others` the position
the pointer of that name is at, the first argument the number of rounds left.  `none`
when the pointer is read past the end of the candidates. -/
def filter_bounds_loop (voronoi : VORONOI) (sequence_candidates : v_CS D)
    (orientation_other : ClassificationType) (cs_ref_points : List Nat) :
    Nat → Nat → Nat → Option Bool
  | 0, i, _ => some (decide (i = Nwant))
  | n + 1, i, cs_others =>
    match sequence_candidates[cs_others]? with
    | none => none
    | some cs =>
      if cs.type ≠ orientation_other then some (decide (i = Nwant))
      else if cs_ref_points.getD i 0 ≠ (cell voronoi cs.c0).source_index then some false
      else filter_bounds_loop voronoi sequence_candidates orientation_other cs_ref_points
        n (i + 1) (cs_others + 1)

def filter_bounds (sequence_candidates : v_CS D) (orientation : ClassificationType)
    (voronoi : VORONOI) (points : List Point) : Option Bool :=
  let orientation_other : ClassificationType :=
    if orientation = HORIZONTAL then VERTICAL else HORIZONTAL
  match get_first sequence_candidates orientation,
        get_first sequence_candidates orientation_other with
  | none, _ => some false
  | some _, none => some false
  | some cs_ref, some cs_others =>
    match sequence_candidates[cs_ref]? with
    | none => none
    | some ref =>
      match get_candidate_points FIND_GRID_SCALE voronoi points ref with
      | none => none
      | some cs_ref_points =>
        filter_bounds_loop voronoi sequence_candidates orientation_other cs_ref_points
          Nwant 0 cs_others

/-- The part of `find_grid_from_points` that builds the candidate list: the sequence
candidates of the diagram, clustered, filtered for each orientation and sorted.
`some (false, _)` when `cluster_sequence_candidates` fails. -/
def find_grid_candidates (bins : Bins D) (voronoi : VORONOI)
    (points : List Point) : Option (Bool × v_CS D) :=
  let sequence_candidates : v_CS D := get_sequence_candidates FIND_GRID_SCALE [] voronoi points
  match cluster_sequence_candidates FIND_GRID_SCALE bins sequence_candidates with
  | none => none
  | some (false, sequence_candidates) => some (false, sequence_candidates)
  | some (true, sequence_candidates) =>
    match filter_bidirectional FIND_GRID_SCALE sequence_candidates voronoi points HORIZONTAL with
    | none => none
    | some sequence_candidates =>
      match filter_bidirectional FIND_GRID_SCALE sequence_candidates voronoi points VERTICAL with
      | none => none
      | some sequence_candidates =>
        some (true, sort_candidates sequence_candidates voronoi points)

/-- The function `mrgingham::find_grid_from_points`: the value returned and
`points_out` as left by the call.  `voronoi` is the diagram `construct_voronoi` gives
for `points`, `bins` what the array of `cluster_sequence_candidates` holds on entry. -/
def find_grid_from_points (bins : Bins D)
    (points_out : List (PointDouble D)) (voronoi : VORONOI) (points : List Point) :
    Option (Bool × List (PointDouble D)) :=
  match find_grid_candidates FIND_GRID_SCALE bins voronoi points with
  | none => none
  | some (false, _) => some (false, points_out)
  | some (true, sequence_candidates) =>
    match filter_bounds FIND_GRID_SCALE sequence_candidates HORIZONTAL voronoi points with
    | none => none
    | some false => some (false, points_out)
    | some true =>
      match filter_bounds FIND_GRID_SCALE sequence_candidates VERTICAL voronoi points with
      | none => none
      | some false => some (false, points_out)
      | some true =>
        if !validate_clasification sequence_candidates then some (false, points_out)
        else
          match write_output FIND_GRID_SCALE voronoi points points_out sequence_candidates with
          | none => none
          | some points_out => some (true, points_out)

/-! ### The command-line tools -/

/-- The end of `main` of mrgingham_from_points.cc, from the call of
`find_grid_from_points` on: what the tool writes to standard output, as a list of pieces,
and its exit status.  `printf_point` is the text `printf("%f %f\n", x, y)` writes for a
point. -/
def mrgingham_from_points_main (printf_point : PointDouble D → String) (bins : Bins D)
    (voronoi : VORONOI) (points : List Point) : Option (List String × Int) :=
  match find_grid_from_points FIND_GRID_SCALE bins [] voronoi points with
  | none => none
  | some (result, points_out) =>
    let stdout : List String := ["# x y\n"]
    if result then some (stdout ++ points_out.map printf_point, 0)
    else some (stdout, 1)

/-- A record a worker of mrgingham_from_image.cc writes for the image `i_image` of the
glob: the lines `filename x y` of its grid points, or the line `filename - -`. -/
inductive ImageRecord (D : Type) where
  | grid (i_image : Nat) (points_out : List (PointDouble D))
  | no_grid (i_image : Nat)
deriving DecidableEq, Repr

/-- The loop of `worker`, from the image `i_image` on, for at most the given number of
rounds.  `imread i` says whether image `i` could be read, `find i` is what the grid
finder returns for it. -/
def worker_loop (gl_pathc Njobs : Nat) (imread : Nat → Bool)
    (find : Nat → Bool × List (PointDouble D)) : Nat → Nat → List (ImageRecord D)
  | 0, _ => []
  | fuel + 1, i_image =>
    if i_image < gl_pathc then
      if !imread i_image then [ImageRecord.no_grid i_image]
      else
        (if (find i_image).1 then ImageRecord.grid i_image (find i_image).2
         else ImageRecord.no_grid i_image) ::
          worker_loop gl_pathc Njobs imread find fuel (i_image + Njobs)
    else []

/-- The records the worker `ijob` writes; with `Njobs ≥ 1` the loop makes at most
`gl_pathc` rounds. -/
def worker (gl_pathc Njobs : Nat) (imread : Nat → Bool)
    (find : Nat → Bool × List (PointDouble D)) (ijob : Nat) : List (ImageRecord D) :=
  worker_loop gl_pathc Njobs imread find gl_pathc ijob

/-! ### Notions used to state the properties -/

/-- What `cluster_sequence_candidates` goes on with after its loop: whether the loop
ended by `break`, the value of `bin_index`, the orientations of `bins[0]` and
`bins[1]`, and the candidates. -/
structure ClusterSummary (D : Type) where
  ended_by_break : Bool
  bin_index : Nat
  orientation0 : ClassificationType
  orientation1 : ClassificationType
  sequence_candidates : v_CS D
deriving DecidableEq

def cluster_summary (bins : Bins D) (sequence_candidates : v_CS D) :
    Option (ClusterSummary D) :=
  (cluster_sequence_candidates_loop FIND_GRID_SCALE (sequence_candidates.length + 3)
    bins 0 sequence_candidates).map fun r =>
      ⟨r.1, r.2.2.1, bin_orientation r.2.1 0, bin_orientation r.2.1 1, r.2.2.2⟩

/-- The cells a loop `FOR_MATCHING_ADJACENT_CELLS` visits in `N_remaining` steps from
the cell `c` with the statistics `stats`; `none` when a step finds no neighbour. -/
def trace_cells (voronoi : VORONOI) (points : List Point) :
    Nat → HypothesisStatistics D → Nat → Option (List Nat)
  | 0, _, _ => some []
  | n + 1, stats, c =>
    match get_adjacent_cell_along_sequence FIND_GRID_SCALE voronoi points stats c with
    | (none, _) => none
    | (some c_adjacent, stats1) =>
      (trace_cells voronoi points n stats1 c_adjacent).map fun t => c_adjacent :: t

/-- The cells of a candidate sequence: its first two cells and the `Nwant - 2` cells
traced from them. -/
def sequence_cells (voronoi : VORONOI) (points : List Point) (cs : CandidateSequence D) :
    Option (List Nat) :=
  let pt0 := cell_point voronoi points cs.c0
  let pt1 := cell_point voronoi points cs.c1
  let delta : Point := ⟨pt1.x - pt0.x, pt1.y - pt0.y⟩
  (trace_cells FIND_GRID_SCALE voronoi points (Nwant - 2)
    (fill_initial_hypothesis_statistics delta : HypothesisStatistics D) cs.c1).map
    fun t => cs.c0 :: cs.c1 :: t

/-- The point `write_cell_center` appends for the input point `pt`. -/
def scaled_point (pt : Point) : PointDouble D :=
  ⟨toDouble pt.x / toDouble FIND_GRID_SCALE, toDouble pt.y / toDouble FIND_GRID_SCALE⟩

/-- The candidates tagged `HORIZONTAL`, in the order of the list. -/
def horizontal_sequences (sequence_candidates : v_CS D) : v_CS D :=
  sequence_candidates.filter fun cs => cs.type == HORIZONTAL

/-- The candidates tagged `VERTICAL`, in the order of the list. -/
def vertical_sequences (sequence_candidates : v_CS D) : v_CS D :=
  sequence_candidates.filter fun cs => cs.type == VERTICAL

/-- The search of `filter_bidirectional_search` when the point indices of each sequence
are known (`points_of`) instead of traced: the first candidate after `cs0` that has the
orientation and the points of `cs0` in reverse order, with the list in which it is
marked an outlier (`mark`). -/
def dedup_search {α : Type} (type_of : α → ClassificationType) (points_of : α → List Nat)
    (mark : α → α) (orientation : ClassificationType) (cs0_points : List Nat) :
    List α → Option (α × List α)
  | [] => none
  | cs1 :: rest =>
    if type_of cs1 = orientation ∧ points_of cs1 = cs0_points.reverse then
      some (cs1, mark cs1 :: rest)
    else
      (dedup_search type_of points_of mark orientation cs0_points rest).map
        fun q => (q.1, cs1 :: q.2)

/-- The loop of `filter_bidirectional` when the point indices of each sequence are known;
`forward` says whether a sequence runs in the canonical direction. -/
def dedup_loop {α : Type} (type_of : α → ClassificationType) (points_of : α → List Nat)
    (mark : α → α) (forward : α → Bool) (orientation : ClassificationType) :
    Nat → List α → List α → List α
  | 0, done, todo => done ++ todo
  | _ + 1, done, [] => done
  | n + 1, done, cs0 :: rest =>
    if type_of cs0 ≠ orientation then
      dedup_loop type_of points_of mark forward orientation n (done ++ [cs0]) rest
    else
      match dedup_search type_of points_of mark orientation (points_of cs0) rest with
      | some (cs1, rest1) =>
        dedup_loop type_of points_of mark forward orientation n
          (done ++ [if !forward cs0 then cs1 else cs0]) rest1
      | none =>
        dedup_loop type_of points_of mark forward orientation n (done ++ [mark cs0]) rest

/-- Two inputs of `find_grid_from_points` that differ only in the numbering of the
points: the diagrams have the same cells with the same neighbours, each cell has the same
site in both, and two cells have the same source index in one exactly when they have in
the other. -/
structure same_diagram (voronoi : VORONOI) (points : List Point) (voronoi1 : VORONOI)
    (points1 : List Point) : Prop where
  size : voronoi1.size = voronoi.size
  adjacent : ∀ c, (cell voronoi1 c).adjacent = (cell voronoi c).adjacent
  point : ∀ c, cell_point voronoi1 points1 c = cell_point voronoi points c
  source : ∀ c d, (cell voronoi1 c).source_index = (cell voronoi1 d).source_index ↔
    (cell voronoi c).source_index = (cell voronoi d).source_index

/-- The diagram with the source indices renumbered by `σ`: what the diagram of a point
list becomes when the point at position `i` is moved to position `σ i`. -/
def rename_sources (σ : Nat → Nat) (voronoi : VORONOI) : VORONOI where
  size := voronoi.size
  cells c :=
    { source_index := σ (voronoi.cells c).source_index
      adjacent := (voronoi.cells c).adjacent }

end Model

/-! ## Exact arithmetic

An instance of `DoubleArith` used to run the model on concrete inputs: rational numbers
with exact `+ - * /` and comparisons, so without the rounding of doubles.  `hypot` and
`atan2` are rational approximations that are exact where the true value is rational:
`hypot` whenever the length is rational (all axis-parallel steps), `atan2` on the axes,
where it gives the multiples of `M_PI / 2`; elsewhere they differ from the values of the
library and from the true values.  The instance is used on the axis-parallel lattice and
lines, where the doubles of the program hold the same values, and for properties that are
expressly stated in exact arithmetic.  What the comparisons of the code decide is stated
for every arithmetic. -/

/-- A double holding the rational `val`. -/
structure ExactDouble where
  val : ℚ
deriving DecidableEq, Repr

/-- Integer square root, rounded down. -/
def isqrt (n : Nat) : Nat := Nat.sqrt n

/-- Square root of a rational `q ≥ 0`: exact when `q` is a square, else rounded down
to a multiple of `1 / (q.den * 2 ^ 40)`. -/
def exact_sqrt (q : ℚ) : ℚ :=
  ((isqrt (q.num.toNat * q.den * 4 ^ 40) : ℕ) : ℚ) / ((q.den * 2 ^ 40 : ℕ) : ℚ)

/-- The length of `(x, y)`, as the larger of `|x|`, `|y|` times the square root of
`1 + r * r` for the ratio `r` of the smaller to the larger. -/
def exact_hypot (x y : ℚ) : ℚ :=
  let a := max |x| |y|
  let b := min |x| |y|
  if b = 0 then a else a * exact_sqrt (1 + (b / a) * (b / a))

/-- The continued fraction `t / (1 + t² / (3 + 4 t² / (5 + 9 t² / (7 + ...))))` of
`atan t`, cut after `depth` levels, from level `k`. -/
def exact_atan_cf (t : ℚ) : Nat → Nat → ℚ
  | 0, k => 2 * (k : ℚ) - 1
  | depth + 1, k =>
    2 * (k : ℚ) - 1 + (k : ℚ) * (k : ℚ) * t * t / exact_atan_cf t depth (k + 1)

/-- An approximation of `atan t` for `|t| ≤ 1`. -/
def exact_atan (t : ℚ) : ℚ := t / exact_atan_cf t 12 1

/-- An approximation of `atan2 (y, x)`, with `M_PI` for π. -/
def exact_atan2 (y x : ℚ) : ℚ :=
  let pi : ℚ := 3.14159265358979323846
  if x = 0 then (if y > 0 then pi / 2 else if y < 0 then -(pi / 2) else 0)
  else if |y| ≤ |x| then
    (if x > 0 then exact_atan (y / x)
     else if y ≥ 0 then exact_atan (y / x) + pi else exact_atan (y / x) - pi)
  else
    (if y > 0 then pi / 2 - exact_atan (x / y) else -(pi / 2) - exact_atan (x / y))

/-- The integer nearest to `q`, the even one of two equally near. -/
def round_half_even (q : ℚ) : Int :=
  let f := Int.floor q
  let d := q - (f : ℚ)
  if d < 1 / 2 then f else if d > 1 / 2 then f + 1 else if f % 2 = 0 then f else f + 1

/-- The function `remainder` of math.h: `x - n * y` for the integer `n` nearest to
`x / y`. -/
def exact_remainder (x y : ℚ) : ℚ := x - (round_half_even (x / y) : ℚ) * y

instance instDoubleArithExactDouble : DoubleArith ExactDouble where
  ofRat q := ⟨q⟩
  add a b := ⟨a.val + b.val⟩
  sub a b := ⟨a.val - b.val⟩
  mul a b := ⟨a.val * b.val⟩
  div a b := ⟨a.val / b.val⟩
  neg a := ⟨-a.val⟩
  lt a b := decide (a.val < b.val)
  le a b := decide (a.val ≤ b.val)
  hypot a b := ⟨exact_hypot a.val b.val⟩
  atan2 a b := ⟨exact_atan2 a.val b.val⟩
  remainder a b := ⟨exact_remainder a.val b.val⟩

/-! ## Rounded arithmetic

An instance of `DoubleArith` with the rounding of binary64: every result of `+ - * /` and
of a conversion is the double nearest to the exact value, the one with the even
significand of two equally near, as IEEE 754 prescribes.  The range of the exponent is
not limited, so there is no overflow, underflow, infinity or NaN, and zero has no sign.
`remainder` is exact, as in IEEE 754.  `hypot` is the double nearest to the true length.
`atan2` is the double nearest to an approximation of the angle, by 40 levels of the
continued fraction of the arc tangent and the 21 digits of `M_PI`.  The functions of the
library give the true values up to one unit in the last place. -/

/-- The power `2 ^ k` of two for an integer `k`. -/
def pow2 (k : Int) : ℚ :=
  if 0 ≤ k then ((2 ^ k.toNat : Nat) : ℚ) else 1 / ((2 ^ (-k).toNat : Nat) : ℚ)

/-- The loop of `log2`: halve `n` until it is below 2, counting the steps. -/
def log2_loop : Nat → Nat → Nat
  | 0, _ => 0
  | fuel + 1, n => if n < 2 then 0 else log2_loop fuel (n / 2) + 1

/-- The number of bits of `n` after the leading one: `2 ^ log2 n ≤ n < 2 ^ (log2 n + 1)`
for `n > 0`. -/
def log2 (n : Nat) : Nat := log2_loop n n

/-- The binary exponent `e` of a rational `q > 0`, with `2 ^ e ≤ q < 2 ^ (e + 1)`. -/
def binary_exponent (q : ℚ) : Int :=
  let e0 : Int := (log2 q.num.natAbs : Int) - (log2 q.den : Int)
  if q < pow2 e0 then e0 - 1 else e0

/-- The binary64 number nearest to `q`, the one with the even significand of two equally
near (the default rounding of IEEE 754): `q` is rounded to a multiple of
`2 ^ (e - 52)` for its binary exponent `e`.  The range of the exponent is not limited. -/
def round_to_double (q : ℚ) : ℚ :=
  if q = 0 then 0 else
  (round_half_even (q / pow2 (binary_exponent |q| - 52)) : ℚ) *
    pow2 (binary_exponent |q| - 52)

/-- The bits of the integer square root of `n` from bit `k - 1` down, `acc` holding the
bits above them. -/
def sqrt_bits (n : Nat) : Nat → Nat → Nat
  | 0, acc => acc
  | k + 1, acc =>
    if (acc + 2 ^ k) * (acc + 2 ^ k) ≤ n then sqrt_bits n k (acc + 2 ^ k)
    else sqrt_bits n k acc

/-- The integer square root of `n`, rounded down. -/
def floor_sqrt (n : Nat) : Nat := sqrt_bits n (log2 n / 2 + 1) 0

/-- The binary64 number nearest to the square root of `q`, for `q ≥ 0`: with `m` the
square root in units of the last place, rounded down, the root is compared with
`m + 1 / 2` by the squares. -/
def sqrt_to_double (q : ℚ) : ℚ :=
  if q ≤ 0 then 0 else
  let ulp : ℚ := pow2 (binary_exponent q / 2 - 52)
  let m : Nat := floor_sqrt (Int.toNat (Int.floor (q / (ulp * ulp))))
  let mid : ℚ := ((m : ℚ) + 1 / 2) * ulp
  if q < mid * mid then (m : ℚ) * ulp
  else if mid * mid < q then ((m : ℚ) + 1) * ulp
  else if m % 2 = 0 then (m : ℚ) * ulp else ((m : ℚ) + 1) * ulp

/-- The arc tangent of `t` for `|t| ≤ 1`, by 40 levels of its continued fraction. -/
def precise_atan (t : ℚ) : ℚ := t / exact_atan_cf t 40 1

/-- The angle `atan2 (y, x)` from `precise_atan`, with `M_PI` for π. -/
def precise_atan2 (y x : ℚ) : ℚ :=
  let pi : ℚ := 3.14159265358979323846
  if x = 0 then (if y > 0 then pi / 2 else if y < 0 then -(pi / 2) else 0)
  else if |y| ≤ |x| then
    (if x > 0 then precise_atan (y / x)
     else if y ≥ 0 then precise_atan (y / x) + pi else precise_atan (y / x) - pi)
  else
    (if y > 0 then pi / 2 - precise_atan (x / y) else -(pi / 2) - precise_atan (x / y))

/-- A double holding the binary64 number `val`. -/
structure Binary64 where
  val : ℚ
deriving DecidableEq, Repr

instance instDoubleArithBinary64 : DoubleArith Binary64 where
  ofRat q := ⟨round_to_double q⟩
  add a b := ⟨round_to_double (a.val + b.val)⟩
  sub a b := ⟨round_to_double (a.val - b.val)⟩
  mul a b := ⟨round_to_double (a.val * b.val)⟩
  div a b := ⟨round_to_double (a.val / b.val)⟩
  neg a := ⟨-a.val⟩
  lt a b := decide (a.val < b.val)
  le a b := decide (a.val ≤ b.val)
  hypot a b := ⟨sqrt_to_double (a.val * a.val + b.val * b.val)⟩
  atan2 a b := ⟨round_to_double (precise_atan2 a.val b.val)⟩
  remainder a b := ⟨exact_remainder a.val b.val⟩

/-! ## The tests of the tracer -/

/-- The four tests of the tracer as the specification words them, for the statistics
`stats` of the trace and the step `delta` to a neighbour, on the doubles of the program:
cosine similarity not below 0.996, length difference neither below `-80 * FIND_GRID_SCALE`
nor above `80 * FIND_GRID_SCALE`, length ratio neither below 0.7 nor above 1.4 and, when
at least 3 ratios are recorded, a ratio that deviates from their mean neither below -0.15
nor above 0.15. -/
def spacing_tests {D : Type} [DoubleArith D] (FIND_GRID_SCALE : Int)
    (stats : HypothesisStatistics D) (delta : Point) : Bool :=
  let last_length : D :=
    DoubleArith.hypot (toDouble stats.delta_last.x) (toDouble stats.delta_last.y)
  let length : D := DoubleArith.hypot (toDouble delta.x) (toDouble delta.y)
  let cosine : D :=
    (toDouble stats.delta_last.x * toDouble delta.x +
      toDouble stats.delta_last.y * toDouble delta.y) / (last_length * length)
  let ratio : D := length / last_length
  let deviation : D := ratio - stats.length_ratio_sum / toDouble stats.length_ratio_N
  !dlt cosine (DoubleArith.ofRat 0.996) &&
  (!dlt (last_length - length) (toDouble (-(80 * FIND_GRID_SCALE))) &&
    !dgt (last_length - length) (toDouble (80 * FIND_GRID_SCALE))) &&
  (!dlt ratio (DoubleArith.ofRat 0.7) && !dgt ratio (DoubleArith.ofRat 1.4)) &&
  (!decide (stats.length_ratio_N ≥ 3) ||
    (!dlt deviation (-DoubleArith.ofRat 0.15) && !dgt deviation (DoubleArith.ofRat 0.15)))

/-- The same four tests on exact values, with the comparisons of the rational numbers:
cosine similarity at least 0.996, length difference at most `80 * FIND_GRID_SCALE` in
absolute value, length ratio in `[0.7, 1.4]` and, when at least 3 ratios are recorded, a
ratio within 0.15 of their mean.  Used for the lines of points below. -/
def spec_spacing_tests (FIND_GRID_SCALE : Int) (stats : HypothesisStatistics ExactDouble)
    (delta : Point) : Bool :=
  let last_length : ℚ := exact_hypot stats.delta_last.x stats.delta_last.y
  let length : ℚ := exact_hypot delta.x delta.y
  let cosine : ℚ :=
    ((stats.delta_last.x : ℚ) * delta.x + (stats.delta_last.y : ℚ) * delta.y) /
      (last_length * length)
  let ratio : ℚ := length / last_length
  decide (cosine ≥ 0.996) &&
  decide (|last_length - length| ≤ 80 * (FIND_GRID_SCALE : ℚ)) &&
  decide (0.7 ≤ ratio ∧ ratio ≤ 1.4) &&
  decide (stats.length_ratio_N ≥ 3 →
    |ratio - stats.length_ratio_sum.val / (stats.length_ratio_N : ℚ)| ≤ 0.15)

/-! ## The 10 x 10 lattice -/

/-- The input of the perfect-grid scenario: the points `(x * S, y * S)` for
`x, y = 0..9`, row after row. -/
def lattice_points (S : Int) : List Point :=
  (List.range 100).map fun i => ⟨((i % 10 : Nat) : Int) * S, ((i / 10 : Nat) : Int) * S⟩

/-- The Voronoi diagram of the lattice: the cell of point `i` is a square (open at the
border of the lattice) and has an edge in common with the cells of the points to the
right, above, to the left and below, which is the counterclockwise order in which
boost links the edges of a cell. -/
def lattice_voronoi : VORONOI where
  size := 100
  cells c :=
    if c < 100 then
      { source_index := c
        adjacent :=
          (if c % 10 < 9 then [c + 1] else []) ++ (if c / 10 < 9 then [c + 10] else []) ++
          (if 0 < c % 10 then [c - 1] else []) ++ (if 0 < c / 10 then [c - 10] else []) }
    else { source_index := 0, adjacent := [] }

/-- The directions of the steps between neighbours in the lattice. -/
inductive Direction where
  | right
  | up
  | left
  | down
deriving DecidableEq, Repr

/-- The directions in the order in which `lattice_voronoi` lists the neighbours. -/
def all_directions : List Direction := [Direction.right, Direction.up, Direction.left, Direction.down]

/-- The step of a direction, in grid units: its `x` component. -/
def Direction.dx : Direction → Int
  | right => 1
  | up => 0
  | left => -1
  | down => 0

/-- The step of a direction, in grid units: its `y` component. -/
def Direction.dy : Direction → Int
  | right => 0
  | up => 1
  | left => 0
  | down => -1

/-- The cell next to `c` in a direction. -/
def Direction.next : Direction → Nat → Nat
  | right, c => c + 1
  | up, c => c + 10
  | left, c => c - 1
  | down, c => c - 10

/-- The number of steps from `c` to the border of the lattice in a direction. -/
def Direction.steps : Direction → Nat → Nat
  | right, c => 9 - c % 10
  | up, c => 9 - c / 10
  | left, c => c % 10
  | down, c => c / 10

/-- The `k` cells after `c` in a direction. -/
def Direction.walk (d : Direction) : Nat → Nat → List Nat
  | _, 0 => []
  | c, k + 1 => d.next c :: Direction.walk d (d.next c) k

/-- The angle `get_spacing_angle` gives a step in a direction, in degrees. -/
def Direction.angle : Direction → ℚ
  | right => 0
  | up => 90
  | left => 180
  | down => 90

/-- Whether a direction is along the rows. -/
def Direction.horizontal : Direction → Bool
  | right => true
  | up => false
  | left => true
  | down => false

/-- The statistics of a trace that has taken `n` steps in a direction. -/
def lattice_stats (S : Int) (d : Direction) (n : Nat) : HypothesisStatistics ExactDouble :=
  { delta_last := ⟨S * d.dx, S * d.dy⟩, length_ratio_sum := ⟨(n : ℚ)⟩, length_ratio_N := n }

/-- A sequence of the lattice: the cell it starts at, its direction and its tag. -/
structure LatticeSequence where
  c0 : Nat
  direction : Direction
  type : ClassificationType
deriving DecidableEq, Repr

/-- The candidate the code holds for a sequence of the lattice with spacing `S`. -/
def LatticeSequence.candidate (S : Int) (a : LatticeSequence) : CandidateSequence ExactDouble :=
  { c0 := a.c0
    c1 := a.direction.next a.c0
    delta_mean := ⟨⟨((S * a.direction.dx : Int) : ℚ)⟩, ⟨((S * a.direction.dy : Int) : ℚ)⟩⟩
    spacing_angle := ⟨a.direction.angle⟩
    spacing_length := ⟨(S : ℚ)⟩
    type := a.type }

/-- The cells of a sequence of the lattice. -/
def LatticeSequence.cells (a : LatticeSequence) : List Nat :=
  a.c0 :: a.direction.walk a.c0 (Nwant - 1)

/-- The sequences of `Nwant` cells of the lattice, in the order in which
`get_sequence_candidates` meets them, all with the tag `t`. -/
def lattice_sequences (t : ClassificationType) : List LatticeSequence :=
  (List.range 100).flatMap fun c =>
    all_directions.flatMap fun d => if d.steps c = Nwant - 1 then [⟨c, d, t⟩] else []

/-- The bin that holds `k` lattice candidates along the direction `d` (the direction of
the first one pushed). -/
def lattice_bin (S : Int) (d : Direction) (k : Nat) : ClassificationBin ExactDouble :=
  { delta_mean_sum :=
      ⟨⟨(k : ℚ) * ((S * d.dx : Int) : ℚ)⟩, ⟨(k : ℚ) * ((S * d.dy : Int) : ℚ)⟩⟩
    N := k }

/-- The loop of `gather_unclassified` on sequences of the lattice; the bin is given by
the direction and the number of its members. -/
def lattice_gather (bin_index : Int) :
    List LatticeSequence → Int → Direction × Nat → Int × (Direction × Nat) × List LatticeSequence
  | [], Nremaining, bin => (Nremaining, bin, [])
  | a :: rest, Nremaining, bin =>
    if a.type ≠ UNCLASSIFIED then
      let r := lattice_gather bin_index rest Nremaining bin
      (r.1, r.2.1, a :: r.2.2)
    else if bin.2 = 0 ∨ a.direction.horizontal = bin.1.horizontal then
      let r := lattice_gather bin_index rest Nremaining
        (if bin.2 = 0 then a.direction else bin.1, bin.2 + 1)
      (r.1, r.2.1, { a with type := -bin_index - 1 } :: r.2.2)
    else
      let r := lattice_gather bin_index rest (Nremaining + 1) bin
      (r.1, r.2.1, a :: r.2.2)

/-- The sequences of the lattice with the tag `th` on those along the rows and `tv` on
those along the columns. -/
def lattice_tagged (th tv : ClassificationType) : List LatticeSequence :=
  (lattice_sequences UNCLASSIFIED).map fun a =>
    { a with type := if a.direction.horizontal then th else tv }

/-- The tag `mark_outliers` gives a candidate with the tag `t`. -/
def mark_outliers_type (bin_index : Int) (t : ClassificationType) : ClassificationType :=
  if (bin_index < 0 && t == UNCLASSIFIED) || t == -bin_index - 1 then OUTLIER else t

/-- The tag `mark_orientation` gives a candidate with the tag `t`. -/
def mark_orientation_type (types : ClassificationType × ClassificationType)
    (t : ClassificationType) : ClassificationType :=
  if t == -1 then types.1 else if t == -2 then types.2 else t

/-- The sequences of the lattice with a tag for each direction. -/
def lattice_directed (tr tu tl td : ClassificationType) : List LatticeSequence :=
  (lattice_sequences UNCLASSIFIED).map fun a =>
    { a with
      type := match a.direction with
        | Direction.right => tr
        | Direction.up => tu
        | Direction.left => tl
        | Direction.down => td }

/-- A sequence of the lattice tagged as an outlier. -/
def LatticeSequence.mark (a : LatticeSequence) : LatticeSequence := { a with type := OUTLIER }

/-- Whether a sequence runs in the canonical direction of an orientation: to the right
for `HORIZONTAL`, up for the other. -/
def LatticeSequence.forward (orientation : ClassificationType) (a : LatticeSequence) : Bool :=
  if orientation = HORIZONTAL then a.direction == Direction.right
  else a.direction == Direction.up

/-- Whether a sequence has its `Nwant` cells inside the lattice. -/
def LatticeSequence.valid (a : LatticeSequence) : Bool :=
  decide (a.c0 < 100) && decide (a.direction.steps a.c0 = Nwant - 1)

/-- The comparison of `sort_candidates` on sequences of the lattice, where the point of
cell `c` is at `(c % 10, c / 10)` grid steps. -/
def lattice_comparator (a b : LatticeSequence) : Bool :=
  if a.type ≠ b.type then
    if a.type = HORIZONTAL then true
    else if b.type = HORIZONTAL then false
    else if a.type = VERTICAL then true
    else if b.type = VERTICAL then false
    else decide (a.type < b.type)
  else if a.type = HORIZONTAL then decide (a.c0 / 10 < b.c0 / 10)
  else decide (a.c0 % 10 < b.c0 % 10)

/-- The candidate list of the lattice as `find_grid_from_points` has it after sorting. -/
def lattice_sorted : List LatticeSequence :=
  std_sort lattice_comparator (lattice_directed HORIZONTAL VERTICAL OUTLIER OUTLIER)

/-- The 20 sequences along the columns of the lattice, with the tag `t`. -/
def lattice_columns (t : ClassificationType) : List LatticeSequence :=
  ((lattice_sequences UNCLASSIFIED).filter fun a => !a.direction.horizontal).map fun a =>
    { a with type := t }

/-- The 10 sequences to the right and the 10 sequences up of the lattice, with the tag
`tr` on the first and `tu` on the others. -/
def lattice_forward (tr tu : ClassificationType) : List LatticeSequence :=
  ((lattice_sequences UNCLASSIFIED).filter fun a =>
    a.direction == Direction.right || a.direction == Direction.up).map fun a =>
    { a with type := if a.direction == Direction.right then tr else tu }

/-! ## Lines of points with geometric spacings -/

/-- The statistics of a trace along the direction `(u, v)` through the points at the
positions `pos` of a line, after `k` accepted steps: the last step, the sum of the `k`
ratios of a spacing to the spacing before it, and their number. -/
def line_stats (u v : Int) (pos : Nat → Int) (k : Nat) : HypothesisStatistics ExactDouble :=
  { delta_last := ⟨(pos (k + 1) - pos k) * u, (pos (k + 1) - pos k) * v⟩
    length_ratio_sum := ⟨((List.range k).map fun j =>
      ((pos (j + 2) - pos (j + 1) : Int) : ℚ) / ((pos (j + 1) - pos j : Int) : ℚ)).sum⟩
    length_ratio_N := k }

/-- Ten positions on a line whose successive spacings are `7 ^ 8`, `7 ^ 7 * 8`, ...,
`8 ^ 8`: a geometric progression with the ratio `8 / 7`. -/
def geometric_line_position (i : Nat) : Int := 8 ^ i * 7 ^ (9 - i) - 7 ^ 9

/-- The points at these positions on the x axis. -/
def geometric_line_points : List Point :=
  (List.range 10).map fun i => ⟨geometric_line_position i, 0⟩

/-- The Voronoi diagram of points on a line: the cells are strips, and each has an edge in
common with the cell of the next point and with the cell of the point before. -/
def geometric_line_voronoi : VORONOI where
  size := 10
  cells c :=
    if c < 10 then
      { source_index := c
        adjacent := (if c < 9 then [c + 1] else []) ++ (if 0 < c then [c - 1] else []) }
    else { source_index := 0, adjacent := [] }

/-- Ten positions on a line with the spacings of a geometric progression of ratio 1.1,
rounded to integers: `1000 * (1.1 ^ i - 1)` rounded, so that the spacings are 100, 110,
121, 133, 147, 161, 177, 195, 214. -/
def rounded_line_position (i : Nat) : Int :=
  [0, 100, 210, 331, 464, 611, 772, 949, 1144, 1358].getD i 0

/-- The points at these positions on the x axis. -/
def rounded_line_points : List Point :=
  (List.range 10).map fun i => ⟨rounded_line_position i, 0⟩

/-- The points at the same positions on the diagonal. -/
def rounded_diagonal_points : List Point :=
  (List.range 10).map fun i => ⟨rounded_line_position i, rounded_line_position i⟩

/-- Ten points on a line along `(16, 80)`: the first step is `(80, 400)`, the second
`(112, 560)`, which is `7 / 5` times as long. -/
def steep_line_points : List Point :=
  [0, 5, 12, 19, 26, 33, 40, 47, 54, 61].map fun a => ⟨16 * a, 80 * a⟩

/-! ## Bins and candidates in rounded arithmetic -/

/-- A bin that holds three steps to the left at scale 16, in binary64 arithmetic. -/
def rounded_bin_left : ClassificationBin Binary64 :=
  { delta_mean_sum := ⟨toDouble (-48), toDouble 0⟩, N := 3 }

/-- Bins in binary64 arithmetic: bin 0 holds three steps to the left, the others three
steps up. -/
def rounded_bins : Bins Binary64 := fun i =>
  if i = 0 then rounded_bin_left else { delta_mean_sum := ⟨toDouble 0, toDouble 48⟩, N := 3 }

/-- A bin that holds twenty steps `(16, 16)`, in binary64 arithmetic. -/
def rounded_bin_diagonal : ClassificationBin Binary64 :=
  { delta_mean_sum := ⟨toDouble 320, toDouble 320⟩, N := 20 }

/-- An array `bins` filled with zeros. -/
def zero_bins : Bins ExactDouble := fun _ => { delta_mean_sum := ⟨⟨0⟩, ⟨0⟩⟩, N := 0 }

/-- The diagram of an empty point list: no cells. -/
def empty_voronoi : VORONOI :=
  { size := 0, cells := fun _ => { source_index := 0, adjacent := [] } }

/-- Two points, one grid step apart at scale 16. -/
def two_points : List Point := [⟨0, 0⟩, ⟨16, 0⟩]

/-- The diagram of `two_points`: two half planes with one edge in common. -/
def two_points_voronoi : VORONOI where
  size := 2
  cells c :=
    if c = 0 then { source_index := 0, adjacent := [1] }
    else { source_index := 1, adjacent := [0] }

/-- The output expected for the lattice: the points `(x, y)`, row after row. -/
def lattice_expected : List (PointDouble ExactDouble) :=
  (List.range 100).map fun i => ⟨⟨((i % 10 : Nat) : ℚ)⟩, ⟨((i / 10 : Nat) : ℚ)⟩⟩

/-! ## Properties -/

section Proofs

set_option linter.unusedSectionVars false

variable {D : Type} [DoubleArith D] (FIND_GRID_SCALE : Int)

theorem write_cell_center_eq (points_out : List (PointDouble D)) (voronoi : VORONOI)
    (points : List Point) (c : Nat) :
    write_cell_center FIND_GRID_SCALE points_out voronoi points c =
      points_out ++ [scaled_point FIND_GRID_SCALE (cell_point voronoi points c)] := rfl

/-- The loop of `write_along_sequence` appends the centres of the traced cells. -/
theorem write_along_sequence_loop_eq (voronoi : VORONOI) (points : List Point) (n : Nat) :
    ∀ (stats : HypothesisStatistics D) (c : Nat) (points_out : List (PointDouble D)),
      write_along_sequence_loop FIND_GRID_SCALE voronoi points n stats c points_out =
        (trace_cells FIND_GRID_SCALE voronoi points n stats c).map fun t =>
          points_out ++ t.map fun k => scaled_point FIND_GRID_SCALE (cell_point voronoi points k) := by
  induction n with
  | zero => intro stats c points_out; simp [write_along_sequence_loop, trace_cells]
  | succ n ih =>
    intro stats c points_out
    simp only [write_along_sequence_loop, trace_cells]
    rcases h : get_adjacent_cell_along_sequence FIND_GRID_SCALE voronoi points stats c with ⟨o, st⟩
    cases o with
    | none => simp
    | some ca =>
      simp only [ih, write_cell_center_eq, Option.map_map]
      congr 1
      funext t
      simp

/-- The loop of `get_candidate_points_along_sequence` writes the source indices of the
traced cells. -/
theorem get_candidate_points_along_sequence_loop_eq (voronoi : VORONOI) (points : List Point)
    (n : Nat) :
    ∀ (stats : HypothesisStatistics D) (c : Nat) (cs_points : List Nat),
      get_candidate_points_along_sequence_loop FIND_GRID_SCALE voronoi points n stats c cs_points =
        (trace_cells FIND_GRID_SCALE voronoi points n stats c).map fun t =>
          cs_points ++ t.map fun k => (cell voronoi k).source_index := by
  induction n with
  | zero => intro stats c cs_points; simp [get_candidate_points_along_sequence_loop, trace_cells]
  | succ n ih =>
    intro stats c cs_points
    simp only [get_candidate_points_along_sequence_loop, trace_cells]
    rcases h : get_adjacent_cell_along_sequence FIND_GRID_SCALE voronoi points stats c with ⟨o, st⟩
    cases o with
    | none => simp
    | some ca =>
      simp only [ih, Option.map_map]
      congr 1
      funext t
      simp

/-- A trace that succeeds visits as many cells as it has steps. -/
theorem trace_cells_length (voronoi : VORONOI) (points : List Point) (n : Nat) :
    ∀ (stats : HypothesisStatistics D) (c : Nat) (t : List Nat),
      trace_cells FIND_GRID_SCALE voronoi points n stats c = some t → t.length = n := by
  induction n with
  | zero => intro stats c t h; simp [trace_cells] at h; simp [← h]
  | succ n ih =>
    intro stats c t h
    simp only [trace_cells] at h
    rcases h1 : get_adjacent_cell_along_sequence FIND_GRID_SCALE voronoi points stats c with ⟨o, st⟩
    rw [h1] at h
    cases o with
    | none => simp at h
    | some ca =>
      simp only [Option.map_eq_some'] at h
      obtain ⟨t1, ht1, rfl⟩ := h
      simp [ih st ca t1 ht1]

theorem sequence_cells_length (voronoi : VORONOI) (points : List Point)
    (cs : CandidateSequence D) (t : List Nat)
    (h : sequence_cells FIND_GRID_SCALE voronoi points cs = some t) : t.length = Nwant := by
  simp only [sequence_cells, Option.map_eq_some'] at h
  obtain ⟨t1, ht1, rfl⟩ := h
  have := trace_cells_length FIND_GRID_SCALE voronoi points _ _ _ _ ht1
  simp [this, Nwant]

/-- The array `cs_points` holds the source indices of the cells of the sequence. -/
theorem get_candidate_points_eq (voronoi : VORONOI) (points : List Point)
    (cs : CandidateSequence D) :
    get_candidate_points FIND_GRID_SCALE voronoi points cs =
      (sequence_cells FIND_GRID_SCALE voronoi points cs).map fun t =>
        t.map fun k => (cell voronoi k).source_index := by
  simp only [get_candidate_points, sequence_cells, get_candidate_points_along_sequence_loop_eq,
    Option.map_map]
  congr 1

/-- What a successful `write_output` appends: for each `HORIZONTAL` candidate, in the
order of the list, the centres of the cells of its sequence. -/
theorem write_output_eq (voronoi : VORONOI) (points : List Point) :
    ∀ (sequence_candidates : v_CS D) (points_out out1 : List (PointDouble D)),
      write_output FIND_GRID_SCALE voronoi points points_out sequence_candidates = some out1 →
      ∃ rows : List (List Nat),
        List.Forall₂ (fun cs t => sequence_cells FIND_GRID_SCALE voronoi points cs = some t)
          (horizontal_sequences sequence_candidates) rows ∧
        out1 = points_out ++
          rows.flatten.map fun k => scaled_point FIND_GRID_SCALE (cell_point voronoi points k) := by
  intro sequence_candidates
  induction sequence_candidates with
  | nil =>
    intro points_out out1 h
    simp only [write_output, Option.some.injEq] at h
    exact ⟨[], by simp [horizontal_sequences], by simp [h]⟩
  | cons cs rest ih =>
    intro points_out out1 h
    simp only [write_output] at h
    by_cases hH : cs.type = HORIZONTAL
    · simp only [hH, if_true, write_along_sequence, write_along_sequence_loop_eq,
        write_cell_center_eq] at h
      rcases ht : trace_cells FIND_GRID_SCALE voronoi points (Nwant - 2)
        (fill_initial_hypothesis_statistics
          ⟨(cell_point voronoi points cs.c1).x - (cell_point voronoi points cs.c0).x,
           (cell_point voronoi points cs.c1).y - (cell_point voronoi points cs.c0).y⟩ :
          HypothesisStatistics D) cs.c1 with _ | t
      · rw [ht] at h; simp at h
      · rw [ht] at h
        simp only [Option.map_some'] at h
        obtain ⟨rows, hrows, hout⟩ := ih _ _ h
        refine ⟨(cs.c0 :: cs.c1 :: t) :: rows, ?_, ?_⟩
        · have : horizontal_sequences (cs :: rest) = cs :: horizontal_sequences rest := by
            simp [horizontal_sequences, hH]
          rw [this]
          refine List.Forall₂.cons ?_ hrows
          simp [sequence_cells, ht]
        · simp [hout]
    · simp only [hH, if_false] at h
      obtain ⟨rows, hrows, hout⟩ := ih _ _ h
      refine ⟨rows, ?_, hout⟩
      have : horizontal_sequences (cs :: rest) = horizontal_sequences rest := by
        simp [horizontal_sequences, hH]
      rw [this]; exact hrows

/-- The checks a successful run has passed. -/
theorem find_grid_from_points_true (bins : Bins D) (points_out out1 : List (PointDouble D))
    (voronoi : VORONOI) (points : List Point)
    (h : find_grid_from_points FIND_GRID_SCALE bins points_out voronoi points = some (true, out1)) :
    ∃ sequence_candidates : v_CS D,
      find_grid_candidates FIND_GRID_SCALE bins voronoi points = some (true, sequence_candidates) ∧
      filter_bounds FIND_GRID_SCALE sequence_candidates HORIZONTAL voronoi points = some true ∧
      filter_bounds FIND_GRID_SCALE sequence_candidates VERTICAL voronoi points = some true ∧
      validate_clasification sequence_candidates = true ∧
      write_output FIND_GRID_SCALE voronoi points points_out sequence_candidates = some out1 := by
  unfold find_grid_from_points at h
  rcases hc : find_grid_candidates FIND_GRID_SCALE bins voronoi points with _ | ⟨b, sc⟩
  · rw [hc] at h; simp at h
  · rw [hc] at h
    cases b with
    | false => simp at h
    | true =>
      simp only at h
      refine ⟨sc, rfl, ?_⟩
      rcases h1 : filter_bounds FIND_GRID_SCALE sc HORIZONTAL voronoi points with _ | b1
      · rw [h1] at h; simp at h
      · rw [h1] at h
        cases b1 with
        | false => simp at h
        | true =>
          simp only at h
          rcases h2 : filter_bounds FIND_GRID_SCALE sc VERTICAL voronoi points with _ | b2
          · rw [h2] at h; simp at h
          · rw [h2] at h
            cases b2 with
            | false => simp at h
            | true =>
              simp only at h
              cases hv : validate_clasification sc with
              | false => rw [hv] at h; simp at h
              | true =>
                rw [hv] at h
                simp only [Bool.not_true, Bool.false_eq_true, if_false] at h
                rcases hw : write_output FIND_GRID_SCALE voronoi points points_out sc with _ | o
                · rw [hw] at h; simp at h
                · rw [hw] at h
                  simp only [Option.some.injEq, Prod.mk.injEq, true_and] at h
                  subst h
                  exact ⟨rfl, rfl, rfl, rfl⟩

/-- The test of `validate_clasification`, as counts. -/
theorem validate_clasification_iff (sequence_candidates : v_CS D) :
    validate_clasification sequence_candidates = true ↔
      (horizontal_sequences sequence_candidates).length = Nwant ∧
      (vertical_sequences sequence_candidates).length = Nwant := by
  have hV : (sequence_candidates.filter
      fun cs => cs.type != HORIZONTAL && cs.type == VERTICAL) =
      vertical_sequences sequence_candidates := by
    unfold vertical_sequences
    apply List.filter_congr
    intro cs _
    by_cases h : cs.type = VERTICAL
    · simp [h]
    · simp [h]
  unfold validate_clasification
  simp only [hV]
  unfold horizontal_sequences
  by_cases h1 : (sequence_candidates.filter fun cs => cs.type == HORIZONTAL).length = Nwant
  · by_cases h2 : (vertical_sequences sequence_candidates).length = Nwant
    · simp [h1, h2]
    · simp [h1, h2]
  · simp [h1]


/-- The loop leaves the bins below `bin_index` alone and never lowers `bin_index`. -/
theorem cluster_loop_frame (fuel : Nat) :
    ∀ (bins : Bins D) (i : Nat) (c : v_CS D) (r : Bool × Bins D × Nat × v_CS D),
      cluster_sequence_candidates_loop FIND_GRID_SCALE fuel bins i c = some r →
      i ≤ r.2.2.1 ∧ ∀ j < i, r.2.1 j = bins j := by
  induction fuel with
  | zero => intro bins i c r h; simp [cluster_sequence_candidates_loop] at h
  | succ fuel ih =>
    intro bins i c r h
    simp only [cluster_sequence_candidates_loop] at h
    split_ifs at h with h1 h2 h3 h4
    · simp only [Option.some.injEq] at h
      subst h
      refine ⟨le_refl _, fun j hj => ?_⟩
      simp [Function.update, Nat.ne_of_lt hj]
    · obtain ⟨hk, hb⟩ := ih _ _ _ _ h
      refine ⟨hk, fun j hj => ?_⟩
      rw [hb j hj]
      simp [Function.update, Nat.ne_of_lt hj]
    · simp only [Option.some.injEq] at h
      subst h
      refine ⟨le_refl _, fun j hj => ?_⟩
      simp [Function.update, Nat.ne_of_lt hj]
    · simp only [Option.some.injEq] at h
      subst h
      refine ⟨Nat.le_succ _, fun j hj => ?_⟩
      simp [Function.update, Nat.ne_of_lt hj]
    · obtain ⟨hk, hb⟩ := ih _ _ _ _ h
      refine ⟨by omega, fun j hj => ?_⟩
      rw [hb j (by omega)]
      simp [Function.update, Nat.ne_of_lt hj]

/-- The loop does not read the array: with other contents on entry it takes the same
course, and the bins from the one at `bin_index` on entry to the one at `bin_index` on
exit come out the same. -/
theorem cluster_loop_garbage (fuel : Nat) :
    ∀ (bins bins1 : Bins D) (i : Nat) (c : v_CS D) (r : Bool × Bins D × Nat × v_CS D),
      cluster_sequence_candidates_loop FIND_GRID_SCALE fuel bins i c = some r →
      ∃ r1, cluster_sequence_candidates_loop FIND_GRID_SCALE fuel bins1 i c = some r1 ∧
        r1.1 = r.1 ∧ r1.2.2 = r.2.2 ∧ ∀ j, i ≤ j → j < r.2.2.1 → r1.2.1 j = r.2.1 j := by
  induction fuel with
  | zero => intro bins bins1 i c r h; simp [cluster_sequence_candidates_loop] at h
  | succ fuel ih =>
    intro bins bins1 i c r h
    simp only [cluster_sequence_candidates_loop] at h ⊢
    split_ifs at h ⊢ with h1 h2 h3 h4
    · simp only [Option.some.injEq] at h
      subst h
      exact ⟨_, rfl, rfl, rfl, fun j hj1 hj2 => absurd hj1 (by simp at hj2; omega)⟩
    · exact ih _ _ _ _ _ h
    · simp only [Option.some.injEq] at h
      subst h
      exact ⟨_, rfl, rfl, rfl, fun j hj1 hj2 => absurd hj1 (by simp at hj2; omega)⟩
    · simp only [Option.some.injEq] at h
      subst h
      refine ⟨_, rfl, rfl, rfl, fun j hj1 hj2 => ?_⟩
      have : j = i := by simp at hj2; omega
      subst this
      simp [Function.update]
    · obtain ⟨r1, hr1, ha, hb, hc⟩ := ih _ (Function.update bins1 i
        (gather_unclassified FIND_GRID_SCALE c (i : Int)).2.1) _ _ _ h
      refine ⟨r1, hr1, ha, hb, fun j hj1 hj2 => ?_⟩
      by_cases hji : j = i
      · subst hji
        rw [(cluster_loop_frame FIND_GRID_SCALE fuel _ _ _ _ h).2 j (Nat.lt_succ_self j),
          (cluster_loop_frame FIND_GRID_SCALE fuel _ _ _ _ hr1).2 j (Nat.lt_succ_self j)]
        simp [Function.update]
      · exact hc j (by omega) hj2

/-- When the loop has filled two bins, what the array held on entry does not matter. -/
theorem cluster_summary_garbage (bins bins1 : Bins D) (c c1 : v_CS D)
    (o0 o1 : ClassificationType)
    (h : cluster_summary FIND_GRID_SCALE bins c = some ⟨true, 2, o0, o1, c1⟩) :
    cluster_summary FIND_GRID_SCALE bins1 c = some ⟨true, 2, o0, o1, c1⟩ := by
  unfold cluster_summary at h ⊢
  rcases hl : cluster_sequence_candidates_loop FIND_GRID_SCALE (c.length + 3) bins 0 c with _ | r
  · rw [hl] at h; simp at h
  · rw [hl] at h
    obtain ⟨r1, hr1, ha, hb, hc⟩ := cluster_loop_garbage FIND_GRID_SCALE _ bins bins1 0 c r hl
    simp only [Option.map_some', Option.some.injEq, ClusterSummary.mk.injEq] at h
    obtain ⟨h1, h2, h3, h4, h5⟩ := h
    rw [hr1]
    have hk : r1.2.2.1 = 2 := by rw [hb, h2]
    have e0 : r1.2.1 0 = r.2.1 0 := hc 0 (le_refl _) (by omega)
    have e1 : r1.2.1 1 = r.2.1 1 := hc 1 (by omega) (by omega)
    simp only [Option.map_some', Option.some.injEq, ClusterSummary.mk.injEq]
    refine ⟨by rw [ha, h1], hk, ?_, ?_, by rw [hb, h5]⟩
    · rw [← h3]; unfold bin_orientation; rw [e0]
    · rw [← h4]; unfold bin_orientation; rw [e1]

/-- The result of `cluster_sequence_candidates` from what its loop leaves. -/
theorem cluster_sequence_candidates_of_summary (bins : Bins D) (c : v_CS D) :
    cluster_sequence_candidates FIND_GRID_SCALE bins c =
      match cluster_summary FIND_GRID_SCALE bins c with
      | none => none
      | some ⟨false, _, _, _, c1⟩ => some (false, c1)
      | some ⟨true, _, o0, o1, c1⟩ =>
        if o0 = VERTICAL ∧ o1 = VERTICAL then some (false, c1)
        else if o0 = HORIZONTAL ∧ o1 = HORIZONTAL then some (false, c1)
        else some (true, mark_orientation c1 (o0, o1)) := by
  unfold cluster_sequence_candidates cluster_summary
  rcases cluster_sequence_candidates_loop FIND_GRID_SCALE (c.length + 3) bins 0 c with
    _ | ⟨f, b, k, c1⟩
  · rfl
  · cases f <;> rfl

/-- The candidates of a cell are appended to those found before. -/
theorem get_sequence_candidates_cell_append (voronoi : VORONOI) (points : List Point)
    (c : Nat) (pt : Point) (adjacent : List Nat) :
    ∀ acc : v_CS D,
      get_sequence_candidates_cell FIND_GRID_SCALE voronoi points c pt adjacent acc =
        acc ++ get_sequence_candidates_cell FIND_GRID_SCALE voronoi points c pt adjacent [] := by
  induction adjacent with
  | nil => intro acc; simp [get_sequence_candidates_cell]
  | cons a rest ih =>
    intro acc
    simp only [get_sequence_candidates_cell]
    split
    · rw [ih, ih ([] ++ _)]; simp
    · exact ih acc

/-- The candidate list is the concatenation of the candidates of the cells. -/
theorem get_sequence_candidates_eq (voronoi : VORONOI) (points : List Point) (acc : v_CS D) :
    get_sequence_candidates FIND_GRID_SCALE acc voronoi points =
      acc ++ (List.range voronoi.size).flatMap fun c =>
        get_sequence_candidates_cell FIND_GRID_SCALE voronoi points c
          (cell_point voronoi points c) (cell voronoi c).adjacent [] := by
  unfold get_sequence_candidates
  generalize List.range voronoi.size = l
  induction l generalizing acc with
  | nil => simp
  | cons a rest ih =>
    simp only [List.foldl_cons, List.flatMap_cons]
    rw [ih, get_sequence_candidates_cell_append]
    simp

/-- A list of lists of one length `n` has `n` entries for each of them. -/
theorem length_flatten_of_forall_length {α : Type} (n : Nat) (rows : List (List α))
    (h : ∀ t ∈ rows, t.length = n) : rows.flatten.length = rows.length * n := by
  induction rows with
  | nil => simp
  | cons t rest ih =>
    simp only [List.flatten_cons, List.length_append, List.length_cons]
    rw [ih (fun u hu => h u (List.mem_cons_of_mem _ hu)), h t (List.mem_cons_self _ _)]
    ring

/-- A candidate list that `find_grid_candidates` hands on has been sorted. -/
theorem find_grid_candidates_sorted (bins : Bins D) (voronoi : VORONOI) (points : List Point)
    (sequence_candidates : v_CS D)
    (h : find_grid_candidates FIND_GRID_SCALE bins voronoi points =
      some (true, sequence_candidates)) :
    ∃ unsorted : v_CS D, sequence_candidates = sort_candidates unsorted voronoi points := by
  unfold find_grid_candidates at h
  simp only at h
  split at h
  · simp at h
  · simp at h
  · split at h
    · simp at h
    · split at h
      · simp at h
      · simp only [Option.some.injEq, Prod.mk.injEq, true_and] at h
        exact ⟨_, h.symm⟩

/-- The rows a successful run writes: the cells of the `HORIZONTAL` sequences. -/
theorem find_grid_from_points_rows (bins : Bins D) (points_out out1 : List (PointDouble D))
    (voronoi : VORONOI) (points : List Point)
    (h : find_grid_from_points FIND_GRID_SCALE bins points_out voronoi points = some (true, out1)) :
    ∃ (sequence_candidates : v_CS D) (rows : List (List Nat)),
      find_grid_candidates FIND_GRID_SCALE bins voronoi points = some (true, sequence_candidates) ∧
      (horizontal_sequences sequence_candidates).length = Nwant ∧
      (vertical_sequences sequence_candidates).length = Nwant ∧
      List.Forall₂ (fun cs t => sequence_cells FIND_GRID_SCALE voronoi points cs = some t)
        (horizontal_sequences sequence_candidates) rows ∧
      out1 = points_out ++
        rows.flatten.map fun k => scaled_point FIND_GRID_SCALE (cell_point voronoi points k) := by
  obtain ⟨sc, hc, _, _, hv, hw⟩ :=
    find_grid_from_points_true FIND_GRID_SCALE bins points_out out1 voronoi points h
  obtain ⟨rows, hrows, hout⟩ := write_output_eq FIND_GRID_SCALE voronoi points sc points_out out1 hw
  rw [validate_clasification_iff] at hv
  exact ⟨sc, rows, hc, hv.1, hv.2, hrows, hout⟩

/-- The rows related to the sequences by `sequence_cells` have `Nwant` cells each. -/
theorem rows_length (voronoi : VORONOI) (points : List Point) (l : v_CS D)
    (rows : List (List Nat))
    (h : List.Forall₂ (fun cs t => sequence_cells FIND_GRID_SCALE voronoi points cs = some t)
      l rows) : ∀ t ∈ rows, t.length = Nwant := by
  induction h with
  | nil => simp
  | cons hab _ ih =>
    intro t ht
    rcases List.mem_cons.mp ht with rfl | ht
    · exact sequence_cells_length FIND_GRID_SCALE voronoi points _ _ hab
    · exact ih t ht

/-- C1: when `find_grid_from_points` returns true it has appended exactly
`Nwant * Nwant` (100) points to `points_out`: for each of the `Nwant` candidates
tagged `HORIZONTAL`, in the order of the sorted candidate list, the `Nwant` centres
of the cells of its sequence (the first cell, the second, then the `Nwant - 2`
traced ones). -/
theorem find_grid_from_points_appends_rows (bins : Bins D)
    (points_out out1 : List (PointDouble D)) (voronoi : VORONOI) (points : List Point)
    (h : find_grid_from_points FIND_GRID_SCALE bins points_out voronoi points = some (true, out1)) :
    ∃ (unsorted : v_CS D) (rows : List (List Nat)),
      find_grid_candidates FIND_GRID_SCALE bins voronoi points =
        some (true, sort_candidates unsorted voronoi points) ∧
      (horizontal_sequences (sort_candidates unsorted voronoi points)).length = Nwant ∧
      List.Forall₂
        (fun cs t => t.length = Nwant ∧ ∃ traced,
          trace_cells FIND_GRID_SCALE voronoi points (Nwant - 2)
            (fill_initial_hypothesis_statistics
              ⟨(cell_point voronoi points cs.c1).x - (cell_point voronoi points cs.c0).x,
               (cell_point voronoi points cs.c1).y - (cell_point voronoi points cs.c0).y⟩ :
              HypothesisStatistics D) cs.c1 = some traced ∧
          t = cs.c0 :: cs.c1 :: traced)
        (horizontal_sequences (sort_candidates unsorted voronoi points)) rows ∧
      out1 = points_out ++
        rows.flatten.map (fun k => scaled_point FIND_GRID_SCALE (cell_point voronoi points k)) ∧
      out1.length = points_out.length + Nwant * Nwant := by
  obtain ⟨sc, rows, hc, hH, _, hrows, hout⟩ :=
    find_grid_from_points_rows FIND_GRID_SCALE bins points_out out1 voronoi points h
  obtain ⟨unsorted, rfl⟩ := find_grid_candidates_sorted FIND_GRID_SCALE bins voronoi points sc hc
  have hlen := rows_length FIND_GRID_SCALE voronoi points _ rows hrows
  refine ⟨unsorted, rows, hc, hH, ?_, hout, ?_⟩
  · refine hrows.imp ?_
    intro cs t hcs
    refine ⟨sequence_cells_length FIND_GRID_SCALE voronoi points cs t hcs, ?_⟩
    simp only [sequence_cells, Option.map_eq_some'] at hcs
    obtain ⟨traced, ht, rfl⟩ := hcs
    exact ⟨traced, ht, rfl⟩
  · rw [hout, List.length_append, List.length_map,
      length_flatten_of_forall_length Nwant rows hlen, ← hrows.length_eq, hH]

/-- C3: when `find_grid_from_points` returns false, `points_out` is as it was on
entry. -/
theorem find_grid_from_points_false_unchanged (bins : Bins D)
    (points_out out1 : List (PointDouble D)) (voronoi : VORONOI) (points : List Point)
    (h : find_grid_from_points FIND_GRID_SCALE bins points_out voronoi points =
      some (false, out1)) :
    out1 = points_out := by
  unfold find_grid_from_points at h
  repeat' split at h
  all_goals simp_all

/-- C6: `validate_clasification` returns true exactly when the list holds `Nwant`
candidates tagged `HORIZONTAL` and `Nwant` tagged `VERTICAL` (it is a function of the
list and has nothing to change), and when `find_grid_from_points` returns true the
candidate list it wrote the output from has `Nwant` of each. -/
theorem validate_clasification_counts :
    (∀ sequence_candidates : v_CS D,
      validate_clasification sequence_candidates = true ↔
        (horizontal_sequences sequence_candidates).length = Nwant ∧
        (vertical_sequences sequence_candidates).length = Nwant) ∧
    (∀ (bins : Bins D) (points_out out1 : List (PointDouble D)) (voronoi : VORONOI)
      (points : List Point),
      find_grid_from_points FIND_GRID_SCALE bins points_out voronoi points = some (true, out1) →
      ∃ sequence_candidates : v_CS D,
        find_grid_candidates FIND_GRID_SCALE bins voronoi points =
          some (true, sequence_candidates) ∧
        write_output FIND_GRID_SCALE voronoi points points_out sequence_candidates = some out1 ∧
        validate_clasification sequence_candidates = true ∧
        (horizontal_sequences sequence_candidates).length = Nwant ∧
        (vertical_sequences sequence_candidates).length = Nwant) := by
  refine ⟨validate_clasification_iff, ?_⟩
  intro bins points_out out1 voronoi points h
  obtain ⟨sc, hc, _, _, hv, hw⟩ :=
    find_grid_from_points_true FIND_GRID_SCALE bins points_out out1 voronoi points h
  have hv1 := (validate_clasification_iff sc).mp hv
  exact ⟨sc, hc, hw, hv, hv1.1, hv1.2⟩

/-- The cells of the rows are cells of the sequences. -/
theorem mem_rows_flatten (voronoi : VORONOI) (points : List Point) (l : v_CS D)
    (rows : List (List Nat))
    (h : List.Forall₂ (fun cs t => sequence_cells FIND_GRID_SCALE voronoi points cs = some t)
      l rows) :
    ∀ k ∈ rows.flatten, ∃ cs ∈ l, ∃ t,
      sequence_cells FIND_GRID_SCALE voronoi points cs = some t ∧ k ∈ t := by
  induction h with
  | nil => simp
  | @cons cs t l1 rows1 hab _ ih =>
    intro k hk
    simp only [List.flatten_cons, List.mem_append] at hk
    rcases hk with hk | hk
    · exact ⟨cs, List.mem_cons_self _ _, t, hab, hk⟩
    · obtain ⟨cs1, h1, t1, h2, h3⟩ := ih k hk
      exact ⟨cs1, List.mem_cons_of_mem _ h1, t1, h2, h3⟩

/-- C4: when `find_grid_from_points` returns true, every point it appended is
`(p.x / FIND_GRID_SCALE, p.y / FIND_GRID_SCALE)` for an input point `p` that is the
site of a cell of the sequence of a candidate tagged `HORIZONTAL` in the final list;
nothing else is appended.  The sites of the diagram are taken to index the input. -/
theorem find_grid_from_points_output_points (bins : Bins D)
    (points_out out1 : List (PointDouble D)) (voronoi : VORONOI) (points : List Point)
    (hsrc : ∀ c, (cell voronoi c).source_index < points.length)
    (h : find_grid_from_points FIND_GRID_SCALE bins points_out voronoi points = some (true, out1)) :
    ∃ (sequence_candidates : v_CS D) (appended : List (PointDouble D)),
      find_grid_candidates FIND_GRID_SCALE bins voronoi points = some (true, sequence_candidates) ∧
      (horizontal_sequences sequence_candidates).length = Nwant ∧
      out1 = points_out ++ appended ∧
      ∀ q ∈ appended, ∃ cs ∈ horizontal_sequences sequence_candidates, ∃ t,
        sequence_cells FIND_GRID_SCALE voronoi points cs = some t ∧
        ∃ k ∈ t, points[(cell voronoi k).source_index]? = some (cell_point voronoi points k) ∧
          cell_point voronoi points k ∈ points ∧
          q = ⟨toDouble (cell_point voronoi points k).x / toDouble FIND_GRID_SCALE,
               toDouble (cell_point voronoi points k).y / toDouble FIND_GRID_SCALE⟩ := by
  obtain ⟨sc, rows, hc, hH, _, hrows, hout⟩ :=
    find_grid_from_points_rows FIND_GRID_SCALE bins points_out out1 voronoi points h
  refine ⟨sc, _, hc, hH, hout, ?_⟩
  intro q hq
  simp only [List.mem_map] at hq
  obtain ⟨k, hk, rfl⟩ := hq
  obtain ⟨cs, hcs, t, ht, hkt⟩ := mem_rows_flatten FIND_GRID_SCALE voronoi points _ rows hrows k hk
  refine ⟨cs, hcs, t, ht, k, hkt, ?_, ?_, rfl⟩
  · simp [cell_point, List.getD_eq_getElem?_getD, List.getElem?_eq_getElem (hsrc k)]
  · simp only [cell_point, List.getD_eq_getElem?_getD, List.getElem?_eq_getElem (hsrc k),
      Option.getD_some]
    exact List.getElem_mem _

theorem std_sort_insert_perm {α : Type} (comp : α → α → Bool) (a : α) (l : List α) :
    (std_sort_insert comp a l).Perm (a :: l) := by
  induction l with
  | nil => exact List.Perm.refl _
  | cons b rest ih =>
    unfold std_sort_insert
    by_cases h : comp a b = true
    · rw [if_pos h]
    · rw [if_neg h]
      exact (List.Perm.cons b ih).trans (List.Perm.swap a b rest)

theorem std_sort_perm {α : Type} (comp : α → α → Bool) (l : List α) :
    (std_sort comp l).Perm l := by
  induction l with
  | nil => exact List.Perm.refl _
  | cons a rest ih =>
    unfold std_sort
    exact (std_sort_insert_perm comp a _).trans (List.Perm.cons a ih)

/-- Inserting into a list in which no element is greater than a later one gives such
a list, for a comparison that is asymmetric and transitive. -/
theorem std_sort_insert_pairwise {α : Type} (comp : α → α → Bool)
    (hasymm : ∀ a b, comp a b = true → comp b a = false)
    (htrans : ∀ a b c, comp a b = true → comp b c = true → comp a c = true)
    (a : α) (l : List α) (hl : l.Pairwise fun x y => comp y x = false) :
    (std_sort_insert comp a l).Pairwise fun x y => comp y x = false := by
  induction l with
  | nil => simp [std_sort_insert]
  | cons b rest ih =>
    unfold std_sort_insert
    rw [List.pairwise_cons] at hl
    by_cases h : comp a b = true
    · rw [if_pos h]
      refine List.Pairwise.cons ?_ (List.Pairwise.cons hl.1 hl.2)
      intro c hc
      rcases List.mem_cons.mp hc with rfl | hc
      · exact hasymm _ _ h
      · cases hca : comp c a with
        | false => rfl
        | true => exact absurd (hl.1 c hc) (by simp [htrans c a b hca h])
    · rw [if_neg h]
      refine List.Pairwise.cons ?_ (ih hl.2)
      intro c hc
      rcases List.mem_cons.mp ((std_sort_insert_perm comp a rest).subset hc) with rfl | hc
      · simpa using h
      · exact hl.1 c hc

theorem std_sort_pairwise {α : Type} (comp : α → α → Bool)
    (hasymm : ∀ a b, comp a b = true → comp b a = false)
    (htrans : ∀ a b c, comp a b = true → comp b c = true → comp a c = true)
    (l : List α) : (std_sort comp l).Pairwise fun x y => comp y x = false := by
  induction l with
  | nil => simp [std_sort]
  | cons a rest ih =>
    unfold std_sort
    exact std_sort_insert_pairwise comp hasymm htrans a _ ih

/-- The comparison of `sort_candidates` on the tags and the coordinates compared. -/
theorem sequence_comparator_eq (voronoi : VORONOI) (points : List Point)
    (a b : CandidateSequence D) :
    sequence_comparator voronoi points a b =
      if (a.type : Int) ≠ b.type then
        if (a.type : Int) = 1 then true
        else if (b.type : Int) = 1 then false
        else if (a.type : Int) = 2 then true
        else if (b.type : Int) = 2 then false
        else decide ((a.type : Int) < b.type)
      else if (a.type : Int) = 1 then
        decide ((cell_point voronoi points a.c0).y < (cell_point voronoi points b.c0).y)
      else decide ((cell_point voronoi points a.c0).x < (cell_point voronoi points b.c0).x) := rfl

theorem sequence_comparator_asymm (voronoi : VORONOI) (points : List Point)
    (a b : CandidateSequence D) (h : sequence_comparator voronoi points a b = true) :
    sequence_comparator voronoi points b a = false := by
  have key : ∀ ta tb ax ay bx b_y : Int,
      (if ta ≠ tb then
        if ta = 1 then true else if tb = 1 then false else if ta = 2 then true
        else if tb = 2 then false else decide (ta < tb)
      else if ta = 1 then decide (ay < b_y) else decide (ax < bx)) = true →
      (if tb ≠ ta then
        if tb = 1 then true else if ta = 1 then false else if tb = 2 then true
        else if ta = 2 then false else decide (tb < ta)
      else if tb = 1 then decide (b_y < ay) else decide (bx < ax)) = false := by
    intro ta tb ax ay bx b_y h
    split_ifs at h ⊢ <;> simp only [decide_eq_true_eq, decide_eq_false_iff_not] at h ⊢ <;> omega
  rw [sequence_comparator_eq] at h ⊢
  exact key _ _ _ _ _ _ h

theorem sequence_comparator_trans (voronoi : VORONOI) (points : List Point)
    (a b c : CandidateSequence D) (h1 : sequence_comparator voronoi points a b = true)
    (h2 : sequence_comparator voronoi points b c = true) :
    sequence_comparator voronoi points a c = true := by
  have key : ∀ ta tb tc ax ay bx b_y cx cy : Int,
      (if ta ≠ tb then
        if ta = 1 then true else if tb = 1 then false else if ta = 2 then true
        else if tb = 2 then false else decide (ta < tb)
      else if ta = 1 then decide (ay < b_y) else decide (ax < bx)) = true →
      (if tb ≠ tc then
        if tb = 1 then true else if tc = 1 then false else if tb = 2 then true
        else if tc = 2 then false else decide (tb < tc)
      else if tb = 1 then decide (b_y < cy) else decide (bx < cx)) = true →
      (if ta ≠ tc then
        if ta = 1 then true else if tc = 1 then false else if ta = 2 then true
        else if tc = 2 then false else decide (ta < tc)
      else if ta = 1 then decide (ay < cy) else decide (ax < cx)) = true := by
    intro ta tb tc ax ay bx b_y cx cy h1 h2
    split_ifs at h1 h2 ⊢ <;>
      simp only [decide_eq_true_eq, decide_eq_false_iff_not] at h1 h2 ⊢ <;> omega
  rw [sequence_comparator_eq] at h1 h2 ⊢
  exact key _ _ _ _ _ _ _ _ _ h1 h2

/-- C7: `sort_candidates` returns a permutation of the candidate list in which every
candidate tagged `HORIZONTAL` comes before every one tagged `VERTICAL` and these before
every other, the `HORIZONTAL` ones in non-decreasing order of the `y` of their start
point and the `VERTICAL` ones in non-decreasing order of the `x` of theirs. -/
theorem sort_candidates_sorted (sequence_candidates : v_CS D) (voronoi : VORONOI)
    (points : List Point) :
    (sort_candidates sequence_candidates voronoi points).Perm sequence_candidates ∧
    (sort_candidates sequence_candidates voronoi points).Pairwise (fun a b =>
      (b.type = HORIZONTAL → a.type = HORIZONTAL) ∧
      (b.type = VERTICAL → a.type = HORIZONTAL ∨ a.type = VERTICAL) ∧
      (a.type = HORIZONTAL → b.type = HORIZONTAL →
        (cell_point voronoi points a.c0).y ≤ (cell_point voronoi points b.c0).y) ∧
      (a.type = VERTICAL → b.type = VERTICAL →
        (cell_point voronoi points a.c0).x ≤ (cell_point voronoi points b.c0).x)) := by
  have key : ∀ ta tb ax ay bx b_y : Int,
      (if tb ≠ ta then
        if tb = 1 then true else if ta = 1 then false else if tb = 2 then true
        else if ta = 2 then false else decide (tb < ta)
      else if tb = 1 then decide (b_y < ay) else decide (bx < ax)) = false →
      (tb = 1 → ta = 1) ∧ (tb = 2 → ta = 1 ∨ ta = 2) ∧
      (ta = 1 → tb = 1 → ay ≤ b_y) ∧ (ta = 2 → tb = 2 → ax ≤ bx) := by
    intro ta tb ax ay bx b_y h
    split_ifs at h <;> simp only [decide_eq_true_eq, decide_eq_false_iff_not] at h <;> omega
  refine ⟨std_sort_perm _ _, ?_⟩
  refine (std_sort_pairwise (sequence_comparator voronoi points)
    (sequence_comparator_asymm voronoi points) (sequence_comparator_trans voronoi points)
    sequence_candidates).imp ?_
  intro a b h
  rw [sequence_comparator_eq] at h
  exact key _ _ _ _ _ _ h

/-- Where a list starts with `n` elements that satisfy `p`, the filter keeps them in
place. -/
theorem filter_getElem?_of_prefix {α : Type} (p : α → Bool) :
    ∀ (l : List α) (n : Nat), (∀ j < n, ∃ a, l[j]? = some a ∧ p a = true) →
      ∀ j < n, (l.filter p)[j]? = l[j]? := by
  intro l
  induction l with
  | nil =>
    intro n h j hj
    obtain ⟨a, ha, _⟩ := h j hj
    simp at ha
  | cons a rest ih =>
    intro n h j hj
    have hpa : p a = true := by
      obtain ⟨b, hb, hpb⟩ := h 0 (by omega)
      simp only [List.getElem?_cons_zero, Option.some.injEq] at hb
      rw [hb]; exact hpb
    rw [List.filter_cons_of_pos hpa]
    cases j with
    | zero => simp
    | succ j =>
      simp only [List.getElem?_cons_succ]
      refine ih (n - 1) (fun i hi => ?_) j (by omega)
      obtain ⟨b, hb, hpb⟩ := h (i + 1) (by omega)
      exact ⟨b, by simpa using hb, hpb⟩

/-- The elements from the first one that satisfies `p` on, as long as they satisfy `p`,
are the first elements of the filter. -/
theorem filter_getElem?_of_findIdx? {α : Type} (p : α → Bool) :
    ∀ (l : List α) (k n : Nat), l.findIdx? p = some k →
      (∀ j < n, ∃ a, l[k + j]? = some a ∧ p a = true) →
      ∀ j < n, (l.filter p)[j]? = l[k + j]? := by
  intro l
  induction l with
  | nil => intro k n hk; simp at hk
  | cons a rest ih =>
    intro k n hk h j hj
    rw [List.findIdx?_cons] at hk
    by_cases hpa : p a = true
    · rw [if_pos hpa] at hk
      simp only [Option.some.injEq] at hk
      subst hk
      simp only [Nat.zero_add] at h ⊢
      exact filter_getElem?_of_prefix p _ n h j hj
    · rw [if_neg hpa, List.findIdx?_succ] at hk
      simp only [Option.map_eq_some'] at hk
      obtain ⟨k1, hk1, rfl⟩ := hk
      rw [List.filter_cons_of_neg hpa]
      have e : ∀ i, (a :: rest)[k1 + 1 + i]? = rest[k1 + i]? := by
        intro i
        rw [show k1 + 1 + i = (k1 + i) + 1 by omega, List.getElem?_cons_succ]
      rw [e]
      refine ih k1 n hk1 (fun i hi => ?_) j hj
      obtain ⟨b, hb, hpb⟩ := h i hi
      exact ⟨b, by rw [← e]; exact hb, hpb⟩

theorem get_first_eq (sequence_candidates : v_CS D) (orientation : ClassificationType) :
    get_first sequence_candidates orientation =
      sequence_candidates.findIdx? (fun cs => cs.type == orientation) := by
  unfold get_first
  cases sequence_candidates.findIdx? (fun cs => cs.type == orientation) <;> rfl

/-- A loop of `filter_bounds` that runs to the end and says true has found, at each
position it looked at, a candidate of the other orientation that starts at the point
`cs_ref_points` has there. -/
theorem filter_bounds_loop_true (voronoi : VORONOI) (sequence_candidates : v_CS D)
    (orientation_other : ClassificationType) (cs_ref_points : List Nat) :
    ∀ n i cs_others : Nat, i + n = Nwant →
      filter_bounds_loop voronoi sequence_candidates orientation_other cs_ref_points
        n i cs_others = some true →
      ∀ j < n, ∃ cs, sequence_candidates[cs_others + j]? = some cs ∧
        cs.type = orientation_other ∧
        cs_ref_points.getD (i + j) 0 = (cell voronoi cs.c0).source_index := by
  intro n
  induction n with
  | zero => intro i k _ _ j hj; omega
  | succ n ih =>
    intro i k hin h j hj
    unfold filter_bounds_loop at h
    rcases hk : sequence_candidates[k]? with _ | cs
    · rw [hk] at h; simp at h
    · rw [hk] at h
      simp only at h
      by_cases ht : cs.type ≠ orientation_other
      · rw [if_pos ht] at h
        simp only [Option.some.injEq, decide_eq_true_eq] at h
        omega
      · rw [if_neg ht] at h
        by_cases hp : cs_ref_points.getD i 0 ≠ (cell voronoi cs.c0).source_index
        · rw [if_pos hp] at h; simp at h
        · rw [if_neg hp] at h
          cases j with
          | zero => exact ⟨cs, hk, not_not.mp ht, not_not.mp hp⟩
          | succ j =>
            obtain ⟨cs1, h1, h2, h3⟩ := ih (i + 1) (k + 1) (by omega) h j (by omega)
            refine ⟨cs1, ?_, h2, ?_⟩
            · rw [← h1]; congr 1; omega
            · rw [← h3]; congr 1; omega

/-- What a call of `filter_bounds` that says true has checked: the sequence of the first
candidate of `orientation` passes, with its `i`-th cell, through the site at which the
`i`-th candidate of the other orientation starts, for `i < Nwant`. -/
theorem filter_bounds_true (sequence_candidates : v_CS D)
    (orientation orientation_other : ClassificationType) (voronoi : VORONOI)
    (points : List Point)
    (ho : orientation_other = if orientation = HORIZONTAL then VERTICAL else HORIZONTAL)
    (h : filter_bounds FIND_GRID_SCALE sequence_candidates orientation voronoi points =
      some true) :
    ∃ (ref : CandidateSequence D) (t : List Nat),
      (sequence_candidates.filter fun cs => cs.type == orientation)[0]? = some ref ∧
      sequence_cells FIND_GRID_SCALE voronoi points ref = some t ∧
      ∀ i < Nwant, ∃ (cs : CandidateSequence D) (k : Nat),
        (sequence_candidates.filter fun cs => cs.type == orientation_other)[i]? = some cs ∧
        t[i]? = some k ∧
        (cell voronoi k).source_index = (cell voronoi cs.c0).source_index := by
  unfold filter_bounds at h
  simp only [get_first_eq, ← ho] at h
  rcases h1 : sequence_candidates.findIdx? (fun cs => cs.type == orientation) with _ | r
  · rw [h1] at h; simp at h
  rcases h2 : sequence_candidates.findIdx? (fun cs => cs.type == orientation_other) with _ | k
  · rw [h1, h2] at h; simp at h
  rw [h1, h2] at h
  simp only at h
  rcases h3 : sequence_candidates[r]? with _ | ref
  · rw [h3] at h; simp at h
  rw [h3] at h
  simp only [get_candidate_points_eq] at h
  rcases h4 : sequence_cells FIND_GRID_SCALE voronoi points ref with _ | t
  · rw [h4] at h; simp at h
  rw [h4] at h
  simp only [Option.map_some'] at h
  have hlen := sequence_cells_length FIND_GRID_SCALE voronoi points ref t h4
  have hloop := filter_bounds_loop_true voronoi sequence_candidates orientation_other _
    Nwant 0 k (by omega) h
  have hpref : ref.type == orientation := by
    obtain ⟨hr, hp, _⟩ := List.findIdx?_eq_some_iff_getElem.mp h1
    rw [List.getElem?_eq_getElem hr] at h3
    simp only [Option.some.injEq] at h3
    rw [← h3]; exact hp
  refine ⟨ref, t, ?_, h4, ?_⟩
  · have := filter_getElem?_of_findIdx? (fun cs : CandidateSequence D => cs.type == orientation)
      sequence_candidates r 1 h1
      (fun j hj => ⟨ref, by rw [show r + j = r by omega]; exact h3, hpref⟩) 0 (by omega)
    rw [this]; exact h3
  · intro i hi
    obtain ⟨cs, hcs, _, hsrc⟩ := hloop i hi
    have hfil := filter_getElem?_of_findIdx?
      (fun cs : CandidateSequence D => cs.type == orientation_other)
      sequence_candidates k Nwant h2
      (fun j hj => by
        obtain ⟨cs1, h5, h6, _⟩ := hloop j hj
        exact ⟨cs1, h5, by simp [h6]⟩) i hi
    have hit : i < t.length := by omega
    refine ⟨cs, t[i], by rw [hfil]; exact hcs, List.getElem?_eq_getElem hit, ?_⟩
    rw [← hsrc]
    simp [List.getD_eq_getElem?_getD, List.getElem?_eq_getElem, hit]

/-- C5: when `find_grid_from_points` returns true the two families agree on the border
of the grid: for `i < Nwant`, the `i`-th point of the sequence of the first candidate
tagged `HORIZONTAL` in the sorted list is the point at which the `i`-th candidate
tagged `VERTICAL` starts, and the `i`-th point of the sequence of the first `VERTICAL`
candidate is the point at which the `i`-th `HORIZONTAL` candidate starts. -/
theorem find_grid_from_points_border (bins : Bins D)
    (points_out out1 : List (PointDouble D)) (voronoi : VORONOI) (points : List Point)
    (h : find_grid_from_points FIND_GRID_SCALE bins points_out voronoi points = some (true, out1)) :
    ∃ (unsorted : v_CS D) (first_horizontal first_vertical : CandidateSequence D)
      (row column : List Nat),
      find_grid_candidates FIND_GRID_SCALE bins voronoi points =
        some (true, sort_candidates unsorted voronoi points) ∧
      (horizontal_sequences (sort_candidates unsorted voronoi points))[0]? =
        some first_horizontal ∧
      (vertical_sequences (sort_candidates unsorted voronoi points))[0]? =
        some first_vertical ∧
      sequence_cells FIND_GRID_SCALE voronoi points first_horizontal = some row ∧
      sequence_cells FIND_GRID_SCALE voronoi points first_vertical = some column ∧
      ∀ i < Nwant,
        (∃ (cs : CandidateSequence D) (k : Nat),
          (vertical_sequences (sort_candidates unsorted voronoi points))[i]? = some cs ∧
          row[i]? = some k ∧
          (cell voronoi k).source_index = (cell voronoi cs.c0).source_index) ∧
        (∃ (cs : CandidateSequence D) (k : Nat),
          (horizontal_sequences (sort_candidates unsorted voronoi points))[i]? = some cs ∧
          column[i]? = some k ∧
          (cell voronoi k).source_index = (cell voronoi cs.c0).source_index) := by
  obtain ⟨sc, hc, hbH, hbV, _, _⟩ :=
    find_grid_from_points_true FIND_GRID_SCALE bins points_out out1 voronoi points h
  obtain ⟨unsorted, rfl⟩ := find_grid_candidates_sorted FIND_GRID_SCALE bins voronoi points sc hc
  obtain ⟨h0, row, hh0, hrow, hH⟩ := filter_bounds_true FIND_GRID_SCALE _ HORIZONTAL VERTICAL
    voronoi points (by simp) hbH
  obtain ⟨v0, column, hv0, hcol, hV⟩ := filter_bounds_true FIND_GRID_SCALE _ VERTICAL HORIZONTAL
    voronoi points (by simp) hbV
  exact ⟨unsorted, h0, v0, row, column, hc, hh0, hv0, hrow, hcol,
    fun i hi => ⟨hH i hi, hV i hi⟩⟩

/-- The bookkeeping of the loop of `gather_unclassified`: the list keeps its length, the
candidates left unclassified are the ones counted by `Nremaining`, every candidate that
was unclassified is counted or in the bin, and the first one met goes into an empty
bin. -/
theorem gather_unclassified_loop_counts (bin_index : Int) :
    ∀ (l : v_CS D) (Nremaining : Int) (bin : ClassificationBin D),
      (gather_unclassified_loop FIND_GRID_SCALE bin_index l Nremaining bin).2.2.length =
        l.length ∧
      (((gather_unclassified_loop FIND_GRID_SCALE bin_index l Nremaining bin).2.2.countP
          fun cs => cs.type == UNCLASSIFIED : Nat) : Int) + Nremaining + l.length ≥
        (gather_unclassified_loop FIND_GRID_SCALE bin_index l Nremaining bin).1 + l.length ∧
      (bin_index ≥ 0 →
        (((gather_unclassified_loop FIND_GRID_SCALE bin_index l Nremaining bin).2.2.countP
          fun cs => cs.type == UNCLASSIFIED : Nat) : Int) =
        (gather_unclassified_loop FIND_GRID_SCALE bin_index l Nremaining bin).1 - Nremaining) ∧
      (gather_unclassified_loop FIND_GRID_SCALE bin_index l Nremaining bin).2.1.N +
        (gather_unclassified_loop FIND_GRID_SCALE bin_index l Nremaining bin).1 =
        bin.N + Nremaining + ((l.countP fun cs => cs.type == UNCLASSIFIED : Nat) : Int) ∧
      bin.N ≤ (gather_unclassified_loop FIND_GRID_SCALE bin_index l Nremaining bin).2.1.N ∧
      (bin.N = 0 → 1 ≤ l.countP (fun cs => cs.type == UNCLASSIFIED) →
        1 ≤ (gather_unclassified_loop FIND_GRID_SCALE bin_index l Nremaining bin).2.1.N) := by
  intro l
  induction l with
  | nil => intro N bin; simp [gather_unclassified_loop]
  | cons cs rest ih =>
    intro N bin
    unfold gather_unclassified_loop
    by_cases h0 : cs.type ≠ UNCLASSIFIED
    · rw [if_pos h0]
      obtain ⟨i1, i2, i3, i4, i5, i6⟩ := ih N bin
      have hb : (cs.type == UNCLASSIFIED) = false := by simpa using h0
      simp only [List.length_cons, List.countP_cons, hb, Bool.false_eq_true, if_false,
        Nat.add_zero]
      refine ⟨by omega, by omega, i3, i4, i5, i6⟩
    · rw [if_neg h0]
      have hb : (cs.type == UNCLASSIFIED) = true := by simpa using h0
      by_cases hf : fits_in_bin cs bin (THRESHOLD_BINFIT_LENGTH FIND_GRID_SCALE)
          THRESHOLD_BINFIT_ANGLE = true
      · rw [if_pos hf]
        obtain ⟨i1, i2, i3, i4, i5, i6⟩ := ih N (push_to_bin cs bin bin_index).2
        have hN : (push_to_bin cs bin bin_index).2.N = bin.N + 1 := rfl
        have ht : (push_to_bin cs bin bin_index).1.type = -bin_index - 1 := rfl
        simp only [List.length_cons, List.countP_cons, hb, if_true, ht, hN] at i4 i5 ⊢
        refine ⟨by omega, ?_, ?_, by push_cast; omega, by omega, fun _ _ => by omega⟩
        · split_ifs <;> push_cast <;> omega
        · intro hi
          have : ((-bin_index - 1 : Int) == UNCLASSIFIED) = false := by
            simp only [UNCLASSIFIED, beq_eq_false_iff_ne, ne_eq]; omega
          rw [this]
          simpa using i3 hi
      · rw [if_neg hf]
        obtain ⟨i1, i2, i3, i4, i5, i6⟩ := ih (N + 1) bin
        simp only [List.length_cons, List.countP_cons, hb, if_true] at i4 ⊢
        refine ⟨by omega, by push_cast; omega, fun hi => by push_cast; have := i3 hi; omega,
          by push_cast; omega, i5, fun hz _ => ?_⟩
        exfalso
        apply hf
        unfold fits_in_bin
        rw [if_pos hz]

/-- Marking the outliers of a bin leaves the unclassified candidates alone. -/
theorem mark_outliers_countP (l : v_CS D) (bin_index : Nat) :
    (mark_outliers l (bin_index : Int)).countP (fun cs => cs.type == UNCLASSIFIED) =
      l.countP (fun cs => cs.type == UNCLASSIFIED) := by
  unfold mark_outliers
  rw [List.countP_map]
  apply List.countP_congr
  intro cs _
  have hneg : ¬ ((bin_index : Int) < 0) := by omega
  by_cases h0 : cs.type = UNCLASSIFIED
  · have : ¬ (UNCLASSIFIED = -(bin_index : Int) - 1) := by
      show ¬ ((0 : Int) = -(bin_index : Int) - 1)
      omega
    simp [h0, hneg, this]
  · simp only [Function.comp, beq_iff_eq]
    split_ifs with h1
    · simp [h0, OUTLIER, UNCLASSIFIED]
    · rfl

theorem mark_outliers_length (l : v_CS D) (bin_index : Int) :
    (mark_outliers l bin_index).length = l.length := by
  simp [mark_outliers]

/-- With fewer than `2 * Nwant` candidates no bin is accepted, and the loop of
`cluster_sequence_candidates` ends with `return false` within as many rounds as there
are unclassified candidates, plus one. -/
theorem cluster_loop_few (fuel : Nat) :
    ∀ (bins : Bins D) (bin_index : Nat) (l : v_CS D),
      l.countP (fun cs => cs.type == UNCLASSIFIED) < fuel → l.length < 2 * Nwant →
      ∃ b k l1, cluster_sequence_candidates_loop FIND_GRID_SCALE fuel bins bin_index l =
        some (false, b, k, l1) := by
  induction fuel with
  | zero => intro bins i l h; omega
  | succ fuel ih =>
    intro bins i l hu hlen
    obtain ⟨i1, i2, i3, i4, i5, i6⟩ :=
      gather_unclassified_loop_counts FIND_GRID_SCALE (i : Int) l 0
        { delta_mean_sum := ⟨DoubleArith.ofRat 0, DoubleArith.ofRat 0⟩, N := 0 }
    have i3 := i3 (by omega)
    simp only at i4 i5 i6
    have hc : l.countP (fun cs => cs.type == UNCLASSIFIED) ≤ l.length := List.countP_le_length _
    unfold cluster_sequence_candidates_loop
    simp only [gather_unclassified]
    have hN : (gather_unclassified_loop FIND_GRID_SCALE (i : Int) l 0
        { delta_mean_sum := ⟨DoubleArith.ofRat 0, DoubleArith.ofRat 0⟩, N := 0 }).2.1.N <
        (Nwant : Int) * 2 := by
      simp only [Nwant] at hlen ⊢
      omega
    rw [if_pos hN]
    split_ifs with hz
    · exact ⟨_, _, _, rfl⟩
    · apply ih
      · rw [mark_outliers_countP]
        have := i6 trivial (by omega)
        omega
      · rw [mark_outliers_length, i1]; exact hlen

theorem cluster_sequence_candidates_few (bins : Bins D) (l : v_CS D)
    (h : l.length < 2 * Nwant) :
    ∃ l1, cluster_sequence_candidates FIND_GRID_SCALE bins l = some (false, l1) := by
  obtain ⟨b, k, l1, hl⟩ := cluster_loop_few FIND_GRID_SCALE (l.length + 3) bins 0 l
    (by have := List.countP_le_length (fun cs : CandidateSequence D => cs.type == UNCLASSIFIED)
          (l := l); omega) h
  exact ⟨l1, by unfold cluster_sequence_candidates; rw [hl]⟩

/-- C9: when the diagram gives fewer than `2 * Nwant` sequence candidates (none, for
an empty diagram), `cluster_sequence_candidates` returns false and so does
`find_grid_from_points`, which leaves `points_out` as it was; both return, no run ends
without a result. -/
theorem find_grid_from_points_few_candidates (bins : Bins D)
    (points_out : List (PointDouble D)) (voronoi : VORONOI) (points : List Point)
    (h : (get_sequence_candidates FIND_GRID_SCALE ([] : v_CS D) voronoi points).length <
      2 * Nwant) :
    (∃ l1, cluster_sequence_candidates FIND_GRID_SCALE bins
      (get_sequence_candidates FIND_GRID_SCALE [] voronoi points) = some (false, l1)) ∧
    find_grid_from_points FIND_GRID_SCALE bins points_out voronoi points =
      some (false, points_out) := by
  obtain ⟨l1, hl⟩ := cluster_sequence_candidates_few FIND_GRID_SCALE bins _ h
  refine ⟨⟨l1, hl⟩, ?_⟩
  unfold find_grid_from_points find_grid_candidates
  simp only [hl]

theorem find_grid_from_points_few_candidates_witness :
    (get_sequence_candidates 16 ([] : v_CS ExactDouble) empty_voronoi []).length < 2 * Nwant ∧
    ((∃ l1, cluster_sequence_candidates 16 zero_bins
      (get_sequence_candidates 16 [] empty_voronoi []) = some (false, l1)) ∧
    find_grid_from_points 16 zero_bins [⟨⟨7⟩, ⟨7⟩⟩] empty_voronoi [] =
      some (false, [⟨⟨7⟩, ⟨7⟩⟩])) :=
  ⟨by decide, find_grid_from_points_few_candidates 16 zero_bins [⟨⟨7⟩, ⟨7⟩⟩] empty_voronoi []
    (by decide)⟩

theorem find_grid_from_points_false_unchanged_witness :
    find_grid_from_points 16 zero_bins [⟨⟨7⟩, ⟨7⟩⟩] two_points_voronoi two_points =
      some (false, [⟨⟨7⟩, ⟨7⟩⟩]) ∧ ([⟨⟨7⟩, ⟨7⟩⟩] : List (PointDouble ExactDouble)) = [⟨⟨7⟩, ⟨7⟩⟩] :=
  ⟨by decide!, find_grid_from_points_false_unchanged 16 zero_bins [⟨⟨7⟩, ⟨7⟩⟩] [⟨⟨7⟩, ⟨7⟩⟩]
    two_points_voronoi two_points (by decide!)⟩

/-! ### Exact arithmetic on the steps of the lattice -/

theorem exact_add (a b : ExactDouble) : a + b = ⟨a.val + b.val⟩ := rfl
theorem exact_sub (a b : ExactDouble) : a - b = ⟨a.val - b.val⟩ := rfl
theorem exact_mul (a b : ExactDouble) : a * b = ⟨a.val * b.val⟩ := rfl
theorem exact_div (a b : ExactDouble) : a / b = ⟨a.val / b.val⟩ := rfl
theorem exact_neg (a : ExactDouble) : -a = ⟨-a.val⟩ := rfl
theorem exact_ofRat (q : ℚ) : (DoubleArith.ofRat q : ExactDouble) = ⟨q⟩ := rfl
theorem exact_toDouble (i : Int) : (toDouble i : ExactDouble) = ⟨(i : ℚ)⟩ := rfl
theorem exact_dlt (a b : ExactDouble) : dlt a b = decide (a.val < b.val) := rfl
theorem exact_dgt (a b : ExactDouble) : dgt a b = decide (b.val < a.val) := rfl
theorem exact_dge (a b : ExactDouble) : dge a b = decide (b.val ≤ a.val) := rfl
theorem exact_hypot_eq (a b : ExactDouble) :
    DoubleArith.hypot a b = (⟨exact_hypot a.val b.val⟩ : ExactDouble) := rfl
theorem exact_atan2_eq (a b : ExactDouble) :
    DoubleArith.atan2 a b = (⟨exact_atan2 a.val b.val⟩ : ExactDouble) := rfl
theorem exact_remainder_eq (a b : ExactDouble) :
    DoubleArith.remainder a b = (⟨exact_remainder a.val b.val⟩ : ExactDouble) := rfl

/-- The length of a step of the lattice is the spacing. -/
theorem exact_hypot_step (s : ℚ) (hs : 0 < s) (d : Direction) :
    exact_hypot (s * (d.dx : ℚ)) (s * (d.dy : ℚ)) = s := by
  have h1 : |s| = s := abs_of_pos hs
  cases d <;> simp [exact_hypot, Direction.dx, Direction.dy, h1, le_of_lt hs]

/-! ### The lattice: geometry -/

theorem lattice_cell (c : Nat) (hc : c < 100) :
    cell lattice_voronoi c =
      { source_index := c
        adjacent := (all_directions.filter fun d => decide (0 < d.steps c)).map
          fun d => d.next c } := by
  simp only [cell, lattice_voronoi, if_pos hc, all_directions, Direction.steps, Direction.next]
  congr 1
  by_cases h1 : c % 10 < 9 <;> by_cases h2 : c / 10 < 9 <;> by_cases h3 : 0 < c % 10 <;>
    by_cases h4 : 0 < c / 10 <;>
    simp [List.filter_cons, h1, h2, h3, h4, Nat.sub_pos_iff_lt]

theorem lattice_cell_point (S : Int) (c : Nat) (hc : c < 100) :
    cell_point lattice_voronoi (lattice_points S) c =
      ⟨((c % 10 : Nat) : Int) * S, ((c / 10 : Nat) : Int) * S⟩ := by
  simp [cell_point, cell, lattice_voronoi, if_pos hc, lattice_points, List.getD_eq_getElem?_getD,
    List.getElem?_range hc]

theorem Direction.next_lt (d : Direction) (c : Nat) (hc : c < 100) (h : 0 < d.steps c) :
    d.next c < 100 := by
  cases d <;> simp only [Direction.steps, Direction.next] at h ⊢ <;> omega

theorem Direction.steps_next (d : Direction) (c : Nat) (h : 0 < d.steps c) :
    d.steps (d.next c) = d.steps c - 1 := by
  cases d <;> simp only [Direction.steps, Direction.next] at h ⊢ <;> omega

/-- The step from a cell to its neighbour in a direction. -/
theorem lattice_delta (S : Int) (d : Direction) (c : Nat) (hc : c < 100) (h : 0 < d.steps c) :
    (⟨(cell_point lattice_voronoi (lattice_points S) (d.next c)).x -
        (cell_point lattice_voronoi (lattice_points S) c).x,
      (cell_point lattice_voronoi (lattice_points S) (d.next c)).y -
        (cell_point lattice_voronoi (lattice_points S) c).y⟩ : Point) =
      ⟨S * d.dx, S * d.dy⟩ := by
  rw [lattice_cell_point S _ (d.next_lt c hc h), lattice_cell_point S c hc]
  cases d <;> simp only [Direction.steps, Direction.next, Direction.dx, Direction.dy] at h ⊢
  · have e1 : (c + 1) % 10 = c % 10 + 1 := by omega
    have e2 : (c + 1) / 10 = c / 10 := by omega
    rw [e1, e2]; push_cast; congr 1 <;> ring
  · have e1 : (c + 10) % 10 = c % 10 := by omega
    have e2 : (c + 10) / 10 = c / 10 + 1 := by omega
    rw [e1, e2]; push_cast; congr 1 <;> ring
  · have e1 : ((c - 1) % 10 : Nat) + 1 = c % 10 := by omega
    have e2 : (c - 1) / 10 = c / 10 := by omega
    rw [e2, ← e1]; push_cast; congr 1 <;> ring
  · have e1 : (c - 10) % 10 = c % 10 := by omega
    have e2 : ((c - 10) / 10 : Nat) + 1 = c / 10 := by omega
    rw [e1, ← e2]; push_cast; congr 1 <;> ring

/-- The tests of `get_adjacent_cell_along_sequence` on the lattice: a neighbour is
accepted when the step to it has the direction of the trace. -/
theorem lattice_adjacent_cell_test (S : Int) (hS : 0 < S) (u v : Direction) (n : Nat) :
    adjacent_cell_test S (lattice_stats S u n) ⟨S * v.dx, S * v.dy⟩ =
      if u = v then some (lattice_stats S v (n + 1)) else none := by
  have hs : (0 : ℚ) < (S : ℚ) := by exact_mod_cast hS
  have hne : (S : ℚ) ≠ 0 := ne_of_gt hs
  have hu := exact_hypot_step (S : ℚ) hs u
  have hv := exact_hypot_step (S : ℚ) hs v
  have hdot : ((S : ℚ) * (u.dx : ℚ) * ((S : ℚ) * (v.dx : ℚ)) +
      (S : ℚ) * (u.dy : ℚ) * ((S : ℚ) * (v.dy : ℚ))) / ((S : ℚ) * (S : ℚ)) =
      (u.dx : ℚ) * (v.dx : ℚ) + (u.dy : ℚ) * (v.dy : ℚ) := by
    field_simp; ring
  have hA : ¬ ((0 : ℚ) < ((-(80 * S) : Int) : ℚ)) := by push_cast; linarith
  have hB : ¬ (((80 : Int) : ℚ) * (S : ℚ) < 0) := by push_cast; linarith
  unfold adjacent_cell_test
  simp only [lattice_stats, exact_hypot_eq, exact_toDouble, exact_mul, exact_add, exact_div,
    exact_sub, exact_dlt, exact_dgt, exact_neg, THRESHOLD_SPACING_COS, exact_ofRat,
    THRESHOLD_SPACING_LENGTH, THRESHOLD_SPACING_LENGTH_RATIO_MIN,
    THRESHOLD_SPACING_LENGTH_RATIO_MAX, THRESHOLD_SPACING_LENGTH_RATIO_DEVIATION,
    Int.cast_mul, hu, hv, div_self hne, sub_self, hdot, hA, hB]
  have hq : 2 < n → ((n : Nat) : ℚ) / ((n : Nat) : ℚ) = 1 := by
    intro hn
    have : ((n : Nat) : ℚ) ≠ 0 := by positivity
    exact div_self this
  by_cases hn : 2 < n
  · cases u <;> cases v <;> norm_num [Direction.dx, Direction.dy, hq hn, hn] <;> rfl
  · cases u <;> cases v <;> norm_num [Direction.dx, Direction.dy, hn] <;> rfl

/-! ### The lattice: traces -/

theorem lattice_stats_zero (S : Int) (d : Direction) :
    (fill_initial_hypothesis_statistics ⟨S * d.dx, S * d.dy⟩ : HypothesisStatistics ExactDouble) =
      lattice_stats S d 0 := by
  simp only [fill_initial_hypothesis_statistics, lattice_stats, exact_ofRat]
  norm_num

/-- The walk over the neighbours of `c` in the directions `ds`, for a trace in the
direction `u`: it stops at the neighbour in that direction, when there is one. -/
theorem lattice_scan (S : Int) (hS : 0 < S) (u : Direction) (n c : Nat) (hc : c < 100) :
    ∀ ds : List Direction,
      get_adjacent_cell_along_sequence_scan S lattice_voronoi (lattice_points S)
        (lattice_stats S u n) (cell_point lattice_voronoi (lattice_points S) c)
        ((ds.filter fun d => decide (0 < d.steps c)).map fun d => d.next c) =
      if u ∈ ds ∧ 0 < u.steps c then (some (u.next c), lattice_stats S u (n + 1))
      else (none, lattice_stats S u n) := by
  intro ds
  induction ds with
  | nil => simp [get_adjacent_cell_along_sequence_scan]
  | cons d rest ih =>
    by_cases hd : 0 < d.steps c
    · rw [List.filter_cons_of_pos (by simpa using hd), List.map_cons]
      unfold get_adjacent_cell_along_sequence_scan
      simp only
      rw [lattice_delta S d c hc hd, lattice_adjacent_cell_test S hS]
      by_cases hud : u = d
      · subst hud
        simp [hd]
      · rw [if_neg hud]
        simp only [ih, List.mem_cons, hud, false_or]
    · rw [List.filter_cons_of_neg (by simpa using hd), ih]
      by_cases hud : u = d
      · subst hud
        simp [hd]
      · simp only [List.mem_cons, hud, false_or]

/-- A step of a trace on the lattice: to the next cell in the direction of the trace,
as long as the border is not reached. -/
theorem lattice_get_adjacent_cell_along_sequence (S : Int) (hS : 0 < S) (u : Direction)
    (n c : Nat) (hc : c < 100) :
    get_adjacent_cell_along_sequence S lattice_voronoi (lattice_points S)
        (lattice_stats S u n) c =
      if 0 < u.steps c then (some (u.next c), lattice_stats S u (n + 1))
      else (none, lattice_stats S u n) := by
  unfold get_adjacent_cell_along_sequence
  rw [lattice_cell c hc]
  simp only
  rw [lattice_scan S hS u n c hc]
  have : u ∈ all_directions := by cases u <;> simp [all_directions]
  simp only [this, true_and]

theorem lattice_trace_cells (S : Int) (hS : 0 < S) (u : Direction) :
    ∀ k n c : Nat, c < 100 →
      trace_cells S lattice_voronoi (lattice_points S) k (lattice_stats S u n) c =
        if k ≤ u.steps c then some (u.walk c k) else none := by
  intro k
  induction k with
  | zero => intro n c _; simp [trace_cells, Direction.walk]
  | succ k ih =>
    intro n c hc
    unfold trace_cells
    rw [lattice_get_adjacent_cell_along_sequence S hS u n c hc]
    by_cases h : 0 < u.steps c
    · rw [if_pos h]
      simp only
      rw [ih _ _ (u.next_lt c hc h), u.steps_next c h]
      by_cases hk : k ≤ u.steps c - 1
      · rw [if_pos hk, if_pos (by omega)]
        simp [Direction.walk]
      · rw [if_neg hk, if_neg (by omega)]
        simp
    · rw [if_neg h, if_neg (by omega)]

theorem lattice_search_along_sequence_loop (S : Int) (hS : 0 < S) (u : Direction) :
    ∀ (k n c : Nat) (a b : ℚ), c < 100 →
      search_along_sequence_loop S lattice_voronoi (lattice_points S) k (lattice_stats S u n) c
          ⟨⟨a⟩, ⟨b⟩⟩ =
        if k ≤ u.steps c then
          some ⟨⟨a + (k : ℚ) * ((S * u.dx : Int) : ℚ)⟩, ⟨b + (k : ℚ) * ((S * u.dy : Int) : ℚ)⟩⟩
        else none := by
  intro k
  induction k with
  | zero => intro n c a b _; simp [search_along_sequence_loop]
  | succ k ih =>
    intro n c a b hc
    unfold search_along_sequence_loop
    rw [lattice_get_adjacent_cell_along_sequence S hS u n c hc]
    by_cases h : 0 < u.steps c
    · rw [if_pos h]
      simp only [exact_add, exact_toDouble, lattice_stats]
      have := ih (n + 1) (u.next c) (a + ((S * u.dx : Int) : ℚ)) (b + ((S * u.dy : Int) : ℚ))
        (u.next_lt c hc h)
      simp only [lattice_stats] at this
      rw [this, u.steps_next c h]
      by_cases hk : k ≤ u.steps c - 1
      · rw [if_pos hk, if_pos (by omega)]
        simp only [Option.some.injEq, PointDouble.mk.injEq, ExactDouble.mk.injEq]
        push_cast
        constructor <;> ring
      · rw [if_neg hk, if_neg (by omega)]
    · rw [if_neg h, if_neg (by omega)]

/-- The search from a neighbour in a direction succeeds when the border is at least
`k` steps away, and the mean step is the step of the lattice. -/
theorem lattice_search_along_sequence (S : Int) (hS : 0 < S) (u : Direction) (c k : Nat)
    (hc : c < 100) :
    search_along_sequence S lattice_voronoi (lattice_points S) ⟨S * u.dx, S * u.dy⟩ c k =
      if k ≤ u.steps c then
        some (⟨⟨((S * u.dx : Int) : ℚ)⟩, ⟨((S * u.dy : Int) : ℚ)⟩⟩ : PointDouble ExactDouble)
      else none := by
  unfold search_along_sequence
  rw [lattice_stats_zero, exact_toDouble, exact_toDouble,
    lattice_search_along_sequence_loop S hS u k 0 c _ _ hc]
  by_cases hk : k ≤ u.steps c
  · simp only [if_pos hk, exact_div, exact_toDouble]
    have h1 : (((k : Int) + 1 : Int) : ℚ) ≠ 0 := by
      have : (0 : Int) < (k : Int) + 1 := by omega
      exact_mod_cast ne_of_gt this
    simp only [Option.some.injEq, PointDouble.mk.injEq, ExactDouble.mk.injEq]
    constructor <;> (field_simp; ring)
  · simp only [if_neg hk]

/-! ### The lattice: sequence candidates -/

theorem Direction.steps_le (d : Direction) (c : Nat) (hc : c < 100) : d.steps c ≤ 9 := by
  cases d <;> simp only [Direction.steps] <;> omega

/-- The angle of a positive multiple of a step of the lattice. -/
theorem lattice_spacing_angle (s : ℚ) (hs : 0 < s) (d : Direction) :
    get_spacing_angle (⟨s * (d.dy : ℚ)⟩ : ExactDouble) ⟨s * (d.dx : ℚ)⟩ = ⟨d.angle⟩ := by
  have hne : s ≠ 0 := ne_of_gt hs
  have h1 : ¬ (s < 0) := not_lt.mpr (le_of_lt hs)
  cases d <;>
    simp only [get_spacing_angle, M_PI, exact_ofRat, exact_div, exact_mul, exact_add, exact_dlt,
      exact_atan2_eq, exact_atan2, exact_atan, Direction.dx, Direction.dy, Direction.angle,
      Int.cast_zero, Int.cast_one, Int.cast_neg, mul_zero, mul_one, mul_neg, zero_div,
      abs_zero, abs_neg, abs_nonneg, neg_eq_zero, neg_pos, neg_lt_zero, hne, hs, h1, if_true,
      if_false, le_refl, lt_irrefl, zero_add, ge_iff_le, gt_iff_lt, ExactDouble.mk.injEq] <;>
    norm_num

/-- The candidates `get_sequence_candidates` finds at the cell `c` of the lattice, for the
neighbours in the directions `ds`: one for each direction in which the border is
`Nwant - 1` steps away. -/
theorem lattice_get_sequence_candidates_cell (S : Int) (hS : 0 < S) (c : Nat) (hc : c < 100) :
    ∀ (ds : List Direction) (acc : v_CS ExactDouble),
      get_sequence_candidates_cell S lattice_voronoi (lattice_points S) c
        (cell_point lattice_voronoi (lattice_points S) c)
        ((ds.filter fun d => decide (0 < d.steps c)).map fun d => d.next c) acc =
      acc ++ ds.flatMap fun d =>
        if d.steps c = Nwant - 1 then [(⟨c, d, UNCLASSIFIED⟩ : LatticeSequence).candidate S]
        else [] := by
  have hs : (0 : ℚ) < (S : ℚ) := by exact_mod_cast hS
  intro ds
  induction ds with
  | nil => intro acc; simp [get_sequence_candidates_cell]
  | cons d rest ih =>
    intro acc
    have hle := d.steps_le c hc
    by_cases hd : 0 < d.steps c
    · rw [List.filter_cons_of_pos (by simpa using hd), List.map_cons]
      unfold get_sequence_candidates_cell
      simp only
      rw [lattice_delta S d c hc hd,
        lattice_search_along_sequence S hS d (d.next c) (Nwant - 2) (d.next_lt c hc hd),
        d.steps_next c hd]
      by_cases h9 : d.steps c = Nwant - 1
      · rw [if_pos (by simp only [Nwant] at h9 ⊢; omega)]
        simp only
        rw [ih, List.flatMap_cons, if_pos h9, List.append_assoc]
        congr 2
        simp only [LatticeSequence.candidate, Int.cast_mul, exact_hypot_eq,
          lattice_spacing_angle (S : ℚ) hs d, exact_hypot_step (S : ℚ) hs d]
      · rw [if_neg (by simp only [Nwant] at h9 ⊢; omega)]
        simp only
        rw [ih, List.flatMap_cons, if_neg h9, List.nil_append]
    · rw [List.filter_cons_of_neg (by simpa using hd), ih, List.flatMap_cons,
        if_neg (by simp only [Nwant]; omega), List.nil_append]

/-- The sequence candidates of the lattice: the rows and the columns, each in both
directions. -/
theorem lattice_get_sequence_candidates (S : Int) (hS : 0 < S) :
    get_sequence_candidates S [] lattice_voronoi (lattice_points S) =
      (lattice_sequences UNCLASSIFIED).map (LatticeSequence.candidate S) := by
  rw [get_sequence_candidates_eq, List.nil_append]
  have hsize : lattice_voronoi.size = 100 := rfl
  rw [hsize]
  unfold lattice_sequences
  rw [List.map_flatMap]
  apply List.flatMap_congr
  intro c hc
  have hc : c < 100 := List.mem_range.mp hc
  rw [lattice_cell c hc]
  simp only
  rw [lattice_get_sequence_candidates_cell S hS c hc, List.nil_append, List.map_flatMap]
  apply List.flatMap_congr
  intro d _
  split_ifs <;> rfl

/-! ### The lattice: clustering -/

/-- The angle test of `fits_in_bin` between two directions of the lattice. -/
theorem lattice_angle_test (d d0 : Direction) :
    decide ((40.0 : ℚ) * 40.0 <
      exact_remainder (d.angle - d0.angle + 10.0 * 180.0) 180.0 *
        exact_remainder (d.angle - d0.angle + 10.0 * 180.0) 180.0) =
      !decide (d.horizontal = d0.horizontal) := by
  cases d <;> cases d0 <;> decide!

theorem lattice_fits_in_bin (S : Int) (hS : 0 < S) (a : LatticeSequence) (d0 : Direction)
    (k : Nat) :
    fits_in_bin (a.candidate S) (lattice_bin S d0 k) (THRESHOLD_BINFIT_LENGTH S)
        THRESHOLD_BINFIT_ANGLE =
      decide (k = 0 ∨ a.direction.horizontal = d0.horizontal) := by
  have hs : (0 : ℚ) < (S : ℚ) := by exact_mod_cast hS
  unfold fits_in_bin
  by_cases hk : k = 0
  · subst hk; simp [lattice_bin]
  · have hkq : (k : ℚ) ≠ 0 := by exact_mod_cast hk
    have hN : ¬ ((lattice_bin S d0 k).N = 0) := by simp [lattice_bin, hk]
    rw [if_neg hN]
    simp only [lattice_bin, LatticeSequence.candidate, exact_div, exact_toDouble, exact_sub,
      exact_mul, exact_add, exact_dgt, exact_ofRat, exact_hypot_eq, exact_remainder_eq,
      THRESHOLD_BINFIT_LENGTH, THRESHOLD_BINFIT_ANGLE, Int.cast_natCast,
      mul_div_cancel_left₀ _ hkq, Int.cast_mul, lattice_spacing_angle (S : ℚ) hs d0,
      exact_hypot_step (S : ℚ) hs d0, sub_self, mul_zero]
    have h120 : ¬ ((120.0 : ℚ) * (S : ℚ) * (120.0 * (S : ℚ)) < 0) :=
      not_lt.mpr (mul_self_nonneg _)
    simp only [h120, decide_False, lattice_angle_test, hk, false_or]
    by_cases hh : a.direction.horizontal = d0.horizontal <;> simp [hh]

/-- Pushing a lattice candidate into a bin it fits in. -/
theorem lattice_push_to_bin (S : Int) (hS : 0 < S) (a : LatticeSequence) (d0 : Direction)
    (k : Nat) (bin_index : Int) (h : k = 0 ∨ a.direction.horizontal = d0.horizontal) :
    push_to_bin (a.candidate S) (lattice_bin S d0 k) bin_index =
      (({ a with type := -bin_index - 1 } : LatticeSequence).candidate S,
        lattice_bin S (if k = 0 then a.direction else d0) (k + 1)) := by
  have hs : (0 : ℚ) < (S : ℚ) := by exact_mod_cast hS
  have hss : (0 : ℚ) < (S : ℚ) * (S : ℚ) := mul_pos hs hs
  unfold push_to_bin
  simp only [lattice_bin, LatticeSequence.candidate, exact_mul, exact_add, exact_sub, exact_dge,
    exact_ofRat, Int.cast_mul]
  by_cases hk : k = 0
  · subst hk
    simp only [CharP.cast_eq_zero, zero_mul, zero_add, if_true, Nat.cast_one, one_mul,
      Nat.cast_zero, Int.cast_zero, Int.cast_one]
    norm_num
  · have hkq : (0 : ℚ) < (k : ℚ) := by
      have : 0 < k := Nat.pos_of_ne_zero hk
      exact_mod_cast this
    have hd := h.resolve_left hk
    simp only [hk, if_false]
    have hp : (0 : ℚ) < (k : ℚ) * ((S : ℚ) * (S : ℚ)) := mul_pos hkq hss
    obtain ⟨c0, d, t⟩ := a
    simp only at hd ⊢
    have hp1 : (0 : ℚ) < (k : ℚ) * (S : ℚ) * (S : ℚ) := by rw [mul_assoc]; exact hp
    cases d <;> cases d0 <;> simp only [Direction.horizontal] at hd <;>
      norm_num [Direction.dx, Direction.dy] <;>
      first
      | (rw [if_pos (le_of_lt hp1)]
         simp only [PointDouble.mk.injEq, ExactDouble.mk.injEq, and_true, true_and]
         ring)
      | (rw [if_neg (not_le.mpr hp1)]
         simp only [PointDouble.mk.injEq, ExactDouble.mk.injEq, and_true, true_and]
         ring)
      | cases hd

theorem lattice_bin_zero (S : Int) (d : Direction) :
    ({ delta_mean_sum := ⟨DoubleArith.ofRat 0, DoubleArith.ofRat 0⟩, N := 0 } :
      ClassificationBin ExactDouble) = lattice_bin S d 0 := by
  simp [lattice_bin, exact_ofRat]

/-- The loop of `gather_unclassified` on candidates of the lattice. -/
theorem lattice_gather_unclassified_loop (S : Int) (hS : 0 < S) (bin_index : Int) :
    ∀ (l : List LatticeSequence) (Nremaining : Int) (d0 : Direction) (k : Nat),
      gather_unclassified_loop S bin_index (l.map (LatticeSequence.candidate S)) Nremaining
          (lattice_bin S d0 k) =
        ((lattice_gather bin_index l Nremaining (d0, k)).1,
          lattice_bin S (lattice_gather bin_index l Nremaining (d0, k)).2.1.1
            (lattice_gather bin_index l Nremaining (d0, k)).2.1.2,
          (lattice_gather bin_index l Nremaining (d0, k)).2.2.map (LatticeSequence.candidate S)) := by
  intro l
  induction l with
  | nil => intro N d0 k; rfl
  | cons a rest ih =>
    intro N d0 k
    rw [List.map_cons]
    unfold gather_unclassified_loop lattice_gather
    have ht : (a.candidate S).type = a.type := rfl
    rw [ht]
    by_cases h0 : a.type ≠ UNCLASSIFIED
    · rw [if_pos h0, if_pos h0]
      simp only [ih, List.map_cons]
    · rw [if_neg h0, if_neg h0, lattice_fits_in_bin S hS]
      simp only [decide_eq_true_eq]
      by_cases hf : k = 0 ∨ a.direction.horizontal = d0.horizontal
      · rw [if_pos hf, if_pos hf, lattice_push_to_bin S hS a d0 k bin_index hf]
        simp only [ih, List.map_cons]
      · rw [if_neg hf, if_neg hf]
        simp only [ih, List.map_cons]

theorem lattice_gather_unclassified (S : Int) (hS : 0 < S) (bin_index : Int)
    (l : List LatticeSequence) :
    gather_unclassified S (l.map (LatticeSequence.candidate S)) bin_index =
      ((lattice_gather bin_index l 0 (Direction.right, 0)).1,
        lattice_bin S (lattice_gather bin_index l 0 (Direction.right, 0)).2.1.1
          (lattice_gather bin_index l 0 (Direction.right, 0)).2.1.2,
        (lattice_gather bin_index l 0 (Direction.right, 0)).2.2.map
          (LatticeSequence.candidate S)) := by
  unfold gather_unclassified
  rw [lattice_bin_zero S Direction.right, lattice_gather_unclassified_loop S hS]

theorem mark_outliers_eq (l : v_CS D) (bin_index : Int) :
    mark_outliers l bin_index =
      l.map fun cs => { cs with type := mark_outliers_type bin_index cs.type } := by
  unfold mark_outliers mark_outliers_type
  apply List.map_congr_left
  intro cs _
  split_ifs <;> rfl

theorem mark_orientation_eq (l : v_CS D) (types : ClassificationType × ClassificationType) :
    mark_orientation l types =
      l.map fun cs => { cs with type := mark_orientation_type types cs.type } := by
  unfold mark_orientation mark_orientation_type
  apply List.map_congr_left
  intro cs _
  split_ifs <;> rfl

/-- Giving new tags to the candidates of the lattice, by a function of the tag. -/
theorem lattice_tagged_retag (S : Int) (g : ClassificationType → ClassificationType)
    (th tv : ClassificationType) :
    (((lattice_tagged th tv).map (LatticeSequence.candidate S)).map
        fun cs => { cs with type := g cs.type }) =
      (lattice_tagged (g th) (g tv)).map (LatticeSequence.candidate S) := by
  unfold lattice_tagged
  simp only [List.map_map]
  apply List.map_congr_left
  intro a _
  simp only [Function.comp, LatticeSequence.candidate]
  split_ifs <;> rfl

/-- The orientation of a bin that holds candidates of the lattice. -/
theorem lattice_bin_orientation (S : Int) (hS : 0 < S) (bins : Bins ExactDouble) (i : Nat)
    (d : Direction) (k : Nat) (hk : 0 < k) (h : bins i = lattice_bin S d k) :
    bin_orientation bins i = if d.horizontal then HORIZONTAL else VERTICAL := by
  have hs : (0 : ℚ) < (k : ℚ) * (S : ℚ) := by
    have h1 : (0 : ℚ) < (S : ℚ) := by exact_mod_cast hS
    have h2 : (0 : ℚ) < (k : ℚ) := by exact_mod_cast hk
    exact mul_pos h2 h1
  unfold bin_orientation
  rw [h]
  simp only [lattice_bin, Int.cast_mul, ← mul_assoc, lattice_spacing_angle _ hs d, exact_dgt,
    exact_dlt, exact_toDouble]
  cases d <;> norm_num [Direction.angle, Direction.horizontal]

theorem lattice_sequences_eq_tagged :
    lattice_sequences UNCLASSIFIED = lattice_tagged UNCLASSIFIED UNCLASSIFIED := by
  decide

theorem lattice_tagged_length (th tv : ClassificationType) :
    (lattice_tagged th tv).length = 40 := by
  unfold lattice_tagged
  rw [List.length_map]
  decide

/-- The first round of the clustering on the lattice gathers the sequences along the
rows. -/
theorem lattice_gather_rows :
    lattice_gather 0 (lattice_tagged UNCLASSIFIED UNCLASSIFIED) 0 (Direction.right, 0) =
      (20, (Direction.right, 20), lattice_tagged (-1) UNCLASSIFIED) := by
  decide

/-- The second round gathers the sequences along the columns. -/
theorem lattice_gather_columns :
    lattice_gather 1 (lattice_tagged (-1) UNCLASSIFIED) 0 (Direction.right, 0) =
      (0, (Direction.up, 20), lattice_tagged (-1) (-2)) := by
  decide

/-- The clustering on the lattice: two rounds, two bins of 20, the rows tagged
`HORIZONTAL` and the columns `VERTICAL`, whatever the array `bins` held. -/
theorem lattice_cluster_sequence_candidates (S : Int) (hS : 0 < S) (bins : Bins ExactDouble) :
    cluster_sequence_candidates S bins
        ((lattice_tagged UNCLASSIFIED UNCLASSIFIED).map (LatticeSequence.candidate S)) =
      some (true, (lattice_tagged HORIZONTAL VERTICAL).map (LatticeSequence.candidate S)) := by
  unfold cluster_sequence_candidates
  rw [List.length_map, lattice_tagged_length]
  have e1 : cluster_sequence_candidates_loop S (40 + 3) bins 0
      ((lattice_tagged UNCLASSIFIED UNCLASSIFIED).map (LatticeSequence.candidate S)) =
      some (true,
        Function.update (Function.update bins 0 (lattice_bin S Direction.right 20)) 1
          (lattice_bin S Direction.up 20),
        2, (lattice_tagged (-1) (-2)).map (LatticeSequence.candidate S)) := by
    show cluster_sequence_candidates_loop S (41 + 1 + 1) bins 0 _ = _
    rw [cluster_sequence_candidates_loop]
    simp only [Nat.cast_zero, lattice_gather_unclassified S hS, lattice_gather_rows]
    rw [if_neg (by simp [lattice_bin, Nwant]), if_neg (by decide), if_neg (by simp [Nwant])]
    rw [cluster_sequence_candidates_loop]
    simp only [Nat.cast_one, Nat.cast_zero, zero_add, lattice_gather_unclassified S hS,
      lattice_gather_columns]
    rw [if_neg (by simp [lattice_bin, Nwant]), if_neg (by decide), if_pos (by simp [Nwant])]
    rw [mark_outliers_eq, lattice_tagged_retag]
    rfl
  rw [e1]
  simp only
  rw [lattice_bin_orientation S hS _ 0 Direction.right 20 (by decide) (by simp [Function.update]),
    lattice_bin_orientation S hS _ 1 Direction.up 20 (by decide) (by simp [Function.update])]
  simp only [Direction.horizontal, if_true, Bool.false_eq_true, if_false]
  rw [if_neg (by decide), if_neg (by decide), mark_orientation_eq, lattice_tagged_retag]
  rfl

/-! ### The comparison with the reverse sequence -/

theorem take_succ_reverse (pts : List Nat) (n : Nat) (h : n < pts.length) :
    (pts.take (n + 1)).reverse = pts.getD n 0 :: (pts.take n).reverse := by
  rw [List.take_succ, List.getElem?_eq_getElem h]
  simp [List.getD_eq_getElem?_getD, List.getElem?_eq_getElem h]

/-- The loop of `compare_reverse_along_sequence`, when the trace it follows succeeds:
it compares the cells traced with the entries of the array below position `n`, from
the last one down. -/
theorem compare_reverse_along_sequence_loop_eq (voronoi : VORONOI) (points : List Point)
    (cs_points_other : List Nat) :
    ∀ (n : Nat) (stats : HypothesisStatistics D) (c : Nat) (t : List Nat),
      trace_cells FIND_GRID_SCALE voronoi points n stats c = some t →
      n ≤ cs_points_other.length →
      compare_reverse_along_sequence_loop FIND_GRID_SCALE voronoi points cs_points_other
          n stats c (n - 1) =
        some (decide (t.map (fun k => (cell voronoi k).source_index) =
          (cs_points_other.take n).reverse)) := by
  intro n
  induction n with
  | zero =>
    intro stats c t ht _
    simp only [trace_cells, Option.some.injEq] at ht
    subst ht
    simp [compare_reverse_along_sequence_loop]
  | succ n ih =>
    intro stats c t ht hn
    unfold compare_reverse_along_sequence_loop
    unfold trace_cells at ht
    rcases h : get_adjacent_cell_along_sequence FIND_GRID_SCALE voronoi points stats c with ⟨o, st⟩
    rw [h] at ht
    cases o with
    | none => simp at ht
    | some ca =>
      simp only [Option.map_eq_some'] at ht
      obtain ⟨t1, ht1, rfl⟩ := ht
      simp only [Nat.add_sub_cancel]
      rw [take_succ_reverse _ n (by omega)]
      by_cases hne : cs_points_other.getD n 0 ≠ (cell voronoi ca).source_index
      · rw [if_pos hne]
        simp only [List.map_cons, List.cons.injEq, Option.some.injEq]
        symm
        simp only [decide_eq_false_iff_not, not_and]
        intro h1
        exact absurd h1.symm hne
      · rw [if_neg hne, ih st ca t1 ht1 (by omega)]
        simp only [List.map_cons, List.cons.injEq, not_not.mp hne, true_and]

/-- The test `is_reverse_sequence`, for a candidate whose trace succeeds: whether its
points are those of the array in reverse order. -/
theorem is_reverse_sequence_eq (voronoi : VORONOI) (points : List Point)
    (cs_points_other : List Nat) (cs : CandidateSequence D) (t : List Nat)
    (ht : sequence_cells FIND_GRID_SCALE voronoi points cs = some t)
    (hlen : cs_points_other.length = Nwant) :
    is_reverse_sequence FIND_GRID_SCALE voronoi points cs_points_other cs =
      some (decide (t.map (fun k => (cell voronoi k).source_index) =
        cs_points_other.reverse)) := by
  simp only [sequence_cells, Option.map_eq_some'] at ht
  obtain ⟨t1, ht1, rfl⟩ := ht
  have h10 : cs_points_other.take 10 = cs_points_other := by
    rw [List.take_of_length_le]; rw [hlen]; decide
  have hrev : cs_points_other.reverse =
      cs_points_other.getD 9 0 :: cs_points_other.getD 8 0 :: (cs_points_other.take 8).reverse := by
    rw [← take_succ_reverse _ 8 (by rw [hlen]; decide),
      ← take_succ_reverse _ 9 (by rw [hlen]; decide), h10]
  unfold is_reverse_sequence
  rw [hrev]
  simp only [Nwant, Nat.add_one_sub_one, Nat.reduceSub] at ht1 ⊢
  by_cases h0 : (cell voronoi cs.c0).source_index ≠ cs_points_other.getD 9 0
  · rw [if_pos h0]
    simp only [List.map_cons, List.cons.injEq, Option.some.injEq]
    symm
    simp only [decide_eq_false_iff_not, not_and]
    intro h1
    exact absurd h1 h0
  · rw [if_neg h0]
    by_cases h1 : (cell voronoi cs.c1).source_index ≠ cs_points_other.getD 8 0
    · rw [if_pos h1]
      simp only [List.map_cons, List.cons.injEq, Option.some.injEq]
      symm
      simp only [decide_eq_false_iff_not, not_and]
      intro _ h2
      exact absurd h2 h1
    · rw [if_neg h1]
      have := compare_reverse_along_sequence_loop_eq FIND_GRID_SCALE voronoi points
        cs_points_other 8 _ cs.c1 t1 ht1 (by rw [hlen]; decide)
      simp only [Nat.add_one_sub_one, Nat.reduceSub] at this
      rw [this]
      simp only [List.map_cons, List.cons.injEq, not_not.mp h0, not_not.mp h1, true_and]

/-! ### `filter_bidirectional` without the traces -/

theorem dedup_search_mem {α : Type} (type_of : α → ClassificationType)
    (points_of : α → List Nat) (mark : α → α) (orientation : ClassificationType)
    (cs0_points : List Nat) :
    ∀ (rest : List α) (cs1 : α) (rest1 : List α),
      dedup_search type_of points_of mark orientation cs0_points rest = some (cs1, rest1) →
      ∀ b ∈ rest1, b ∈ rest ∨ ∃ a, b = mark a := by
  intro rest
  induction rest with
  | nil => intro cs1 rest1 h; simp [dedup_search] at h
  | cons a rest ih =>
    intro cs1 rest1 h b hb
    unfold dedup_search at h
    split_ifs at h with hc
    · simp only [Option.some.injEq, Prod.mk.injEq] at h
      obtain ⟨_, rfl⟩ := h
      rcases List.mem_cons.mp hb with rfl | hb
      · exact Or.inr ⟨a, rfl⟩
      · exact Or.inl (List.mem_cons_of_mem _ hb)
    · simp only [Option.map_eq_some'] at h
      obtain ⟨⟨q1, q2⟩, hq, hq2⟩ := h
      simp only [Prod.mk.injEq] at hq2
      obtain ⟨_, rfl⟩ := hq2
      rcases List.mem_cons.mp hb with rfl | hb
      · exact Or.inl (List.mem_cons_self _ _)
      · rcases ih q1 q2 hq b hb with h1 | h1
        · exact Or.inl (List.mem_cons_of_mem _ h1)
        · exact Or.inr h1

/-- The search of `filter_bidirectional` on candidates whose traces succeed and give the
points `points_of`. -/
theorem filter_bidirectional_search_eq {α : Type} (γ : α → CandidateSequence D)
    (type_of : α → ClassificationType) (points_of : α → List Nat) (mark : α → α)
    (voronoi : VORONOI) (points : List Point) (orientation : ClassificationType)
    (cs0_points : List Nat)
    (htype : ∀ a, (γ a).type = type_of a)
    (hmark : ∀ a, γ (mark a) = { γ a with type := OUTLIER })
    (hlen : cs0_points.length = Nwant) :
    ∀ rest : List α,
      (∀ a ∈ rest, type_of a = orientation →
        ∃ t, sequence_cells FIND_GRID_SCALE voronoi points (γ a) = some t ∧
          t.map (fun k => (cell voronoi k).source_index) = points_of a) →
      filter_bidirectional_search FIND_GRID_SCALE voronoi points orientation cs0_points
          (rest.map γ) =
        some ((dedup_search type_of points_of mark orientation cs0_points rest).map
          fun q => (γ q.1, q.2.map γ)) := by
  intro rest
  induction rest with
  | nil => intro _; rfl
  | cons a rest ih =>
    intro h
    have ih1 := ih (fun b hb => h b (List.mem_cons_of_mem _ hb))
    rw [List.map_cons]
    unfold filter_bidirectional_search dedup_search
    rw [htype]
    by_cases ht : type_of a = orientation
    · rw [if_neg (not_not.mpr ht)]
      obtain ⟨t, ht1, ht2⟩ := h a (List.mem_cons_self _ _) ht
      rw [is_reverse_sequence_eq FIND_GRID_SCALE voronoi points cs0_points (γ a) t ht1 hlen, ht2]
      by_cases hp : points_of a = cs0_points.reverse
      · rw [if_pos ⟨ht, hp⟩]
        simp [hp, hmark]
      · rw [if_neg (fun hc => hp hc.2)]
        simp only [hp, decide_False, ih1, Option.map_some', Option.map_map]
        cases dedup_search type_of points_of mark orientation cs0_points rest <;> rfl
    · rw [if_pos ht, if_neg (fun hc => ht hc.1)]
      simp only [ih1, Option.map_some', Option.map_map]
      cases dedup_search type_of points_of mark orientation cs0_points rest <;> rfl

/-- The loop of `filter_bidirectional` on candidates whose traces succeed and give the
points `points_of`: it returns, and does what `dedup_loop` does. -/
theorem filter_bidirectional_loop_eq {α : Type} (γ : α → CandidateSequence D)
    (type_of : α → ClassificationType) (points_of : α → List Nat) (mark : α → α)
    (forward : α → Bool) (voronoi : VORONOI) (points : List Point)
    (orientation : ClassificationType)
    (htype : ∀ a, (γ a).type = type_of a)
    (hmark : ∀ a, γ (mark a) = { γ a with type := OUTLIER })
    (hfwd : ∀ a, matches_direction (γ a) orientation = forward a)
    (ho : orientation ≠ OUTLIER) :
    ∀ (n : Nat) (done todo : List α),
      (∀ a ∈ todo, type_of a = orientation →
        ∃ t, sequence_cells FIND_GRID_SCALE voronoi points (γ a) = some t ∧
          t.map (fun k => (cell voronoi k).source_index) = points_of a) →
      filter_bidirectional_loop FIND_GRID_SCALE voronoi points orientation n
          (done.map γ) (todo.map γ) =
        some ((dedup_loop type_of points_of mark forward orientation n done todo).map γ) := by
  have htm : ∀ a, type_of (mark a) = OUTLIER := by
    intro a; rw [← htype, hmark]
  intro n
  induction n with
  | zero => intro done todo _; simp [filter_bidirectional_loop, dedup_loop]
  | succ n ih =>
    intro done todo h
    cases todo with
    | nil => simp [filter_bidirectional_loop, dedup_loop]
    | cons cs0 rest =>
      have hrest : ∀ a ∈ rest, type_of a = orientation →
          ∃ t, sequence_cells FIND_GRID_SCALE voronoi points (γ a) = some t ∧
            t.map (fun k => (cell voronoi k).source_index) = points_of a :=
        fun b hb => h b (List.mem_cons_of_mem _ hb)
      rw [List.map_cons]
      unfold filter_bidirectional_loop dedup_loop
      rw [htype]
      by_cases ht : type_of cs0 = orientation
      · rw [if_neg (not_not.mpr ht), if_neg (not_not.mpr ht)]
        obtain ⟨t, ht1, ht2⟩ := h cs0 (List.mem_cons_self _ _) ht
        have hlen : (points_of cs0).length = Nwant := by
          rw [← ht2, List.length_map]
          exact sequence_cells_length FIND_GRID_SCALE voronoi points _ t ht1
        rw [get_candidate_points_eq, ht1]
        simp only [Option.map_some', ht2]
        rw [filter_bidirectional_search_eq FIND_GRID_SCALE γ type_of points_of mark voronoi points
          orientation (points_of cs0) htype hmark hlen rest hrest]
        rcases hs : dedup_search type_of points_of mark orientation (points_of cs0) rest with
          _ | ⟨cs1, rest1⟩
        · simp only [Option.map_none']
          have := ih (done ++ [mark cs0]) rest hrest
          simp only [List.map_append, List.map_cons, List.map_nil, hmark] at this
          exact this
        · simp only [Option.map_some']
          have hinv : ∀ a ∈ rest1, type_of a = orientation →
              ∃ t, sequence_cells FIND_GRID_SCALE voronoi points (γ a) = some t ∧
                t.map (fun k => (cell voronoi k).source_index) = points_of a := by
            intro b hb hbo
            rcases dedup_search_mem type_of points_of mark orientation _ rest cs1 rest1 hs b hb
              with h1 | ⟨a, rfl⟩
            · exact hrest b h1 hbo
            · exact absurd ((htm a).symm.trans hbo) (Ne.symm ho)
          have := ih (done ++ [if !forward cs0 then cs1 else cs0]) rest1 hinv
          simp only [List.map_append, List.map_cons, List.map_nil] at this
          rw [← this, hfwd]
          congr 2
          cases forward cs0 <;> rfl
      · rw [if_pos ht, if_pos ht]
        have := ih (done ++ [cs0]) rest hrest
        simp only [List.map_append, List.map_cons, List.map_nil] at this
        exact this

theorem filter_bidirectional_eq {α : Type} (γ : α → CandidateSequence D)
    (type_of : α → ClassificationType) (points_of : α → List Nat) (mark : α → α)
    (forward : α → Bool) (voronoi : VORONOI) (points : List Point)
    (orientation : ClassificationType)
    (htype : ∀ a, (γ a).type = type_of a)
    (hmark : ∀ a, γ (mark a) = { γ a with type := OUTLIER })
    (hfwd : ∀ a, matches_direction (γ a) orientation = forward a)
    (ho : orientation ≠ OUTLIER) (l : List α)
    (h : ∀ a ∈ l, type_of a = orientation →
      ∃ t, sequence_cells FIND_GRID_SCALE voronoi points (γ a) = some t ∧
        t.map (fun k => (cell voronoi k).source_index) = points_of a) :
    filter_bidirectional FIND_GRID_SCALE (l.map γ) voronoi points orientation =
      some ((dedup_loop type_of points_of mark forward orientation l.length [] l).map γ) := by
  unfold filter_bidirectional
  rw [List.length_map]
  exact filter_bidirectional_loop_eq FIND_GRID_SCALE γ type_of points_of mark forward voronoi
    points orientation htype hmark hfwd ho l.length [] l h

/-! ### The lattice: the sequences of the candidates -/

theorem Direction.walk_lt (d : Direction) :
    ∀ (k c : Nat), c < 100 → k ≤ d.steps c → ∀ j ∈ d.walk c k, j < 100 := by
  intro k
  induction k with
  | zero => intro c _ _ j hj; simp [Direction.walk] at hj
  | succ k ih =>
    intro c hc hk j hj
    have h0 : 0 < d.steps c := by omega
    simp only [Direction.walk, List.mem_cons] at hj
    rcases hj with rfl | hj
    · exact d.next_lt c hc h0
    · exact ih (d.next c) (d.next_lt c hc h0) (by rw [d.steps_next c h0]; omega) j hj

theorem LatticeSequence.cells_lt (a : LatticeSequence) (h : a.valid = true) :
    ∀ j ∈ a.cells, j < 100 := by
  simp only [LatticeSequence.valid, Bool.and_eq_true, decide_eq_true_eq] at h
  intro j hj
  simp only [LatticeSequence.cells, List.mem_cons] at hj
  rcases hj with rfl | hj
  · exact h.1
  · exact a.direction.walk_lt _ a.c0 h.1 (by omega) j hj

/-- The trace of a candidate of the lattice visits the cells of its sequence. -/
theorem lattice_sequence_cells (S : Int) (hS : 0 < S) (a : LatticeSequence)
    (h : a.valid = true) :
    sequence_cells S lattice_voronoi (lattice_points S) (a.candidate S) = some a.cells := by
  simp only [LatticeSequence.valid, Bool.and_eq_true, decide_eq_true_eq, Nwant] at h
  obtain ⟨hc, h9⟩ := h
  have h0 : 0 < a.direction.steps a.c0 := by omega
  unfold sequence_cells
  simp only [LatticeSequence.candidate]
  rw [lattice_delta S a.direction a.c0 hc h0, lattice_stats_zero,
    lattice_trace_cells S hS a.direction _ 0 _ (a.direction.next_lt a.c0 hc h0),
    a.direction.steps_next a.c0 h0, if_pos (by simp only [Nwant]; omega)]
  simp [LatticeSequence.cells, Direction.walk, Nwant]

theorem lattice_source_index (c : Nat) (hc : c < 100) :
    (cell lattice_voronoi c).source_index = c := by
  simp [cell, lattice_voronoi, hc]

/-- The points of a candidate of the lattice are the cells of its sequence. -/
theorem lattice_sequence_points (S : Int) (hS : 0 < S) (a : LatticeSequence)
    (h : a.valid = true) :
    ∃ t, sequence_cells S lattice_voronoi (lattice_points S) (a.candidate S) = some t ∧
      t.map (fun k => (cell lattice_voronoi k).source_index) = a.cells := by
  refine ⟨a.cells, lattice_sequence_cells S hS a h, ?_⟩
  conv_rhs => rw [← List.map_id a.cells]
  apply List.map_congr_left
  intro k hk
  exact lattice_source_index k (a.cells_lt h k hk)

theorem lattice_matches_direction (S : Int) (hS : 0 < S) (orientation : ClassificationType)
    (a : LatticeSequence) :
    matches_direction (a.candidate S) orientation = a.forward orientation := by
  have hs : (0 : ℚ) < (S : ℚ) := by exact_mod_cast hS
  unfold matches_direction LatticeSequence.forward
  simp only [LatticeSequence.candidate, exact_dgt, exact_ofRat, Int.cast_mul]
  obtain ⟨c0, d, t⟩ := a
  by_cases ho : orientation = HORIZONTAL
  · simp only [ho, if_true]
    cases d <;> norm_num [Direction.dx, hs] <;>
      first | rfl | decide | (rw [decide_eq_false (not_lt.mpr (le_of_lt hS))]; rfl)
  · simp only [ho, if_false]
    cases d <;> norm_num [Direction.dy, hs] <;>
      first | rfl | decide | (rw [decide_eq_false (not_lt.mpr (le_of_lt hS))]; rfl)

/-! ### The lattice: deduplication and sorting -/

theorem lattice_tagged_valid : ∀ a ∈ lattice_tagged HORIZONTAL VERTICAL, a.valid = true := by
  decide

theorem lattice_directed_valid :
    ∀ a ∈ lattice_directed HORIZONTAL VERTICAL OUTLIER VERTICAL, a.valid = true := by
  decide

theorem lattice_dedup_horizontal :
    dedup_loop LatticeSequence.type LatticeSequence.cells LatticeSequence.mark
        (LatticeSequence.forward HORIZONTAL) HORIZONTAL
        (lattice_tagged HORIZONTAL VERTICAL).length [] (lattice_tagged HORIZONTAL VERTICAL) =
      lattice_directed HORIZONTAL VERTICAL OUTLIER VERTICAL := by
  decide

theorem lattice_dedup_vertical :
    dedup_loop LatticeSequence.type LatticeSequence.cells LatticeSequence.mark
        (LatticeSequence.forward VERTICAL) VERTICAL
        (lattice_directed HORIZONTAL VERTICAL OUTLIER VERTICAL).length []
        (lattice_directed HORIZONTAL VERTICAL OUTLIER VERTICAL) =
      lattice_directed HORIZONTAL VERTICAL OUTLIER OUTLIER := by
  decide

/-- On the lattice `filter_bidirectional` makes outliers of the sequences that run to
the left. -/
theorem lattice_filter_bidirectional_horizontal (S : Int) (hS : 0 < S) :
    filter_bidirectional S ((lattice_tagged HORIZONTAL VERTICAL).map (LatticeSequence.candidate S))
        lattice_voronoi (lattice_points S) HORIZONTAL =
      some ((lattice_directed HORIZONTAL VERTICAL OUTLIER VERTICAL).map
        (LatticeSequence.candidate S)) := by
  rw [filter_bidirectional_eq S (LatticeSequence.candidate S) LatticeSequence.type
    LatticeSequence.cells LatticeSequence.mark (LatticeSequence.forward HORIZONTAL)
    lattice_voronoi (lattice_points S) HORIZONTAL (fun _ => rfl) (fun _ => rfl)
    (lattice_matches_direction S hS HORIZONTAL) (by decide) _
    (fun a ha _ => lattice_sequence_points S hS a (lattice_tagged_valid a ha)),
    lattice_dedup_horizontal]

/-- And of the sequences that run down. -/
theorem lattice_filter_bidirectional_vertical (S : Int) (hS : 0 < S) :
    filter_bidirectional S
        ((lattice_directed HORIZONTAL VERTICAL OUTLIER VERTICAL).map (LatticeSequence.candidate S))
        lattice_voronoi (lattice_points S) VERTICAL =
      some ((lattice_directed HORIZONTAL VERTICAL OUTLIER OUTLIER).map
        (LatticeSequence.candidate S)) := by
  rw [filter_bidirectional_eq S (LatticeSequence.candidate S) LatticeSequence.type
    LatticeSequence.cells LatticeSequence.mark (LatticeSequence.forward VERTICAL)
    lattice_voronoi (lattice_points S) VERTICAL (fun _ => rfl) (fun _ => rfl)
    (lattice_matches_direction S hS VERTICAL) (by decide) _
    (fun a ha _ => lattice_sequence_points S hS a (lattice_directed_valid a ha)),
    lattice_dedup_vertical]

theorem std_sort_insert_map {α β : Type} (f : α → β) (comp : β → β → Bool)
    (comp1 : α → α → Bool) (a : α) (l : List α)
    (h : ∀ b ∈ l, comp (f a) (f b) = comp1 a b) :
    std_sort_insert comp (f a) (l.map f) = (std_sort_insert comp1 a l).map f := by
  induction l with
  | nil => rfl
  | cons b rest ih =>
    rw [List.map_cons]
    unfold std_sort_insert
    rw [h b (List.mem_cons_self _ _)]
    cases comp1 a b with
    | true => simp
    | false => simp [ih (fun c hc => h c (List.mem_cons_of_mem _ hc))]

/-- Sorting commutes with a map under which the comparisons agree. -/
theorem std_sort_map {α β : Type} (f : α → β) (comp : β → β → Bool)
    (comp1 : α → α → Bool) (l : List α)
    (h : ∀ a ∈ l, ∀ b ∈ l, comp (f a) (f b) = comp1 a b) :
    std_sort comp (l.map f) = (std_sort comp1 l).map f := by
  induction l with
  | nil => rfl
  | cons a rest ih =>
    rw [List.map_cons]
    unfold std_sort
    rw [ih (fun b hb c hc => h b (List.mem_cons_of_mem _ hb) c (List.mem_cons_of_mem _ hc))]
    apply std_sort_insert_map
    intro b hb
    exact h a (List.mem_cons_self _ _) b
      (List.mem_cons_of_mem _ ((std_sort_perm comp1 rest).subset hb))

theorem lattice_sequence_comparator (S : Int) (hS : 0 < S) (a b : LatticeSequence)
    (ha : a.valid = true) (hb : b.valid = true) :
    sequence_comparator lattice_voronoi (lattice_points S) (a.candidate S) (b.candidate S) =
      lattice_comparator a b := by
  simp only [LatticeSequence.valid, Bool.and_eq_true, decide_eq_true_eq] at ha hb
  unfold sequence_comparator lattice_comparator
  simp only [LatticeSequence.candidate, lattice_cell_point S _ ha.1, lattice_cell_point S _ hb.1,
    mul_lt_mul_right hS, Nat.cast_lt]

theorem lattice_final_valid :
    ∀ a ∈ lattice_directed HORIZONTAL VERTICAL OUTLIER OUTLIER, a.valid = true := by
  decide

theorem lattice_sort_candidates (S : Int) (hS : 0 < S) :
    sort_candidates
        ((lattice_directed HORIZONTAL VERTICAL OUTLIER OUTLIER).map (LatticeSequence.candidate S))
        lattice_voronoi (lattice_points S) =
      lattice_sorted.map (LatticeSequence.candidate S) := by
  unfold sort_candidates lattice_sorted
  exact std_sort_map _ _ _ _ fun a ha b hb =>
    lattice_sequence_comparator S hS a b (lattice_final_valid a ha) (lattice_final_valid b hb)

/-! ### Sufficient conditions for the last checks -/

/-- The loop of `filter_bounds` says true when each of the candidates it looks at has
the other orientation and starts at the point `cs_ref_points` has for it. -/
theorem filter_bounds_loop_of (voronoi : VORONOI) (sequence_candidates : v_CS D)
    (orientation_other : ClassificationType) (cs_ref_points : List Nat) :
    ∀ n i cs_others : Nat, i + n = Nwant →
      (∀ j < n, (sequence_candidates[cs_others + j]?).map
          (fun cs => (cs.type, (cell voronoi cs.c0).source_index)) =
        some (orientation_other, cs_ref_points.getD (i + j) 0)) →
      filter_bounds_loop voronoi sequence_candidates orientation_other cs_ref_points
        n i cs_others = some true := by
  intro n
  induction n with
  | zero =>
    intro i k hi _
    simp only [filter_bounds_loop, Option.some.injEq, decide_eq_true_eq]
    omega
  | succ n ih =>
    intro i k hi h
    unfold filter_bounds_loop
    have h0 := h 0 (by omega)
    simp only [Nat.add_zero, Option.map_eq_some', Prod.mk.injEq] at h0
    obtain ⟨cs, hcs, ht, hp⟩ := h0
    rw [hcs]
    simp only
    rw [if_neg (not_not.mpr ht), if_neg (not_not.mpr hp.symm)]
    apply ih (i + 1) (k + 1) (by omega)
    intro j hj
    have := h (j + 1) (by omega)
    rw [show k + 1 + j = k + (j + 1) by omega, show i + 1 + j = i + (j + 1) by omega]
    exact this

theorem filter_bounds_of (sequence_candidates : v_CS D)
    (orientation orientation_other : ClassificationType) (voronoi : VORONOI)
    (points : List Point) (cs_ref cs_others : Nat) (ref : CandidateSequence D) (t : List Nat)
    (ho : orientation_other = if orientation = HORIZONTAL then VERTICAL else HORIZONTAL)
    (hr : sequence_candidates.findIdx? (fun cs => cs.type == orientation) = some cs_ref)
    (hk : sequence_candidates.findIdx? (fun cs => cs.type == orientation_other) =
      some cs_others)
    (href : sequence_candidates[cs_ref]? = some ref)
    (ht : sequence_cells FIND_GRID_SCALE voronoi points ref = some t)
    (hall : ∀ j < Nwant, (sequence_candidates[cs_others + j]?).map
        (fun cs => (cs.type, (cell voronoi cs.c0).source_index)) =
      some (orientation_other, (t.map fun k => (cell voronoi k).source_index).getD j 0)) :
    filter_bounds FIND_GRID_SCALE sequence_candidates orientation voronoi points = some true := by
  unfold filter_bounds
  simp only [get_first_eq, ← ho, hr, hk, href, get_candidate_points_eq, ht, Option.map_some']
  apply filter_bounds_loop_of voronoi sequence_candidates orientation_other _ Nwant 0 cs_others
    (by omega)
  intro j hj
  rw [Nat.zero_add]
  exact hall j hj

/-- What `write_output` appends when the traces of the `HORIZONTAL` candidates succeed;
it returns then. -/
theorem write_output_of_cells (voronoi : VORONOI) (points : List Point) :
    ∀ (sequence_candidates : v_CS D) (points_out : List (PointDouble D)),
      (∀ cs ∈ sequence_candidates, cs.type = HORIZONTAL →
        (sequence_cells FIND_GRID_SCALE voronoi points cs).isSome = true) →
      write_output FIND_GRID_SCALE voronoi points points_out sequence_candidates =
        some (points_out ++ (horizontal_sequences sequence_candidates).flatMap fun cs =>
          ((sequence_cells FIND_GRID_SCALE voronoi points cs).getD []).map fun k =>
            scaled_point FIND_GRID_SCALE (cell_point voronoi points k)) := by
  intro l
  induction l with
  | nil => intro out _; simp [write_output, horizontal_sequences]
  | cons cs rest ih =>
    intro out h
    have hrest := fun c hc => h c (List.mem_cons_of_mem _ hc)
    unfold write_output
    by_cases hH : cs.type = HORIZONTAL
    · have hs := h cs (List.mem_cons_self _ _) hH
      rw [Option.isSome_iff_exists] at hs
      obtain ⟨t, ht⟩ := hs
      have hhor : horizontal_sequences (cs :: rest) = cs :: horizontal_sequences rest := by
        simp [horizontal_sequences, hH]
      rw [if_pos hH, hhor, List.flatMap_cons, ht]
      simp only [sequence_cells, Option.map_eq_some'] at ht
      obtain ⟨t1, ht1, rfl⟩ := ht
      simp only [write_along_sequence, write_along_sequence_loop_eq, ht1, Option.map_some',
        write_cell_center_eq]
      rw [ih _ hrest]
      simp
    · have hhor : horizontal_sequences (cs :: rest) = horizontal_sequences rest := by
        simp [horizontal_sequences, hH]
      rw [if_neg hH, hhor, ih _ hrest]

/-! ### The lattice: the last checks and the output -/

theorem lattice_sorted_valid : ∀ a ∈ lattice_sorted, a.valid = true := by
  decide

theorem lattice_cells_source_index (a : LatticeSequence) (h : a.valid = true) :
    a.cells.map (fun k => (cell lattice_voronoi k).source_index) = a.cells := by
  conv_rhs => rw [← List.map_id a.cells]
  apply List.map_congr_left
  intro k hk
  exact lattice_source_index k (a.cells_lt h k hk)

theorem lattice_filter_bounds (S : Int) (hS : 0 < S)
    (orientation orientation_other : ClassificationType) (cs_ref cs_others : Nat)
    (ref : LatticeSequence)
    (ho : orientation_other = if orientation = HORIZONTAL then VERTICAL else HORIZONTAL)
    (hr : lattice_sorted.findIdx? (fun a => a.type == orientation) = some cs_ref)
    (hk : lattice_sorted.findIdx? (fun a => a.type == orientation_other) = some cs_others)
    (href : lattice_sorted[cs_ref]? = some ref)
    (hall : ∀ j < Nwant, (lattice_sorted[cs_others + j]?).map (fun a => (a.type, a.c0)) =
      some (orientation_other, ref.cells.getD j 0)) :
    filter_bounds S (lattice_sorted.map (LatticeSequence.candidate S)) orientation
      lattice_voronoi (lattice_points S) = some true := by
  have hrefv : ref.valid = true := lattice_sorted_valid ref (List.getElem?_mem href)
  apply filter_bounds_of S _ orientation orientation_other lattice_voronoi (lattice_points S)
    cs_ref cs_others (ref.candidate S) ref.cells ho
  · rw [List.findIdx?_map]; exact hr
  · rw [List.findIdx?_map]; exact hk
  · rw [List.getElem?_map, href]; rfl
  · exact lattice_sequence_cells S hS ref hrefv
  · intro j hj
    have h1 := hall j hj
    rw [List.getElem?_map, Option.map_map, lattice_cells_source_index ref hrefv]
    rcases ha : lattice_sorted[cs_others + j]? with _ | a
    · rw [ha] at h1; simp at h1
    · rw [ha] at h1
      simp only [Option.map_some', Option.some.injEq, Prod.mk.injEq] at h1
      have hav : a.valid = true := lattice_sorted_valid a (List.getElem?_mem ha)
      simp only [LatticeSequence.valid, Bool.and_eq_true, decide_eq_true_eq] at hav
      simp only [Option.map_some', Function.comp, LatticeSequence.candidate,
        lattice_source_index a.c0 hav.1, Option.some.injEq, Prod.mk.injEq]
      exact h1

theorem lattice_filter_bounds_horizontal (S : Int) (hS : 0 < S) :
    filter_bounds S (lattice_sorted.map (LatticeSequence.candidate S)) HORIZONTAL
      lattice_voronoi (lattice_points S) = some true :=
  lattice_filter_bounds S hS HORIZONTAL VERTICAL 0 10 ⟨0, Direction.right, HORIZONTAL⟩
    (by decide) (by decide) (by decide) (by decide) (by decide)

theorem lattice_filter_bounds_vertical (S : Int) (hS : 0 < S) :
    filter_bounds S (lattice_sorted.map (LatticeSequence.candidate S)) VERTICAL
      lattice_voronoi (lattice_points S) = some true :=
  lattice_filter_bounds S hS VERTICAL HORIZONTAL 10 0 ⟨0, Direction.up, VERTICAL⟩
    (by decide) (by decide) (by decide) (by decide) (by decide)

theorem lattice_horizontal_sequences (S : Int) :
    horizontal_sequences (lattice_sorted.map (LatticeSequence.candidate S)) =
      (lattice_sorted.filter fun a => a.type == HORIZONTAL).map (LatticeSequence.candidate S) := by
  unfold horizontal_sequences
  rw [List.filter_map]
  rfl

theorem lattice_vertical_sequences (S : Int) :
    vertical_sequences (lattice_sorted.map (LatticeSequence.candidate S)) =
      (lattice_sorted.filter fun a => a.type == VERTICAL).map (LatticeSequence.candidate S) := by
  unfold vertical_sequences
  rw [List.filter_map]
  rfl

theorem lattice_validate_clasification (S : Int) :
    validate_clasification (lattice_sorted.map (LatticeSequence.candidate S)) = true := by
  rw [validate_clasification_iff, lattice_horizontal_sequences, lattice_vertical_sequences,
    List.length_map, List.length_map]
  decide

/-- The rows of the lattice, in the order of the sorted candidates: the cells
`0, 1, ..., 99`. -/
theorem lattice_rows :
    (lattice_sorted.filter fun a => a.type == HORIZONTAL).flatMap LatticeSequence.cells =
      List.range 100 := by
  decide

theorem lattice_scaled_point (S : Int) (hS : 0 < S) (k : Nat) (hk : k < 100) :
    (scaled_point S (cell_point lattice_voronoi (lattice_points S) k) : PointDouble ExactDouble) =
      ⟨⟨((k % 10 : Nat) : ℚ)⟩, ⟨((k / 10 : Nat) : ℚ)⟩⟩ := by
  have hne : (S : ℚ) ≠ 0 := by
    have : (0 : ℚ) < (S : ℚ) := by exact_mod_cast hS
    exact ne_of_gt this
  rw [lattice_cell_point S k hk]
  simp only [scaled_point, exact_toDouble, exact_div, Int.cast_mul, Int.cast_natCast,
    mul_div_cancel_right₀ _ hne]

theorem lattice_write_output (S : Int) (hS : 0 < S) (points_out : List (PointDouble ExactDouble)) :
    write_output S lattice_voronoi (lattice_points S) points_out
        (lattice_sorted.map (LatticeSequence.candidate S)) =
      some (points_out ++ lattice_expected) := by
  rw [write_output_of_cells]
  · rw [lattice_horizontal_sequences, List.flatMap_map]
    have e : ((lattice_sorted.filter fun a => a.type == HORIZONTAL).flatMap fun a =>
        ((sequence_cells S lattice_voronoi (lattice_points S) (a.candidate S)).getD []).map
          fun k => (scaled_point S (cell_point lattice_voronoi (lattice_points S) k) :
            PointDouble ExactDouble)) =
        ((lattice_sorted.filter fun a => a.type == HORIZONTAL).flatMap
          LatticeSequence.cells).map
          fun k => (⟨⟨((k % 10 : Nat) : ℚ)⟩, ⟨((k / 10 : Nat) : ℚ)⟩⟩ : PointDouble ExactDouble) := by
      rw [List.map_flatMap]
      apply List.flatMap_congr
      intro a ha
      have hav := lattice_sorted_valid a (List.mem_of_mem_filter ha)
      rw [lattice_sequence_cells S hS a hav, Option.getD_some]
      apply List.map_congr_left
      intro k hk
      exact lattice_scaled_point S hS k (a.cells_lt hav k hk)
    rw [e, lattice_rows]
    rfl
  · intro cs hcs _
    obtain ⟨a, ha, rfl⟩ := List.mem_map.mp hcs
    rw [lattice_sequence_cells S hS a (lattice_sorted_valid a ha)]
    rfl

/-- The candidate list of the lattice after clustering, deduplication and sorting. -/
theorem lattice_find_grid_candidates (S : Int) (hS : 0 < S) (bins : Bins ExactDouble) :
    find_grid_candidates S bins lattice_voronoi (lattice_points S) =
      some (true, lattice_sorted.map (LatticeSequence.candidate S)) := by
  unfold find_grid_candidates
  simp only [lattice_get_sequence_candidates S hS, lattice_sequences_eq_tagged,
    lattice_cluster_sequence_candidates S hS bins, lattice_filter_bidirectional_horizontal S hS,
    lattice_filter_bidirectional_vertical S hS, lattice_sort_candidates S hS]

/-- The run of `find_grid_from_points` on the lattice with spacing `S`: it returns true
and appends the points `(x, y)`, row after row. -/
theorem lattice_find_grid_from_points (S : Int) (hS : 0 < S) (bins : Bins ExactDouble)
    (points_out : List (PointDouble ExactDouble)) :
    find_grid_from_points S bins points_out lattice_voronoi (lattice_points S) =
      some (true, points_out ++ lattice_expected) := by
  unfold find_grid_from_points
  simp only [lattice_find_grid_candidates S hS bins, lattice_filter_bounds_horizontal S hS,
    lattice_filter_bounds_vertical S hS, lattice_validate_clasification S,
    lattice_write_output S hS]
  rfl

/-! ### The perfect grid -/

/-- C2: for the input made of the 100 points `(x * S, y * S)`, `x, y = 0..9`, with
`S = FIND_GRID_SCALE > 0`, and the diagram of these points, `find_grid_from_points`
returns true and appends exactly the 100 points `(x, y)`, by increasing `y` and within a
row by increasing `x`, whatever `bins` and `points_out` hold on entry. -/
theorem find_grid_from_points_lattice (S : Int) (hS : 0 < S) (bins : Bins ExactDouble)
    (points_out : List (PointDouble ExactDouble)) :
    find_grid_from_points S bins points_out lattice_voronoi (lattice_points S) =
      some (true, points_out ++
        (List.range 100).map fun i => ⟨⟨((i % 10 : Nat) : ℚ)⟩, ⟨((i / 10 : Nat) : ℚ)⟩⟩) :=
  lattice_find_grid_from_points S hS bins points_out

theorem find_grid_from_points_lattice_witness :
    (0 : Int) < 16 ∧
    find_grid_from_points 16 zero_bins [] lattice_voronoi (lattice_points 16) =
      some (true, [] ++
        (List.range 100).map fun i => ⟨⟨((i % 10 : Nat) : ℚ)⟩, ⟨((i / 10 : Nat) : ℚ)⟩⟩) :=
  ⟨by decide, find_grid_from_points_lattice 16 (by decide) zero_bins []⟩

theorem find_grid_from_points_appends_rows_witness :
    find_grid_from_points 16 zero_bins [] lattice_voronoi (lattice_points 16) =
      some (true, [] ++ lattice_expected) ∧
    ∃ (unsorted : v_CS ExactDouble) (rows : List (List Nat)),
      find_grid_candidates 16 zero_bins lattice_voronoi (lattice_points 16) =
        some (true, sort_candidates unsorted lattice_voronoi (lattice_points 16)) ∧
      (horizontal_sequences
        (sort_candidates unsorted lattice_voronoi (lattice_points 16))).length = Nwant ∧
      List.Forall₂
        (fun cs t => t.length = Nwant ∧ ∃ traced,
          trace_cells 16 lattice_voronoi (lattice_points 16) (Nwant - 2)
            (fill_initial_hypothesis_statistics
              ⟨(cell_point lattice_voronoi (lattice_points 16) cs.c1).x -
                (cell_point lattice_voronoi (lattice_points 16) cs.c0).x,
               (cell_point lattice_voronoi (lattice_points 16) cs.c1).y -
                (cell_point lattice_voronoi (lattice_points 16) cs.c0).y⟩ :
              HypothesisStatistics ExactDouble) cs.c1 = some traced ∧
          t = cs.c0 :: cs.c1 :: traced)
        (horizontal_sequences (sort_candidates unsorted lattice_voronoi (lattice_points 16)))
        rows ∧
      [] ++ lattice_expected = [] ++
        rows.flatten.map (fun k =>
          scaled_point 16 (cell_point lattice_voronoi (lattice_points 16) k)) ∧
      ([] ++ lattice_expected).length = ([] : List (PointDouble ExactDouble)).length +
        Nwant * Nwant :=
  ⟨lattice_find_grid_from_points 16 (by decide) zero_bins [],
    find_grid_from_points_appends_rows 16 zero_bins [] ([] ++ lattice_expected) lattice_voronoi
      (lattice_points 16) (lattice_find_grid_from_points 16 (by decide) zero_bins [])⟩

theorem validate_clasification_counts_witness :
    find_grid_from_points 16 zero_bins [] lattice_voronoi (lattice_points 16) =
      some (true, [] ++ lattice_expected) ∧
    ∃ sequence_candidates : v_CS ExactDouble,
      find_grid_candidates 16 zero_bins lattice_voronoi (lattice_points 16) =
        some (true, sequence_candidates) ∧
      write_output 16 lattice_voronoi (lattice_points 16) [] sequence_candidates =
        some ([] ++ lattice_expected) ∧
      validate_clasification sequence_candidates = true ∧
      (horizontal_sequences sequence_candidates).length = Nwant ∧
      (vertical_sequences sequence_candidates).length = Nwant :=
  ⟨lattice_find_grid_from_points 16 (by decide) zero_bins [],
    (validate_clasification_counts 16).2 zero_bins [] ([] ++ lattice_expected) lattice_voronoi
      (lattice_points 16) (lattice_find_grid_from_points 16 (by decide) zero_bins [])⟩

theorem lattice_source_index_lt (S : Int) :
    ∀ c, (cell lattice_voronoi c).source_index < (lattice_points S).length := by
  intro c
  by_cases h : c < 100
  · simp [cell, lattice_voronoi, lattice_points, h]
  · simp [cell, lattice_voronoi, lattice_points, h]

theorem find_grid_from_points_output_points_witness :
    (∀ c, (cell lattice_voronoi c).source_index < (lattice_points 16).length) ∧
    find_grid_from_points 16 zero_bins [] lattice_voronoi (lattice_points 16) =
      some (true, [] ++ lattice_expected) ∧
    ∃ (sequence_candidates : v_CS ExactDouble) (appended : List (PointDouble ExactDouble)),
      find_grid_candidates 16 zero_bins lattice_voronoi (lattice_points 16) =
        some (true, sequence_candidates) ∧
      (horizontal_sequences sequence_candidates).length = Nwant ∧
      [] ++ lattice_expected = [] ++ appended ∧
      ∀ q ∈ appended, ∃ cs ∈ horizontal_sequences sequence_candidates, ∃ t,
        sequence_cells 16 lattice_voronoi (lattice_points 16) cs = some t ∧
        ∃ k ∈ t, (lattice_points 16)[(cell lattice_voronoi k).source_index]? =
            some (cell_point lattice_voronoi (lattice_points 16) k) ∧
          cell_point lattice_voronoi (lattice_points 16) k ∈ lattice_points 16 ∧
          q = ⟨toDouble (cell_point lattice_voronoi (lattice_points 16) k).x / toDouble 16,
               toDouble (cell_point lattice_voronoi (lattice_points 16) k).y / toDouble 16⟩ :=
  ⟨lattice_source_index_lt 16, lattice_find_grid_from_points 16 (by decide) zero_bins [],
    find_grid_from_points_output_points 16 zero_bins [] ([] ++ lattice_expected) lattice_voronoi
      (lattice_points 16) (lattice_source_index_lt 16)
      (lattice_find_grid_from_points 16 (by decide) zero_bins [])⟩

theorem find_grid_from_points_border_witness :
    find_grid_from_points 16 zero_bins [] lattice_voronoi (lattice_points 16) =
      some (true, [] ++ lattice_expected) ∧
    ∃ (unsorted : v_CS ExactDouble) (first_horizontal first_vertical : CandidateSequence ExactDouble)
      (row column : List Nat),
      find_grid_candidates 16 zero_bins lattice_voronoi (lattice_points 16) =
        some (true, sort_candidates unsorted lattice_voronoi (lattice_points 16)) ∧
      (horizontal_sequences (sort_candidates unsorted lattice_voronoi (lattice_points 16)))[0]? =
        some first_horizontal ∧
      (vertical_sequences (sort_candidates unsorted lattice_voronoi (lattice_points 16)))[0]? =
        some first_vertical ∧
      sequence_cells 16 lattice_voronoi (lattice_points 16) first_horizontal = some row ∧
      sequence_cells 16 lattice_voronoi (lattice_points 16) first_vertical = some column ∧
      ∀ i < Nwant,
        (∃ (cs : CandidateSequence ExactDouble) (k : Nat),
          (vertical_sequences
            (sort_candidates unsorted lattice_voronoi (lattice_points 16)))[i]? = some cs ∧
          row[i]? = some k ∧
          (cell lattice_voronoi k).source_index = (cell lattice_voronoi cs.c0).source_index) ∧
        (∃ (cs : CandidateSequence ExactDouble) (k : Nat),
          (horizontal_sequences
            (sort_candidates unsorted lattice_voronoi (lattice_points 16)))[i]? = some cs ∧
          column[i]? = some k ∧
          (cell lattice_voronoi k).source_index = (cell lattice_voronoi cs.c0).source_index) :=
  ⟨lattice_find_grid_from_points 16 (by decide) zero_bins [],
    find_grid_from_points_border 16 zero_bins [] ([] ++ lattice_expected) lattice_voronoi
      (lattice_points 16) (lattice_find_grid_from_points 16 (by decide) zero_bins [])⟩

/-! ### A break after one bin -/

theorem lattice_columns_retag (S : Int) (g : ClassificationType → ClassificationType)
    (t : ClassificationType) :
    (((lattice_columns t).map (LatticeSequence.candidate S)).map
        fun cs => { cs with type := g cs.type }) =
      (lattice_columns (g t)).map (LatticeSequence.candidate S) := by
  unfold lattice_columns
  simp only [List.map_map]
  apply List.map_congr_left
  intro a _
  rfl

theorem lattice_gather_columns_only :
    lattice_gather 0 (lattice_columns UNCLASSIFIED) 0 (Direction.right, 0) =
      (0, (Direction.up, 20), lattice_columns (-1)) := by
  decide

theorem zero_bin_orientation (bins : Bins ExactDouble) (i : Nat)
    (h : bins i = { delta_mean_sum := ⟨⟨0⟩, ⟨0⟩⟩, N := 0 }) :
    bin_orientation bins i = HORIZONTAL := by
  unfold bin_orientation
  rw [h]
  simp only [get_spacing_angle, M_PI, exact_ofRat, exact_div, exact_mul, exact_add, exact_dlt,
    exact_dgt, exact_atan2_eq, exact_atan2, exact_toDouble]
  norm_num

/-- C8, at the 20 candidates along the columns of the lattice (spacing 16, the array
`bins` zero on entry): the loop of `cluster_sequence_candidates` breaks after it has
accepted one bin, with `bin_index = 1`, the function reads the orientation of the bin
`bins[1]` it never filled, returns true, and the list has 20 candidates tagged
`VERTICAL` and none tagged `HORIZONTAL`. -/
theorem cluster_sequence_candidates_one_bin :
    (cluster_sequence_candidates_loop 16 ((lattice_columns UNCLASSIFIED).length + 3) zero_bins 0
        ((lattice_columns UNCLASSIFIED).map (LatticeSequence.candidate 16))).map
      (fun r => (r.1, r.2.2.1)) = some (true, 1) ∧
    cluster_sequence_candidates 16 zero_bins
        ((lattice_columns UNCLASSIFIED).map (LatticeSequence.candidate 16)) =
      some (true, (lattice_columns VERTICAL).map (LatticeSequence.candidate 16)) ∧
    (horizontal_sequences
      ((lattice_columns VERTICAL).map (LatticeSequence.candidate 16))).length = 0 ∧
    (vertical_sequences
      ((lattice_columns VERTICAL).map (LatticeSequence.candidate 16))).length = 20 := by
  have hS : (0 : Int) < 16 := by decide
  have hlen : (lattice_columns UNCLASSIFIED).length = 20 := by decide
  have e1 : cluster_sequence_candidates_loop 16 (20 + 3) zero_bins 0
      ((lattice_columns UNCLASSIFIED).map (LatticeSequence.candidate 16)) =
      some (true, Function.update zero_bins 0 (lattice_bin 16 Direction.up 20), 1,
        (lattice_columns (-1)).map (LatticeSequence.candidate 16)) := by
    show cluster_sequence_candidates_loop 16 (22 + 1) zero_bins 0 _ = _
    rw [cluster_sequence_candidates_loop]
    simp only [Nat.cast_zero, lattice_gather_unclassified 16 hS, lattice_gather_columns_only]
    rw [if_neg (by simp [lattice_bin, Nwant]), if_neg (by decide), if_pos (by simp [Nwant])]
    rw [mark_outliers_eq, lattice_columns_retag]
    rfl
  refine ⟨by rw [hlen, e1]; rfl, ?_, ?_, ?_⟩
  · unfold cluster_sequence_candidates
    rw [List.length_map, hlen, e1]
    simp only
    rw [lattice_bin_orientation 16 hS _ 0 Direction.up 20 (by decide) (by simp [Function.update]),
      zero_bin_orientation _ 1 (by simp [Function.update, zero_bins])]
    simp only [Direction.horizontal, Bool.false_eq_true, if_false]
    rw [if_neg (by decide), if_neg (by decide), mark_orientation_eq, lattice_columns_retag]
    rfl
  · unfold horizontal_sequences
    rw [List.filter_map, List.length_map]
    decide
  · unfold vertical_sequences
    rw [List.filter_map, List.length_map]
    decide

/-! ### Renumbering the points -/

section Renumbering

variable {voronoi voronoi1 : VORONOI} {points points1 : List Point}

theorem same_diagram_scan (h : same_diagram voronoi points voronoi1 points1)
    (stats : HypothesisStatistics D) (pt : Point) (l : List Nat) :
    get_adjacent_cell_along_sequence_scan FIND_GRID_SCALE voronoi1 points1 stats pt l =
      get_adjacent_cell_along_sequence_scan FIND_GRID_SCALE voronoi points stats pt l := by
  induction l with
  | nil => rfl
  | cons a rest ih =>
    unfold get_adjacent_cell_along_sequence_scan
    simp only [h.point, ih]

theorem same_diagram_get_adjacent (h : same_diagram voronoi points voronoi1 points1)
    (stats : HypothesisStatistics D) (c : Nat) :
    get_adjacent_cell_along_sequence FIND_GRID_SCALE voronoi1 points1 stats c =
      get_adjacent_cell_along_sequence FIND_GRID_SCALE voronoi points stats c := by
  unfold get_adjacent_cell_along_sequence
  rw [h.adjacent, h.point, same_diagram_scan FIND_GRID_SCALE h]

theorem same_diagram_trace_cells (h : same_diagram voronoi points voronoi1 points1) (n : Nat) :
    ∀ (stats : HypothesisStatistics D) (c : Nat),
      trace_cells FIND_GRID_SCALE voronoi1 points1 n stats c =
        trace_cells FIND_GRID_SCALE voronoi points n stats c := by
  induction n with
  | zero => intro stats c; rfl
  | succ n ih =>
    intro stats c
    unfold trace_cells
    simp only [same_diagram_get_adjacent FIND_GRID_SCALE h, ih]

theorem same_diagram_sequence_cells (h : same_diagram voronoi points voronoi1 points1)
    (cs : CandidateSequence D) :
    sequence_cells FIND_GRID_SCALE voronoi1 points1 cs =
      sequence_cells FIND_GRID_SCALE voronoi points cs := by
  unfold sequence_cells
  simp only [h.point, same_diagram_trace_cells FIND_GRID_SCALE h]

theorem same_diagram_search_loop (h : same_diagram voronoi points voronoi1 points1) (n : Nat) :
    ∀ (stats : HypothesisStatistics D) (c : Nat) (delta_mean : PointDouble D),
      search_along_sequence_loop FIND_GRID_SCALE voronoi1 points1 n stats c delta_mean =
        search_along_sequence_loop FIND_GRID_SCALE voronoi points n stats c delta_mean := by
  induction n with
  | zero => intro stats c dm; rfl
  | succ n ih =>
    intro stats c dm
    unfold search_along_sequence_loop
    simp only [same_diagram_get_adjacent FIND_GRID_SCALE h, ih]

theorem same_diagram_candidates_cell (h : same_diagram voronoi points voronoi1 points1)
    (c : Nat) (pt : Point) (l : List Nat) :
    ∀ acc : v_CS D,
      get_sequence_candidates_cell FIND_GRID_SCALE voronoi1 points1 c pt l acc =
        get_sequence_candidates_cell FIND_GRID_SCALE voronoi points c pt l acc := by
  induction l with
  | nil => intro acc; rfl
  | cons a rest ih =>
    intro acc
    unfold get_sequence_candidates_cell
    simp only [h.point, search_along_sequence, same_diagram_search_loop FIND_GRID_SCALE h, ih]

theorem same_diagram_get_sequence_candidates (h : same_diagram voronoi points voronoi1 points1)
    (acc : v_CS D) :
    get_sequence_candidates FIND_GRID_SCALE acc voronoi1 points1 =
      get_sequence_candidates FIND_GRID_SCALE acc voronoi points := by
  unfold get_sequence_candidates
  rw [h.size]
  congr 1
  funext acc1 c
  rw [h.adjacent, h.point, same_diagram_candidates_cell FIND_GRID_SCALE h]

end Renumbering

section Renumbering

variable {voronoi voronoi1 : VORONOI} {points points1 : List Point}

/-- Comparing an entry of the point array of a sequence with the point of a cell gives
the same in both numberings. -/
theorem same_diagram_getD (h : same_diagram voronoi points voronoi1 points1) (t0 : List Nat)
    (k : Nat) (hk : k < t0.length) (c : Nat) :
    ((t0.map fun j => (cell voronoi1 j).source_index).getD k 0 =
        (cell voronoi1 c).source_index) ↔
      ((t0.map fun j => (cell voronoi j).source_index).getD k 0 =
        (cell voronoi c).source_index) := by
  simp only [List.getD_eq_getElem?_getD, List.getElem?_map, List.getElem?_eq_getElem hk,
    Option.map_some', Option.getD_some]
  exact h.source _ _

theorem same_diagram_compare_loop (h : same_diagram voronoi points voronoi1 points1)
    (t0 : List Nat) (n : Nat) :
    ∀ (stats : HypothesisStatistics D) (c k : Nat), k < t0.length →
      compare_reverse_along_sequence_loop FIND_GRID_SCALE voronoi1 points1
          (t0.map fun j => (cell voronoi1 j).source_index) n stats c k =
        compare_reverse_along_sequence_loop FIND_GRID_SCALE voronoi points
          (t0.map fun j => (cell voronoi j).source_index) n stats c k := by
  induction n with
  | zero => intro stats c k _; rfl
  | succ n ih =>
    intro stats c k hk
    unfold compare_reverse_along_sequence_loop
    rw [same_diagram_get_adjacent FIND_GRID_SCALE h]
    rcases get_adjacent_cell_along_sequence FIND_GRID_SCALE voronoi points stats c with ⟨o, st⟩
    cases o with
    | none => rfl
    | some ca =>
      simp only [ne_eq, same_diagram_getD h t0 k hk ca, ih st ca (k - 1) (by omega)]

theorem same_diagram_is_reverse_sequence (h : same_diagram voronoi points voronoi1 points1)
    (t0 : List Nat) (ht0 : t0.length = Nwant) (cs : CandidateSequence D) :
    is_reverse_sequence FIND_GRID_SCALE voronoi1 points1
        (t0.map fun j => (cell voronoi1 j).source_index) cs =
      is_reverse_sequence FIND_GRID_SCALE voronoi points
        (t0.map fun j => (cell voronoi j).source_index) cs := by
  unfold is_reverse_sequence
  have e9 := same_diagram_getD h t0 (Nwant - 1) (by rw [ht0]; decide) cs.c0
  have e8 := same_diagram_getD h t0 (Nwant - 2) (by rw [ht0]; decide) cs.c1
  simp only [ne_eq, eq_comm (a := (cell voronoi1 cs.c0).source_index),
    eq_comm (a := (cell voronoi1 cs.c1).source_index),
    eq_comm (a := (cell voronoi cs.c0).source_index),
    eq_comm (a := (cell voronoi cs.c1).source_index), e9, e8, h.point,
    same_diagram_compare_loop FIND_GRID_SCALE h t0 _ _ _ (Nwant - 3) (by rw [ht0]; decide)]

theorem same_diagram_filter_bidirectional_search
    (h : same_diagram voronoi points voronoi1 points1)
    (orientation : ClassificationType) (t0 : List Nat) (ht0 : t0.length = Nwant)
    (rest : List (CandidateSequence D)) :
    filter_bidirectional_search FIND_GRID_SCALE voronoi1 points1 orientation
        (t0.map fun j => (cell voronoi1 j).source_index) rest =
      filter_bidirectional_search FIND_GRID_SCALE voronoi points orientation
        (t0.map fun j => (cell voronoi j).source_index) rest := by
  induction rest with
  | nil => rfl
  | cons a rest ih =>
    unfold filter_bidirectional_search
    simp only [same_diagram_is_reverse_sequence FIND_GRID_SCALE h t0 ht0, ih]

theorem same_diagram_filter_bidirectional_loop
    (h : same_diagram voronoi points voronoi1 points1)
    (orientation : ClassificationType) (n : Nat) :
    ∀ done todo : v_CS D,
      filter_bidirectional_loop FIND_GRID_SCALE voronoi1 points1 orientation n done todo =
        filter_bidirectional_loop FIND_GRID_SCALE voronoi points orientation n done todo := by
  induction n with
  | zero => intro done todo; rfl
  | succ n ih =>
    intro done todo
    cases todo with
    | nil => rfl
    | cons cs0 rest =>
      unfold filter_bidirectional_loop
      simp only [get_candidate_points_eq, same_diagram_sequence_cells FIND_GRID_SCALE h, ih]
      rcases ht : sequence_cells FIND_GRID_SCALE voronoi points cs0 with _ | t0
      · rfl
      · have ht0 := sequence_cells_length FIND_GRID_SCALE voronoi points cs0 t0 ht
        simp only [Option.map_some',
          same_diagram_filter_bidirectional_search FIND_GRID_SCALE h orientation t0 ht0]

theorem same_diagram_filter_bidirectional (h : same_diagram voronoi points voronoi1 points1)
    (orientation : ClassificationType) (l : v_CS D) :
    filter_bidirectional FIND_GRID_SCALE l voronoi1 points1 orientation =
      filter_bidirectional FIND_GRID_SCALE l voronoi points orientation := by
  unfold filter_bidirectional
  exact same_diagram_filter_bidirectional_loop FIND_GRID_SCALE h orientation _ _ _

theorem same_diagram_sort_candidates (h : same_diagram voronoi points voronoi1 points1)
    (l : v_CS D) :
    sort_candidates l voronoi1 points1 = sort_candidates l voronoi points := by
  unfold sort_candidates
  congr 1
  funext a b
  unfold sequence_comparator
  simp only [h.point]

theorem same_diagram_find_grid_candidates (h : same_diagram voronoi points voronoi1 points1)
    (bins : Bins D) :
    find_grid_candidates FIND_GRID_SCALE bins voronoi1 points1 =
      find_grid_candidates FIND_GRID_SCALE bins voronoi points := by
  unfold find_grid_candidates
  simp only [same_diagram_get_sequence_candidates FIND_GRID_SCALE h,
    same_diagram_filter_bidirectional FIND_GRID_SCALE h, same_diagram_sort_candidates h]

theorem same_diagram_filter_bounds_loop (h : same_diagram voronoi points voronoi1 points1)
    (l : v_CS D) (orientation_other : ClassificationType) (t0 : List Nat) (n : Nat) :
    ∀ i cs_others : Nat, i + n ≤ t0.length →
      filter_bounds_loop voronoi1 l orientation_other
          (t0.map fun j => (cell voronoi1 j).source_index) n i cs_others =
        filter_bounds_loop voronoi l orientation_other
          (t0.map fun j => (cell voronoi j).source_index) n i cs_others := by
  induction n with
  | zero => intro i k _; rfl
  | succ n ih =>
    intro i k hi
    unfold filter_bounds_loop
    rcases l[k]? with _ | cs
    · rfl
    · simp only [ne_eq, same_diagram_getD h t0 i (by omega) cs.c0, ih (i + 1) (k + 1) (by omega)]

theorem same_diagram_filter_bounds (h : same_diagram voronoi points voronoi1 points1)
    (l : v_CS D) (orientation : ClassificationType) :
    filter_bounds FIND_GRID_SCALE l orientation voronoi1 points1 =
      filter_bounds FIND_GRID_SCALE l orientation voronoi points := by
  unfold filter_bounds
  simp only [get_candidate_points_eq, same_diagram_sequence_cells FIND_GRID_SCALE h]
  rcases get_first l orientation with _ | r
  · rfl
  rcases get_first l (if orientation = HORIZONTAL then VERTICAL else HORIZONTAL) with _ | k
  · rfl
  simp only
  rcases l[r]? with _ | ref
  · rfl
  simp only
  rcases ht : sequence_cells FIND_GRID_SCALE voronoi points ref with _ | t0
  · rfl
  · have ht0 := sequence_cells_length FIND_GRID_SCALE voronoi points ref t0 ht
    simp only [Option.map_some']
    exact same_diagram_filter_bounds_loop h l _ t0 Nwant 0 k (by omega)

theorem same_diagram_write_along_sequence_loop
    (h : same_diagram voronoi points voronoi1 points1) (n : Nat) :
    ∀ (stats : HypothesisStatistics D) (c : Nat) (points_out : List (PointDouble D)),
      write_along_sequence_loop FIND_GRID_SCALE voronoi1 points1 n stats c points_out =
        write_along_sequence_loop FIND_GRID_SCALE voronoi points n stats c points_out := by
  intro stats c out
  simp only [write_along_sequence_loop_eq, same_diagram_trace_cells FIND_GRID_SCALE h, h.point]

theorem same_diagram_write_output (h : same_diagram voronoi points voronoi1 points1)
    (l : v_CS D) :
    ∀ points_out : List (PointDouble D),
      write_output FIND_GRID_SCALE voronoi1 points1 points_out l =
        write_output FIND_GRID_SCALE voronoi points points_out l := by
  induction l with
  | nil => intro out; rfl
  | cons cs rest ih =>
    intro out
    unfold write_output
    simp only [write_cell_center_eq, h.point, write_along_sequence,
      same_diagram_write_along_sequence_loop FIND_GRID_SCALE h, ih]

/-- The run of `find_grid_from_points` does not depend on the numbering of the points. -/
theorem same_diagram_find_grid_from_points (h : same_diagram voronoi points voronoi1 points1)
    (bins : Bins D) (points_out : List (PointDouble D)) :
    find_grid_from_points FIND_GRID_SCALE bins points_out voronoi1 points1 =
      find_grid_from_points FIND_GRID_SCALE bins points_out voronoi points := by
  unfold find_grid_from_points
  simp only [same_diagram_find_grid_candidates FIND_GRID_SCALE h,
    same_diagram_filter_bounds FIND_GRID_SCALE h, same_diagram_write_output FIND_GRID_SCALE h]

end Renumbering

/-- Renumbering the points by an injective `σ`, the permuted list holding at `σ i` the
point the list holds at `i`, gives the same diagram up to the numbering. -/
theorem same_diagram_rename_sources (σ : Nat → Nat) (voronoi : VORONOI)
    (points points1 : List Point)
    (hsrc : ∀ c, (cell voronoi c).source_index < points.length)
    (hinj : ∀ i j, i < points.length → j < points.length → σ i = σ j → i = j)
    (hperm : ∀ i < points.length, points1[σ i]? = points[i]?) :
    same_diagram voronoi points (rename_sources σ voronoi) points1 where
  size := rfl
  adjacent := fun _ => rfl
  point := by
    intro c
    simp only [cell_point, cell, rename_sources, List.getD_eq_getElem?_getD]
    have e := hperm _ (hsrc c)
    simp only [cell] at e
    rw [e]
  source := by
    intro c d
    simp only [cell, rename_sources]
    constructor
    · intro h
      exact hinj _ _ (hsrc c) (hsrc d) h
    · intro h
      have h1 : (voronoi.cells c).source_index = (voronoi.cells d).source_index := h
      rw [h1]

/-- C10: listing the input points in another order gives the same result and the same
output.  The list `points1` holds at position `σ i` the point that `points` holds at
position `i`, for an injective renumbering `σ`, and has the same length; the diagram of
a point set does not depend on the order in which the points are listed, except for the
source indices of its cells, which follow the renumbering. -/
theorem find_grid_from_points_permutation (σ : Nat → Nat) (bins : Bins D)
    (points_out : List (PointDouble D)) (voronoi : VORONOI) (points points1 : List Point)
    (_hlen : points1.length = points.length)
    (hsrc : ∀ c, (cell voronoi c).source_index < points.length)
    (hinj : ∀ i j, i < points.length → j < points.length → σ i = σ j → i = j)
    (hperm : ∀ i < points.length, points1[σ i]? = points[i]?) :
    find_grid_from_points FIND_GRID_SCALE bins points_out (rename_sources σ voronoi) points1 =
      find_grid_from_points FIND_GRID_SCALE bins points_out voronoi points :=
  same_diagram_find_grid_from_points FIND_GRID_SCALE
    (same_diagram_rename_sources σ voronoi points points1 hsrc hinj hperm) bins points_out

theorem lattice_points_reverse :
    ∀ i < (lattice_points 16).length,
      (lattice_points 16).reverse[(fun i => 99 - i) i]? = (lattice_points 16)[i]? := by
  intro i hi
  have h100 : (lattice_points 16).length = 100 := by simp [lattice_points]
  rw [List.getElem?_reverse (by rw [h100]; simp only; omega)]
  congr 1
  rw [h100] at hi ⊢
  simp only
  omega

theorem find_grid_from_points_permutation_witness :
    (lattice_points 16).reverse.length = (lattice_points 16).length ∧
    (∀ c, (cell lattice_voronoi c).source_index < (lattice_points 16).length) ∧
    (∀ i j, i < (lattice_points 16).length → j < (lattice_points 16).length →
      (fun i => 99 - i) i = (fun i => 99 - i) j → i = j) ∧
    (∀ i < (lattice_points 16).length,
      (lattice_points 16).reverse[(fun i => 99 - i) i]? = (lattice_points 16)[i]?) ∧
    find_grid_from_points 16 zero_bins [] (rename_sources (fun i => 99 - i) lattice_voronoi)
        (lattice_points 16).reverse =
      find_grid_from_points 16 zero_bins [] lattice_voronoi (lattice_points 16) :=
  ⟨by simp, lattice_source_index_lt 16,
    fun i j hi hj h => by
      simp only [lattice_points, List.length_map, List.length_range] at hi hj
      simp only at h
      omega,
    lattice_points_reverse,
    find_grid_from_points_permutation 16 (fun i => 99 - i) zero_bins [] lattice_voronoi
      (lattice_points 16) (lattice_points 16).reverse (by simp) (lattice_source_index_lt 16)
      (fun i j hi hj h => by
        simp only [lattice_points, List.length_map, List.length_range] at hi hj
        simp only at h
        omega)
      lattice_points_reverse⟩

/-! ### The tracer step -/

/-- The walk over the neighbours stops at the first one that passes the tests, with the
statistics the tests give for it, and otherwise leaves the statistics alone. -/
theorem get_adjacent_cell_along_sequence_scan_eq (voronoi : VORONOI) (points : List Point)
    (stats : HypothesisStatistics D) (pt : Point) (l : List Nat) :
    get_adjacent_cell_along_sequence_scan FIND_GRID_SCALE voronoi points stats pt l =
      match l.find? (fun ca => (adjacent_cell_test FIND_GRID_SCALE stats
          ⟨(cell_point voronoi points ca).x - pt.x,
           (cell_point voronoi points ca).y - pt.y⟩).isSome) with
      | some ca => (some ca, (adjacent_cell_test FIND_GRID_SCALE stats
          ⟨(cell_point voronoi points ca).x - pt.x,
           (cell_point voronoi points ca).y - pt.y⟩).getD stats)
      | none => (none, stats) := by
  induction l with
  | nil => rfl
  | cons a rest ih =>
    unfold get_adjacent_cell_along_sequence_scan
    rw [List.find?_cons]
    rcases h : adjacent_cell_test FIND_GRID_SCALE stats
        ⟨(cell_point voronoi points a).x - pt.x, (cell_point voronoi points a).y - pt.y⟩ with
      _ | st
    · simp only [h, Option.isSome_none]
      exact ih
    · simp only [h, Option.isSome_some, Option.getD_some]

/-- The tests of the code pass exactly when the tests of the specification do. -/
theorem adjacent_cell_test_isSome (S : Int) (stats : HypothesisStatistics ExactDouble)
    (delta : Point) :
    (adjacent_cell_test S stats delta).isSome = spec_spacing_tests S stats delta := by
  unfold adjacent_cell_test spec_spacing_tests
  simp only [exact_hypot_eq, exact_toDouble, exact_mul, exact_add, exact_div, exact_sub,
    exact_dlt, exact_dgt, exact_neg, THRESHOLD_SPACING_COS, exact_ofRat,
    THRESHOLD_SPACING_LENGTH, THRESHOLD_SPACING_LENGTH_RATIO_MIN,
    THRESHOLD_SPACING_LENGTH_RATIO_MAX, THRESHOLD_SPACING_LENGTH_RATIO_DEVIATION]
  generalize exact_hypot (stats.delta_last.x : ℚ) (stats.delta_last.y : ℚ) = l0
  generalize exact_hypot (delta.x : ℚ) (delta.y : ℚ) = l1
  generalize ((stats.delta_last.x : ℚ) * delta.x + (stats.delta_last.y : ℚ) * delta.y) /
    (l0 * l1) = cosine
  generalize stats.length_ratio_sum.val = sum
  generalize stats.length_ratio_N = n
  have hT : (((-(80 * S) : Int)) : ℚ) = -(80 * (S : ℚ)) := by push_cast; ring
  have hT1 : (((80 * S : Int)) : ℚ) = 80 * (S : ℚ) := by push_cast; ring
  rw [hT, hT1]
  have hn : (n > 2) ↔ (n ≥ 3) := by omega
  rw [Bool.eq_iff_iff]
  simp only [Bool.and_eq_true, Bool.or_eq_true, decide_eq_true_eq, abs_le, ge_iff_le]
  split_ifs with h1 h2 h3 h4
  · simp only [Option.isSome_none, Bool.false_eq_true, false_iff]
    intro h
    exact absurd h1 (not_lt.mpr h.1.1.1)
  · simp only [Option.isSome_none, Bool.false_eq_true, false_iff]
    intro h
    rcases h2 with h2 | h2
    · linarith [h.1.1.2.1]
    · linarith [h.1.1.2.2]
  · simp only [Option.isSome_none, Bool.false_eq_true, false_iff]
    intro h
    rcases h3 with h3 | h3
    · linarith [h.1.2.1]
    · linarith [h.1.2.2]
  · simp only [Option.isSome_none, Bool.false_eq_true, false_iff]
    intro h
    have h5 := h.2 (by omega)
    rcases h4.2 with h4 | h4
    · linarith [h5.1]
    · linarith [h5.2]
  · simp only [Option.isSome_some, true_iff]
    simp only [not_and, not_or, not_lt] at h1 h2 h3 h4
    refine ⟨⟨⟨h1, by constructor <;> linarith [h2.1, h2.2]⟩, h3.1, h3.2⟩, ?_⟩
    intro h5
    have := h4 (by omega)
    constructor <;> linarith [this.1, this.2]

/-- The chain of `continue` statements of the tests, on Booleans. -/
theorem continue_chain_isSome {α : Type} (b1 b2 b3 b4 b5 b6 b7 b8 : Bool) (x : α) :
    (if b1 then none else if b2 || b3 then none else if b4 || b5 then none else
      if b6 && (b7 || b8) then none else some x).isSome =
      (!b1 && (!b2 && !b3) && (!b4 && !b5) && (!b6 || (!b7 && !b8))) := by
  cases b1 <;> cases b2 <;> cases b3 <;> cases b4 <;> cases b5 <;> cases b6 <;>
    cases b7 <;> cases b8 <;> rfl

/-- The tests of the code pass exactly when the four tests pass, in any arithmetic. -/
theorem adjacent_cell_test_isSome_eq (stats : HypothesisStatistics D) (delta : Point) :
    (adjacent_cell_test FIND_GRID_SCALE stats delta).isSome =
      spacing_tests FIND_GRID_SCALE stats delta := by
  have e : decide (stats.length_ratio_N ≥ 3) = decide (stats.length_ratio_N > 2) := by
    apply decide_eq_decide.mpr
    omega
  unfold adjacent_cell_test spacing_tests
  simp only [THRESHOLD_SPACING_COS, THRESHOLD_SPACING_LENGTH, THRESHOLD_SPACING_LENGTH_RATIO_MIN,
    THRESHOLD_SPACING_LENGTH_RATIO_MAX, THRESHOLD_SPACING_LENGTH_RATIO_DEVIATION]
  rw [e]
  exact continue_chain_isSome _ _ _ _ _ _ _ _ _

/-- C14: `get_adjacent_cell_along_sequence` returns the first neighbour, in the order
of the walk around the cell, whose step passes the four tests against the last accepted
step (cosine not below 0.996, length difference within `80 * FIND_GRID_SCALE`, length
ratio within `[0.7, 1.4]` and, once 3 ratios are recorded, ratio within 0.15 of their
mean, each comparison as the doubles of the program evaluate it), and it returns none
exactly when no neighbour passes them; in any double arithmetic. -/
theorem get_adjacent_cell_along_sequence_first (voronoi : VORONOI)
    (points : List Point) (stats : HypothesisStatistics D) (c : Nat) :
    (get_adjacent_cell_along_sequence FIND_GRID_SCALE voronoi points stats c).1 =
      (cell voronoi c).adjacent.find? (fun ca => spacing_tests FIND_GRID_SCALE stats
        ⟨(cell_point voronoi points ca).x - (cell_point voronoi points c).x,
         (cell_point voronoi points ca).y - (cell_point voronoi points c).y⟩) ∧
    ((get_adjacent_cell_along_sequence FIND_GRID_SCALE voronoi points stats c).1 = none ↔
      ∀ ca ∈ (cell voronoi c).adjacent, spacing_tests FIND_GRID_SCALE stats
        ⟨(cell_point voronoi points ca).x - (cell_point voronoi points c).x,
         (cell_point voronoi points ca).y - (cell_point voronoi points c).y⟩ = false) := by
  have e : (get_adjacent_cell_along_sequence FIND_GRID_SCALE voronoi points stats c).1 =
      (cell voronoi c).adjacent.find? (fun ca => spacing_tests FIND_GRID_SCALE stats
        ⟨(cell_point voronoi points ca).x - (cell_point voronoi points c).x,
         (cell_point voronoi points ca).y - (cell_point voronoi points c).y⟩) := by
    unfold get_adjacent_cell_along_sequence
    rw [get_adjacent_cell_along_sequence_scan_eq]
    simp only [adjacent_cell_test_isSome_eq]
    cases List.find? (fun ca => spacing_tests FIND_GRID_SCALE stats
        ⟨(cell_point voronoi points ca).x - (cell_point voronoi points c).x,
         (cell_point voronoi points ca).y - (cell_point voronoi points c).y⟩)
      (cell voronoi c).adjacent <;> rfl
  refine ⟨e, ?_⟩
  rw [e, List.find?_eq_none]
  simp

/-- In binary64 arithmetic at scale 16: from the second point of the line with the
spacings 100, 110, 121, ... the walk returns the third point; the quotient of the rounded
lengths of the steps `(112, 560)` and `(80, 400)` is above 1.4, and on the line with these
two first steps the walk from the second point returns none. -/
theorem get_adjacent_cell_along_sequence_first_witness :
    (get_adjacent_cell_along_sequence 16 geometric_line_voronoi rounded_line_points
      (fill_initial_hypothesis_statistics
        ⟨rounded_line_position 1 - rounded_line_position 0, 0⟩ :
          HypothesisStatistics Binary64) 1).1 = some 2 ∧
    dgt ((DoubleArith.hypot (toDouble 112) (toDouble 560) : Binary64) /
        DoubleArith.hypot (toDouble 80) (toDouble 400)) (DoubleArith.ofRat 1.4) = true ∧
    (get_adjacent_cell_along_sequence 16 geometric_line_voronoi steep_line_points
      (fill_initial_hypothesis_statistics ⟨80, 400⟩ : HypothesisStatistics Binary64) 1).1 =
        none :=
  ⟨(get_adjacent_cell_along_sequence_first 16 geometric_line_voronoi rounded_line_points
      (fill_initial_hypothesis_statistics
        ⟨rounded_line_position 1 - rounded_line_position 0, 0⟩ :
          HypothesisStatistics Binary64) 1).1.trans (by decide!),
   by decide!,
   (get_adjacent_cell_along_sequence_first 16 geometric_line_voronoi steep_line_points
      (fill_initial_hypothesis_statistics ⟨80, 400⟩ : HypothesisStatistics Binary64) 1).2.mpr
      (by decide!)⟩

/-- The statistics after a step that passed the tests. -/
theorem adjacent_cell_test_some (stats st : HypothesisStatistics D) (delta : Point)
    (h : adjacent_cell_test FIND_GRID_SCALE stats delta = some st) :
    st = { delta_last := delta,
           length_ratio_sum := stats.length_ratio_sum +
             DoubleArith.hypot (toDouble delta.x) (toDouble delta.y) /
               DoubleArith.hypot (toDouble stats.delta_last.x) (toDouble stats.delta_last.y),
           length_ratio_N := stats.length_ratio_N + 1 } := by
  unfold adjacent_cell_test at h
  simp only at h
  split_ifs at h
  simp only [Option.some.injEq] at h
  exact h.symm

/-- What a step of the tracer returns: an accepted neighbour of the cell with the
statistics updated for the step to it, or none with the statistics as they were. -/
theorem get_adjacent_cell_along_sequence_cases (voronoi : VORONOI) (points : List Point)
    (stats : HypothesisStatistics D) (c : Nat) :
    (∃ ca ∈ (cell voronoi c).adjacent,
      get_adjacent_cell_along_sequence FIND_GRID_SCALE voronoi points stats c =
        (some ca,
          { delta_last := ⟨(cell_point voronoi points ca).x - (cell_point voronoi points c).x,
                           (cell_point voronoi points ca).y - (cell_point voronoi points c).y⟩,
            length_ratio_sum := stats.length_ratio_sum +
              DoubleArith.hypot
                (toDouble ((cell_point voronoi points ca).x - (cell_point voronoi points c).x))
                (toDouble ((cell_point voronoi points ca).y - (cell_point voronoi points c).y)) /
              DoubleArith.hypot (toDouble stats.delta_last.x) (toDouble stats.delta_last.y),
            length_ratio_N := stats.length_ratio_N + 1 })) ∨
    get_adjacent_cell_along_sequence FIND_GRID_SCALE voronoi points stats c = (none, stats) := by
  unfold get_adjacent_cell_along_sequence
  rw [get_adjacent_cell_along_sequence_scan_eq]
  rcases hf : (cell voronoi c).adjacent.find? (fun ca =>
      (adjacent_cell_test FIND_GRID_SCALE stats
        ⟨(cell_point voronoi points ca).x - (cell_point voronoi points c).x,
         (cell_point voronoi points ca).y - (cell_point voronoi points c).y⟩).isSome) with _ | ca
  · exact Or.inr rfl
  · left
    have hmem := List.mem_of_find?_eq_some hf
    have hp := List.find?_some hf
    rw [Option.isSome_iff_exists] at hp
    obtain ⟨st, hst⟩ := hp
    refine ⟨ca, hmem, ?_⟩
    simp only [hst, Option.getD_some]
    rw [adjacent_cell_test_some FIND_GRID_SCALE stats st _ hst]

/-- C15: a step of the tracer that accepts a neighbour raises the ratio count by one,
adds the accepted length ratio to the ratio sum and makes the step to the neighbour the
last accepted step; a step that returns none leaves the statistics as they were. -/
theorem get_adjacent_cell_along_sequence_state (voronoi : VORONOI) (points : List Point)
    (stats : HypothesisStatistics D) (c : Nat) :
    (∀ ca stats1,
      get_adjacent_cell_along_sequence FIND_GRID_SCALE voronoi points stats c =
        (some ca, stats1) →
      ca ∈ (cell voronoi c).adjacent ∧
      stats1.length_ratio_N = stats.length_ratio_N + 1 ∧
      stats1.length_ratio_sum = stats.length_ratio_sum +
        DoubleArith.hypot
          (toDouble ((cell_point voronoi points ca).x - (cell_point voronoi points c).x))
          (toDouble ((cell_point voronoi points ca).y - (cell_point voronoi points c).y)) /
        DoubleArith.hypot (toDouble stats.delta_last.x) (toDouble stats.delta_last.y) ∧
      stats1.delta_last =
        ⟨(cell_point voronoi points ca).x - (cell_point voronoi points c).x,
         (cell_point voronoi points ca).y - (cell_point voronoi points c).y⟩) ∧
    (∀ stats1,
      get_adjacent_cell_along_sequence FIND_GRID_SCALE voronoi points stats c =
        (none, stats1) → stats1 = stats) := by
  rcases get_adjacent_cell_along_sequence_cases FIND_GRID_SCALE voronoi points stats c with
    ⟨ca1, hmem, h⟩ | h
  · rw [h]
    constructor
    · intro ca stats1 he
      simp only [Prod.mk.injEq, Option.some.injEq] at he
      obtain ⟨rfl, rfl⟩ := he
      exact ⟨hmem, rfl, rfl, rfl⟩
    · intro stats1 he
      simp at he
  · rw [h]
    constructor
    · intro ca stats1 he
      simp at he
    · intro stats1 he
      simp only [Prod.mk.injEq, true_and] at he
      exact he.symm

theorem get_adjacent_cell_along_sequence_state_witness :
    get_adjacent_cell_along_sequence 16 lattice_voronoi (lattice_points 16)
        (lattice_stats 16 Direction.right 0) 0 =
      (some 1, lattice_stats 16 Direction.right 1) ∧
    (1 ∈ (cell lattice_voronoi 0).adjacent ∧
      (lattice_stats 16 Direction.right 1).length_ratio_N =
        (lattice_stats 16 Direction.right 0).length_ratio_N + 1 ∧
      (lattice_stats 16 Direction.right 1).length_ratio_sum =
        (lattice_stats 16 Direction.right 0).length_ratio_sum +
        DoubleArith.hypot
          (toDouble ((cell_point lattice_voronoi (lattice_points 16) 1).x -
            (cell_point lattice_voronoi (lattice_points 16) 0).x))
          (toDouble ((cell_point lattice_voronoi (lattice_points 16) 1).y -
            (cell_point lattice_voronoi (lattice_points 16) 0).y)) /
        DoubleArith.hypot (toDouble (lattice_stats 16 Direction.right 0).delta_last.x)
          (toDouble (lattice_stats 16 Direction.right 0).delta_last.y) ∧
      (lattice_stats 16 Direction.right 1).delta_last =
        ⟨(cell_point lattice_voronoi (lattice_points 16) 1).x -
          (cell_point lattice_voronoi (lattice_points 16) 0).x,
         (cell_point lattice_voronoi (lattice_points 16) 1).y -
          (cell_point lattice_voronoi (lattice_points 16) 0).y⟩) :=
  ⟨lattice_get_adjacent_cell_along_sequence 16 (by decide) Direction.right 0 0 (by decide),
    (get_adjacent_cell_along_sequence_state 16 lattice_voronoi (lattice_points 16)
      (lattice_stats 16 Direction.right 0) 0).1 1 (lattice_stats 16 Direction.right 1)
      (lattice_get_adjacent_cell_along_sequence 16 (by decide) Direction.right 0 0 (by decide))⟩

/-! ### The sequence candidates -/

theorem search_along_sequence_loop_isSome (voronoi : VORONOI) (points : List Point) (n : Nat) :
    ∀ (stats : HypothesisStatistics D) (c : Nat) (delta_mean : PointDouble D),
      (search_along_sequence_loop FIND_GRID_SCALE voronoi points n stats c delta_mean).isSome =
        (trace_cells FIND_GRID_SCALE voronoi points n stats c).isSome := by
  induction n with
  | zero => intro stats c dm; rfl
  | succ n ih =>
    intro stats c dm
    unfold search_along_sequence_loop trace_cells
    rcases get_adjacent_cell_along_sequence FIND_GRID_SCALE voronoi points stats c with ⟨o, st⟩
    cases o with
    | none => rfl
    | some ca => simp only [ih, Option.isSome_map']

theorem search_along_sequence_isSome (voronoi : VORONOI) (points : List Point)
    (delta : Point) (c n : Nat) :
    (search_along_sequence FIND_GRID_SCALE voronoi points delta c n :
        Option (PointDouble D)).isSome =
      (trace_cells FIND_GRID_SCALE voronoi points n
        (fill_initial_hypothesis_statistics delta : HypothesisStatistics D) c).isSome := by
  unfold search_along_sequence
  rw [← search_along_sequence_loop_isSome FIND_GRID_SCALE voronoi points n _ c
    ⟨toDouble delta.x, toDouble delta.y⟩]
  cases search_along_sequence_loop FIND_GRID_SCALE voronoi points n
    (fill_initial_hypothesis_statistics delta : HypothesisStatistics D) c
    ⟨toDouble delta.x, toDouble delta.y⟩ <;> rfl

/-- The candidates recorded at a cell: one for each neighbour from which the search
succeeds. -/
theorem mem_get_sequence_candidates_cell (voronoi : VORONOI) (points : List Point) (c : Nat)
    (pt : Point) (l : List Nat) :
    ∀ (acc : v_CS D) (cs : CandidateSequence D),
      cs ∈ get_sequence_candidates_cell FIND_GRID_SCALE voronoi points c pt l acc ↔
        cs ∈ acc ∨ ∃ ca ∈ l, ∃ delta_mean : PointDouble D,
          search_along_sequence FIND_GRID_SCALE voronoi points
            ⟨(cell_point voronoi points ca).x - pt.x, (cell_point voronoi points ca).y - pt.y⟩
            ca (Nwant - 2) = some delta_mean ∧
          cs = { c0 := c, c1 := ca, delta_mean := delta_mean,
                 spacing_angle := get_spacing_angle delta_mean.y delta_mean.x,
                 spacing_length := DoubleArith.hypot delta_mean.x delta_mean.y,
                 type := UNCLASSIFIED } := by
  induction l with
  | nil => intro acc cs; simp [get_sequence_candidates_cell]
  | cons a rest ih =>
    intro acc cs
    unfold get_sequence_candidates_cell
    simp only
    rcases hs : search_along_sequence FIND_GRID_SCALE voronoi points
        ⟨(cell_point voronoi points a).x - pt.x, (cell_point voronoi points a).y - pt.y⟩
        a (Nwant - 2) with _ | dm
    · simp [ih, hs]
    · simp only [ih, hs, List.mem_cons, exists_eq_or_imp, List.mem_append, List.mem_singleton,
        Option.some.injEq, exists_eq_left', List.not_mem_nil, or_false]
      tauto

/-- The candidate list: one candidate for each cell and neighbour from which the search
succeeds. -/
theorem mem_get_sequence_candidates (voronoi : VORONOI) (points : List Point)
    (cs : CandidateSequence D) :
    cs ∈ get_sequence_candidates FIND_GRID_SCALE [] voronoi points ↔
      ∃ c < voronoi.size, ∃ ca ∈ (cell voronoi c).adjacent, ∃ delta_mean : PointDouble D,
        search_along_sequence FIND_GRID_SCALE voronoi points
          ⟨(cell_point voronoi points ca).x - (cell_point voronoi points c).x,
           (cell_point voronoi points ca).y - (cell_point voronoi points c).y⟩
          ca (Nwant - 2) = some delta_mean ∧
        cs = { c0 := c, c1 := ca, delta_mean := delta_mean,
               spacing_angle := get_spacing_angle delta_mean.y delta_mean.x,
               spacing_length := DoubleArith.hypot delta_mean.x delta_mean.y,
               type := UNCLASSIFIED } := by
  rw [get_sequence_candidates_eq, List.nil_append, List.mem_flatMap]
  simp only [List.mem_range, mem_get_sequence_candidates_cell, List.not_mem_nil, false_or]

/-- Every recorded candidate is unclassified and its trace succeeds. -/
theorem get_sequence_candidates_traced (voronoi : VORONOI) (points : List Point)
    (cs : CandidateSequence D)
    (h : cs ∈ get_sequence_candidates FIND_GRID_SCALE [] voronoi points) :
    cs.type = UNCLASSIFIED ∧
    (sequence_cells FIND_GRID_SCALE voronoi points cs).isSome = true := by
  rw [mem_get_sequence_candidates] at h
  obtain ⟨c, _, ca, _, dm, hs, rfl⟩ := h
  refine ⟨rfl, ?_⟩
  have h1 : (search_along_sequence FIND_GRID_SCALE voronoi points
    ⟨(cell_point voronoi points ca).x - (cell_point voronoi points c).x,
     (cell_point voronoi points ca).y - (cell_point voronoi points c).y⟩ ca (Nwant - 2) :
      Option (PointDouble D)).isSome = true := by rw [hs]; rfl
  rw [search_along_sequence_isSome] at h1
  simp only [sequence_cells, Option.isSome_map']
  exact h1

/-- C16: `search_along_sequence` succeeds exactly when every one of its tracer steps
finds a neighbour; `get_sequence_candidates` records a candidate for a cell and a
neighbour of it exactly when the search from them (`Nwant - 2` steps) succeeds; and every
recorded candidate is unclassified and stands for `Nwant` cells: its first, its second and
the `Nwant - 2` traced ones. -/
theorem get_sequence_candidates_complete_traces (voronoi : VORONOI) (points : List Point) :
    (∀ (delta : Point) (c n : Nat),
      (search_along_sequence FIND_GRID_SCALE voronoi points delta c n :
          Option (PointDouble D)).isSome =
        (trace_cells FIND_GRID_SCALE voronoi points n
          (fill_initial_hypothesis_statistics delta : HypothesisStatistics D) c).isSome) ∧
    (∀ c ca : Nat, c < voronoi.size → ca ∈ (cell voronoi c).adjacent →
      ((∃ cs ∈ get_sequence_candidates FIND_GRID_SCALE ([] : v_CS D) voronoi points,
          cs.c0 = c ∧ cs.c1 = ca) ↔
        (trace_cells FIND_GRID_SCALE voronoi points (Nwant - 2)
          (fill_initial_hypothesis_statistics
            ⟨(cell_point voronoi points ca).x - (cell_point voronoi points c).x,
             (cell_point voronoi points ca).y - (cell_point voronoi points c).y⟩ :
            HypothesisStatistics D) ca).isSome = true)) ∧
    (∀ cs ∈ get_sequence_candidates FIND_GRID_SCALE ([] : v_CS D) voronoi points,
      cs.type = UNCLASSIFIED ∧ cs.c0 < voronoi.size ∧ cs.c1 ∈ (cell voronoi cs.c0).adjacent ∧
      ∃ traced, trace_cells FIND_GRID_SCALE voronoi points (Nwant - 2)
          (fill_initial_hypothesis_statistics
            ⟨(cell_point voronoi points cs.c1).x - (cell_point voronoi points cs.c0).x,
             (cell_point voronoi points cs.c1).y - (cell_point voronoi points cs.c0).y⟩ :
            HypothesisStatistics D) cs.c1 = some traced ∧
        sequence_cells FIND_GRID_SCALE voronoi points cs = some (cs.c0 :: cs.c1 :: traced) ∧
        (cs.c0 :: cs.c1 :: traced).length = Nwant) := by
  refine ⟨fun delta c n => search_along_sequence_isSome FIND_GRID_SCALE voronoi points delta c n,
    ?_, ?_⟩
  · intro c ca hc hca
    rw [← search_along_sequence_isSome]
    constructor
    · rintro ⟨cs, hcs, rfl, rfl⟩
      rw [mem_get_sequence_candidates] at hcs
      obtain ⟨c1, _, ca1, _, dm, hs, rfl⟩ := hcs
      rw [hs]; rfl
    · intro h
      rw [Option.isSome_iff_exists] at h
      obtain ⟨dm, hs⟩ := h
      exact ⟨_, (mem_get_sequence_candidates FIND_GRID_SCALE voronoi points _).mpr
        ⟨c, hc, ca, hca, dm, hs, rfl⟩, rfl, rfl⟩
  · intro cs hcs
    have h1 := get_sequence_candidates_traced FIND_GRID_SCALE voronoi points cs hcs
    rw [mem_get_sequence_candidates] at hcs
    obtain ⟨c, hc, ca, hca, dm, hs, rfl⟩ := hcs
    refine ⟨rfl, hc, hca, ?_⟩
    obtain ⟨t, ht⟩ := Option.isSome_iff_exists.mp h1.2
    have hlen := sequence_cells_length FIND_GRID_SCALE voronoi points _ t ht
    simp only [sequence_cells, Option.map_eq_some'] at ht
    obtain ⟨traced, htr, rfl⟩ := ht
    exact ⟨traced, htr, by simp [sequence_cells, htr], hlen⟩

/-- C19, as the code has it: once two bins are accepted (`bin_index = 2`) and the loop
goes on, it can end only with `return false`, never with the `break` that marks the
stragglers as outliers; the test `Nremaining < Nwant*2` is not reached after an
undersized bin was discarded. -/
theorem cluster_loop_no_break_after_two_bins (fuel : Nat) :
    ∀ (bins : Bins D) (l : v_CS D) (r : Bool × Bins D × Nat × v_CS D),
      cluster_sequence_candidates_loop FIND_GRID_SCALE fuel bins 2 l = some r →
      r.1 = false := by
  induction fuel with
  | zero => intro bins l r h; simp [cluster_sequence_candidates_loop] at h
  | succ fuel ih =>
    intro bins l r h
    unfold cluster_sequence_candidates_loop at h
    simp only [ge_iff_le, le_refl, if_true] at h
    split_ifs at h with h1 h2
    · simp only [Option.some.injEq] at h
      rw [← h]
    · exact ih _ _ r h
    · simp only [Option.some.injEq] at h
      rw [← h]

theorem lattice_forward_retag (S : Int) (g : ClassificationType → ClassificationType)
    (tr tu : ClassificationType) :
    (((lattice_forward tr tu).map (LatticeSequence.candidate S)).map
        fun cs => { cs with type := g cs.type }) =
      (lattice_forward (g tr) (g tu)).map (LatticeSequence.candidate S) := by
  unfold lattice_forward
  simp only [List.map_map]
  apply List.map_congr_left
  intro a _
  simp only [Function.comp, LatticeSequence.candidate]
  split_ifs <;> rfl

theorem lattice_gather_forward_rows :
    lattice_gather 2 (lattice_forward UNCLASSIFIED UNCLASSIFIED) 0 (Direction.right, 0) =
      (10, (Direction.right, 10), lattice_forward (-3) UNCLASSIFIED) := by
  decide

theorem lattice_gather_forward_columns :
    lattice_gather 2 (lattice_forward OUTLIER UNCLASSIFIED) 0 (Direction.right, 0) =
      (0, (Direction.up, 10), lattice_forward OUTLIER (-3)) := by
  decide

/-- With 20 stragglers left after two accepted bins, 10 along the rows and 10 along
the columns, the loop discards two undersized bins and returns false. -/
theorem lattice_cluster_stragglers :
    cluster_sequence_candidates_loop 16 3 zero_bins 2
        ((lattice_forward UNCLASSIFIED UNCLASSIFIED).map (LatticeSequence.candidate 16)) =
      some (false,
        Function.update (Function.update zero_bins 2 (lattice_bin 16 Direction.right 10)) 2
          (lattice_bin 16 Direction.up 10),
        2, (lattice_forward OUTLIER OUTLIER).map (LatticeSequence.candidate 16)) := by
  have hS : (0 : Int) < 16 := by decide
  show cluster_sequence_candidates_loop 16 (1 + 1 + 1) zero_bins 2 _ = _
  rw [cluster_sequence_candidates_loop]
  simp only [Nat.cast_ofNat, lattice_gather_unclassified 16 hS, lattice_gather_forward_rows]
  rw [if_pos (by simp [lattice_bin, Nwant]), if_neg (by decide), mark_outliers_eq,
    lattice_forward_retag]
  have e1 : lattice_forward (mark_outliers_type 2 (-3)) (mark_outliers_type 2 UNCLASSIFIED) =
      lattice_forward OUTLIER UNCLASSIFIED := by decide
  rw [e1, cluster_sequence_candidates_loop]
  simp only [Nat.cast_ofNat, lattice_gather_unclassified 16 hS, lattice_gather_forward_columns]
  rw [if_pos (by simp [lattice_bin, Nwant]), if_pos (by decide), mark_outliers_eq,
    lattice_forward_retag]
  have e2 : lattice_forward (mark_outliers_type 2 OUTLIER) (mark_outliers_type 2 (-3)) =
      lattice_forward OUTLIER OUTLIER := by decide
  rw [e2]

theorem cluster_loop_no_break_after_two_bins_witness :
    cluster_sequence_candidates_loop 16 3 zero_bins 2
        ((lattice_forward UNCLASSIFIED UNCLASSIFIED).map (LatticeSequence.candidate 16)) =
      some (false,
        Function.update (Function.update zero_bins 2 (lattice_bin 16 Direction.right 10)) 2
          (lattice_bin 16 Direction.up 10),
        2, (lattice_forward OUTLIER OUTLIER).map (LatticeSequence.candidate 16)) ∧
    (false,
      Function.update (Function.update zero_bins 2 (lattice_bin 16 Direction.right 10)) 2
        (lattice_bin 16 Direction.up 10),
      2, (lattice_forward OUTLIER OUTLIER).map (LatticeSequence.candidate 16)).1 = false :=
  ⟨lattice_cluster_stragglers,
    cluster_loop_no_break_after_two_bins 16 3 zero_bins _ _ lattice_cluster_stragglers⟩

/-- C20: when two bins of at least `2 * Nwant` members are accepted (`bin_index = 2`)
and the bin gathered next has at least `2 * Nwant` members too, the loop returns false,
which is then what `cluster_sequence_candidates` returns; so for a list whose first three
gathered bins all have `2 * Nwant` members or more, with as many candidates left after
each of the first two, `cluster_sequence_candidates` returns false. -/
theorem cluster_sequence_candidates_third_bin :
    (∀ (fuel : Nat) (bins : Bins D) (l : v_CS D),
      (gather_unclassified FIND_GRID_SCALE l 2).2.1.N ≥ 2 * (Nwant : Int) →
      cluster_sequence_candidates_loop FIND_GRID_SCALE (fuel + 1) bins 2 l =
        some (false, Function.update bins 2 (gather_unclassified FIND_GRID_SCALE l 2).2.1, 2,
          (gather_unclassified FIND_GRID_SCALE l 2).2.2)) ∧
    (∀ (bins : Bins D) (l : v_CS D),
      (gather_unclassified FIND_GRID_SCALE l 0).2.1.N ≥ 2 * (Nwant : Int) →
      (gather_unclassified FIND_GRID_SCALE l 0).1 ≥ 2 * (Nwant : Int) →
      (gather_unclassified FIND_GRID_SCALE
        (gather_unclassified FIND_GRID_SCALE l 0).2.2 1).2.1.N ≥ 2 * (Nwant : Int) →
      (gather_unclassified FIND_GRID_SCALE
        (gather_unclassified FIND_GRID_SCALE l 0).2.2 1).1 ≥ 2 * (Nwant : Int) →
      (gather_unclassified FIND_GRID_SCALE
        (gather_unclassified FIND_GRID_SCALE
          (gather_unclassified FIND_GRID_SCALE l 0).2.2 1).2.2 2).2.1.N ≥ 2 * (Nwant : Int) →
      cluster_sequence_candidates FIND_GRID_SCALE bins l =
        some (false, (gather_unclassified FIND_GRID_SCALE
          (gather_unclassified FIND_GRID_SCALE
            (gather_unclassified FIND_GRID_SCALE l 0).2.2 1).2.2 2).2.2)) := by
  have key : ∀ (fuel : Nat) (bins : Bins D) (l : v_CS D),
      (gather_unclassified FIND_GRID_SCALE l 2).2.1.N ≥ 2 * (Nwant : Int) →
      cluster_sequence_candidates_loop FIND_GRID_SCALE (fuel + 1) bins 2 l =
        some (false, Function.update bins 2 (gather_unclassified FIND_GRID_SCALE l 2).2.1, 2,
          (gather_unclassified FIND_GRID_SCALE l 2).2.2) := by
    intro fuel bins l h
    unfold cluster_sequence_candidates_loop
    simp only [Nat.cast_ofNat]
    rw [if_neg (by omega), if_pos (by decide)]
  refine ⟨key, ?_⟩
  intro bins l h0 r0 h1 r1 h2
  unfold cluster_sequence_candidates
  show (match cluster_sequence_candidates_loop FIND_GRID_SCALE (l.length + 1 + 1 + 1) bins 0 l
    with
    | none => none
    | some (false, _, _, sequence_candidates) => some (false, sequence_candidates)
    | some (true, bins, _, sequence_candidates) => _) = _
  rw [cluster_sequence_candidates_loop]
  simp only [Nat.cast_zero]
  rw [if_neg (by omega), if_neg (by decide), if_neg (by omega), cluster_sequence_candidates_loop]
  simp only [Nat.cast_zero, zero_add, Nat.cast_one]
  rw [if_neg (by omega), if_neg (by decide), if_neg (by omega), key _ _ _ h2]

theorem lattice_gather_columns_third :
    lattice_gather 2 (lattice_columns UNCLASSIFIED) 0 (Direction.right, 0) =
      (0, (Direction.up, 20), lattice_columns (-3)) := by
  decide

theorem cluster_sequence_candidates_third_bin_witness :
    (gather_unclassified 16
      ((lattice_columns UNCLASSIFIED).map (LatticeSequence.candidate 16)) 2).2.1.N ≥
        2 * (Nwant : Int) ∧
    cluster_sequence_candidates_loop 16 (0 + 1) zero_bins 2
        ((lattice_columns UNCLASSIFIED).map (LatticeSequence.candidate 16)) =
      some (false,
        Function.update zero_bins 2 (gather_unclassified 16
          ((lattice_columns UNCLASSIFIED).map (LatticeSequence.candidate 16)) 2).2.1, 2,
        (gather_unclassified 16
          ((lattice_columns UNCLASSIFIED).map (LatticeSequence.candidate 16)) 2).2.2) :=
  ⟨by rw [lattice_gather_unclassified 16 (by decide), lattice_gather_columns_third]; decide,
    (cluster_sequence_candidates_third_bin 16).1 0 zero_bins _
      (by rw [lattice_gather_unclassified 16 (by decide), lattice_gather_columns_third]; decide)⟩

/-! ### The command-line tools -/

/-- C12, as claimed, fails: for two points, where `find_grid_from_points` reports failure,
the tool has written the header line to standard output. -/
theorem mrgingham_from_points_main_failure_output :
    find_grid_from_points 16 zero_bins [] two_points_voronoi two_points = some (false, []) ∧
    mrgingham_from_points_main 16 (fun _ => "") zero_bins two_points_voronoi two_points =
      some (["# x y\n"], 1) ∧
    (["# x y\n"] : List String) ≠ [] := by
  have h : find_grid_from_points 16 zero_bins [] two_points_voronoi two_points =
      some (false, []) := by decide!
  refine ⟨h, ?_, by simp⟩
  unfold mrgingham_from_points_main
  rw [h]
  rfl

/-- C12, amended: when `find_grid_from_points` reports failure the tool writes the header
line and nothing else to standard output and exits with status 1; when it reports success
the tool writes the header line followed by one line for each output point and exits with
status 0. -/
theorem mrgingham_from_points_main_output (printf_point : PointDouble D → String)
    (bins : Bins D) (voronoi : VORONOI) (points : List Point)
    (points_out : List (PointDouble D)) :
    (find_grid_from_points FIND_GRID_SCALE bins [] voronoi points = some (false, points_out) →
      mrgingham_from_points_main FIND_GRID_SCALE printf_point bins voronoi points =
        some (["# x y\n"], 1)) ∧
    (find_grid_from_points FIND_GRID_SCALE bins [] voronoi points = some (true, points_out) →
      mrgingham_from_points_main FIND_GRID_SCALE printf_point bins voronoi points =
        some ("# x y\n" :: points_out.map printf_point, 0) ∧
      ("# x y\n" :: points_out.map printf_point).length = 1 + points_out.length) := by
  unfold mrgingham_from_points_main
  constructor
  · intro h
    rw [h]
    rfl
  · intro h
    rw [h]
    exact ⟨rfl, by simp [Nat.add_comm]⟩

theorem mrgingham_from_points_main_output_witness :
    find_grid_from_points 16 zero_bins [] lattice_voronoi (lattice_points 16) =
      some (true, [] ++ lattice_expected) ∧
    mrgingham_from_points_main 16 (fun _ => "p\n") zero_bins lattice_voronoi
        (lattice_points 16) =
      some ("# x y\n" :: ([] ++ lattice_expected).map (fun _ => "p\n"), 0) ∧
    ("# x y\n" :: ([] ++ lattice_expected).map (fun _ => "p\n")).length =
      1 + ([] ++ lattice_expected).length :=
  ⟨lattice_find_grid_from_points 16 (by decide) zero_bins [],
    (mrgingham_from_points_main_output 16 (fun _ => "p\n") zero_bins lattice_voronoi
      (lattice_points 16) ([] ++ lattice_expected)).2
      (lattice_find_grid_from_points 16 (by decide) zero_bins [])⟩

/-- C13, at a glob of two images of which the first cannot be read, with one worker:
the worker writes the record of the first image and stops, and no record is written for
the second image. -/
theorem worker_stops_at_unreadable_image :
    worker 2 1 (fun i => decide (i ≠ 0))
        (fun _ => ((false, []) : Bool × List (PointDouble ExactDouble))) 0 =
      [ImageRecord.no_grid 0] ∧
    ∀ r ∈ worker 2 1 (fun i => decide (i ≠ 0))
        (fun _ => ((false, []) : Bool × List (PointDouble ExactDouble))) 0,
      r ≠ ImageRecord.no_grid 1 ∧ ∀ points_out, r ≠ ImageRecord.grid 1 points_out := by
  have h : worker 2 1 (fun i => decide (i ≠ 0))
      (fun _ => ((false, []) : Bool × List (PointDouble ExactDouble))) 0 =
      [ImageRecord.no_grid 0] := by rfl
  refine ⟨h, ?_⟩
  rw [h]
  intro r hr
  simp only [List.mem_singleton] at hr
  subst hr
  exact ⟨by simp, fun p => by simp⟩

/-! ### The contents of `bins` on entry -/

/-- Gathering keeps the cells of every candidate and gives the candidates it takes the
tag of the bin. -/
theorem gather_unclassified_loop_tags (q : Nat → Nat → Prop) (T : Int → Prop) (i : Int)
    (hT : T (-i - 1)) :
    ∀ (l : v_CS D) (n : Int) (bin : ClassificationBin D),
      (∀ a ∈ l, q a.c0 a.c1 ∧ T a.type) →
      ∀ b ∈ (gather_unclassified_loop FIND_GRID_SCALE i l n bin).2.2,
        q b.c0 b.c1 ∧ T b.type := by
  intro l
  induction l with
  | nil => intro n bin _ b hb; simp [gather_unclassified_loop] at hb
  | cons cs rest ih =>
    intro n bin h b hb
    have hrest : ∀ a ∈ rest, q a.c0 a.c1 ∧ T a.type :=
      fun a ha => h a (List.mem_cons_of_mem _ ha)
    have hcs := h cs (List.mem_cons_self _ _)
    unfold gather_unclassified_loop at hb
    split_ifs at hb with h1 h2
    · simp only [List.mem_cons] at hb
      rcases hb with rfl | hb
      · exact hcs
      · exact ih _ _ hrest b hb
    · simp only [List.mem_cons] at hb
      rcases hb with rfl | hb
      · exact ⟨hcs.1, hT⟩
      · exact ih _ _ hrest b hb
    · simp only [List.mem_cons] at hb
      rcases hb with rfl | hb
      · exact hcs
      · exact ih _ _ hrest b hb

/-- The tags `mark_outliers` leaves. -/
theorem mark_outliers_tags (q : Nat → Nat → Prop) (T T1 : Int → Prop) (i : Int)
    (hT : ∀ t, T t → T1 (mark_outliers_type i t)) (l : v_CS D)
    (h : ∀ a ∈ l, q a.c0 a.c1 ∧ T a.type) :
    ∀ b ∈ mark_outliers l i, q b.c0 b.c1 ∧ T1 b.type := by
  intro b hb
  rw [mark_outliers_eq, List.mem_map] at hb
  obtain ⟨a, ha, rfl⟩ := hb
  exact ⟨(h a ha).1, hT _ (h a ha).2⟩

/-- The tags `mark_orientation` leaves. -/
theorem mark_orientation_tags (q : Nat → Nat → Prop) (T T1 : Int → Prop)
    (types : ClassificationType × ClassificationType)
    (hT : ∀ t, T t → T1 (mark_orientation_type types t)) (l : v_CS D)
    (h : ∀ a ∈ l, q a.c0 a.c1 ∧ T a.type) :
    ∀ b ∈ mark_orientation l types, q b.c0 b.c1 ∧ T1 b.type := by
  intro b hb
  rw [mark_orientation_eq, List.mem_map] at hb
  obtain ⟨a, ha, rfl⟩ := hb
  exact ⟨(h a ha).1, hT _ (h a ha).2⟩

theorem mark_outliers_type_discard (i : Nat) (t : Int)
    (h : t = 0 ∨ t = 3 ∨ (-((i : Int) + 1) ≤ t ∧ t ≤ -1)) :
    mark_outliers_type (i : Int) t = 0 ∨ mark_outliers_type (i : Int) t = 3 ∨
      (-(i : Int) ≤ mark_outliers_type (i : Int) t ∧ mark_outliers_type (i : Int) t ≤ -1) := by
  have e : mark_outliers_type (i : Int) t = (if t = -(i : Int) - 1 then (3 : Int) else t) := by
    unfold mark_outliers_type UNCLASSIFIED OUTLIER
    have hi : ¬ ((i : Int) < 0) := by omega
    simp [hi]
  rw [e]
  by_cases hx : t = -(i : Int) - 1
  · rw [if_pos hx]; exact Or.inr (Or.inl rfl)
  · rw [if_neg hx]
    rcases h with h | h | ⟨h1, h2⟩
    · exact Or.inl h
    · exact Or.inr (Or.inl h)
    · have h3 : -(i : Int) ≤ t := by omega
      exact Or.inr (Or.inr ⟨h3, h2⟩)

theorem mark_outliers_type_break (k : Int) (t : Int)
    (h : t = 0 ∨ t = 3 ∨ (-k ≤ t ∧ t ≤ -1)) :
    mark_outliers_type (-1) t = 3 ∨
      (-k ≤ mark_outliers_type (-1) t ∧ mark_outliers_type (-1) t ≤ -1) := by
  have e : mark_outliers_type (-1) t = (if t = 0 then (3 : Int) else t) := by
    unfold mark_outliers_type UNCLASSIFIED OUTLIER
    simp
  rw [e]
  by_cases hx : t = 0
  · rw [if_pos hx]; exact Or.inl rfl
  · rw [if_neg hx]
    rcases h with h | h | h
    · exact absurd h hx
    · exact Or.inl h
    · exact Or.inr h

/-- When the loop of `cluster_sequence_candidates` ends by `break`, one or two bins have
been accepted, and every candidate is tagged as an outlier or with one of these bins;
the cells of the candidates are those they had. -/
theorem cluster_loop_tags (q : Nat → Nat → Prop) (fuel : Nat) :
    ∀ (bins : Bins D) (i : Nat) (c : v_CS D) (r : Bool × Bins D × Nat × v_CS D),
      cluster_sequence_candidates_loop FIND_GRID_SCALE fuel bins i c = some r →
      r.1 = true →
      (∀ a ∈ c, q a.c0 a.c1 ∧
        (fun t : Int => t = 0 ∨ t = 3 ∨ (-(i : Int) ≤ t ∧ t ≤ -1)) a.type) →
      1 ≤ r.2.2.1 ∧ r.2.2.1 ≤ 2 ∧
      ∀ b ∈ r.2.2.2, q b.c0 b.c1 ∧
        (fun t : Int => t = 3 ∨ (-(r.2.2.1 : Int) ≤ t ∧ t ≤ -1)) b.type := by
  induction fuel with
  | zero => intro bins i c r h; simp [cluster_sequence_candidates_loop] at h
  | succ fuel ih =>
    intro bins i c r h hr hc
    have hg : ∀ b ∈ (gather_unclassified FIND_GRID_SCALE c (i : Int)).2.2, q b.c0 b.c1 ∧
        (fun t : Int => t = 0 ∨ t = 3 ∨ (-((i : Int) + 1) ≤ t ∧ t ≤ -1)) b.type := by
      apply gather_unclassified_loop_tags FIND_GRID_SCALE q
        (fun t : Int => t = 0 ∨ t = 3 ∨ (-((i : Int) + 1) ≤ t ∧ t ≤ -1))
      · show (-(i : Int) - 1 = 0 ∨ -(i : Int) - 1 = 3 ∨
          (-((i : Int) + 1) ≤ -(i : Int) - 1 ∧ -(i : Int) - 1 ≤ -1))
        omega
      · intro a ha
        refine ⟨(hc a ha).1, ?_⟩
        have key : ∀ t : Int, (t = 0 ∨ t = 3 ∨ (-(i : Int) ≤ t ∧ t ≤ -1)) →
            (t = 0 ∨ t = 3 ∨ (-((i : Int) + 1) ≤ t ∧ t ≤ -1)) := by
          intro t ht; omega
        exact key _ (hc a ha).2
    simp only [cluster_sequence_candidates_loop] at h
    split_ifs at h with h1 h2 h3 h4
    · simp only [Option.some.injEq] at h
      subst h
      simp at hr
    · exact ih _ _ _ _ h hr (mark_outliers_tags q
        (fun t : Int => t = 0 ∨ t = 3 ∨ (-((i : Int) + 1) ≤ t ∧ t ≤ -1))
        (fun t : Int => t = 0 ∨ t = 3 ∨ (-(i : Int) ≤ t ∧ t ≤ -1)) (i : Int)
        (fun t ht => mark_outliers_type_discard i t ht) _ hg)
    · simp only [Option.some.injEq] at h
      subst h
      simp at hr
    · simp only [Option.some.injEq] at h
      subst h
      refine ⟨by simp, by simp; omega, ?_⟩
      exact mark_outliers_tags q
        (fun t : Int => t = 0 ∨ t = 3 ∨ (-((i : Int) + 1) ≤ t ∧ t ≤ -1))
        (fun t : Int => t = 3 ∨ (-(((i + 1 : Nat)) : Int) ≤ t ∧ t ≤ -1)) (-1)
        (fun t ht => by
          have := mark_outliers_type_break ((i : Int) + 1) t ht
          push_cast
          exact this) _ hg
    · refine ih _ _ _ _ h hr ?_
      intro a ha
      refine ⟨(hg a ha).1, ?_⟩
      have := (hg a ha).2
      push_cast
      exact this

theorem dedup_search_forall {α : Type} (type_of : α → ClassificationType)
    (points_of : α → List Nat) (mark : α → α) (orientation : ClassificationType)
    (cs0_points : List Nat) (Q : α → Prop) (hQ : ∀ a, Q a → Q (mark a)) :
    ∀ (rest : List α) (cs1 : α) (rest1 : List α),
      dedup_search type_of points_of mark orientation cs0_points rest = some (cs1, rest1) →
      (∀ a ∈ rest, Q a) → Q cs1 ∧ ∀ b ∈ rest1, Q b := by
  intro rest
  induction rest with
  | nil => intro cs1 rest1 h; simp [dedup_search] at h
  | cons a rest ih =>
    intro cs1 rest1 h hall
    have ha := hall a (List.mem_cons_self _ _)
    have hrest : ∀ b ∈ rest, Q b := fun b hb => hall b (List.mem_cons_of_mem _ hb)
    unfold dedup_search at h
    split_ifs at h with hc
    · simp only [Option.some.injEq, Prod.mk.injEq] at h
      obtain ⟨rfl, rfl⟩ := h
      refine ⟨ha, fun b hb => ?_⟩
      simp only [List.mem_cons] at hb
      rcases hb with rfl | hb
      · exact hQ _ ha
      · exact hrest b hb
    · simp only [Option.map_eq_some'] at h
      obtain ⟨⟨q1, q2⟩, hq, hq2⟩ := h
      simp only [Prod.mk.injEq] at hq2
      obtain ⟨rfl, rfl⟩ := hq2
      obtain ⟨h1, h2⟩ := ih q1 q2 hq hrest
      refine ⟨h1, fun b hb => ?_⟩
      simp only [List.mem_cons] at hb
      rcases hb with rfl | hb
      · exact ha
      · exact h2 b hb

theorem dedup_loop_forall {α : Type} (type_of : α → ClassificationType)
    (points_of : α → List Nat) (mark : α → α) (forward : α → Bool)
    (orientation : ClassificationType) (Q : α → Prop) (hQ : ∀ a, Q a → Q (mark a)) :
    ∀ (n : Nat) (done todo : List α), (∀ a ∈ done, Q a) → (∀ a ∈ todo, Q a) →
      ∀ b ∈ dedup_loop type_of points_of mark forward orientation n done todo, Q b := by
  intro n
  induction n with
  | zero =>
    intro done todo hd ht b hb
    simp only [dedup_loop, List.mem_append] at hb
    rcases hb with hb | hb
    · exact hd b hb
    · exact ht b hb
  | succ n ih =>
    intro done todo hd ht
    cases todo with
    | nil => intro b hb; simp only [dedup_loop] at hb; exact hd b hb
    | cons cs0 rest =>
      have h0 := ht cs0 (List.mem_cons_self _ _)
      have hrest : ∀ b ∈ rest, Q b := fun b hb => ht b (List.mem_cons_of_mem _ hb)
      have happ : ∀ x, Q x → ∀ a ∈ done ++ [x], Q a := by
        intro x hx a ha
        simp only [List.mem_append, List.mem_singleton] at ha
        rcases ha with ha | rfl
        · exact hd a ha
        · exact hx
      unfold dedup_loop
      by_cases h1 : type_of cs0 ≠ orientation
      · rw [if_pos h1]
        exact ih _ _ (happ cs0 h0) hrest
      · rw [if_neg h1]
        rcases hs : dedup_search type_of points_of mark orientation (points_of cs0) rest with
          _ | ⟨cs1, rest1⟩
        · exact ih _ _ (happ _ (hQ _ h0)) hrest
        · obtain ⟨h2, h3⟩ := dedup_search_forall type_of points_of mark orientation _ Q hQ
            rest cs1 rest1 hs hrest
          refine ih _ _ (happ _ ?_) h3
          cases forward cs0
          · exact h2
          · exact h0

/-- On candidates whose traces succeed `filter_bidirectional` returns, and leaves
candidates whose traces succeed, with the tags they had or the tag `OUTLIER`. -/
theorem filter_bidirectional_traced (voronoi : VORONOI) (points : List Point)
    (orientation : ClassificationType) (ho : orientation ≠ OUTLIER) (T : Int → Prop)
    (hT : T OUTLIER) (l : v_CS D)
    (h : ∀ a ∈ l, (sequence_cells FIND_GRID_SCALE voronoi points a).isSome = true ∧ T a.type) :
    ∃ l1, filter_bidirectional FIND_GRID_SCALE l voronoi points orientation = some l1 ∧
      ∀ b ∈ l1, (sequence_cells FIND_GRID_SCALE voronoi points b).isSome = true ∧ T b.type := by
  have e := filter_bidirectional_eq FIND_GRID_SCALE (fun a : CandidateSequence D => a)
    (fun a => a.type)
    (fun a => ((sequence_cells FIND_GRID_SCALE voronoi points a).getD []).map
      fun k => (cell voronoi k).source_index)
    (fun a => { a with type := OUTLIER })
    (fun a => matches_direction a orientation) voronoi points orientation
    (fun _ => rfl) (fun _ => rfl) (fun _ => rfl) ho l
    (by
      intro a ha _
      obtain ⟨t, ht⟩ := Option.isSome_iff_exists.mp (h a ha).1
      exact ⟨t, ht, by simp only [ht, Option.getD_some]⟩)
  simp only [List.map_id_fun', id_eq] at e
  refine ⟨_, e, ?_⟩
  apply dedup_loop_forall _ _ _ _ _
    (fun b => (sequence_cells FIND_GRID_SCALE voronoi points b).isSome = true ∧ T b.type)
  · intro a ha
    exact ⟨ha.1, hT⟩
  · intro a ha; simp at ha
  · exact h

/-- A candidate list in which one of the two orientations is absent: `filter_bounds`
says no. -/
theorem filter_bounds_absent (l : v_CS D) (voronoi : VORONOI) (points : List Point)
    (h : (∀ b ∈ l, b.type ≠ HORIZONTAL) ∨ (∀ b ∈ l, b.type ≠ VERTICAL)) :
    filter_bounds FIND_GRID_SCALE l HORIZONTAL voronoi points = some false := by
  unfold filter_bounds
  simp only [get_first_eq, if_true]
  rcases h with h | h
  · have e : l.findIdx? (fun cs => cs.type == HORIZONTAL) = none := by
      rw [List.findIdx?_eq_none_iff]
      intro x hx
      simpa using h x hx
    rw [e]
  · have e : l.findIdx? (fun cs => cs.type == VERTICAL) = none := by
      rw [List.findIdx?_eq_none_iff]
      intro x hx
      simpa using h x hx
    rw [e]
    cases l.findIdx? (fun cs => cs.type == HORIZONTAL) <;> rfl

/-- The array `bins` reaches the result through `cluster_sequence_candidates` only. -/
theorem find_grid_from_points_congr (bins bins1 : Bins D) (points_out : List (PointDouble D))
    (voronoi : VORONOI) (points : List Point)
    (h : cluster_sequence_candidates FIND_GRID_SCALE bins
        (get_sequence_candidates FIND_GRID_SCALE [] voronoi points) =
      cluster_sequence_candidates FIND_GRID_SCALE bins1
        (get_sequence_candidates FIND_GRID_SCALE [] voronoi points)) :
    find_grid_from_points FIND_GRID_SCALE bins points_out voronoi points =
      find_grid_from_points FIND_GRID_SCALE bins1 points_out voronoi points := by
  unfold find_grid_from_points find_grid_candidates
  simp only [h]

theorem find_grid_from_points_cluster_false (bins : Bins D)
    (points_out : List (PointDouble D)) (voronoi : VORONOI) (points : List Point)
    (c2 : v_CS D)
    (h : cluster_sequence_candidates FIND_GRID_SCALE bins
        (get_sequence_candidates FIND_GRID_SCALE [] voronoi points) = some (false, c2)) :
    find_grid_from_points FIND_GRID_SCALE bins points_out voronoi points =
      some (false, points_out) := by
  unfold find_grid_from_points find_grid_candidates
  simp only [h]

/-- When every classified candidate has the same orientation the run fails: the other
orientation has no first candidate in `filter_bounds`. -/
theorem find_grid_from_points_one_orientation (bins : Bins D)
    (points_out : List (PointDouble D)) (voronoi : VORONOI) (points : List Point)
    (c2 : v_CS D) (o : ClassificationType) (ho : o = HORIZONTAL ∨ o = VERTICAL)
    (hc : cluster_sequence_candidates FIND_GRID_SCALE bins
        (get_sequence_candidates FIND_GRID_SCALE [] voronoi points) = some (true, c2))
    (h : ∀ b ∈ c2, (sequence_cells FIND_GRID_SCALE voronoi points b).isSome = true ∧
      (fun t : Int => t = OUTLIER ∨ t = o) b.type) :
    find_grid_from_points FIND_GRID_SCALE bins points_out voronoi points =
      some (false, points_out) := by
  obtain ⟨l1, e1, h1⟩ := filter_bidirectional_traced FIND_GRID_SCALE voronoi points HORIZONTAL
    (by decide) (fun t : Int => t = OUTLIER ∨ t = o) (Or.inl rfl) c2 h
  obtain ⟨l2, e2, h2⟩ := filter_bidirectional_traced FIND_GRID_SCALE voronoi points VERTICAL
    (by decide) (fun t : Int => t = OUTLIER ∨ t = o) (Or.inl rfl) l1 h1
  have h3 : ∀ b ∈ sort_candidates l2 voronoi points, b.type = OUTLIER ∨ b.type = o := by
    intro b hb
    exact (h2 b (((std_sort_perm _ l2).mem_iff).mp hb)).2
  have e3 : filter_bounds FIND_GRID_SCALE (sort_candidates l2 voronoi points) HORIZONTAL
      voronoi points = some false := by
    apply filter_bounds_absent
    rcases ho with rfl | rfl
    · right
      intro b hb
      rcases h3 b hb with h4 | h4 <;> rw [h4] <;> decide
    · left
      intro b hb
      rcases h3 b hb with h4 | h4 <;> rw [h4] <;> decide
  unfold find_grid_from_points find_grid_candidates
  simp only [hc, e1, e2, e3]

theorem bin_orientation_cases (bins : Bins D) (i : Nat) :
    bin_orientation bins i = HORIZONTAL ∨ bin_orientation bins i = VERTICAL := by
  unfold bin_orientation
  simp only
  split_ifs
  · exact Or.inr rfl
  · exact Or.inl rfl

/-- A run in which the loop of `cluster_sequence_candidates` ends with one accepted bin
fails, whatever the array held on entry. -/
theorem find_grid_from_points_one_bin (bins b : Bins D)
    (points_out : List (PointDouble D)) (voronoi : VORONOI) (points : List Point)
    (c1 : v_CS D)
    (hl : cluster_sequence_candidates_loop FIND_GRID_SCALE
        ((get_sequence_candidates FIND_GRID_SCALE [] voronoi points : v_CS D).length + 3)
        bins 0 (get_sequence_candidates FIND_GRID_SCALE [] voronoi points) =
      some (true, b, 1, c1)) :
    find_grid_from_points FIND_GRID_SCALE bins points_out voronoi points =
      some (false, points_out) := by
  have ht := cluster_loop_tags FIND_GRID_SCALE
    (fun c0 c1 => (sequence_cells FIND_GRID_SCALE voronoi points
      ({ c0 := c0, c1 := c1, delta_mean := ⟨DoubleArith.ofRat 0, DoubleArith.ofRat 0⟩,
         spacing_angle := DoubleArith.ofRat 0, spacing_length := DoubleArith.ofRat 0,
         type := 0 } : CandidateSequence D)).isSome = true)
    _ bins 0 _ _ hl rfl
    (fun a ha => ⟨(get_sequence_candidates_traced FIND_GRID_SCALE voronoi points a ha).2,
      Or.inl (get_sequence_candidates_traced FIND_GRID_SCALE voronoi points a ha).1⟩)
  obtain ⟨-, -, ht⟩ := ht
  simp only at ht
  have hcl : cluster_sequence_candidates FIND_GRID_SCALE bins
      (get_sequence_candidates FIND_GRID_SCALE [] voronoi points) =
      (if bin_orientation b 0 = VERTICAL ∧ bin_orientation b 1 = VERTICAL then
        some (false, c1)
      else if bin_orientation b 0 = HORIZONTAL ∧ bin_orientation b 1 = HORIZONTAL then
        some (false, c1)
      else some (true, mark_orientation c1 (bin_orientation b 0, bin_orientation b 1))) := by
    unfold cluster_sequence_candidates
    rw [hl]
  split_ifs at hcl with h1 h2
  · exact find_grid_from_points_cluster_false FIND_GRID_SCALE bins points_out voronoi points _ hcl
  · exact find_grid_from_points_cluster_false FIND_GRID_SCALE bins points_out voronoi points _ hcl
  · refine find_grid_from_points_one_orientation FIND_GRID_SCALE bins points_out voronoi points
      _ (bin_orientation b 0) (bin_orientation_cases b 0) hcl ?_
    have hm := mark_orientation_tags
      (fun c0 c1 => (sequence_cells FIND_GRID_SCALE voronoi points
        ({ c0 := c0, c1 := c1, delta_mean := ⟨DoubleArith.ofRat 0, DoubleArith.ofRat 0⟩,
           spacing_angle := DoubleArith.ofRat 0, spacing_length := DoubleArith.ofRat 0,
           type := 0 } : CandidateSequence D)).isSome = true)
      (fun t : Int => t = 3 ∨ (-((1 : Nat) : Int) ≤ t ∧ t ≤ -1))
      (fun t : Int => t = OUTLIER ∨ t = bin_orientation b 0)
      (bin_orientation b 0, bin_orientation b 1)
      (fun t ht1 => by
        unfold mark_orientation_type
        rcases ht1 with h3 | ⟨h3, h4⟩
        · left; rw [h3]; rfl
        · right
          have h5 : t = -1 := by omega
          rw [h5]; rfl) c1 ht
    intro x hx
    exact hm x hx

/-- C11: the value `find_grid_from_points` returns and the output vector it leaves are a
function of its arguments alone, the point list with its diagram and the output vector.
The function reads no global or static state; the one thing it reads that is not an
argument is the array `bins` of `cluster_sequence_candidates`, which is not initialised,
and the result is the same whatever this array holds on entry. -/
theorem find_grid_from_points_deterministic (bins bins1 : Bins D)
    (points_out : List (PointDouble D)) (voronoi : VORONOI) (points : List Point) :
    find_grid_from_points FIND_GRID_SCALE bins points_out voronoi points =
      find_grid_from_points FIND_GRID_SCALE bins1 points_out voronoi points := by
  rcases hl : cluster_sequence_candidates_loop FIND_GRID_SCALE
      ((get_sequence_candidates FIND_GRID_SCALE [] voronoi points : v_CS D).length + 3)
      bins 0 (get_sequence_candidates FIND_GRID_SCALE [] voronoi points) with _ | ⟨f, b, k, c1⟩
  · rcases hl1 : cluster_sequence_candidates_loop FIND_GRID_SCALE
        ((get_sequence_candidates FIND_GRID_SCALE [] voronoi points : v_CS D).length + 3)
        bins1 0 (get_sequence_candidates FIND_GRID_SCALE [] voronoi points) with _ | r1
    · apply find_grid_from_points_congr
      unfold cluster_sequence_candidates
      rw [hl, hl1]
    · obtain ⟨r, hr, -⟩ := cluster_loop_garbage FIND_GRID_SCALE _ bins1 bins 0 _ r1 hl1
      rw [hl] at hr
      cases hr
  · obtain ⟨⟨f1, b1, k1, c2⟩, hl1, ha, hb, hc⟩ :=
      cluster_loop_garbage FIND_GRID_SCALE _ bins bins1 0 _ _ hl
    simp only [Prod.mk.injEq] at ha hb
    obtain ⟨rfl, rfl⟩ := hb
    subst ha
    cases f1
    · have e : ∀ (x : Bins D) (y : Bins D), cluster_sequence_candidates_loop FIND_GRID_SCALE
          ((get_sequence_candidates FIND_GRID_SCALE [] voronoi points : v_CS D).length + 3)
          x 0 (get_sequence_candidates FIND_GRID_SCALE [] voronoi points) =
            some (false, y, k1, c2) →
          find_grid_from_points FIND_GRID_SCALE x points_out voronoi points =
            some (false, points_out) := by
        intro x y hx
        apply find_grid_from_points_cluster_false FIND_GRID_SCALE x points_out voronoi points c2
        unfold cluster_sequence_candidates
        rw [hx]
      rw [e bins b hl, e bins1 b1 hl1]
    · have ht := cluster_loop_tags FIND_GRID_SCALE (fun _ _ => True) _ bins 0 _ _ hl rfl
        (fun a ha => ⟨trivial,
          Or.inl (get_sequence_candidates_traced FIND_GRID_SCALE voronoi points a ha).1⟩)
      obtain ⟨hk1, hk2, -⟩ := ht
      simp only at hk1 hk2
      have hk : k1 = 1 ∨ k1 = 2 := by omega
      rcases hk with rfl | rfl
      · rw [find_grid_from_points_one_bin FIND_GRID_SCALE bins b points_out voronoi points c2 hl,
          find_grid_from_points_one_bin FIND_GRID_SCALE bins1 b1 points_out voronoi points c2 hl1]
      · apply find_grid_from_points_congr
        unfold cluster_sequence_candidates
        rw [hl, hl1]
        have e0 : b1 0 = b 0 := hc 0 (le_refl _) (by simp)
        have e1 : b1 1 = b 1 := hc 1 (by omega) (by simp)
        simp only [bin_orientation, e0, e1]

/-! ### Points on a line with geometric spacings -/

theorem exact_sqrt_sq_le (q : ℚ) (hq : 0 ≤ q) : exact_sqrt q ^ 2 ≤ q := by
  unfold exact_sqrt isqrt
  have hn : ((q.num.toNat : ℕ) : ℚ) = (q.num : ℚ) := by
    have : 0 ≤ q.num := Rat.num_nonneg.mpr hq
    have h2 : ((q.num.toNat : ℕ) : Int) = q.num := Int.toNat_of_nonneg this
    exact_mod_cast h2
  have h1 : ((Nat.sqrt (q.num.toNat * q.den * 4 ^ 40) : ℕ) : ℚ) ^ 2 ≤
      ((q.num.toNat * q.den * 4 ^ 40 : ℕ) : ℚ) := by
    exact_mod_cast Nat.sqrt_le' _
  have e : q * ((q.den * 2 ^ 40 : ℕ) : ℚ) ^ 2 = ((q.num.toNat * q.den * 4 ^ 40 : ℕ) : ℚ) := by
    push_cast
    rw [hn, ← Rat.mul_den_eq_num q]
    ring
  have hpos : (0 : ℚ) < ((q.den * 2 ^ 40 : ℕ) : ℚ) ^ 2 := by
    have : 0 < q.den * 2 ^ 40 := Nat.mul_pos q.den_pos (by positivity)
    have h3 : (0 : ℚ) < ((q.den * 2 ^ 40 : ℕ) : ℚ) := by exact_mod_cast this
    positivity
  rw [div_pow, div_le_iff₀ hpos, e]
  exact h1

theorem exact_sqrt_pos (q : ℚ) (hq : 0 < q) : 0 < exact_sqrt q := by
  unfold exact_sqrt isqrt
  have hn : 0 < q.num.toNat := by
    have : 0 < q.num := Rat.num_pos.mpr hq
    omega
  have h1 : 0 < Nat.sqrt (q.num.toNat * q.den * 4 ^ 40) :=
    Nat.sqrt_pos.mpr (Nat.mul_pos (Nat.mul_pos hn q.den_pos) (by positivity))
  have h2 : 0 < q.den * 2 ^ 40 := Nat.mul_pos q.den_pos (by positivity)
  have h3 : (0 : ℚ) < ((Nat.sqrt (q.num.toNat * q.den * 4 ^ 40) : ℕ) : ℚ) := by
    exact_mod_cast h1
  have h4 : (0 : ℚ) < ((q.den * 2 ^ 40 : ℕ) : ℚ) := by exact_mod_cast h2
  exact div_pos h3 h4

/-- The length `exact_hypot` gives is positive for a vector that is not zero. -/
theorem exact_hypot_pos (x y : ℚ) (h : x ≠ 0 ∨ y ≠ 0) : 0 < exact_hypot x y := by
  unfold exact_hypot
  have ha : 0 < max |x| |y| := by
    rcases h with h | h
    · exact lt_max_of_lt_left (abs_pos.mpr h)
    · exact lt_max_of_lt_right (abs_pos.mpr h)
  simp only
  split_ifs with hb
  · exact ha
  · exact mul_pos ha (exact_sqrt_pos _ (by positivity))

/-- The length `exact_hypot` gives is at most the true length. -/
theorem exact_hypot_sq_le (x y : ℚ) : exact_hypot x y ^ 2 ≤ x ^ 2 + y ^ 2 := by
  unfold exact_hypot
  have hs : max |x| |y| ^ 2 + min |x| |y| ^ 2 = x ^ 2 + y ^ 2 := by
    rcases le_total |x| |y| with h | h
    · rw [max_eq_right h, min_eq_left h, sq_abs, sq_abs]; ring
    · rw [max_eq_left h, min_eq_right h, sq_abs, sq_abs]
  simp only
  split_ifs with hb
  · rw [← hs, hb]; simp
  · have ha : 0 < max |x| |y| := by
      rcases lt_or_eq_of_le (le_max_of_le_left (abs_nonneg x) : 0 ≤ max |x| |y|) with h | h
      · exact h
      · exfalso
        apply hb
        apply le_antisymm _ (le_min (abs_nonneg x) (abs_nonneg y))
        rw [h]
        exact min_le_max
    have h1 := exact_sqrt_sq_le (1 + min |x| |y| / max |x| |y| * (min |x| |y| / max |x| |y|))
      (by positivity)
    rw [mul_pow, ← hs]
    calc max |x| |y| ^ 2 *
          exact_sqrt (1 + min |x| |y| / max |x| |y| * (min |x| |y| / max |x| |y|)) ^ 2
        ≤ max |x| |y| ^ 2 *
          (1 + min |x| |y| / max |x| |y| * (min |x| |y| / max |x| |y|)) :=
          mul_le_mul_of_nonneg_left h1 (by positivity)
      _ = max |x| |y| ^ 2 + min |x| |y| ^ 2 := by
          field_simp
          ring

/-- The length `exact_hypot` gives is homogeneous. -/
theorem exact_hypot_scale (l : ℚ) (hl : 0 < l) (x y : ℚ) :
    exact_hypot (l * x) (l * y) = l * exact_hypot x y := by
  unfold exact_hypot
  have e1 : max |l * x| |l * y| = l * max |x| |y| := by
    rw [abs_mul, abs_mul, abs_of_pos hl, mul_max_of_nonneg _ _ (le_of_lt hl)]
  have e2 : min |l * x| |l * y| = l * min |x| |y| := by
    rw [abs_mul, abs_mul, abs_of_pos hl, mul_min_of_nonneg _ _ (le_of_lt hl)]
  simp only [e1, e2]
  by_cases hb : min |x| |y| = 0
  · simp [hb]
  · have hb1 : ¬ (l * min |x| |y| = 0) := by
      intro h
      rcases mul_eq_zero.mp h with h | h
      · exact (ne_of_gt hl) h
      · exact hb h
    rw [if_neg hb, if_neg hb1, mul_div_mul_left _ _ (ne_of_gt hl), mul_assoc]

/-- A step of `get_adjacent_cell_along_sequence` when the neighbours before `ca` in the
list fail the tests and `ca` passes them. -/
theorem get_adjacent_cell_along_sequence_first_match (voronoi : VORONOI)
    (points : List Point) (stats st : HypothesisStatistics D) (c ca : Nat)
    (before after : List Nat)
    (hadj : (cell voronoi c).adjacent = before ++ ca :: after)
    (hbefore : ∀ d ∈ before, adjacent_cell_test FIND_GRID_SCALE stats
      ⟨(cell_point voronoi points d).x - (cell_point voronoi points c).x,
       (cell_point voronoi points d).y - (cell_point voronoi points c).y⟩ = none)
    (hca : adjacent_cell_test FIND_GRID_SCALE stats
      ⟨(cell_point voronoi points ca).x - (cell_point voronoi points c).x,
       (cell_point voronoi points ca).y - (cell_point voronoi points c).y⟩ = some st) :
    get_adjacent_cell_along_sequence FIND_GRID_SCALE voronoi points stats c =
      (some ca, st) := by
  unfold get_adjacent_cell_along_sequence
  rw [hadj]
  clear hadj
  induction before with
  | nil =>
    simp only [List.nil_append, get_adjacent_cell_along_sequence_scan, hca]
  | cons d rest ih =>
    simp only [List.cons_append, get_adjacent_cell_along_sequence_scan,
      hbefore d (List.mem_cons_self _ _)]
    exact ih (fun e he => hbefore e (List.mem_cons_of_mem _ he))

/-- C18, as claimed, fails: ten points on the x axis whose spacings form a geometric
progression with the ratio `8 / 7`, which is within 0.15 of 1.  With
`FIND_GRID_SCALE = 16` the test of the absolute length rejects the true successor at the
first step, the two lengths differing by `7 ^ 7`, and the trace started on the first two
points fails, in exact arithmetic and with the rounding of binary64 alike. -/
theorem geometric_line_rejected :
    |(8 / 7 : ℚ) - 1| ≤ 0.15 ∧
    (∀ i < Nwant - 2,
      ((geometric_line_position (i + 2) - geometric_line_position (i + 1) : Int) : ℚ) =
        8 / 7 * ((geometric_line_position (i + 1) - geometric_line_position i : Int) : ℚ)) ∧
    (∀ i < Nwant, cell_point geometric_line_voronoi geometric_line_points i =
      ⟨geometric_line_position i, 0⟩) ∧
    adjacent_cell_test 16
      (fill_initial_hypothesis_statistics
        ⟨geometric_line_position 1 - geometric_line_position 0, 0⟩ :
          HypothesisStatistics ExactDouble)
      ⟨geometric_line_position 2 - geometric_line_position 1, 0⟩ = none ∧
    trace_cells 16 geometric_line_voronoi geometric_line_points (Nwant - 2)
      (fill_initial_hypothesis_statistics
        ⟨geometric_line_position 1 - geometric_line_position 0, 0⟩ :
          HypothesisStatistics ExactDouble) 1 = none ∧
    trace_cells 16 geometric_line_voronoi geometric_line_points (Nwant - 2)
      (fill_initial_hypothesis_statistics
        ⟨geometric_line_position 1 - geometric_line_position 0, 0⟩ :
          HypothesisStatistics Binary64) 1 = none := by
  refine ⟨?_, ?_, ?_, ?_, ?_, ?_⟩
  · rw [abs_le]; constructor <;> norm_num
  · intro i hi
    simp only [Nwant] at hi
    interval_cases i <;> norm_num [geometric_line_position]
  · intro i hi
    simp only [Nwant] at hi
    interval_cases i <;> rfl
  · rw [← Option.not_isSome_iff_eq_none, Bool.not_eq_true]
    decide!
  · decide!
  · decide!

/-- The sum of `k` numbers within `w` of `r` is within `k * w` of `k * r`. -/
theorem sum_ratios_near (ρ : Nat → ℚ) (r w : ℚ) :
    ∀ k : Nat, (∀ j < k, |ρ j - r| ≤ w) →
      |((List.range k).map ρ).sum - (k : ℚ) * r| ≤ (k : ℚ) * w := by
  intro k
  induction k with
  | zero => intro _; simp
  | succ k ih =>
    intro h
    have h1 := ih (fun j hj => h j (by omega))
    have h2 := h k (by omega)
    rw [List.range_succ, List.map_append, List.sum_append]
    simp only [List.map_cons, List.map_nil, List.sum_cons, List.sum_nil, add_zero]
    rw [abs_le] at h1 h2 ⊢
    push_cast
    constructor <;> linarith [h1.1, h1.2, h2.1, h2.2]

/-- The four tests accept the step along a line to the next point, when every ratio of a
spacing to the one before it, up to this step, is within 0.05 of a number `r` within 0.15
of 1, and the two lengths differ by `80 * S` at most. -/
theorem line_adjacent_cell_test (S : Int) (hS : 0 ≤ S) (u v : Int)
    (huv : u ≠ 0 ∨ v ≠ 0) (r : ℚ) (hr : |r - 1| ≤ 0.15) (pos : Nat → Int) (k : Nat)
    (hl : 0 < pos (k + 1) - pos k) (hl1 : 0 < pos (k + 2) - pos (k + 1))
    (hratio : ∀ j < k + 1,
      |((pos (j + 2) - pos (j + 1) : Int) : ℚ) / ((pos (j + 1) - pos j : Int) : ℚ) - r| ≤ 0.05)
    (hd : ((pos (k + 1) - pos k) - (pos (k + 2) - pos (k + 1))) ^ 2 * (u ^ 2 + v ^ 2) ≤
      (80 * S) ^ 2) :
    adjacent_cell_test S (line_stats u v pos k)
        ⟨(pos (k + 2) - pos (k + 1)) * u, (pos (k + 2) - pos (k + 1)) * v⟩ =
      some (line_stats u v pos (k + 1)) := by
  have hsum := sum_ratios_near (fun j =>
    ((pos (j + 2) - pos (j + 1) : Int) : ℚ) / ((pos (j + 1) - pos j : Int) : ℚ)) r 0.05 k
    (fun j hj => hratio j (by omega))
  have hρ := hratio k (by omega)
  have hnext : (line_stats u v pos (k + 1)).length_ratio_sum.val =
      (line_stats u v pos k).length_ratio_sum.val +
        ((pos (k + 2) - pos (k + 1) : Int) : ℚ) / ((pos (k + 1) - pos k : Int) : ℚ) := by
    simp only [line_stats]
    rw [List.range_succ, List.map_append, List.sum_append]
    simp only [List.map_cons, List.map_nil, List.sum_cons, List.sum_nil, add_zero]
  have hsum' : |(line_stats u v pos k).length_ratio_sum.val - (k : ℚ) * r| ≤ (k : ℚ) * 0.05 :=
    hsum
  have hdl : (line_stats u v pos k).delta_last =
      ⟨(pos (k + 1) - pos k) * u, (pos (k + 1) - pos k) * v⟩ := rfl
  have hN : (line_stats u v pos k).length_ratio_N = (k : Int) := rfl
  have hdl1 : (line_stats u v pos (k + 1)).delta_last =
      ⟨(pos (k + 2) - pos (k + 1)) * u, (pos (k + 2) - pos (k + 1)) * v⟩ := rfl
  have hN1 : (line_stats u v pos (k + 1)).length_ratio_N = (k : Int) + 1 := by
    simp [line_stats]
  generalize line_stats u v pos (k + 1) = st1 at hnext hdl1 hN1 ⊢
  generalize line_stats u v pos k = st0 at hnext hsum' hdl hN ⊢
  generalize pos (k + 2) - pos (k + 1) = l1 at *
  generalize pos (k + 1) - pos k = l at *
  have hr1 := abs_le.mp hr
  have hlq : (0 : ℚ) < (l : ℚ) := by exact_mod_cast hl
  have hl1q : (0 : ℚ) < (l1 : ℚ) := by exact_mod_cast hl1
  have huvq : (u : ℚ) ≠ 0 ∨ (v : ℚ) ≠ 0 := by
    rcases huv with h | h
    · exact Or.inl (by exact_mod_cast h)
    · exact Or.inr (by exact_mod_cast h)
  have hh := exact_hypot_pos (u : ℚ) (v : ℚ) huvq
  have hh2 := exact_hypot_sq_le (u : ℚ) (v : ℚ)
  have e0 : exact_hypot ((l : ℚ) * u) ((l : ℚ) * v) = l * exact_hypot u v :=
    exact_hypot_scale _ hlq _ _
  have e1 : exact_hypot ((l1 : ℚ) * u) ((l1 : ℚ) * v) = l1 * exact_hypot u v :=
    exact_hypot_scale _ hl1q _ _
  have eratio : (l1 : ℚ) * exact_hypot u v / ((l : ℚ) * exact_hypot u v) = (l1 : ℚ) / l := by
    field_simp
    ring
  have hdq : (((l : ℚ) - l1) ^ 2) * ((u : ℚ) ^ 2 + (v : ℚ) ^ 2) ≤ (80 * (S : ℚ)) ^ 2 := by
    exact_mod_cast hd
  have hρ1 := abs_le.mp hρ
  have hsome : (adjacent_cell_test S st0 ⟨l1 * u, l1 * v⟩).isSome = true := by
    rw [adjacent_cell_test_isSome]
    simp only [spec_spacing_tests, hdl, hN, Int.cast_mul, e0, e1, eratio,
      Bool.and_eq_true, decide_eq_true_eq]
    generalize exact_hypot (u : ℚ) (v : ℚ) = h at hh hh2
    refine ⟨⟨⟨?_, ?_⟩, ?_⟩, ?_⟩
    · rw [ge_iff_le, le_div_iff₀ (by positivity)]
      have hX : 0 ≤ (l : ℚ) * l1 * h ^ 2 := by positivity
      have hXY : (l : ℚ) * l1 * h ^ 2 ≤ (l : ℚ) * l1 * ((u : ℚ) ^ 2 + (v : ℚ) ^ 2) :=
        mul_le_mul_of_nonneg_left hh2 (by positivity)
      nlinarith [hX, hXY]
    · have hSq : (0 : ℚ) ≤ 80 * (S : ℚ) := by
        have : (0 : ℚ) ≤ (S : ℚ) := by exact_mod_cast hS
        linarith
      refine abs_le_of_sq_le_sq ?_ hSq
      calc ((l : ℚ) * h - l1 * h) ^ 2 = ((l : ℚ) - l1) ^ 2 * h ^ 2 := by ring
        _ ≤ ((l : ℚ) - l1) ^ 2 * ((u : ℚ) ^ 2 + (v : ℚ) ^ 2) :=
          mul_le_mul_of_nonneg_left hh2 (by positivity)
        _ ≤ (80 * (S : ℚ)) ^ 2 := hdq
    · constructor <;> linarith [hr1.1, hr1.2, hρ1.1, hρ1.2]
    · intro hk
      have hk3 : (3 : ℚ) ≤ (k : ℚ) := by
        have : (3 : Int) ≤ (k : Int) := hk
        exact_mod_cast this
      have hk0 : (0 : ℚ) < (k : ℚ) := by linarith
      have hs1 := abs_le.mp hsum'
      have e : (((k : Int)) : ℚ) = (k : ℚ) := by push_cast; rfl
      rw [e, abs_le]
      have hm1 : r - 0.05 ≤ st0.length_ratio_sum.val / (k : ℚ) := by
        rw [le_div_iff₀ hk0]; linarith [hs1.1]
      have hm2 : st0.length_ratio_sum.val / (k : ℚ) ≤ r + 0.05 := by
        rw [div_le_iff₀ hk0]; linarith [hs1.2]
      constructor <;> linarith [hρ1.1, hρ1.2]
  obtain ⟨st, hst⟩ := Option.isSome_iff_exists.mp hsome
  rw [hst, adjacent_cell_test_some S _ _ _ hst]
  obtain ⟨dl, ⟨sum1⟩, n1⟩ := st1
  simp only at hnext hdl1 hN1
  subst hdl1 hN1 hnext
  simp only [hdl, hN, exact_hypot_eq, exact_toDouble, exact_add, exact_div,
    Int.cast_mul, e0, e1, eratio]

/-- The trace along a chain of cells, when the tests take the statistics `st i` to
`st (i + 1)` at the step from `c (i + 1)` to `c (i + 2)`, and that cell is the first
neighbour that passes the tests. -/
theorem trace_cells_chain (voronoi : VORONOI) (points : List Point) (c : Nat → Nat)
    (st : Nat → HypothesisStatistics D) (N : Nat)
    (htest : ∀ i < N, adjacent_cell_test FIND_GRID_SCALE (st i)
        ⟨(cell_point voronoi points (c (i + 2))).x - (cell_point voronoi points (c (i + 1))).x,
         (cell_point voronoi points (c (i + 2))).y - (cell_point voronoi points (c (i + 1))).y⟩ =
      some (st (i + 1)))
    (hfirst : ∀ i < N, ∃ before after,
      (cell voronoi (c (i + 1))).adjacent = before ++ c (i + 2) :: after ∧
      ∀ d ∈ before, adjacent_cell_test FIND_GRID_SCALE (st i)
        ⟨(cell_point voronoi points d).x - (cell_point voronoi points (c (i + 1))).x,
         (cell_point voronoi points d).y - (cell_point voronoi points (c (i + 1))).y⟩ = none) :
    ∀ n i, i + n = N →
      trace_cells FIND_GRID_SCALE voronoi points n (st i) (c (i + 1)) =
        some ((List.range n).map fun j => c (i + 2 + j)) := by
  intro n
  induction n with
  | zero => intro i _; rfl
  | succ n ih =>
    intro i hi
    obtain ⟨before, after, hadj, hbefore⟩ := hfirst i (by omega)
    unfold trace_cells
    rw [get_adjacent_cell_along_sequence_first_match FIND_GRID_SCALE voronoi points _ _ _ _
      before after hadj hbefore (htest i (by omega))]
    simp only
    rw [ih (i + 1) (by omega)]
    simp only [Option.map_some', Option.some.injEq, List.range_succ_eq_map, List.map_cons,
      List.map_map, Nat.add_zero, List.cons.injEq, true_and]
    apply List.map_congr_left
    intro j _
    simp only [Function.comp]
    congr 1
    omega

/-- C18, amended: for `Nwant` points on a line whose successive spacings are positive
and geometric with a ratio `r` within 0.15 of 1 up to the rounding of the coordinates,
every ratio of a spacing to the one before it being within 0.05 of `r`, and differ from
one to the next by `80 * FIND_GRID_SCALE` at most, the four tests accept the true
successor at each of the `Nwant - 2` steps, and the trace started on the first two points
visits the cells of the line, when each successor is the first neighbour of its cell that
passes the tests.  The points are `(x0, y0) + pos i * (u, v)`; the arithmetic is
exact. -/
theorem trace_cells_geometric_line (S : Int) (hS : 0 ≤ S) (voronoi : VORONOI)
    (points : List Point) (c : Nat → Nat) (x0 y0 u v : Int) (huv : u ≠ 0 ∨ v ≠ 0)
    (r : ℚ) (hr : |r - 1| ≤ 0.15) (pos : Nat → Int)
    (hpos : ∀ i < Nwant - 1, 0 < pos (i + 1) - pos i)
    (hratio : ∀ i < Nwant - 2,
      |((pos (i + 2) - pos (i + 1) : Int) : ℚ) / ((pos (i + 1) - pos i : Int) : ℚ) - r| ≤ 0.05)
    (hdiff : ∀ i < Nwant - 2,
      ((pos (i + 1) - pos i) - (pos (i + 2) - pos (i + 1))) ^ 2 * (u ^ 2 + v ^ 2) ≤
        (80 * S) ^ 2)
    (hpt : ∀ i < Nwant, cell_point voronoi points (c i) = ⟨x0 + pos i * u, y0 + pos i * v⟩)
    (hfirst : ∀ i < Nwant - 2, ∃ before after,
      (cell voronoi (c (i + 1))).adjacent = before ++ c (i + 2) :: after ∧
      ∀ d ∈ before, adjacent_cell_test S (line_stats u v pos i)
        ⟨(cell_point voronoi points d).x - (cell_point voronoi points (c (i + 1))).x,
         (cell_point voronoi points d).y - (cell_point voronoi points (c (i + 1))).y⟩ = none) :
    (∀ i < Nwant - 2, adjacent_cell_test S (line_stats u v pos i)
        ⟨(cell_point voronoi points (c (i + 2))).x - (cell_point voronoi points (c (i + 1))).x,
         (cell_point voronoi points (c (i + 2))).y - (cell_point voronoi points (c (i + 1))).y⟩ =
      some (line_stats u v pos (i + 1))) ∧
    trace_cells S voronoi points (Nwant - 2)
      (fill_initial_hypothesis_statistics
        ⟨(cell_point voronoi points (c 1)).x - (cell_point voronoi points (c 0)).x,
         (cell_point voronoi points (c 1)).y - (cell_point voronoi points (c 0)).y⟩ :
          HypothesisStatistics ExactDouble) (c 1) =
      some ((List.range (Nwant - 2)).map fun j => c (j + 2)) := by
  have hdelta : ∀ i, i + 1 < Nwant →
      (⟨(cell_point voronoi points (c (i + 1))).x - (cell_point voronoi points (c i)).x,
        (cell_point voronoi points (c (i + 1))).y - (cell_point voronoi points (c i)).y⟩ :
          Point) = ⟨(pos (i + 1) - pos i) * u, (pos (i + 1) - pos i) * v⟩ := by
    intro i hi
    rw [hpt (i + 1) hi, hpt i (by omega)]
    simp only [Point.mk.injEq]
    constructor <;> ring
  have htest : ∀ i < Nwant - 2, adjacent_cell_test S (line_stats u v pos i)
      ⟨(cell_point voronoi points (c (i + 2))).x - (cell_point voronoi points (c (i + 1))).x,
       (cell_point voronoi points (c (i + 2))).y - (cell_point voronoi points (c (i + 1))).y⟩ =
      some (line_stats u v pos (i + 1)) := by
    intro i hi
    rw [hdelta (i + 1) (by simp only [Nwant] at hi ⊢; omega)]
    exact line_adjacent_cell_test S hS u v huv r hr pos i
      (hpos i (by simp only [Nwant] at hi ⊢; omega))
      (hpos (i + 1) (by simp only [Nwant] at hi ⊢; omega))
      (fun j hj => hratio j (by omega)) (hdiff i hi)
  refine ⟨htest, ?_⟩
  have h := trace_cells_chain S voronoi points c (line_stats u v pos) (Nwant - 2) htest hfirst
    (Nwant - 2) 0 (by omega)
  rw [hdelta 0 (by simp [Nwant])]
  have e : (fill_initial_hypothesis_statistics ⟨(pos 1 - pos 0) * u, (pos 1 - pos 0) * v⟩ :
      HypothesisStatistics ExactDouble) = line_stats u v pos 0 := by
    simp [fill_initial_hypothesis_statistics, line_stats, exact_ofRat]
    norm_num
  rw [e, h]
  simp only [Option.some.injEq]
  apply List.map_congr_left
  intro j _
  congr 1
  omega

/-- Ten points at the positions `1000 * (1.1 ^ i - 1)`, rounded, at scale 16: the
spacings are not all equal, and the trace started on the first two points covers the
line, in exact arithmetic and with the rounding of binary64, for the points on the x axis
and for the points on the diagonal. -/
theorem trace_cells_geometric_line_witness :
    |(1.1 : ℚ) - 1| ≤ 0.15 ∧
    (∃ i < Nwant - 2,
      ((rounded_line_position (i + 2) - rounded_line_position (i + 1) : Int) : ℚ) /
        ((rounded_line_position (i + 1) - rounded_line_position i : Int) : ℚ) ≠ 1) ∧
    trace_cells 16 geometric_line_voronoi rounded_line_points (Nwant - 2)
      (fill_initial_hypothesis_statistics
        ⟨(cell_point geometric_line_voronoi rounded_line_points 1).x -
          (cell_point geometric_line_voronoi rounded_line_points 0).x,
         (cell_point geometric_line_voronoi rounded_line_points 1).y -
          (cell_point geometric_line_voronoi rounded_line_points 0).y⟩ :
          HypothesisStatistics ExactDouble) 1 =
      some ((List.range (Nwant - 2)).map fun j => j + 2) ∧
    trace_cells 16 geometric_line_voronoi rounded_line_points (Nwant - 2)
      (fill_initial_hypothesis_statistics
        ⟨rounded_line_position 1 - rounded_line_position 0, 0⟩ :
          HypothesisStatistics Binary64) 1 = some [2, 3, 4, 5, 6, 7, 8, 9] ∧
    trace_cells 16 geometric_line_voronoi rounded_diagonal_points (Nwant - 2)
      (fill_initial_hypothesis_statistics
        ⟨(cell_point geometric_line_voronoi rounded_diagonal_points 1).x -
          (cell_point geometric_line_voronoi rounded_diagonal_points 0).x,
         (cell_point geometric_line_voronoi rounded_diagonal_points 1).y -
          (cell_point geometric_line_voronoi rounded_diagonal_points 0).y⟩ :
          HypothesisStatistics ExactDouble) 1 =
      some ((List.range (Nwant - 2)).map fun j => j + 2) ∧
    trace_cells 16 geometric_line_voronoi rounded_diagonal_points (Nwant - 2)
      (fill_initial_hypothesis_statistics
        ⟨rounded_line_position 1 - rounded_line_position 0,
         rounded_line_position 1 - rounded_line_position 0⟩ :
          HypothesisStatistics Binary64) 1 = some [2, 3, 4, 5, 6, 7, 8, 9] :=
  ⟨by rw [abs_le]; constructor <;> norm_num,
   ⟨0, by decide, by norm_num [rounded_line_position]⟩,
   (trace_cells_geometric_line 16 (by decide) geometric_line_voronoi rounded_line_points
    (fun i => i) 0 0 1 0 (Or.inl (by decide)) 1.1
    (by rw [abs_le]; constructor <;> norm_num) rounded_line_position
    (by
      intro i hi
      simp only [Nwant] at hi
      interval_cases i <;> decide)
    (by
      intro i hi
      simp only [Nwant] at hi
      interval_cases i <;> (rw [abs_le]; norm_num [rounded_line_position]))
    (by
      intro i hi
      simp only [Nwant] at hi
      interval_cases i <;> decide)
    (by
      intro i hi
      simp only [Nwant] at hi
      interval_cases i <;> rfl)
    (by
      intro i hi
      simp only [Nwant] at hi
      interval_cases i <;> exact ⟨[], [_], rfl, by simp⟩)).2,
   by decide!,
   (trace_cells_geometric_line 16 (by decide) geometric_line_voronoi rounded_diagonal_points
    (fun i => i) 0 0 1 1 (Or.inl (by decide)) 1.1
    (by rw [abs_le]; constructor <;> norm_num) rounded_line_position
    (by
      intro i hi
      simp only [Nwant] at hi
      interval_cases i <;> decide)
    (by
      intro i hi
      simp only [Nwant] at hi
      interval_cases i <;> (rw [abs_le]; norm_num [rounded_line_position]))
    (by
      intro i hi
      simp only [Nwant] at hi
      interval_cases i <;> decide)
    (by
      intro i hi
      simp only [Nwant] at hi
      interval_cases i <;> rfl)
    (by
      intro i hi
      simp only [Nwant] at hi
      interval_cases i <;> exact ⟨[], [_], rfl, by simp⟩)).2,
   by decide!⟩

/-! ### The labels of the bins -/

/-- C21: `get_spacing_angle` folds the angle of the accumulated direction of a bin by
adding 180 when it is below 0; the bin is labelled `VERTICAL` exactly when this folded
angle is above 45 and below 135, as the doubles compare, and `HORIZONTAL` otherwise, so
also when the angle is 45 or 135, a double not being above or below itself.  When its
loop has ended by `break`, `cluster_sequence_candidates` returns false if the bins 0 and
1 have the same label, and otherwise returns true with the candidates tagged by
`mark_orientation`, which gives the members of bin 0 (tag `-1`) the label of bin 0, the
members of bin 1 (tag `-2`) the label of bin 1 and leaves the others alone.  In any
double arithmetic. -/
theorem cluster_sequence_candidates_labels :
    (∀ (b : Bins D) (i : Nat),
      (get_spacing_angle (b i).delta_mean_sum.y (b i).delta_mean_sum.x =
        if dlt (DoubleArith.ofRat 180.0 / M_PI *
            DoubleArith.atan2 (b i).delta_mean_sum.y (b i).delta_mean_sum.x)
          (DoubleArith.ofRat 0)
        then DoubleArith.ofRat 180.0 / M_PI *
            DoubleArith.atan2 (b i).delta_mean_sum.y (b i).delta_mean_sum.x +
          DoubleArith.ofRat 180.0
        else DoubleArith.ofRat 180.0 / M_PI *
            DoubleArith.atan2 (b i).delta_mean_sum.y (b i).delta_mean_sum.x) ∧
      (bin_orientation b i = VERTICAL ↔
        dgt (get_spacing_angle (b i).delta_mean_sum.y (b i).delta_mean_sum.x)
            (toDouble 45) = true ∧
        dlt (get_spacing_angle (b i).delta_mean_sum.y (b i).delta_mean_sum.x)
            (toDouble 135) = true) ∧
      (bin_orientation b i ≠ VERTICAL → bin_orientation b i = HORIZONTAL) ∧
      (get_spacing_angle (b i).delta_mean_sum.y (b i).delta_mean_sum.x = toDouble 45 →
        dgt (toDouble 45 : D) (toDouble 45) = false → bin_orientation b i = HORIZONTAL) ∧
      (get_spacing_angle (b i).delta_mean_sum.y (b i).delta_mean_sum.x = toDouble 135 →
        dlt (toDouble 135 : D) (toDouble 135) = false → bin_orientation b i = HORIZONTAL)) ∧
    (∀ (bins b : Bins D) (l c1 : v_CS D) (k : Nat),
      cluster_sequence_candidates_loop FIND_GRID_SCALE (l.length + 3) bins 0 l =
        some (true, b, k, c1) →
      (bin_orientation b 0 = bin_orientation b 1 →
        cluster_sequence_candidates FIND_GRID_SCALE bins l = some (false, c1)) ∧
      (bin_orientation b 0 ≠ bin_orientation b 1 →
        cluster_sequence_candidates FIND_GRID_SCALE bins l =
          some (true, mark_orientation c1 (bin_orientation b 0, bin_orientation b 1)))) ∧
    (∀ (c1 : v_CS D) (o0 o1 : ClassificationType),
      mark_orientation c1 (o0, o1) = c1.map fun cs =>
        if cs.type = -1 then { cs with type := o0 }
        else if cs.type = -2 then { cs with type := o1 } else cs) := by
  refine ⟨?_, ?_, ?_⟩
  · intro b i
    have hv : bin_orientation b i = VERTICAL ↔
        dgt (get_spacing_angle (b i).delta_mean_sum.y (b i).delta_mean_sum.x)
            (toDouble 45) = true ∧
        dlt (get_spacing_angle (b i).delta_mean_sum.y (b i).delta_mean_sum.x)
            (toDouble 135) = true := by
      unfold bin_orientation
      have e1 : (90 - 45 : Int) = 45 := by norm_num
      have e2 : (90 + 45 : Int) = 135 := by norm_num
      simp only [e1, e2]
      split_ifs with h
      · simp only [Bool.and_eq_true] at h
        exact ⟨fun _ => h, fun _ => rfl⟩
      · simp only [Bool.and_eq_true] at h
        exact ⟨fun hc => absurd hc (by decide), fun hc => absurd hc h⟩
    refine ⟨rfl, hv, ?_, ?_, ?_⟩
    · intro hn
      rcases bin_orientation_cases b i with h | h
      · exact h
      · exact absurd h hn
    · intro h hirr
      rcases bin_orientation_cases b i with h1 | h1
      · exact h1
      · have := (hv.mp h1).1
        rw [h, hirr] at this
        exact absurd this (by decide)
    · intro h hirr
      rcases bin_orientation_cases b i with h1 | h1
      · exact h1
      · have := (hv.mp h1).2
        rw [h, hirr] at this
        exact absurd this (by decide)
  · intro bins b l c1 k hl
    unfold cluster_sequence_candidates
    rw [hl]
    simp only
    constructor
    · intro h
      rcases bin_orientation_cases b 0 with h0 | h0
      · have h1 : bin_orientation b 1 = HORIZONTAL := by rw [← h, h0]
        rw [if_neg (by rw [h0]; intro hc; exact absurd hc.1 (by decide)),
          if_pos ⟨h0, h1⟩]
      · have h1 : bin_orientation b 1 = VERTICAL := by rw [← h, h0]
        rw [if_pos ⟨h0, h1⟩]
    · intro h
      rw [if_neg (fun hc => h (hc.1.trans hc.2.symm)),
        if_neg (fun hc => h (hc.1.trans hc.2.symm))]
  · intro c1 o0 o1
    unfold mark_orientation
    apply List.map_congr_left
    intro cs _
    simp only [beq_iff_eq]

/-- In binary64 arithmetic: a bin with the sum `(-48, 0)` is horizontal, a bin with the
sum `(0, 48)` is vertical, and a bin with the sum `(320, 320)` has the angle 45 and is
horizontal. -/
theorem cluster_sequence_candidates_labels_witness :
    bin_orientation rounded_bins 0 = HORIZONTAL ∧ bin_orientation rounded_bins 1 = VERTICAL ∧
    get_spacing_angle rounded_bin_diagonal.delta_mean_sum.y
      rounded_bin_diagonal.delta_mean_sum.x = toDouble 45 ∧
    bin_orientation (fun _ => rounded_bin_diagonal) 0 = HORIZONTAL :=
  ⟨((@cluster_sequence_candidates_labels Binary64 _ 16).1 rounded_bins 0).2.2.1
      (fun h => absurd
        ((((@cluster_sequence_candidates_labels Binary64 _ 16).1 rounded_bins 0).2.1.mp h).2)
        (by decide!)),
   ((@cluster_sequence_candidates_labels Binary64 _ 16).1 rounded_bins 1).2.1.mpr
      ⟨by decide!, by decide!⟩,
   by decide!,
   ((@cluster_sequence_candidates_labels Binary64 _ 16).1
      (fun _ => rounded_bin_diagonal) 0).2.2.2.1 (by decide!) (by decide!)⟩

/-! ### The tags after clustering -/

/-- C22: when `cluster_sequence_candidates` returns true for candidates that were all
unclassified, as `get_sequence_candidates` records them, the tag of every candidate is
`HORIZONTAL`, `VERTICAL` or `OUTLIER`: none is unclassified and none holds the index of
a bin.  The index of a bin is stored as `-bin_index - 1`, which is negative and so none
of the four labels. -/
theorem cluster_sequence_candidates_tags (bins : Bins D) (l c1 : v_CS D)
    (hl : ∀ a ∈ l, a.type = UNCLASSIFIED)
    (h : cluster_sequence_candidates FIND_GRID_SCALE bins l = some (true, c1)) :
    (∀ b ∈ c1, b.type = HORIZONTAL ∨ b.type = VERTICAL ∨ b.type = OUTLIER) ∧
    (∀ b ∈ c1, b.type ≠ UNCLASSIFIED ∧ ¬ (b.type < 0)) ∧
    ∀ bin_index : Nat, -(bin_index : Int) - 1 < 0 ∧
      -(bin_index : Int) - 1 ≠ UNCLASSIFIED ∧ -(bin_index : Int) - 1 ≠ HORIZONTAL ∧
      -(bin_index : Int) - 1 ≠ VERTICAL ∧ -(bin_index : Int) - 1 ≠ OUTLIER := by
  have hlab : ∀ b ∈ c1, b.type = HORIZONTAL ∨ b.type = VERTICAL ∨ b.type = OUTLIER := by
    unfold cluster_sequence_candidates at h
    rcases hloop : cluster_sequence_candidates_loop FIND_GRID_SCALE (l.length + 3) bins 0 l
      with _ | ⟨f, b, k, c0⟩
    · rw [hloop] at h; simp at h
    · rw [hloop] at h
      cases f
      · simp at h
      · simp only at h
        obtain ⟨hk1, hk2, ht⟩ := cluster_loop_tags FIND_GRID_SCALE (fun _ _ => True) _ bins 0
          l _ hloop rfl (fun a ha => ⟨trivial, Or.inl (hl a ha)⟩)
        simp only at hk2 ht
        split_ifs at h with h1 h2
        · simp at h
        · simp at h
        simp only [Option.some.injEq, Prod.mk.injEq, true_and] at h
        subst h
        have hm := mark_orientation_tags (fun _ _ => True)
          (fun t : Int => t = 3 ∨ (-(k : Int) ≤ t ∧ t ≤ -1))
          (fun t : Int => t = HORIZONTAL ∨ t = VERTICAL ∨ t = OUTLIER)
          (bin_orientation b 0, bin_orientation b 1)
          (fun t ht1 => by
            unfold mark_orientation_type
            rcases ht1 with h3 | ⟨h3, h4⟩
            · right; right; rw [h3]; rfl
            · have h5 : t = -1 ∨ t = -2 := by omega
              rcases h5 with h5 | h5
              · rw [h5]
                rcases bin_orientation_cases b 0 with h6 | h6
                · left; simpa using h6
                · right; left; simpa using h6
              · rw [h5]
                rcases bin_orientation_cases b 1 with h6 | h6
                · left; simpa using h6
                · right; left; simpa using h6) c0 ht
        intro x hx
        exact (hm x hx).2
  refine ⟨hlab, ?_, ?_⟩
  · intro b hb
    rcases hlab b hb with h1 | h1 | h1 <;> rw [h1] <;> decide
  · intro i
    have key : ∀ t : Int, t = -(i : Int) - 1 → t < 0 ∧ t ≠ 0 ∧ t ≠ 1 ∧ t ≠ 2 ∧ t ≠ 3 := by
      intro t ht; omega
    exact key _ rfl

theorem cluster_sequence_candidates_tags_witness :
    cluster_sequence_candidates 16 zero_bins
        ((lattice_tagged UNCLASSIFIED UNCLASSIFIED).map (LatticeSequence.candidate 16)) =
      some (true, (lattice_tagged HORIZONTAL VERTICAL).map (LatticeSequence.candidate 16)) ∧
    ∀ b ∈ (lattice_tagged HORIZONTAL VERTICAL).map (LatticeSequence.candidate 16),
      b.type = HORIZONTAL ∨ b.type = VERTICAL ∨ b.type = OUTLIER :=
  ⟨lattice_cluster_sequence_candidates 16 (by decide) zero_bins,
  (cluster_sequence_candidates_tags 16 zero_bins
    ((lattice_tagged UNCLASSIFIED UNCLASSIFIED).map (LatticeSequence.candidate 16))
    ((lattice_tagged HORIZONTAL VERTICAL).map (LatticeSequence.candidate 16))
    (by
      intro a ha
      simp only [lattice_tagged, List.map_map, List.mem_map, Function.comp] at ha
      obtain ⟨s, -, rfl⟩ := ha
      simp [LatticeSequence.candidate])
    (lattice_cluster_sequence_candidates 16 (by decide) zero_bins)).1⟩

/-! ### Discarding a bin -/

/-- C23: `mark_outliers` for the bin `bin_index` gives the tag `OUTLIER` to the candidates
that hold the tag of this bin and changes nothing else: the list keeps its length, every
candidate keeps its cells, its mean step, its angle and its length, and a candidate with
another tag keeps its tag.  This is what the loop of `cluster_sequence_candidates` does
to the candidates when the gathered bin has fewer than `2 * Nwant` members. -/
theorem mark_outliers_discards_bin (l : v_CS D) (bin_index : Nat) :
    (mark_outliers l (bin_index : Int) = l.map fun cs =>
      if cs.type = -(bin_index : Int) - 1 then { cs with type := OUTLIER } else cs) ∧
    (mark_outliers l (bin_index : Int)).length = l.length ∧
    (∀ (k : Nat) (cs : CandidateSequence D), l[k]? = some cs →
      ∃ cs1, (mark_outliers l (bin_index : Int))[k]? = some cs1 ∧
        cs1.c0 = cs.c0 ∧ cs1.c1 = cs.c1 ∧ cs1.delta_mean = cs.delta_mean ∧
        cs1.spacing_angle = cs.spacing_angle ∧ cs1.spacing_length = cs.spacing_length ∧
        (cs.type = -(bin_index : Int) - 1 → cs1.type = OUTLIER) ∧
        (cs.type ≠ -(bin_index : Int) - 1 → cs1.type = cs.type)) ∧
    (∀ (fuel : Nat) (bins : Bins D),
      (gather_unclassified FIND_GRID_SCALE l (bin_index : Int)).2.1.N < (Nwant : Int) * 2 →
      cluster_sequence_candidates_loop FIND_GRID_SCALE (fuel + 1) bins bin_index l =
        if (gather_unclassified FIND_GRID_SCALE l (bin_index : Int)).1 = 0 then
          some (false,
            Function.update bins bin_index
              (gather_unclassified FIND_GRID_SCALE l (bin_index : Int)).2.1,
            bin_index,
            mark_outliers (gather_unclassified FIND_GRID_SCALE l (bin_index : Int)).2.2
              (bin_index : Int))
        else
          cluster_sequence_candidates_loop FIND_GRID_SCALE fuel
            (Function.update bins bin_index
              (gather_unclassified FIND_GRID_SCALE l (bin_index : Int)).2.1)
            bin_index
            (mark_outliers (gather_unclassified FIND_GRID_SCALE l (bin_index : Int)).2.2
              (bin_index : Int))) := by
  have e : mark_outliers l (bin_index : Int) = l.map fun cs =>
      if cs.type = -(bin_index : Int) - 1 then { cs with type := OUTLIER } else cs := by
    unfold mark_outliers
    apply List.map_congr_left
    intro cs _
    have hi : ¬ ((bin_index : Int) < 0) := by omega
    simp [hi]
  refine ⟨e, by rw [e, List.length_map], ?_, ?_⟩
  · intro k cs hk
    rw [e, List.getElem?_map, hk]
    simp only [Option.map_some']
    refine ⟨_, rfl, ?_⟩
    by_cases ht : cs.type = -(bin_index : Int) - 1
    · rw [if_pos ht]
      exact ⟨rfl, rfl, rfl, rfl, rfl, fun _ => rfl, fun hn => absurd ht hn⟩
    · rw [if_neg ht]
      exact ⟨rfl, rfl, rfl, rfl, rfl, fun hn => absurd hn ht, fun _ => rfl⟩
  · intro fuel bins hN
    rw [cluster_sequence_candidates_loop]
    simp only [hN, if_true]

/-! ### `fits_in_bin` and `push_to_bin` -/

/-- The nearest integer is within one half. -/
theorem round_half_even_near (q : ℚ) : |q - (round_half_even q : ℚ)| ≤ 1 / 2 := by
  unfold round_half_even
  have h1 : ((Int.floor q : Int) : ℚ) ≤ q := Int.floor_le q
  have h2 : q < ((Int.floor q : Int) : ℚ) + 1 := Int.lt_floor_add_one q
  simp only
  rw [abs_le]
  split_ifs with h3 h4 h5
  · constructor <;> linarith
  · push_cast; constructor <;> linarith
  · have h6 : q - ((Int.floor q : Int) : ℚ) = 1 / 2 := le_antisymm (not_lt.mp h4) (not_lt.mp h3)
    constructor <;> linarith
  · have h6 : q - ((Int.floor q : Int) : ℚ) = 1 / 2 := le_antisymm (not_lt.mp h4) (not_lt.mp h3)
    push_cast; constructor <;> linarith

/-- An integer nearer than one half is the nearest integer. -/
theorem round_half_even_of_near (q : ℚ) (m : Int) (h : |q - (m : ℚ)| < 1 / 2) :
    round_half_even q = m := by
  have hn := round_half_even_near q
  have h1 := abs_lt.mp h
  have h2 := abs_le.mp hn
  have h3 : |((round_half_even q : Int) : ℚ) - (m : ℚ)| < 1 := by
    rw [abs_lt]; constructor <;> linarith [h1.1, h1.2, h2.1, h2.2]
  have h4 : |round_half_even q - m| < 1 := by exact_mod_cast h3
  have h5 := abs_lt.mp h4
  omega

theorem log2_loop_spec : ∀ fuel n : Nat, 0 < n → n ≤ fuel →
    2 ^ log2_loop fuel n ≤ n ∧ n < 2 ^ (log2_loop fuel n + 1) := by
  intro fuel
  induction fuel with
  | zero => intro n h0 h1; omega
  | succ fuel ih =>
    intro n h0 h1
    unfold log2_loop
    by_cases h2 : n < 2
    · rw [if_pos h2]
      have : n = 1 := by omega
      subst this
      decide
    · rw [if_neg h2]
      have h3 := ih (n / 2) (by omega) (by omega)
      rw [pow_succ, pow_succ]
      generalize 2 ^ log2_loop fuel (n / 2) = a at h3
      rw [pow_succ] at h3
      omega

/-- The function `log2` gives the position of the leading bit. -/
theorem log2_spec (n : Nat) (h : 0 < n) : 2 ^ log2 n ≤ n ∧ n < 2 ^ (log2 n + 1) :=
  log2_loop_spec n n h (le_refl n)

theorem pow2_eq (k : Int) : pow2 k = (2 : ℚ) ^ k := by
  unfold pow2
  by_cases h : 0 ≤ k
  · rw [if_pos h]
    obtain ⟨n, rfl⟩ := Int.eq_ofNat_of_zero_le h
    simp
  · rw [if_neg h]
    have h1 : 0 ≤ -k := by omega
    obtain ⟨n, hn⟩ := Int.eq_ofNat_of_zero_le h1
    have : k = -(n : Int) := by omega
    subst this
    simp

theorem pow2_pos (k : Int) : 0 < pow2 k := by
  rw [pow2_eq]
  positivity

/-- The binary exponent of a positive rational. -/
theorem binary_exponent_spec (q : ℚ) (h : 0 < q) :
    pow2 (binary_exponent q) ≤ q ∧ q < pow2 (binary_exponent q + 1) := by
  have hnum : 0 < q.num := Rat.num_pos.mpr h
  have hn0 : 0 < q.num.natAbs := Int.natAbs_pos.mpr (ne_of_gt hnum)
  have hd0 : 0 < q.den := q.den_pos
  have h1 := log2_spec q.num.natAbs hn0
  have h2 := log2_spec q.den hd0
  have hq : q = (q.num.natAbs : ℚ) / (q.den : ℚ) := by
    have e : ((q.num.natAbs : Int) : ℚ) = (q.num : ℚ) := by
      rw [Int.natAbs_of_nonneg (le_of_lt hnum)]
    have := Rat.num_div_den q
    rw [← e] at this
    rw [Int.cast_natCast] at this
    exact this.symm
  have hdq : (0 : ℚ) < (q.den : ℚ) := by exact_mod_cast hd0
  have a1 : ((2 : ℚ) ^ (log2 q.num.natAbs)) ≤ (q.num.natAbs : ℚ) := by exact_mod_cast h1.1
  have a2 : (q.num.natAbs : ℚ) < (2 : ℚ) ^ (log2 q.num.natAbs + 1) := by exact_mod_cast h1.2
  have b1 : ((2 : ℚ) ^ (log2 q.den)) ≤ (q.den : ℚ) := by exact_mod_cast h2.1
  have b2 : (q.den : ℚ) < (2 : ℚ) ^ (log2 q.den + 1) := by exact_mod_cast h2.2
  unfold binary_exponent
  simp only
  generalize log2 q.num.natAbs = a at *
  generalize log2 q.den = b at *
  have hpa : (0 : ℚ) < (2 : ℚ) ^ a := by positivity
  have hpb : (0 : ℚ) < (2 : ℚ) ^ b := by positivity
  have e0 : pow2 ((a : Int) - (b : Int)) = (2 : ℚ) ^ a / (2 : ℚ) ^ b := by
    rw [pow2_eq, zpow_sub₀ (by norm_num : (2 : ℚ) ≠ 0), zpow_natCast, zpow_natCast]
  have e1 : pow2 ((a : Int) - (b : Int) + 1) = 2 * ((2 : ℚ) ^ a / (2 : ℚ) ^ b) := by
    rw [pow2_eq, zpow_add₀ (by norm_num : (2 : ℚ) ≠ 0), ← pow2_eq, e0]
    simp
    ring
  have e2 : pow2 ((a : Int) - (b : Int) - 1) = ((2 : ℚ) ^ a / (2 : ℚ) ^ b) / 2 := by
    rw [pow2_eq, zpow_sub₀ (by norm_num : (2 : ℚ) ≠ 0), ← pow2_eq, e0]
    simp
  have lo : ((2 : ℚ) ^ a / (2 : ℚ) ^ b) / 2 < q := by
    rw [hq, div_div, div_lt_div_iff₀ (by positivity) hdq]
    rw [pow_succ] at b2
    nlinarith
  have hi : q < 2 * ((2 : ℚ) ^ a / (2 : ℚ) ^ b) := by
    rw [hq, ← mul_div_assoc, div_lt_div_iff₀ hdq hpb]
    rw [pow_succ] at a2
    nlinarith
  by_cases hc : q < pow2 ((a : Int) - (b : Int))
  · rw [if_pos hc, e2, sub_add_cancel]
    exact ⟨le_of_lt lo, hc⟩
  · rw [if_neg hc, e1]
    exact ⟨not_lt.mp hc, hi⟩

/-- The rounding gives a number with a significand of 53 bits, in units of the last
place of `q`, and it is within half a unit of `q`. -/
theorem round_to_double_spec (q : ℚ) (h : q ≠ 0) :
    ∃ m : Int, round_to_double q = (m : ℚ) * pow2 (binary_exponent |q| - 52) ∧
      2 ^ 52 ≤ |m| ∧ |m| ≤ 2 ^ 53 ∧
      |round_to_double q - q| ≤ pow2 (binary_exponent |q| - 52) / 2 := by
  have hq : 0 < |q| := abs_pos.mpr h
  have he := binary_exponent_spec |q| hq
  unfold round_to_double
  rw [if_neg h]
  generalize binary_exponent |q| = e at he ⊢
  have hu := pow2_pos (e - 52)
  have e52 : pow2 e = 2 ^ 52 * pow2 (e - 52) := by
    rw [pow2_eq, pow2_eq, zpow_sub₀ (by norm_num : (2 : ℚ) ≠ 0)]
    norm_num
    field_simp
  have e53 : pow2 (e + 1) = 2 ^ 53 * pow2 (e - 52) := by
    rw [pow2_eq, pow2_eq, zpow_sub₀ (by norm_num : (2 : ℚ) ≠ 0),
      zpow_add₀ (by norm_num : (2 : ℚ) ≠ 0)]
    norm_num
    field_simp
    ring
  rw [e52, e53] at he
  generalize pow2 (e - 52) = u at hu he ⊢
  have hn := round_half_even_near (q / u)
  generalize round_half_even (q / u) = n at hn ⊢
  have hx : |q / u| = |q| / u := by rw [abs_div, abs_of_pos hu]
  have h1 : (2 : ℚ) ^ 52 ≤ |q / u| := by
    rw [hx, le_div_iff₀ hu]; exact he.1
  have h2 : |q / u| < (2 : ℚ) ^ 53 := by
    rw [hx, div_lt_iff₀ hu]; exact he.2
  have hd : |q / u - (n : ℚ)| ≤ 1 / 2 := hn
  refine ⟨n, rfl, ?_, ?_, ?_⟩
  · have h3 : (2 : ℚ) ^ 52 - 1 / 2 ≤ |(n : ℚ)| := by
      have := abs_sub_abs_le_abs_sub (q / u) (n : ℚ)
      linarith
    have h4 : ((2 : Int) ^ 52 - 1 : Int) < |n| := by
      have : (((2 : Int) ^ 52 - 1 : Int) : ℚ) < ((|n| : Int) : ℚ) := by
        push_cast
        linarith
      exact_mod_cast this
    omega
  · have h3 : |(n : ℚ)| < (2 : ℚ) ^ 53 + 1 / 2 + 1 / 2 := by
      have := abs_sub_abs_le_abs_sub (n : ℚ) (q / u)
      rw [abs_sub_comm] at this
      linarith
    have h4 : |n| < (2 : Int) ^ 53 + 1 := by
      have : ((|n| : Int) : ℚ) < (((2 : Int) ^ 53 + 1 : Int) : ℚ) := by
        push_cast
        linarith
      exact_mod_cast this
    omega
  · have e : (n : ℚ) * u - q = -((q / u - n) * u) := by
      have hu0 : u ≠ 0 := ne_of_gt hu
      rw [sub_mul, div_mul_cancel₀ _ hu0]
      ring
    rw [e, abs_neg, abs_mul, abs_of_pos hu]
    calc |q / u - (n : ℚ)| * u ≤ 1 / 2 * u := mul_le_mul_of_nonneg_right hd (le_of_lt hu)
      _ = u / 2 := by ring

/-- Of two integers equally near, the rounding takes the even one. -/
theorem round_half_even_tie (q : ℚ) (h : |q - (round_half_even q : ℚ)| = 1 / 2) :
    round_half_even q % 2 = 0 := by
  unfold round_half_even at h ⊢
  have h1 : ((Int.floor q : Int) : ℚ) ≤ q := Int.floor_le q
  have h2 : q < ((Int.floor q : Int) : ℚ) + 1 := Int.lt_floor_add_one q
  simp only at h ⊢
  generalize Int.floor q = f at h h1 h2 ⊢
  by_cases c1 : q - (f : ℚ) < 1 / 2
  · rw [if_pos c1] at h
    rw [abs_of_nonneg (by linarith)] at h
    linarith
  · rw [if_neg c1] at h ⊢
    by_cases c2 : q - (f : ℚ) > 1 / 2
    · rw [if_pos c2] at h
      push_cast at h
      rw [abs_of_nonpos (by linarith)] at h
      linarith
    · rw [if_neg c2] at h ⊢
      by_cases c3 : f % 2 = 0
      · rw [if_pos c3]; exact c3
      · rw [if_neg c3]; omega

theorem sqrt_bits_spec (n : Nat) : ∀ k acc : Nat, acc * acc ≤ n →
    n < (acc + 2 ^ k) * (acc + 2 ^ k) →
    sqrt_bits n k acc * sqrt_bits n k acc ≤ n ∧
      n < (sqrt_bits n k acc + 1) * (sqrt_bits n k acc + 1) := by
  intro k
  induction k with
  | zero =>
    intro acc h1 h2
    simp only [sqrt_bits]
    exact ⟨h1, by simpa using h2⟩
  | succ k ih =>
    intro acc h1 h2
    unfold sqrt_bits
    by_cases hc : (acc + 2 ^ k) * (acc + 2 ^ k) ≤ n
    · rw [if_pos hc]
      apply ih _ hc
      have e : acc + 2 ^ k + 2 ^ k = acc + 2 ^ (k + 1) := by rw [pow_succ]; omega
      rw [e]
      exact h2
    · rw [if_neg hc]
      exact ih _ h1 (not_le.mp hc)

/-- The function `floor_sqrt` gives the integer square root. -/
theorem floor_sqrt_spec (n : Nat) :
    floor_sqrt n * floor_sqrt n ≤ n ∧ n < (floor_sqrt n + 1) * (floor_sqrt n + 1) := by
  unfold floor_sqrt
  apply sqrt_bits_spec n _ 0 (Nat.zero_le n)
  rw [Nat.zero_add, ← pow_add]
  rcases Nat.eq_zero_or_pos n with h | h
  · subst h
    positivity
  · have h1 := (log2_spec n h).2
    refine lt_of_lt_of_le h1 (Nat.pow_le_pow_right (by norm_num) ?_)
    omega

/-- The square root is rounded to a number with a significand of 53 bits, in units `u`
of the last place, and no such number is nearer to the true root: `q` lies between the
squares of the middles to the two neighbours. -/
theorem sqrt_to_double_spec (q : ℚ) (h : 0 < q) :
    ∃ m : Nat, sqrt_to_double q = (m : ℚ) * pow2 (binary_exponent q / 2 - 52) ∧
      2 ^ 52 ≤ m ∧ m ≤ 2 ^ 53 ∧
      (((m : ℚ) - 1 / 2) * pow2 (binary_exponent q / 2 - 52)) ^ 2 ≤ q ∧
      q ≤ (((m : ℚ) + 1 / 2) * pow2 (binary_exponent q / 2 - 52)) ^ 2 := by
  have he := binary_exponent_spec q h
  unfold sqrt_to_double
  rw [if_neg (not_le.mpr h)]
  simp only
  generalize binary_exponent q = e at he ⊢
  have hdiv : 2 * (e / 2) ≤ e ∧ e ≤ 2 * (e / 2) + 1 := by omega
  generalize e / 2 = e2 at hdiv ⊢
  have hu := pow2_pos (e2 - 52)
  have two : (2 : ℚ) ≠ 0 := by norm_num
  have euu : pow2 (e2 - 52) * pow2 (e2 - 52) = (2 : ℚ) ^ (2 * e2) / 2 ^ 104 := by
    rw [pow2_eq, ← zpow_add₀ two]
    have : e2 - 52 + (e2 - 52) = 2 * e2 - 104 := by ring
    rw [this, zpow_sub₀ two]
    norm_num
  have hlo : (2 : ℚ) ^ (2 * e2) ≤ q := by
    refine le_trans ?_ he.1
    rw [pow2_eq]
    exact zpow_le_zpow_right₀ (by norm_num) hdiv.1
  have hhi : q < (2 : ℚ) ^ (2 * e2) * 4 := by
    refine lt_of_lt_of_le he.2 ?_
    rw [pow2_eq]
    have e4 : (2 : ℚ) ^ (2 * e2) * 4 = (2 : ℚ) ^ (2 * e2 + 2) := by
      rw [zpow_add₀ two]
      norm_num
    rw [e4]
    exact zpow_le_zpow_right₀ (by norm_num) (by omega)
  have hp : (0 : ℚ) < (2 : ℚ) ^ (2 * e2) := by positivity
  generalize (2 : ℚ) ^ (2 * e2) = P at euu hlo hhi hp
  generalize pow2 (e2 - 52) = u at hu euu ⊢
  have huu : 0 < u * u := mul_pos hu hu
  have hx1 : (2 : ℚ) ^ 104 ≤ q / (u * u) := by
    rw [le_div_iff₀ huu, euu]
    have : (2 : ℚ) ^ 104 * (P / 2 ^ 104) = P := by field_simp
    rw [this]
    exact hlo
  have hx2 : q / (u * u) < (2 : ℚ) ^ 106 := by
    rw [div_lt_iff₀ huu, euu]
    have : (2 : ℚ) ^ 106 * (P / 2 ^ 104) = P * 4 := by field_simp; ring
    rw [this]
    exact hhi
  have hq : q = q / (u * u) * (u * u) := by field_simp
  generalize q / (u * u) = x at hx1 hx2 hq ⊢
  have hx0 : (0 : ℚ) ≤ x := le_trans (by positivity) hx1
  have hf0 : 0 ≤ Int.floor x := Int.floor_nonneg.mpr hx0
  have hN1 : ((Int.toNat (Int.floor x) : Nat) : ℚ) ≤ x := by
    have : ((Int.toNat (Int.floor x) : Nat) : Int) = Int.floor x := Int.toNat_of_nonneg hf0
    have h1 : ((Int.floor x : Int) : ℚ) ≤ x := Int.floor_le x
    rw [← this] at h1
    exact_mod_cast h1
  have hN2 : x < ((Int.toNat (Int.floor x) : Nat) : ℚ) + 1 := by
    have : ((Int.toNat (Int.floor x) : Nat) : Int) = Int.floor x := Int.toNat_of_nonneg hf0
    have h1 : x < ((Int.floor x : Int) : ℚ) + 1 := Int.lt_floor_add_one x
    rw [← this] at h1
    exact_mod_cast h1
  have hN3 : 2 ^ 104 ≤ Int.toNat (Int.floor x) := by
    have h1 : ((2 ^ 104 : Nat) : ℚ) < ((Int.toNat (Int.floor x) : Nat) : ℚ) + 1 := by
      push_cast
      linarith
    have h2 : (2 ^ 104 : Nat) < Int.toNat (Int.floor x) + 1 := by exact_mod_cast h1
    omega
  have hN4 : Int.toNat (Int.floor x) < 2 ^ 106 := by
    have h1 : ((Int.toNat (Int.floor x) : Nat) : ℚ) < ((2 ^ 106 : Nat) : ℚ) := by
      push_cast
      linarith
    exact_mod_cast h1
  have hs := floor_sqrt_spec (Int.toNat (Int.floor x))
  generalize Int.toNat (Int.floor x) = N at hN1 hN2 hN3 hN4 hs
  generalize floor_sqrt N = m at hs ⊢
  have hm1 : 2 ^ 52 ≤ m := by
    by_contra hc
    have h1 : m + 1 ≤ 2 ^ 52 := by omega
    have h2 : (m + 1) * (m + 1) ≤ 2 ^ 52 * 2 ^ 52 := Nat.mul_le_mul h1 h1
    have h3 : (2 : Nat) ^ 52 * 2 ^ 52 = 2 ^ 104 := by norm_num
    omega
  have hm2 : m < 2 ^ 53 := by
    by_contra hc
    have h1 : 2 ^ 53 ≤ m := by omega
    have h2 : 2 ^ 53 * 2 ^ 53 ≤ m * m := Nat.mul_le_mul h1 h1
    have h3 : (2 : Nat) ^ 53 * 2 ^ 53 = 2 ^ 106 := by norm_num
    omega
  have hmq : (1 : ℚ) ≤ (m : ℚ) := by
    have : 1 ≤ m := le_trans (by norm_num) hm1
    exact_mod_cast this
  have hs1 : (m : ℚ) * m ≤ x := by
    have : ((m * m : Nat) : ℚ) ≤ (N : ℚ) := by exact_mod_cast hs.1
    push_cast at this
    linarith
  have hs2 : x < ((m : ℚ) + 1) * ((m : ℚ) + 1) := by
    have h1 : N + 1 ≤ (m + 1) * (m + 1) := hs.2
    have : ((N + 1 : Nat) : ℚ) ≤ (((m + 1) * (m + 1) : Nat) : ℚ) := by exact_mod_cast h1
    push_cast at this
    linarith
  have emid : ((m : ℚ) + 1 / 2) * u * (((m : ℚ) + 1 / 2) * u) =
      ((m : ℚ) + 1 / 2) * ((m : ℚ) + 1 / 2) * (u * u) := by ring
  rw [emid]
  have key_lo : ∀ a : ℚ, a * a ≤ x → (a * u) ^ 2 ≤ q := by
    intro a ha
    rw [hq]
    have : (a * u) ^ 2 = a * a * (u * u) := by ring
    rw [this]
    exact mul_le_mul_of_nonneg_right ha (le_of_lt huu)
  have key_hi : ∀ a : ℚ, x ≤ a * a → q ≤ (a * u) ^ 2 := by
    intro a ha
    rw [hq]
    have : (a * u) ^ 2 = a * a * (u * u) := by ring
    rw [this]
    exact mul_le_mul_of_nonneg_right ha (le_of_lt huu)
  have cmp : ∀ a : ℚ, (q < a * a * (u * u) ↔ x < a * a) := by
    intro a
    constructor
    · intro hc
      rw [hq] at hc
      exact lt_of_mul_lt_mul_right hc (le_of_lt huu)
    · intro hc
      rw [hq]
      exact mul_lt_mul_of_pos_right hc huu
  have cmp2 : ∀ a : ℚ, (a * a * (u * u) < q ↔ a * a < x) := by
    intro a
    constructor
    · intro hc
      rw [hq] at hc
      exact lt_of_mul_lt_mul_right hc (le_of_lt huu)
    · intro hc
      rw [hq]
      exact mul_lt_mul_of_pos_right hc huu
  have down : ((m : ℚ) - 1 / 2) * ((m : ℚ) - 1 / 2) ≤ x := by
    have e : ((m : ℚ) - 1 / 2) * ((m : ℚ) - 1 / 2) = (m : ℚ) * m - m + 1 / 4 := by ring
    rw [e]
    linarith only [hs1, hmq]
  have up : x ≤ ((m : ℚ) + 1 + 1 / 2) * ((m : ℚ) + 1 + 1 / 2) := by
    have e : ((m : ℚ) + 1 + 1 / 2) * ((m : ℚ) + 1 + 1 / 2) =
        ((m : ℚ) + 1) * ((m : ℚ) + 1) + (m : ℚ) + 1 + 1 / 4 := by ring
    rw [e]
    linarith only [hs2, hmq]
  by_cases c1 : q < ((m : ℚ) + 1 / 2) * ((m : ℚ) + 1 / 2) * (u * u)
  · rw [if_pos c1]
    exact ⟨m, rfl, hm1, le_of_lt hm2, key_lo _ down, key_hi _ (le_of_lt ((cmp _).mp c1))⟩
  · rw [if_neg c1]
    have c1' : ((m : ℚ) + 1 / 2) * ((m : ℚ) + 1 / 2) ≤ x := by
      by_contra hc
      exact c1 ((cmp _).mpr (not_le.mp hc))
    have eup : ((m : ℚ) + 1) * u = ((m + 1 : Nat) : ℚ) * u := by push_cast; ring
    have r_up : ∃ m1 : Nat, ((m : ℚ) + 1) * u = (m1 : ℚ) * u ∧ 2 ^ 52 ≤ m1 ∧ m1 ≤ 2 ^ 53 ∧
        (((m1 : ℚ) - 1 / 2) * u) ^ 2 ≤ q ∧ q ≤ (((m1 : ℚ) + 1 / 2) * u) ^ 2 := by
      refine ⟨m + 1, eup, le_trans hm1 (Nat.le_succ m), Nat.succ_le_of_lt hm2, ?_, ?_⟩
      · apply key_lo
        push_cast
        have : (m : ℚ) + 1 - 1 / 2 = (m : ℚ) + 1 / 2 := by ring
        rw [this]
        exact c1'
      · apply key_hi
        push_cast
        exact up
    by_cases c2 : ((m : ℚ) + 1 / 2) * ((m : ℚ) + 1 / 2) * (u * u) < q
    · rw [if_pos c2]
      exact r_up
    · rw [if_neg c2]
      have c2' : x ≤ ((m : ℚ) + 1 / 2) * ((m : ℚ) + 1 / 2) := by
        by_contra hc
        exact c2 ((cmp2 _).mpr (not_le.mp hc))
      by_cases c3 : m % 2 = 0
      · rw [if_pos c3]
        exact ⟨m, rfl, hm1, le_of_lt hm2, key_lo _ down, key_hi _ c2'⟩
      · rw [if_neg c3]
        exact r_up

/-! ### `fits_in_bin` -/

/-- A search that succeeds has found the first candidate with the orientation and the
reversed points, and marked it. -/
theorem dedup_search_some {α : Type} (type_of : α → ClassificationType)
    (points_of : α → List Nat) (mark : α → α) (orientation : ClassificationType)
    (cs0_points : List Nat) :
    ∀ (rest : List α) (cs1 : α) (rest1 : List α),
      dedup_search type_of points_of mark orientation cs0_points rest = some (cs1, rest1) →
      ∃ j, rest[j]? = some cs1 ∧ type_of cs1 = orientation ∧
        points_of cs1 = cs0_points.reverse ∧ rest1 = rest.set j (mark cs1) := by
  intro rest
  induction rest with
  | nil => intro cs1 rest1 h; simp [dedup_search] at h
  | cons a rest ih =>
    intro cs1 rest1 h
    unfold dedup_search at h
    split_ifs at h with hc
    · simp only [Option.some.injEq, Prod.mk.injEq] at h
      obtain ⟨rfl, rfl⟩ := h
      exact ⟨0, by simp, hc.1, hc.2, by simp⟩
    · simp only [Option.map_eq_some'] at h
      obtain ⟨⟨q1, q2⟩, hq, hq2⟩ := h
      simp only [Prod.mk.injEq] at hq2
      obtain ⟨rfl, rfl⟩ := hq2
      obtain ⟨j, h1, h2, h3, h4⟩ := ih q1 q2 hq
      exact ⟨j + 1, by simpa using h1, h2, h3, by simp [h4]⟩

/-- A search fails exactly when no candidate has the orientation and the reversed points. -/
theorem dedup_search_none {α : Type} (type_of : α → ClassificationType)
    (points_of : α → List Nat) (mark : α → α) (orientation : ClassificationType)
    (cs0_points : List Nat) :
    ∀ (rest : List α),
      dedup_search type_of points_of mark orientation cs0_points rest = none ↔
      ∀ a ∈ rest, ¬ (type_of a = orientation ∧ points_of a = cs0_points.reverse) := by
  intro rest
  induction rest with
  | nil => simp [dedup_search]
  | cons a rest ih =>
    unfold dedup_search
    split_ifs with hc
    · constructor
      · intro h; simp at h
      · intro h; exact absurd hc (h a (List.mem_cons_self _ _))
    · simp only [Option.map_eq_none', ih, List.mem_cons, forall_eq_or_imp]
      exact ⟨fun h => ⟨hc, h⟩, fun h => h.2⟩

/-- The candidates already passed are not touched any more. -/
theorem dedup_loop_done {α : Type} (type_of : α → ClassificationType)
    (points_of : α → List Nat) (mark : α → α) (forward : α → Bool)
    (orientation : ClassificationType) :
    ∀ (n : Nat) (done todo : List α),
      dedup_loop type_of points_of mark forward orientation n done todo =
        done ++ dedup_loop type_of points_of mark forward orientation n [] todo := by
  intro n
  induction n with
  | zero => intro done todo; simp [dedup_loop]
  | succ n ih =>
    intro done todo
    cases todo with
    | nil => simp [dedup_loop]
    | cons cs0 rest =>
      unfold dedup_loop
      by_cases h1 : type_of cs0 ≠ orientation
      · rw [if_pos h1, if_pos h1, ih (done ++ [cs0]), ih ([] ++ [cs0])]
        simp
      · rw [if_neg h1, if_neg h1]
        rcases dedup_search type_of points_of mark orientation (points_of cs0) rest with
          _ | ⟨cs1, rest1⟩
        · simp only
          rw [ih (done ++ [mark cs0]), ih ([] ++ [mark cs0])]
          simp
        · simp only
          rw [ih (done ++ _), ih ([] ++ _)]
          simp

/-- What the loop of `filter_bidirectional` leaves, with the points of the sequences
known: a candidate of another tag is left alone; a candidate that is left with the
orientation stands where a candidate `cs0` with the orientation stood, a later candidate
`cs1` with the orientation had the points of `cs0` in reverse order and is now marked,
and what is left is `cs0` if it ran forward and `cs1` if not. -/
theorem dedup_loop_spec {α : Type} (type_of : α → ClassificationType)
    (points_of : α → List Nat) (mark : α → α) (forward : α → Bool)
    (orientation : ClassificationType) (htm : ∀ a, type_of (mark a) = OUTLIER)
    (ho : orientation ≠ OUTLIER) :
    ∀ (n : Nat) (l : List α), l.length ≤ n →
      (dedup_loop type_of points_of mark forward orientation n [] l).length = l.length ∧
      (∀ (k : Nat) (a : α), l[k]? = some a → type_of a ≠ orientation →
        (dedup_loop type_of points_of mark forward orientation n [] l)[k]? = some a) ∧
      (∀ (i : Nat) (b : α), (dedup_loop type_of points_of mark forward orientation n [] l)[i]? = some b →
        type_of b = orientation →
        ∃ (j : Nat) (cs0 cs1 : α), i < j ∧ l[i]? = some cs0 ∧ l[j]? = some cs1 ∧
          type_of cs0 = orientation ∧ type_of cs1 = orientation ∧
          points_of cs1 = (points_of cs0).reverse ∧
          (dedup_loop type_of points_of mark forward orientation n [] l)[j]? =
            some (mark cs1) ∧
          b = if forward cs0 then cs0 else cs1) := by
  have hmo : ∀ a, type_of (mark a) ≠ orientation := fun a h => ho (h.symm.trans (htm a))
  intro n
  induction n with
  | zero =>
    intro l hl
    have : l = [] := List.length_eq_zero.mp (Nat.le_zero.mp hl)
    subst this
    simp [dedup_loop]
  | succ n ih =>
    intro l hl
    cases l with
    | nil => simp [dedup_loop]
    | cons cs0 rest =>
      have hrest : rest.length ≤ n := by simpa using hl
      unfold dedup_loop
      by_cases h1 : type_of cs0 ≠ orientation
      · rw [if_pos h1, dedup_loop_done]
        obtain ⟨i1, i2, i3⟩ := ih rest hrest
        simp only [List.nil_append, List.singleton_append, List.length_cons, i1, true_and]
        constructor
        · intro k a hk ht
          cases k with
          | zero => simpa using hk
          | succ k => simpa using i2 k a (by simpa using hk) ht
        · intro i b hi hb
          cases i with
          | zero =>
            simp only [List.getElem?_cons_zero, Option.some.injEq] at hi
            subst hi
            exact absurd hb h1
          | succ i =>
            obtain ⟨j, c0, c1, e1, e2, e3, e4, e5, e6, e7, e8⟩ :=
              i3 i b (by simpa using hi) hb
            exact ⟨j + 1, c0, c1, by omega, by simpa using e2, by simpa using e3, e4, e5, e6,
              by simpa using e7, e8⟩
      · rw [if_neg h1]
        have h1 : type_of cs0 = orientation := not_not.mp h1
        rcases hs : dedup_search type_of points_of mark orientation (points_of cs0) rest with
          _ | ⟨cs1, rest1⟩
        · simp only
          rw [dedup_loop_done]
          obtain ⟨i1, i2, i3⟩ := ih rest hrest
          simp only [List.nil_append, List.singleton_append, List.length_cons, i1, true_and]
          constructor
          · intro k a hk ht
            cases k with
            | zero =>
              simp only [List.getElem?_cons_zero, Option.some.injEq] at hk
              subst hk
              exact absurd h1 ht
            | succ k => simpa using i2 k a (by simpa using hk) ht
          · intro i b hi hb
            cases i with
            | zero =>
              simp only [List.getElem?_cons_zero, Option.some.injEq] at hi
              subst hi
              exact absurd hb (hmo cs0)
            | succ i =>
              obtain ⟨j, c0, c1, e1, e2, e3, e4, e5, e6, e7, e8⟩ :=
                i3 i b (by simpa using hi) hb
              exact ⟨j + 1, c0, c1, by omega, by simpa using e2, by simpa using e3, e4, e5,
                e6, by simpa using e7, e8⟩
        · simp only
          rw [dedup_loop_done]
          obtain ⟨j0, s1, s2, s3, s4⟩ := dedup_search_some type_of points_of mark orientation
            _ rest cs1 rest1 hs
          have hj0 : j0 < rest.length := (List.getElem?_eq_some.mp s1).1
          have hlen1 : rest1.length = rest.length := by rw [s4, List.length_set]
          obtain ⟨i1, i2, i3⟩ := ih rest1 (by rw [hlen1]; exact hrest)
          have hget : ∀ (k : Nat) (a : α), rest1[k]? = some a → type_of a = orientation →
              rest[k]? = some a := by
            intro k a hk ht
            by_cases hkj : j0 = k
            · subst hkj
              rw [s4, List.getElem?_set_self hj0] at hk
              simp only [Option.some.injEq] at hk
              subst hk
              exact absurd ht (hmo cs1)
            · rw [s4, List.getElem?_set_ne hkj] at hk
              exact hk
          simp only [List.nil_append, List.singleton_append, List.length_cons, i1, hlen1,
            true_and]
          constructor
          · intro k a hk ht
            cases k with
            | zero =>
              simp only [List.getElem?_cons_zero, Option.some.injEq] at hk
              subst hk
              exact absurd h1 ht
            | succ k =>
              simp only [List.getElem?_cons_succ] at hk ⊢
              apply i2 k a _ ht
              have hkj : j0 ≠ k := by
                intro hc
                subst hc
                rw [s1] at hk
                simp only [Option.some.injEq] at hk
                subst hk
                exact ht s2
              rw [s4, List.getElem?_set_ne hkj]
              exact hk
          · intro i b hi hb
            cases i with
            | zero =>
              simp only [List.getElem?_cons_zero, Option.some.injEq] at hi
              refine ⟨j0 + 1, cs0, cs1, by omega, by simp, by simpa using s1, h1, s2, s3, ?_, ?_⟩
              · simp only [List.getElem?_cons_succ]
                apply i2 j0 (mark cs1) _ (hmo cs1)
                rw [s4, List.getElem?_set_self hj0]
              · rw [← hi]
                cases forward cs0 <;> rfl
            | succ i =>
              obtain ⟨j, c0, c1, e1, e2, e3, e4, e5, e6, e7, e8⟩ :=
                i3 i b (by simpa using hi) hb
              exact ⟨j + 1, c0, c1, by omega, by simpa using hget i c0 e2 e4,
                by simpa using hget j c1 e3 e5, e4, e5, e6, by simpa using e7, e8⟩

/-- What `filter_bidirectional` leaves for candidates whose traces succeed: it returns, a
candidate of another tag is left alone, and a candidate left with the orientation stands
where a candidate `cs0` with the orientation stood, while a later candidate `cs1` with
the orientation, whose points are those of `cs0` in reverse order, is now an outlier;
what is left is `cs0` if it matches the direction and a copy of `cs1` if not. -/
theorem filter_bidirectional_spec (voronoi : VORONOI) (points : List Point)
    (orientation : ClassificationType) (ho : orientation ≠ OUTLIER) (l : v_CS D)
    (h : ∀ a ∈ l, a.type = orientation →
      (sequence_cells FIND_GRID_SCALE voronoi points a).isSome = true) :
    ∃ l1, filter_bidirectional FIND_GRID_SCALE l voronoi points orientation = some l1 ∧
      l1.length = l.length ∧
      (∀ (k : Nat) (a : CandidateSequence D), l[k]? = some a → a.type ≠ orientation →
        l1[k]? = some a) ∧
      (∀ (i : Nat) (b : CandidateSequence D), l1[i]? = some b → b.type = orientation →
        ∃ (j : Nat) (cs0 cs1 : CandidateSequence D) (t0 t1 : List Nat),
          i < j ∧ l[i]? = some cs0 ∧ l[j]? = some cs1 ∧
          cs0.type = orientation ∧ cs1.type = orientation ∧
          sequence_cells FIND_GRID_SCALE voronoi points cs0 = some t0 ∧
          sequence_cells FIND_GRID_SCALE voronoi points cs1 = some t1 ∧
          t1.map (fun k => (cell voronoi k).source_index) =
            (t0.map fun k => (cell voronoi k).source_index).reverse ∧
          l1[j]? = some { cs1 with type := OUTLIER } ∧
          b = if matches_direction cs0 orientation then cs0 else cs1) := by
  have e := filter_bidirectional_eq FIND_GRID_SCALE (fun a : CandidateSequence D => a)
    (fun a => a.type)
    (fun a => ((sequence_cells FIND_GRID_SCALE voronoi points a).getD []).map
      fun k => (cell voronoi k).source_index)
    (fun a => { a with type := OUTLIER })
    (fun a => matches_direction a orientation) voronoi points orientation
    (fun _ => rfl) (fun _ => rfl) (fun _ => rfl) ho l
    (by
      intro a ha hta
      obtain ⟨t, ht⟩ := Option.isSome_iff_exists.mp (h a ha hta)
      exact ⟨t, ht, by simp only [ht, Option.getD_some]⟩)
  simp only [List.map_id_fun', id_eq] at e
  obtain ⟨s1, s2, s3⟩ := dedup_loop_spec (fun a : CandidateSequence D => a.type)
    (fun a => ((sequence_cells FIND_GRID_SCALE voronoi points a).getD []).map
      fun k => (cell voronoi k).source_index)
    (fun a => { a with type := OUTLIER })
    (fun a => matches_direction a orientation) orientation (fun _ => rfl) ho l.length l
    (le_refl _)
  refine ⟨_, e, s1, s2, ?_⟩
  intro i b hi hb
  obtain ⟨j, cs0, cs1, e1, e2, e3, e4, e5, e6, e7, e8⟩ := s3 i b hi hb
  obtain ⟨t0, ht0⟩ := Option.isSome_iff_exists.mp (h cs0 (List.getElem?_mem e2) e4)
  obtain ⟨t1, ht1⟩ := Option.isSome_iff_exists.mp (h cs1 (List.getElem?_mem e3) e5)
  simp only [ht0, ht1, Option.getD_some] at e6
  exact ⟨j, cs0, cs1, t0, t1, e1, e2, e3, e4, e5, ht0, ht1, e6, e7, e8⟩

/-- C27: in the loop of `filter_bidirectional` for the orientation `O`, at a candidate
`cs0` tagged `O`, with `done` the candidates before it and `rest` the candidates after it
as they stand: when no candidate of `rest` that is still tagged `O` has the points of
`cs0` in reverse order, the loop returns and has `cs0` tagged `OUTLIER`, at its place. -/
theorem filter_bidirectional_unmatched (voronoi : VORONOI) (points : List Point)
    (orientation : ClassificationType) (ho : orientation ≠ OUTLIER)
    (done rest : v_CS D) (cs0 : CandidateSequence D) (t0 : List Nat) (n : Nat)
    (h0 : cs0.type = orientation)
    (ht0 : sequence_cells FIND_GRID_SCALE voronoi points cs0 = some t0)
    (hrest : ∀ a ∈ rest, a.type = orientation →
      (sequence_cells FIND_GRID_SCALE voronoi points a).isSome = true)
    (hno : ∀ cs1 ∈ rest, cs1.type = orientation → ∀ t1,
      sequence_cells FIND_GRID_SCALE voronoi points cs1 = some t1 →
      t1.map (fun k => (cell voronoi k).source_index) ≠
        (t0.map fun k => (cell voronoi k).source_index).reverse) :
    ∃ l1, filter_bidirectional_loop FIND_GRID_SCALE voronoi points orientation (n + 1) done
        (cs0 :: rest) = some l1 ∧
      l1[done.length]? = some { cs0 with type := OUTLIER } := by
  have e := filter_bidirectional_loop_eq FIND_GRID_SCALE (fun a : CandidateSequence D => a)
    (fun a => a.type)
    (fun a => ((sequence_cells FIND_GRID_SCALE voronoi points a).getD []).map
      fun k => (cell voronoi k).source_index)
    (fun a => { a with type := OUTLIER })
    (fun a => matches_direction a orientation) voronoi points orientation
    (fun _ => rfl) (fun _ => rfl) (fun _ => rfl) ho (n + 1) done (cs0 :: rest)
    (by
      intro a ha hta
      have hs : (sequence_cells FIND_GRID_SCALE voronoi points a).isSome = true := by
        rcases List.mem_cons.mp ha with rfl | ha
        · rw [ht0]; rfl
        · exact hrest a ha hta
      obtain ⟨t, ht⟩ := Option.isSome_iff_exists.mp hs
      exact ⟨t, ht, by simp only [ht, Option.getD_some]⟩)
  simp only [List.map_id_fun', id_eq] at e
  refine ⟨_, e, ?_⟩
  have hnone : dedup_search (fun a : CandidateSequence D => a.type)
      (fun a => ((sequence_cells FIND_GRID_SCALE voronoi points a).getD []).map
        fun k => (cell voronoi k).source_index)
      (fun a => { a with type := OUTLIER }) orientation
      (((sequence_cells FIND_GRID_SCALE voronoi points cs0).getD []).map
        fun k => (cell voronoi k).source_index) rest = none := by
    rw [dedup_search_none]
    intro a ha hc
    obtain ⟨t1, ht1⟩ := Option.isSome_iff_exists.mp (hrest a ha hc.1)
    apply hno a ha hc.1 t1 ht1
    have := hc.2
    simp only [ht0, ht1, Option.getD_some] at this
    exact this
  rw [dedup_loop_done, List.getElem?_append_right (le_refl _), Nat.sub_self]
  unfold dedup_loop
  rw [if_neg (not_not.mpr h0), hnone]
  simp only
  rw [dedup_loop_done]
  simp

/-- On the lattice, after one candidate already visited: row 0 to the right is followed
by row 1 to the right and row 1 to the left, both horizontal and neither the reverse of
row 0, and row 0 is marked as an outlier. -/
theorem filter_bidirectional_unmatched_witness :
    ∃ l1, filter_bidirectional_loop 16 lattice_voronoi (lattice_points 16) HORIZONTAL (1 + 1)
        [LatticeSequence.candidate 16 ⟨20, Direction.right, HORIZONTAL⟩]
        (LatticeSequence.candidate 16 ⟨0, Direction.right, HORIZONTAL⟩ ::
          [LatticeSequence.candidate 16 ⟨10, Direction.right, HORIZONTAL⟩,
           LatticeSequence.candidate 16 ⟨19, Direction.left, HORIZONTAL⟩]) = some l1 ∧
      l1[[LatticeSequence.candidate 16 ⟨20, Direction.right, HORIZONTAL⟩].length]? =
        some { LatticeSequence.candidate 16 ⟨0, Direction.right, HORIZONTAL⟩ with
          type := OUTLIER } :=
  filter_bidirectional_unmatched 16 lattice_voronoi (lattice_points 16) HORIZONTAL
    (by decide) [LatticeSequence.candidate 16 ⟨20, Direction.right, HORIZONTAL⟩]
    [LatticeSequence.candidate 16 ⟨10, Direction.right, HORIZONTAL⟩,
     LatticeSequence.candidate 16 ⟨19, Direction.left, HORIZONTAL⟩]
    (LatticeSequence.candidate 16 ⟨0, Direction.right, HORIZONTAL⟩)
    (LatticeSequence.cells ⟨0, Direction.right, HORIZONTAL⟩) 1 rfl
    (lattice_sequence_cells 16 (by decide) ⟨0, Direction.right, HORIZONTAL⟩ (by decide))
    (fun a ha _ => by
      simp only [List.mem_cons, List.mem_singleton, List.not_mem_nil, or_false] at ha
      rcases ha with rfl | rfl
      · rw [lattice_sequence_cells 16 (by decide) ⟨10, Direction.right, HORIZONTAL⟩ (by decide)]
        rfl
      · rw [lattice_sequence_cells 16 (by decide) ⟨19, Direction.left, HORIZONTAL⟩ (by decide)]
        rfl)
    (fun a ha _ t1 ht1 => by
      simp only [List.mem_cons, List.mem_singleton, List.not_mem_nil, or_false] at ha
      rcases ha with rfl | rfl
      · rw [lattice_sequence_cells 16 (by decide) ⟨10, Direction.right, HORIZONTAL⟩ (by decide),
          Option.some.injEq] at ht1
        subst ht1
        decide
      · rw [lattice_sequence_cells 16 (by decide) ⟨19, Direction.left, HORIZONTAL⟩ (by decide),
          Option.some.injEq] at ht1
        subst ht1
        decide)

/-! ### `filter_bounds` -/

/-- C28: `filter_bounds` for the orientation `A`, with `B` the other orientation, returns
true exactly when the list has a first candidate tagged `A`, at a position `ia`, and a
first candidate tagged `B`, at a position `ib`, the trace of the first gives its cells
`t`, and for every `i < Nwant` the candidate at position `ib + i` is tagged `B` and starts
at the point with the identity of the `i`-th cell of `t`. -/
theorem filter_bounds_iff (sequence_candidates : v_CS D) (orientation : ClassificationType)
    (voronoi : VORONOI) (points : List Point) :
    filter_bounds FIND_GRID_SCALE sequence_candidates orientation voronoi points = some true ↔
      ∃ (ia ib : Nat) (ref : CandidateSequence D) (t : List Nat),
        sequence_candidates.findIdx? (fun cs => cs.type == orientation) = some ia ∧
        sequence_candidates.findIdx?
          (fun cs => cs.type == if orientation = HORIZONTAL then VERTICAL else HORIZONTAL) =
          some ib ∧
        sequence_candidates[ia]? = some ref ∧
        sequence_cells FIND_GRID_SCALE voronoi points ref = some t ∧
        ∀ i < Nwant, ∃ cs, sequence_candidates[ib + i]? = some cs ∧
          cs.type = (if orientation = HORIZONTAL then VERTICAL else HORIZONTAL) ∧
          (cell voronoi cs.c0).source_index =
            (t.map fun k => (cell voronoi k).source_index).getD i 0 := by
  constructor
  · intro h
    unfold filter_bounds at h
    simp only [get_first_eq] at h
    rcases h1 : sequence_candidates.findIdx? (fun cs => cs.type == orientation) with _ | r
    · rw [h1] at h; simp at h
    rcases h2 : sequence_candidates.findIdx?
      (fun cs => cs.type == if orientation = HORIZONTAL then VERTICAL else HORIZONTAL)
      with _ | k
    · rw [h1, h2] at h; simp at h
    rw [h1, h2] at h
    simp only at h
    rcases h3 : sequence_candidates[r]? with _ | ref
    · rw [h3] at h; simp at h
    rw [h3] at h
    simp only [get_candidate_points_eq] at h
    rcases h4 : sequence_cells FIND_GRID_SCALE voronoi points ref with _ | t
    · rw [h4] at h; simp at h
    rw [h4] at h
    simp only [Option.map_some'] at h
    have hloop := filter_bounds_loop_true voronoi sequence_candidates _ _ Nwant 0 k
      (by omega) h
    refine ⟨r, k, ref, t, h1, h2, h3, h4, ?_⟩
    intro i hi
    obtain ⟨cs, hcs, hty, hsrc⟩ := hloop i hi
    rw [Nat.zero_add] at hsrc
    exact ⟨cs, hcs, hty, hsrc.symm⟩
  · rintro ⟨ia, ib, ref, t, h1, h2, h3, h4, h5⟩
    apply filter_bounds_of FIND_GRID_SCALE sequence_candidates orientation _ voronoi points
      ia ib ref t rfl h1 h2 h3 h4
    intro j hj
    obtain ⟨cs, hcs, hty, hsrc⟩ := h5 j hj
    rw [hcs]
    simp only [Option.map_some', Option.some.injEq, Prod.mk.injEq]
    exact ⟨hty, hsrc⟩

/-! ### Termination of the clustering -/

/-- The bookkeeping of one call of `gather_unclassified` for a bin index that is not
negative: the candidates left unclassified are counted by `Nremaining`, which with the
members of the bin makes up the candidates that were unclassified; the bin is not empty
when there was one. -/
theorem gather_unclassified_counts (l : v_CS D) (i : Nat) :
    (((gather_unclassified FIND_GRID_SCALE l (i : Int)).2.2.countP
        fun cs => cs.type == UNCLASSIFIED : Nat) : Int) =
      (gather_unclassified FIND_GRID_SCALE l (i : Int)).1 ∧
    (gather_unclassified FIND_GRID_SCALE l (i : Int)).2.1.N +
        (gather_unclassified FIND_GRID_SCALE l (i : Int)).1 =
      ((l.countP fun cs => cs.type == UNCLASSIFIED : Nat) : Int) ∧
    0 ≤ (gather_unclassified FIND_GRID_SCALE l (i : Int)).2.1.N ∧
    (1 ≤ l.countP (fun cs => cs.type == UNCLASSIFIED) →
      1 ≤ (gather_unclassified FIND_GRID_SCALE l (i : Int)).2.1.N) := by
  obtain ⟨-, -, i3, i4, i5, i6⟩ :=
    gather_unclassified_loop_counts FIND_GRID_SCALE (i : Int) l 0
      { delta_mean_sum := ⟨DoubleArith.ofRat 0, DoubleArith.ofRat 0⟩, N := 0 }
  have i3 := i3 (by omega)
  simp only at i4 i5 i6
  unfold gather_unclassified
  refine ⟨by omega, by omega, i5, fun h => i6 trivial h⟩

/-- The loop of `cluster_sequence_candidates` returns when it is given more rounds than
there are unclassified candidates and bins left, and the index of the bin it ends with is
2 at most. -/
theorem cluster_loop_terminates (fuel : Nat) :
    ∀ (bins : Bins D) (i : Nat) (l : v_CS D), i ≤ 2 →
      l.countP (fun cs => cs.type == UNCLASSIFIED) + (2 - i) < fuel →
      ∃ r, cluster_sequence_candidates_loop FIND_GRID_SCALE fuel bins i l = some r ∧
        r.2.2.1 ≤ 2 := by
  induction fuel with
  | zero => intro bins i l _ h; omega
  | succ fuel ih =>
    intro bins i l hi hf
    obtain ⟨g1, g2, g3, g4⟩ := gather_unclassified_counts FIND_GRID_SCALE l i
    unfold cluster_sequence_candidates_loop
    simp only
    split_ifs with h1 h2 h3 h4
    · exact ⟨_, rfl, hi⟩
    · apply ih _ _ _ hi
      rw [mark_outliers_countP]
      have : 1 ≤ l.countP (fun cs => cs.type == UNCLASSIFIED) := by omega
      have := g4 this
      omega
    · exact ⟨_, rfl, hi⟩
    · exact ⟨_, rfl, by simp only; omega⟩
    · apply ih _ _ _ (by omega)
      omega

/-- The index of the bin never leaves the array `bins[3]`. -/
theorem cluster_loop_index_le (fuel : Nat) :
    ∀ (bins : Bins D) (i : Nat) (l : v_CS D) (r : Bool × Bins D × Nat × v_CS D), i ≤ 2 →
      cluster_sequence_candidates_loop FIND_GRID_SCALE fuel bins i l = some r →
      r.2.2.1 ≤ 2 := by
  induction fuel with
  | zero => intro bins i l r _ h; simp [cluster_sequence_candidates_loop] at h
  | succ fuel ih =>
    intro bins i l r hi h
    simp only [cluster_sequence_candidates_loop] at h
    split_ifs at h with h1 h2 h3 h4
    · simp only [Option.some.injEq] at h; subst h; exact hi
    · exact ih _ _ _ _ hi h
    · simp only [Option.some.injEq] at h; subst h; exact hi
    · simp only [Option.some.injEq] at h; subst h; simp only; omega
    · exact ih _ _ _ _ (by omega) h

/-- The `length + 3` rounds `cluster_sequence_candidates` gives its loop are enough: it
returns. -/
theorem cluster_sequence_candidates_returns (bins : Bins D) (l : v_CS D) :
    (cluster_sequence_candidates FIND_GRID_SCALE bins l).isSome = true := by
  obtain ⟨r, hr, -⟩ := cluster_loop_terminates FIND_GRID_SCALE (l.length + 3) bins 0 l
    (by omega)
    (by have := List.countP_le_length (fun cs : CandidateSequence D => cs.type == UNCLASSIFIED)
          (l := l); omega)
  unfold cluster_sequence_candidates
  rw [hr]
  obtain ⟨f, b, k, c1⟩ := r
  cases f
  · rfl
  · simp only
    split_ifs <;> rfl

/-- C31: `cluster_sequence_candidates` returns on every candidate list, for the
`length + 3` rounds of its loop are enough.  The index of the bin stays 2 at most, so
inside the array `bins[3]`.  A round that does not return either discards an undersized
bin, and then fewer candidates are unclassified than before (those of the bin, which is
not empty, have become outliers), or accepts a bin and raises the index, to 2 at most. -/
theorem cluster_sequence_candidates_terminates :
    (∀ (bins : Bins D) (l : v_CS D),
      (cluster_sequence_candidates FIND_GRID_SCALE bins l).isSome = true) ∧
    (∀ (fuel : Nat) (bins : Bins D) (i : Nat) (l : v_CS D)
        (r : Bool × Bins D × Nat × v_CS D), i ≤ 2 →
      cluster_sequence_candidates_loop FIND_GRID_SCALE fuel bins i l = some r →
      r.2.2.1 ≤ 2) ∧
    (∀ (fuel : Nat) (bins : Bins D) (i : Nat) (l : v_CS D),
      ((gather_unclassified FIND_GRID_SCALE l (i : Int)).2.1.N < (Nwant : Int) * 2 →
        (gather_unclassified FIND_GRID_SCALE l (i : Int)).1 ≠ 0 →
        cluster_sequence_candidates_loop FIND_GRID_SCALE (fuel + 1) bins i l =
          cluster_sequence_candidates_loop FIND_GRID_SCALE fuel
            (Function.update bins i (gather_unclassified FIND_GRID_SCALE l (i : Int)).2.1) i
            (mark_outliers (gather_unclassified FIND_GRID_SCALE l (i : Int)).2.2 (i : Int)) ∧
        (mark_outliers (gather_unclassified FIND_GRID_SCALE l (i : Int)).2.2
            (i : Int)).countP (fun cs => cs.type == UNCLASSIFIED) <
          l.countP (fun cs => cs.type == UNCLASSIFIED)) ∧
      (¬ (gather_unclassified FIND_GRID_SCALE l (i : Int)).2.1.N < (Nwant : Int) * 2 →
        i < 2 →
        ¬ (gather_unclassified FIND_GRID_SCALE l (i : Int)).1 < (Nwant : Int) * 2 →
        cluster_sequence_candidates_loop FIND_GRID_SCALE (fuel + 1) bins i l =
          cluster_sequence_candidates_loop FIND_GRID_SCALE fuel
            (Function.update bins i (gather_unclassified FIND_GRID_SCALE l (i : Int)).2.1)
            (i + 1) (gather_unclassified FIND_GRID_SCALE l (i : Int)).2.2 ∧
        i + 1 ≤ 2 ∧
        (gather_unclassified FIND_GRID_SCALE l (i : Int)).2.2.countP
            (fun cs => cs.type == UNCLASSIFIED) ≤
          l.countP (fun cs => cs.type == UNCLASSIFIED))) := by
  refine ⟨?_, ?_, ?_⟩
  · intro bins l
    exact cluster_sequence_candidates_returns FIND_GRID_SCALE bins l
  · intro fuel bins i l r hi h
    exact cluster_loop_index_le FIND_GRID_SCALE fuel bins i l r hi h
  · intro fuel bins i l
    obtain ⟨g1, g2, g3, g4⟩ := gather_unclassified_counts FIND_GRID_SCALE l i
    constructor
    · intro h1 h2
      constructor
      · rw [cluster_sequence_candidates_loop]
        simp only [h1, if_true, h2, if_false]
      · rw [mark_outliers_countP]
        have : 1 ≤ l.countP (fun cs => cs.type == UNCLASSIFIED) := by omega
        have := g4 this
        omega
    · intro h1 h2 h3
      refine ⟨?_, by omega, by omega⟩
      rw [cluster_sequence_candidates_loop]
      have h4 : ¬ (i ≥ 2) := by omega
      simp only [h1, if_false, h4, h3]

/-! ### Reads and traces inside `find_grid_from_points` -/

/-- The trace of a candidate depends on its first two cells only. -/
theorem sequence_cells_congr (voronoi : VORONOI) (points : List Point)
    (a b : CandidateSequence D) (h0 : a.c0 = b.c0) (h1 : a.c1 = b.c1) :
    sequence_cells FIND_GRID_SCALE voronoi points a =
      sequence_cells FIND_GRID_SCALE voronoi points b := by
  unfold sequence_cells
  rw [h0, h1]

/-- A property of candidates that holds whatever the tag, and implies that the trace
succeeds, is kept by `filter_bidirectional`, which returns. -/
theorem filter_bidirectional_forall (voronoi : VORONOI) (points : List Point)
    (orientation : ClassificationType) (ho : orientation ≠ OUTLIER)
    (Q : CandidateSequence D → Prop)
    (hQ : ∀ a, Q a → Q { a with type := OUTLIER })
    (htr : ∀ a, Q a → (sequence_cells FIND_GRID_SCALE voronoi points a).isSome = true)
    (l : v_CS D) (h : ∀ a ∈ l, Q a) :
    ∃ l1, filter_bidirectional FIND_GRID_SCALE l voronoi points orientation = some l1 ∧
      ∀ b ∈ l1, Q b := by
  have e := filter_bidirectional_eq FIND_GRID_SCALE (fun a : CandidateSequence D => a)
    (fun a => a.type)
    (fun a => ((sequence_cells FIND_GRID_SCALE voronoi points a).getD []).map
      fun k => (cell voronoi k).source_index)
    (fun a => { a with type := OUTLIER })
    (fun a => matches_direction a orientation) voronoi points orientation
    (fun _ => rfl) (fun _ => rfl) (fun _ => rfl) ho l
    (by
      intro a ha _
      obtain ⟨t, ht⟩ := Option.isSome_iff_exists.mp (htr a (h a ha))
      exact ⟨t, ht, by simp only [ht, Option.getD_some]⟩)
  simp only [List.map_id_fun', id_eq] at e
  refine ⟨_, e, ?_⟩
  apply dedup_loop_forall _ _ _ _ _ Q hQ
  · intro a ha; simp at ha
  · exact h

/-- When `cluster_sequence_candidates` returns true for candidates that were unclassified,
every candidate has the cells it had and one of the tags `HORIZONTAL`, `VERTICAL`,
`OUTLIER`. -/
theorem cluster_sequence_candidates_true (q : Nat → Nat → Prop) (bins : Bins D)
    (l c1 : v_CS D) (hl : ∀ a ∈ l, q a.c0 a.c1 ∧ a.type = UNCLASSIFIED)
    (h : cluster_sequence_candidates FIND_GRID_SCALE bins l = some (true, c1)) :
    ∀ b ∈ c1, q b.c0 b.c1 ∧ (b.type = HORIZONTAL ∨ b.type = VERTICAL ∨ b.type = OUTLIER) := by
  unfold cluster_sequence_candidates at h
  rcases hloop : cluster_sequence_candidates_loop FIND_GRID_SCALE (l.length + 3) bins 0 l
    with _ | ⟨f, b, k, c0⟩
  · rw [hloop] at h; simp at h
  · rw [hloop] at h
    cases f
    · simp at h
    · simp only at h
      obtain ⟨hk1, hk2, ht⟩ := cluster_loop_tags FIND_GRID_SCALE q _ bins 0
        l _ hloop rfl (fun a ha => ⟨(hl a ha).1, Or.inl (hl a ha).2⟩)
      simp only at hk2 ht
      split_ifs at h with h1 h2
      · simp at h
      · simp at h
      simp only [Option.some.injEq, Prod.mk.injEq, true_and] at h
      subst h
      have hm := mark_orientation_tags q
        (fun t : Int => t = 3 ∨ (-(k : Int) ≤ t ∧ t ≤ -1))
        (fun t : Int => t = HORIZONTAL ∨ t = VERTICAL ∨ t = OUTLIER)
        (bin_orientation b 0, bin_orientation b 1)
        (fun t ht1 => by
          unfold mark_orientation_type
          rcases ht1 with h3 | ⟨h3, h4⟩
          · right; right; rw [h3]; rfl
          · have h5 : t = -1 ∨ t = -2 := by omega
            rcases h5 with h5 | h5
            · rw [h5]
              rcases bin_orientation_cases b 0 with h6 | h6
              · left; simpa using h6
              · right; left; simpa using h6
            · rw [h5]
              rcases bin_orientation_cases b 1 with h6 | h6
              · left; simpa using h6
              · right; left; simpa using h6) c0 ht
      intro x hx
      exact hm x hx

/-- The scan of `filter_bounds` does not run past the end of the list when a candidate
with another tag stands at or after the position it starts from. -/
theorem filter_bounds_loop_isSome (voronoi : VORONOI) (sequence_candidates : v_CS D)
    (orientation_other : ClassificationType) (cs_ref_points : List Nat) :
    ∀ (n i p : Nat),
      (∃ (q : Nat) (a : CandidateSequence D), p ≤ q ∧ sequence_candidates[q]? = some a ∧
        a.type ≠ orientation_other) →
      (filter_bounds_loop voronoi sequence_candidates orientation_other cs_ref_points
        n i p).isSome = true := by
  intro n
  induction n with
  | zero => intro i p _; rfl
  | succ n ih =>
    intro i p h
    obtain ⟨q, a, hpq, hq, hta⟩ := h
    have hp : p < sequence_candidates.length := by
      have := (List.getElem?_eq_some.mp hq).1
      omega
    unfold filter_bounds_loop
    rw [List.getElem?_eq_getElem hp]
    simp only
    split_ifs with h1 h2
    · rfl
    · rfl
    · apply ih
      refine ⟨q, a, ?_, hq, hta⟩
      rcases Nat.eq_or_lt_of_le hpq with he | hlt
      · subst he
        rw [List.getElem?_eq_getElem hp] at hq
        simp only [Option.some.injEq] at hq
        rw [hq] at h1
        exact absurd (not_not.mp h1) hta
      · omega

/-- In a sorted list a candidate that comes first in the comparison does not stand after
the other. -/
theorem sort_candidates_index (voronoi : VORONOI) (points : List Point) (l : v_CS D)
    (i j : Nat) (a b : CandidateSequence D)
    (hi : (sort_candidates l voronoi points)[i]? = some a)
    (hj : (sort_candidates l voronoi points)[j]? = some b)
    (hab : sequence_comparator voronoi points a b = true) : i ≤ j := by
  by_contra hc
  have hlt : j < i := by omega
  have hp := std_sort_pairwise (sequence_comparator voronoi points)
    (sequence_comparator_asymm voronoi points) (sequence_comparator_trans voronoi points) l
  obtain ⟨hi1, hi2⟩ := List.getElem?_eq_some.mp hi
  obtain ⟨hj1, hj2⟩ := List.getElem?_eq_some.mp hj
  have := List.pairwise_iff_getElem.mp hp j i hj1 hi1 hlt
  unfold sort_candidates at hi2 hj2
  rw [hi2, hj2, hab] at this
  exact absurd this (by decide)

/-- `filter_bounds` returns when the traces succeed and a candidate with another tag
stands at or after the first candidate of the other orientation. -/
theorem filter_bounds_isSome (sequence_candidates : v_CS D)
    (orientation : ClassificationType) (voronoi : VORONOI) (points : List Point)
    (htr : ∀ a ∈ sequence_candidates,
      (sequence_cells FIND_GRID_SCALE voronoi points a).isSome = true)
    (hscan : ∀ ia ib : Nat,
      sequence_candidates.findIdx? (fun cs => cs.type == orientation) = some ia →
      sequence_candidates.findIdx?
        (fun cs => cs.type == if orientation = HORIZONTAL then VERTICAL else HORIZONTAL) =
        some ib →
      ∃ (q : Nat) (a : CandidateSequence D), ib ≤ q ∧ sequence_candidates[q]? = some a ∧
        a.type ≠ (if orientation = HORIZONTAL then VERTICAL else HORIZONTAL)) :
    (filter_bounds FIND_GRID_SCALE sequence_candidates orientation voronoi points).isSome =
      true := by
  unfold filter_bounds
  simp only [get_first_eq]
  rcases h1 : sequence_candidates.findIdx? (fun cs => cs.type == orientation) with _ | ia
  · simp only [h1]; rfl
  rcases h2 : sequence_candidates.findIdx?
    (fun cs => cs.type == if orientation = HORIZONTAL then VERTICAL else HORIZONTAL)
    with _ | ib
  · simp only [h1, h2]; rfl
  simp only [h1, h2]
  obtain ⟨hia, -, -⟩ := List.findIdx?_eq_some_iff_getElem.mp h1
  rw [List.getElem?_eq_getElem hia]
  simp only [get_candidate_points_eq]
  obtain ⟨t, ht⟩ := Option.isSome_iff_exists.mp
    (htr sequence_candidates[ia] (List.getElem_mem hia))
  rw [ht]
  simp only [Option.map_some']
  exact filter_bounds_loop_isSome voronoi sequence_candidates _ _ Nwant 0 ib
    (hscan ia ib h1 h2)

/-- The candidate list `find_grid_candidates` hands on: it has been sorted, every
candidate has the first two cells of a recorded candidate and one of the tags
`HORIZONTAL`, `VERTICAL`, `OUTLIER`, and when a candidate is tagged `VERTICAL` there is an
outlier, the other candidate of its pair. -/
theorem find_grid_candidates_spec (bins : Bins D) (voronoi : VORONOI) (points : List Point)
    (c : v_CS D)
    (h : find_grid_candidates FIND_GRID_SCALE bins voronoi points = some (true, c)) :
    ∃ l2 : v_CS D, c = sort_candidates l2 voronoi points ∧
      (∀ b ∈ l2,
        (∃ cs ∈ (get_sequence_candidates FIND_GRID_SCALE [] voronoi points : v_CS D),
          cs.c0 = b.c0 ∧ cs.c1 = b.c1) ∧
        (b.type = HORIZONTAL ∨ b.type = VERTICAL ∨ b.type = OUTLIER)) ∧
      (∀ b ∈ l2, b.type = VERTICAL → ∃ o ∈ l2, o.type = OUTLIER) := by
  have htraced : ∀ b : CandidateSequence D,
      ((∃ cs ∈ (get_sequence_candidates FIND_GRID_SCALE [] voronoi points : v_CS D),
          cs.c0 = b.c0 ∧ cs.c1 = b.c1) ∧
        (b.type = HORIZONTAL ∨ b.type = VERTICAL ∨ b.type = OUTLIER)) →
      (sequence_cells FIND_GRID_SCALE voronoi points b).isSome = true := by
    rintro b ⟨⟨cs, hcs, h0, h1⟩, -⟩
    rw [← sequence_cells_congr FIND_GRID_SCALE voronoi points cs b h0 h1]
    exact (get_sequence_candidates_traced FIND_GRID_SCALE voronoi points cs hcs).2
  unfold find_grid_candidates at h
  simp only at h
  rcases hc : cluster_sequence_candidates FIND_GRID_SCALE bins
    (get_sequence_candidates FIND_GRID_SCALE [] voronoi points) with _ | ⟨f, l0⟩
  · rw [hc] at h; simp at h
  rw [hc] at h
  cases f
  · simp at h
  simp only at h
  have h0 := cluster_sequence_candidates_true FIND_GRID_SCALE
    (fun c0 c1 => ∃ cs ∈ (get_sequence_candidates FIND_GRID_SCALE [] voronoi points : v_CS D),
      cs.c0 = c0 ∧ cs.c1 = c1) bins _ l0
    (fun a ha => ⟨⟨a, ha, rfl, rfl⟩,
      (get_sequence_candidates_traced FIND_GRID_SCALE voronoi points a ha).1⟩) hc
  obtain ⟨l1, e1, h1⟩ := filter_bidirectional_forall FIND_GRID_SCALE voronoi points HORIZONTAL
    (by decide) _ (fun a ha => ⟨ha.1, Or.inr (Or.inr rfl)⟩) htraced l0 h0
  obtain ⟨l2, e2, h2⟩ := filter_bidirectional_forall FIND_GRID_SCALE voronoi points VERTICAL
    (by decide) _ (fun a ha => ⟨ha.1, Or.inr (Or.inr rfl)⟩) htraced l1 h1
  rw [e1] at h
  simp only at h
  rw [e2] at h
  simp only [Option.some.injEq, Prod.mk.injEq, true_and] at h
  refine ⟨l2, h.symm, h2, ?_⟩
  intro b hb hbV
  obtain ⟨l2a, e3, -, -, s3⟩ := filter_bidirectional_spec FIND_GRID_SCALE voronoi points
    VERTICAL (by decide) l1 (fun a ha _ => htraced a (h1 a ha))
  rw [e2] at e3
  simp only [Option.some.injEq] at e3
  subst e3
  obtain ⟨i, hi⟩ := List.getElem?_of_mem hb
  obtain ⟨j, cs0, cs1, t0, t1, -, -, -, -, -, -, -, -, e9, -⟩ := s3 i b hi hbV
  exact ⟨_, List.getElem?_mem e9, rfl⟩

/-- In the list `find_grid_candidates` hands on, the traces succeed, an outlier stands
after the first candidate tagged `VERTICAL`, and the first candidate tagged `VERTICAL`
stands after the first tagged `HORIZONTAL`. -/
theorem find_grid_candidates_scan (bins : Bins D) (voronoi : VORONOI) (points : List Point)
    (sc : v_CS D)
    (h : find_grid_candidates FIND_GRID_SCALE bins voronoi points = some (true, sc)) :
    (∀ a ∈ sc, (sequence_cells FIND_GRID_SCALE voronoi points a).isSome = true) ∧
    (∀ ib : Nat, sc.findIdx? (fun cs => cs.type == VERTICAL) = some ib →
      ∃ (q : Nat) (a : CandidateSequence D), ib ≤ q ∧ sc[q]? = some a ∧ a.type = OUTLIER) ∧
    (∀ ia ib : Nat, sc.findIdx? (fun cs => cs.type == VERTICAL) = some ia →
      sc.findIdx? (fun cs => cs.type == HORIZONTAL) = some ib →
      ∃ (q : Nat) (a : CandidateSequence D), ib ≤ q ∧ sc[q]? = some a ∧ a.type = VERTICAL) := by
  obtain ⟨l2, rfl, hq, hout⟩ := find_grid_candidates_spec FIND_GRID_SCALE bins voronoi points sc h
  have hmem : ∀ a, a ∈ sort_candidates l2 voronoi points ↔ a ∈ l2 :=
    fun a => (std_sort_perm _ l2).mem_iff
  refine ⟨?_, ?_, ?_⟩
  · intro a ha
    obtain ⟨⟨cs, hcs, h0, h1⟩, -⟩ := hq a ((hmem a).mp ha)
    rw [← sequence_cells_congr FIND_GRID_SCALE voronoi points cs a h0 h1]
    exact (get_sequence_candidates_traced FIND_GRID_SCALE voronoi points cs hcs).2
  · intro ib hib
    obtain ⟨hlt, hty, -⟩ := List.findIdx?_eq_some_iff_getElem.mp hib
    simp only [beq_iff_eq] at hty
    obtain ⟨o, ho, hot⟩ := hout _ ((hmem _).mp (List.getElem_mem hlt)) hty
    obtain ⟨q, hq1⟩ := List.getElem?_of_mem ((hmem o).mpr ho)
    refine ⟨q, o, ?_, hq1, hot⟩
    apply sort_candidates_index voronoi points l2 ib q _ o (List.getElem?_eq_getElem hlt) hq1
    rw [sequence_comparator_eq, hty, hot]
    rfl
  · intro ia ib hia hib
    obtain ⟨hlt, hty, -⟩ := List.findIdx?_eq_some_iff_getElem.mp hia
    obtain ⟨hlt1, hty1, -⟩ := List.findIdx?_eq_some_iff_getElem.mp hib
    simp only [beq_iff_eq] at hty hty1
    refine ⟨ia, _, ?_, List.getElem?_eq_getElem hlt, hty⟩
    apply sort_candidates_index voronoi points l2 ib ia _ _ (List.getElem?_eq_getElem hlt1)
      (List.getElem?_eq_getElem hlt)
    rw [sequence_comparator_eq, hty, hty1]
    rfl

/-- Both calls of `filter_bounds` in `find_grid_from_points` return. -/
theorem find_grid_candidates_filter_bounds (bins : Bins D) (voronoi : VORONOI)
    (points : List Point) (sc : v_CS D)
    (h : find_grid_candidates FIND_GRID_SCALE bins voronoi points = some (true, sc)) :
    (filter_bounds FIND_GRID_SCALE sc HORIZONTAL voronoi points).isSome = true ∧
    (filter_bounds FIND_GRID_SCALE sc VERTICAL voronoi points).isSome = true := by
  obtain ⟨htr, hV, hH⟩ := find_grid_candidates_scan FIND_GRID_SCALE bins voronoi points sc h
  constructor
  · apply filter_bounds_isSome FIND_GRID_SCALE sc HORIZONTAL voronoi points htr
    intro ia ib _ hib
    simp only [if_true] at hib ⊢
    obtain ⟨q, a, h1, h2, h3⟩ := hV ib hib
    exact ⟨q, a, h1, h2, by rw [h3]; decide⟩
  · apply filter_bounds_isSome FIND_GRID_SCALE sc VERTICAL voronoi points htr
    intro ia ib hia hib
    have e : (if VERTICAL = HORIZONTAL then VERTICAL else HORIZONTAL) = HORIZONTAL := by decide
    rw [e] at hib ⊢
    obtain ⟨q, a, h1, h2, h3⟩ := hH ia ib hia hib
    exact ⟨q, a, h1, h2, by rw [h3]; decide⟩

/-- C29: in `find_grid_from_points`, on the sorted list `find_grid_candidates` hands on,
the scan of `filter_bounds` through the candidates of the other orientation never reads
past the end of the list, from whatever count and for whatever number of rounds: the
scan through the `VERTICAL` candidates has an outlier at or after its start (the partner
of a `VERTICAL` candidate that survived `filter_bidirectional`, sorted behind), the scan
through the `HORIZONTAL` candidates has the first `VERTICAL` candidate.  Both calls of
`filter_bounds` return. -/
theorem filter_bounds_reads_inside (bins : Bins D) (voronoi : VORONOI) (points : List Point)
    (sc : v_CS D)
    (h : find_grid_candidates FIND_GRID_SCALE bins voronoi points = some (true, sc)) :
    (∀ (cs_ref_points : List Nat) (n i ia ib : Nat),
      sc.findIdx? (fun cs => cs.type == HORIZONTAL) = some ia →
      sc.findIdx? (fun cs => cs.type == VERTICAL) = some ib →
      (filter_bounds_loop voronoi sc VERTICAL cs_ref_points n i ib).isSome = true) ∧
    (∀ (cs_ref_points : List Nat) (n i ia ib : Nat),
      sc.findIdx? (fun cs => cs.type == VERTICAL) = some ia →
      sc.findIdx? (fun cs => cs.type == HORIZONTAL) = some ib →
      (filter_bounds_loop voronoi sc HORIZONTAL cs_ref_points n i ib).isSome = true) ∧
    (∀ ib : Nat, sc.findIdx? (fun cs => cs.type == VERTICAL) = some ib →
      ∃ (q : Nat) (a : CandidateSequence D), ib ≤ q ∧ sc[q]? = some a ∧ a.type = OUTLIER) ∧
    (filter_bounds FIND_GRID_SCALE sc HORIZONTAL voronoi points).isSome = true ∧
    (filter_bounds FIND_GRID_SCALE sc VERTICAL voronoi points).isSome = true := by
  obtain ⟨-, hV, hH⟩ := find_grid_candidates_scan FIND_GRID_SCALE bins voronoi points sc h
  obtain ⟨b1, b2⟩ :=
    find_grid_candidates_filter_bounds FIND_GRID_SCALE bins voronoi points sc h
  refine ⟨?_, ?_, hV, b1, b2⟩
  · intro pts n i ia ib _ hib
    obtain ⟨q, a, h1, h2, h3⟩ := hV ib hib
    exact filter_bounds_loop_isSome voronoi sc VERTICAL pts n i ib
      ⟨q, a, h1, h2, by rw [h3]; decide⟩
  · intro pts n i ia ib hia hib
    obtain ⟨q, a, h1, h2, h3⟩ := hH ia ib hia hib
    exact filter_bounds_loop_isSome voronoi sc HORIZONTAL pts n i ib
      ⟨q, a, h1, h2, by rw [h3]; decide⟩

theorem filter_bounds_reads_inside_witness :
    (filter_bounds 16 (lattice_sorted.map (LatticeSequence.candidate 16)) HORIZONTAL
      lattice_voronoi (lattice_points 16)).isSome = true ∧
    (filter_bounds 16 (lattice_sorted.map (LatticeSequence.candidate 16)) VERTICAL
      lattice_voronoi (lattice_points 16)).isSome = true :=
  (filter_bounds_reads_inside 16 zero_bins lattice_voronoi (lattice_points 16)
    (lattice_sorted.map (LatticeSequence.candidate 16))
    (lattice_find_grid_candidates 16 (by decide) zero_bins)).2.2.2

/-- The candidate list is always built: `find_grid_candidates` returns. -/
theorem find_grid_candidates_returns (bins : Bins D) (voronoi : VORONOI)
    (points : List Point) :
    (find_grid_candidates FIND_GRID_SCALE bins voronoi points).isSome = true := by
  have htraced : ∀ b : CandidateSequence D,
      ((∃ cs ∈ (get_sequence_candidates FIND_GRID_SCALE [] voronoi points : v_CS D),
          cs.c0 = b.c0 ∧ cs.c1 = b.c1) ∧
        (b.type = HORIZONTAL ∨ b.type = VERTICAL ∨ b.type = OUTLIER)) →
      (sequence_cells FIND_GRID_SCALE voronoi points b).isSome = true := by
    rintro b ⟨⟨cs, hcs, h0, h1⟩, -⟩
    rw [← sequence_cells_congr FIND_GRID_SCALE voronoi points cs b h0 h1]
    exact (get_sequence_candidates_traced FIND_GRID_SCALE voronoi points cs hcs).2
  unfold find_grid_candidates
  simp only
  have hret := cluster_sequence_candidates_returns FIND_GRID_SCALE bins
    (get_sequence_candidates FIND_GRID_SCALE [] voronoi points)
  rcases hc : cluster_sequence_candidates FIND_GRID_SCALE bins
    (get_sequence_candidates FIND_GRID_SCALE [] voronoi points) with _ | ⟨f, l0⟩
  · rw [hc] at hret; simp at hret
  cases f
  · rfl
  simp only
  have h0 := cluster_sequence_candidates_true FIND_GRID_SCALE
    (fun c0 c1 => ∃ cs ∈ (get_sequence_candidates FIND_GRID_SCALE [] voronoi points : v_CS D),
      cs.c0 = c0 ∧ cs.c1 = c1) bins _ l0
    (fun a ha => ⟨⟨a, ha, rfl, rfl⟩,
      (get_sequence_candidates_traced FIND_GRID_SCALE voronoi points a ha).1⟩) hc
  obtain ⟨l1, e1, h1⟩ := filter_bidirectional_forall FIND_GRID_SCALE voronoi points HORIZONTAL
    (by decide) _ (fun a ha => ⟨ha.1, Or.inr (Or.inr rfl)⟩) htraced l0 h0
  obtain ⟨l2, e2, h2⟩ := filter_bidirectional_forall FIND_GRID_SCALE voronoi points VERTICAL
    (by decide) _ (fun a ha => ⟨ha.1, Or.inr (Or.inr rfl)⟩) htraced l1 h1
  rw [e1]
  simp only
  rw [e2]
  rfl

/-- The function `find_grid_from_points` returns on every input: no step of its traces
meets a missing neighbour and no read leaves the candidate list. -/
theorem find_grid_from_points_returns (bins : Bins D) (points_out : List (PointDouble D))
    (voronoi : VORONOI) (points : List Point) :
    (find_grid_from_points FIND_GRID_SCALE bins points_out voronoi points).isSome = true := by
  have hret := find_grid_candidates_returns FIND_GRID_SCALE bins voronoi points
  unfold find_grid_from_points
  rcases hc : find_grid_candidates FIND_GRID_SCALE bins voronoi points with _ | ⟨f, sc⟩
  · rw [hc] at hret; simp at hret
  cases f
  · rfl
  simp only
  obtain ⟨b1, b2⟩ :=
    find_grid_candidates_filter_bounds FIND_GRID_SCALE bins voronoi points sc hc
  obtain ⟨htr, -, -⟩ := find_grid_candidates_scan FIND_GRID_SCALE bins voronoi points sc hc
  rcases hb1 : filter_bounds FIND_GRID_SCALE sc HORIZONTAL voronoi points with _ | r1
  · rw [hb1] at b1; simp at b1
  cases r1
  · rfl
  simp only
  rcases hb2 : filter_bounds FIND_GRID_SCALE sc VERTICAL voronoi points with _ | r2
  · rw [hb2] at b2; simp at b2
  cases r2
  · rfl
  simp only
  split_ifs
  · rfl
  · rw [write_output_of_cells FIND_GRID_SCALE voronoi points sc points_out
      (fun cs hcs _ => htr cs hcs)]
    rfl

/-- C30: for every candidate `get_sequence_candidates` records, the original search has
succeeded and the trace from its first two cells, for `Nwant - 2` steps from the step
between them, gives `Nwant - 2` cells `t`: it is the same loop from the same state, so
`get_candidate_points` returns the identities of these cells, `is_reverse_sequence`
returns, and `write_along_sequence` writes these cells.  Every candidate of the list
`find_grid_from_points` works on, the copies made by `filter_bidirectional` among them,
has the first two cells of a recorded candidate and so the same trace.  No step meets a
missing neighbour: `find_grid_from_points` returns. -/
theorem find_grid_from_points_retrace (bins : Bins D) (points_out : List (PointDouble D))
    (voronoi : VORONOI) (points : List Point) :
    (∀ cs ∈ (get_sequence_candidates FIND_GRID_SCALE [] voronoi points : v_CS D),
      (search_along_sequence FIND_GRID_SCALE voronoi points
        ⟨(cell_point voronoi points cs.c1).x - (cell_point voronoi points cs.c0).x,
         (cell_point voronoi points cs.c1).y - (cell_point voronoi points cs.c0).y⟩
        cs.c1 (Nwant - 2) : Option (PointDouble D)).isSome = true ∧
      ∃ t : List Nat,
        trace_cells FIND_GRID_SCALE voronoi points (Nwant - 2)
          (fill_initial_hypothesis_statistics
            ⟨(cell_point voronoi points cs.c1).x - (cell_point voronoi points cs.c0).x,
             (cell_point voronoi points cs.c1).y - (cell_point voronoi points cs.c0).y⟩ :
            HypothesisStatistics D) cs.c1 = some t ∧
        t.length = Nwant - 2 ∧
        get_candidate_points FIND_GRID_SCALE voronoi points cs =
          some ((cs.c0 :: cs.c1 :: t).map fun k => (cell voronoi k).source_index) ∧
        (∀ cs_points_other : List Nat, cs_points_other.length = Nwant →
          (is_reverse_sequence FIND_GRID_SCALE voronoi points cs_points_other cs).isSome =
            true) ∧
        (∀ out : List (PointDouble D),
          write_along_sequence FIND_GRID_SCALE out voronoi points
            ⟨(cell_point voronoi points cs.c1).x - (cell_point voronoi points cs.c0).x,
             (cell_point voronoi points cs.c1).y - (cell_point voronoi points cs.c0).y⟩
            cs.c1 (Nwant - 2) =
          some (out ++ t.map fun k =>
            scaled_point FIND_GRID_SCALE (cell_point voronoi points k)))) ∧
    (∀ sc : v_CS D,
      find_grid_candidates FIND_GRID_SCALE bins voronoi points = some (true, sc) →
      ∀ b ∈ sc, ∃ cs ∈ (get_sequence_candidates FIND_GRID_SCALE [] voronoi points : v_CS D),
        cs.c0 = b.c0 ∧ cs.c1 = b.c1 ∧
        sequence_cells FIND_GRID_SCALE voronoi points b =
          sequence_cells FIND_GRID_SCALE voronoi points cs ∧
        (sequence_cells FIND_GRID_SCALE voronoi points b).isSome = true) ∧
    (find_grid_from_points FIND_GRID_SCALE bins points_out voronoi points).isSome = true := by
  refine ⟨?_, ?_, find_grid_from_points_returns FIND_GRID_SCALE bins points_out voronoi points⟩
  · intro cs hcs
    have hs := (get_sequence_candidates_traced FIND_GRID_SCALE voronoi points cs hcs).2
    obtain ⟨t0, ht0⟩ := Option.isSome_iff_exists.mp hs
    have ht0a := ht0
    simp only [sequence_cells, Option.map_eq_some'] at ht0
    obtain ⟨t, ht, rfl⟩ := ht0
    refine ⟨?_, t, ht, trace_cells_length FIND_GRID_SCALE voronoi points _ _ _ _ ht, ?_, ?_, ?_⟩
    · rw [search_along_sequence_isSome, ht]; rfl
    · rw [get_candidate_points_eq, ht0a]; rfl
    · intro other hlen
      rw [is_reverse_sequence_eq FIND_GRID_SCALE voronoi points other cs _ ht0a hlen]
      rfl
    · intro out
      unfold write_along_sequence
      rw [write_along_sequence_loop_eq, ht]
      rfl
  · intro sc h b hb
    obtain ⟨l2, rfl, hq, -⟩ :=
      find_grid_candidates_spec FIND_GRID_SCALE bins voronoi points sc h
    obtain ⟨⟨cs, hcs, h0, h1⟩, -⟩ := hq b (((std_sort_perm _ l2).mem_iff).mp hb)
    have e := sequence_cells_congr FIND_GRID_SCALE voronoi points cs b h0 h1
    refine ⟨cs, hcs, h0, h1, e.symm, ?_⟩
    rw [← e]
    exact (get_sequence_candidates_traced FIND_GRID_SCALE voronoi points cs hcs).2

/-! ### The order of the output -/

/-- Lists related element by element are related at each position. -/
theorem forall₂_getElem? {α β : Type} (R : α → β → Prop) (l1 : List α) (l2 : List β)
    (h : List.Forall₂ R l1 l2) :
    ∀ (i : Nat) (b : β), l2[i]? = some b → ∃ a, l1[i]? = some a ∧ R a b := by
  induction h with
  | nil => intro i b hb; simp at hb
  | cons hab _ ih =>
    intro i b hb
    cases i with
    | zero =>
      simp only [List.getElem?_cons_zero, Option.some.injEq] at hb
      subst hb
      exact ⟨_, by simp, hab⟩
    | succ i =>
      obtain ⟨a, ha, hr⟩ := ih i b (by simpa using hb)
      exact ⟨a, by simpa using ha, hr⟩

/-- Among the candidates of one tag in the sorted list, a later one does not come before
an earlier one in the comparison. -/
theorem sort_candidates_filter_index (voronoi : VORONOI) (points : List Point) (l : v_CS D)
    (p : CandidateSequence D → Bool) (i j : Nat) (a b : CandidateSequence D)
    (hi : ((sort_candidates l voronoi points).filter p)[i]? = some a)
    (hj : ((sort_candidates l voronoi points).filter p)[j]? = some b) (hij : i < j) :
    sequence_comparator voronoi points b a = false := by
  have hp := (std_sort_pairwise (sequence_comparator voronoi points)
    (sequence_comparator_asymm voronoi points) (sequence_comparator_trans voronoi points)
    l).filter p
  obtain ⟨hi1, hi2⟩ := List.getElem?_eq_some.mp hi
  obtain ⟨hj1, hj2⟩ := List.getElem?_eq_some.mp hj
  have := List.pairwise_iff_getElem.mp hp i j hi1 hj1 hij
  unfold sort_candidates at hi2 hj2
  rw [hi2, hj2] at this
  exact this

/-- The comparison of two `HORIZONTAL` candidates is that of the y of their start
points, the comparison of two `VERTICAL` candidates that of the x. -/
theorem sequence_comparator_same (voronoi : VORONOI) (points : List Point)
    (a b : CandidateSequence D) (h : sequence_comparator voronoi points b a = false) :
    (a.type = HORIZONTAL → b.type = HORIZONTAL →
      (cell_point voronoi points a.c0).y ≤ (cell_point voronoi points b.c0).y) ∧
    (a.type = VERTICAL → b.type = VERTICAL →
      (cell_point voronoi points a.c0).x ≤ (cell_point voronoi points b.c0).x) := by
  constructor
  · intro ha hb
    unfold sequence_comparator at h
    rw [ha, hb] at h
    simp only [ne_eq, not_true_eq_false, if_false, if_true, decide_eq_false_iff_not, not_lt] at h
    exact h
  · intro ha hb
    unfold sequence_comparator at h
    rw [ha, hb] at h
    have e : ¬ (VERTICAL = HORIZONTAL) := by decide
    simp only [ne_eq, not_true_eq_false, if_false, e, decide_eq_false_iff_not, not_lt] at h
    exact h

/-- The point of a cell is the point of any cell with the same source index. -/
theorem cell_point_of_source_index (voronoi : VORONOI) (points : List Point) (c d : Nat)
    (h : (cell voronoi c).source_index = (cell voronoi d).source_index) :
    cell_point voronoi points c = cell_point voronoi points d := by
  unfold cell_point
  rw [h]

/-- C32: when `find_grid_from_points` returns true, the points it has appended are
`Nwant` rows of `Nwant` points; along the first row the x of the points does not
decrease, and from row to row the y of the first point does not decrease.  In exact
arithmetic, for a positive scale. -/
theorem find_grid_from_points_row_order (S : Int) (hS : 0 < S) (bins : Bins ExactDouble)
    (points_out out1 : List (PointDouble ExactDouble)) (voronoi : VORONOI)
    (points : List Point)
    (h : find_grid_from_points S bins points_out voronoi points = some (true, out1)) :
    ∃ rows : List (List Nat), rows.length = Nwant ∧ (∀ t ∈ rows, t.length = Nwant) ∧
      out1 = points_out ++
        rows.flatten.map (fun k => scaled_point S (cell_point voronoi points k)) ∧
      (∀ (first : List Nat) (i j ki kj : Nat), rows[0]? = some first → i ≤ j →
        first[i]? = some ki → first[j]? = some kj →
        (scaled_point S (cell_point voronoi points ki) : PointDouble ExactDouble).x.val ≤
          (scaled_point S (cell_point voronoi points kj) : PointDouble ExactDouble).x.val) ∧
      (∀ (r1 r2 : Nat) (t1 t2 : List Nat) (k1 k2 : Nat), r1 ≤ r2 →
        rows[r1]? = some t1 → rows[r2]? = some t2 → t1[0]? = some k1 → t2[0]? = some k2 →
        (scaled_point S (cell_point voronoi points k1) : PointDouble ExactDouble).y.val ≤
          (scaled_point S (cell_point voronoi points k2) : PointDouble ExactDouble).y.val) := by
  have hs : (0 : ℚ) < (S : ℚ) := by exact_mod_cast hS
  have hscale : ∀ a b : Int, a ≤ b → (a : ℚ) / (S : ℚ) ≤ (b : ℚ) / (S : ℚ) := by
    intro a b hab
    have : (a : ℚ) ≤ (b : ℚ) := by exact_mod_cast hab
    exact div_le_div_of_nonneg_right this (le_of_lt hs)
  obtain ⟨sc, rows, hc, hH, -, hrows, hout⟩ :=
    find_grid_from_points_rows S bins points_out out1 voronoi points h
  obtain ⟨sc1, hc1, hbH, -, -, -⟩ :=
    find_grid_from_points_true S bins points_out out1 voronoi points h
  rw [hc] at hc1
  simp only [Option.some.injEq, Prod.mk.injEq, true_and] at hc1
  subst hc1
  obtain ⟨unsorted, rfl⟩ := find_grid_candidates_sorted S bins voronoi points sc hc
  obtain ⟨ref, t, href, ht, hcol⟩ := filter_bounds_true S _ HORIZONTAL VERTICAL voronoi points
    (by simp) hbH
  have hlen : rows.length = Nwant := by rw [← hrows.length_eq]; exact hH
  have hrl := rows_length S voronoi points _ rows hrows
  refine ⟨rows, hlen, hrl, hout, ?_, ?_⟩
  · intro first i j ki kj hfirst hij hi hj
    obtain ⟨a, ha, hra⟩ := forall₂_getElem? _ _ _ hrows 0 first hfirst
    unfold horizontal_sequences at ha
    rw [href] at ha
    simp only [Option.some.injEq] at ha
    subst ha
    rw [ht] at hra
    simp only [Option.some.injEq] at hra
    subst hra
    have hjl : j < Nwant := by
      have := (List.getElem?_eq_some.mp hj).1
      rw [hrl t (List.getElem?_mem hfirst)] at this
      exact this
    obtain ⟨csi, ki1, hvi, hti, hsi⟩ := hcol i (by omega)
    obtain ⟨csj, kj1, hvj, htj, hsj⟩ := hcol j hjl
    rw [hi] at hti
    rw [hj] at htj
    simp only [Option.some.injEq] at hti htj
    subst hti htj
    rw [cell_point_of_source_index voronoi points ki csi.c0 hsi,
      cell_point_of_source_index voronoi points kj csj.c0 hsj]
    simp only [scaled_point, exact_toDouble, exact_div]
    apply hscale
    rcases Nat.eq_or_lt_of_le hij with he | hlt
    · subst he
      rw [hvi] at hvj
      simp only [Option.some.injEq] at hvj
      rw [hvj]
    · have hcmp := sort_candidates_filter_index voronoi points unsorted _ i j csi csj hvi hvj hlt
      have hti : csi.type = VERTICAL := by
        have := List.of_mem_filter (List.getElem?_mem hvi)
        simpa using this
      have htj : csj.type = VERTICAL := by
        have := List.of_mem_filter (List.getElem?_mem hvj)
        simpa using this
      exact (sequence_comparator_same voronoi points csi csj hcmp).2 hti htj
  · intro r1 r2 t1 t2 k1 k2 hr h1 h2 hk1 hk2
    obtain ⟨a1, ha1, hra1⟩ := forall₂_getElem? _ _ _ hrows r1 t1 h1
    obtain ⟨a2, ha2, hra2⟩ := forall₂_getElem? _ _ _ hrows r2 t2 h2
    have e1 : k1 = a1.c0 := by
      simp only [sequence_cells, Option.map_eq_some'] at hra1
      obtain ⟨u, -, rfl⟩ := hra1
      simpa using hk1.symm
    have e2 : k2 = a2.c0 := by
      simp only [sequence_cells, Option.map_eq_some'] at hra2
      obtain ⟨u, -, rfl⟩ := hra2
      simpa using hk2.symm
    subst e1 e2
    simp only [scaled_point, exact_toDouble, exact_div]
    apply hscale
    rcases Nat.eq_or_lt_of_le hr with he | hlt
    · subst he
      rw [ha1] at ha2
      simp only [Option.some.injEq] at ha2
      rw [ha2]
    · unfold horizontal_sequences at ha1 ha2
      have hcmp := sort_candidates_filter_index voronoi points unsorted _ r1 r2 a1 a2 ha1 ha2 hlt
      have ht1 : a1.type = HORIZONTAL := by
        have := List.of_mem_filter (List.getElem?_mem ha1)
        simpa using this
      have ht2 : a2.type = HORIZONTAL := by
        have := List.of_mem_filter (List.getElem?_mem ha2)
        simpa using this
      exact (sequence_comparator_same voronoi points a1 a2 hcmp).1 ht1 ht2

theorem find_grid_from_points_row_order_witness :
    ∃ rows : List (List Nat), rows.length = Nwant ∧ (∀ t ∈ rows, t.length = Nwant) ∧
      ([] ++ lattice_expected : List (PointDouble ExactDouble)) = [] ++
        rows.flatten.map
          (fun k => scaled_point 16 (cell_point lattice_voronoi (lattice_points 16) k)) ∧
      (∀ (first : List Nat) (i j ki kj : Nat), rows[0]? = some first → i ≤ j →
        first[i]? = some ki → first[j]? = some kj →
        (scaled_point 16 (cell_point lattice_voronoi (lattice_points 16) ki) :
            PointDouble ExactDouble).x.val ≤
          (scaled_point 16 (cell_point lattice_voronoi (lattice_points 16) kj) :
            PointDouble ExactDouble).x.val) ∧
      (∀ (r1 r2 : Nat) (t1 t2 : List Nat) (k1 k2 : Nat), r1 ≤ r2 →
        rows[r1]? = some t1 → rows[r2]? = some t2 → t1[0]? = some k1 → t2[0]? = some k2 →
        (scaled_point 16 (cell_point lattice_voronoi (lattice_points 16) k1) :
            PointDouble ExactDouble).y.val ≤
          (scaled_point 16 (cell_point lattice_voronoi (lattice_points 16) k2) :
            PointDouble ExactDouble).y.val) :=
  find_grid_from_points_row_order 16 (by decide) zero_bins [] ([] ++ lattice_expected)
    lattice_voronoi (lattice_points 16)
    (lattice_find_grid_from_points 16 (by decide) zero_bins [])

end Proofs

end Mrgingham
